import Mathlib

/-!
# dog-game: a shallow embedding of the simulation engine

Conventions of the embedding:

* C++ `double` values are exact rationals (`ℚ`), `size_t` counters are unbounded naturals
  (`ℕ`), `int` tile coordinates are integers (`ℤ`), durations are milliseconds in `ℕ`.
  This is the exact embedding. The section "Machine arithmetic" embeds `Dog::AddTick`,
  `Dog::DropBagpackContent`, `GameSession::HandleLootDrop` and `GameSession::Move` once
  more in the arithmetic of the compiled program, with `size_t` sums modulo `2 ^ 64` and
  every `double` operation rounded to binary64 (namespace `model.machine`).
* A function that can throw (or whose behaviour is undefined) returns `Option`, with `none`
  for the throw; the state left behind by a throw is not modelled.
* Values drawn from a random device are explicit arguments.
* A `std::unordered_map` is an association list that is iterated in insertion order (the
  standard leaves the order open); a `std::vector` or `std::list` is a `List`.
* Pointers into containers (`Dog*`, `Player*`, `GameSession*`, list iterators) are the keys
  of the objects they point to.
-/

set_option autoImplicit false

/-! ## geom.h -/

namespace geom

/-- Embeds `geom::PointInt`. -/
structure PointInt where
  x : ℤ
  y : ℤ
deriving DecidableEq

/-- Embeds `geom::PointDouble`, with exact rational coordinates. -/
structure PointDouble where
  x : ℚ
  y : ℚ
deriving DecidableEq

/-- Embeds `PointDouble::operator+`. -/
def PointDouble.add (lhs rhs : PointDouble) : PointDouble :=
  { x := lhs.x + rhs.x, y := lhs.y + rhs.y }

end geom

/-! ## collision_detector.h / collision_detector.cpp -/

namespace collision_detector

open geom

/-- Embeds `CollectionResult`. -/
structure CollectionResult where
  sq_distance : ℚ
  proj_ratio : ℚ
deriving DecidableEq

/-- Embeds `CollectionResult::IsCollected`. -/
def CollectionResult.IsCollected (r : CollectionResult) (collect_radius : ℚ) : Bool :=
  decide (r.proj_ratio ≥ 0) && decide (r.proj_ratio ≤ 1)
    && decide (r.sq_distance ≤ collect_radius * collect_radius)

/-- Embeds `TryCollectPoint(a, b, c)`: the projection of `c` on the segment `a -> b`. -/
def TryCollectPoint (a b c : PointDouble) : CollectionResult :=
  let u_x := c.x - a.x
  let u_y := c.y - a.y
  let v_x := b.x - a.x
  let v_y := b.y - a.y
  let u_dot_v := u_x * v_x + u_y * v_y
  let u_len2 := u_x * u_x + u_y * u_y
  let v_len2 := v_x * v_x + v_y * v_y
  let proj_ratio := u_dot_v / v_len2
  let sq_distance := u_len2 - (u_dot_v * u_dot_v) / v_len2
  { sq_distance := sq_distance, proj_ratio := proj_ratio }

/-- Embeds `Item`. -/
structure Item where
  position : PointDouble
  radius : ℚ
deriving DecidableEq

/-- Embeds `Gatherer` (the radius field keeps the source's spelling). -/
structure Gatherer where
  start_pos : PointDouble
  end_pos : PointDouble
  raduis : ℚ
deriving DecidableEq

/-- Embeds `ItemGathererProvider`: the two vectors it owns. -/
structure ItemGathererProvider where
  items_ : List Item
  gatherers_ : List Gatherer
deriving DecidableEq

/-- Embeds `ItemGathererProvider::ItemsCount`. -/
def ItemGathererProvider.ItemsCount (p : ItemGathererProvider) : ℕ := p.items_.length

/-- Embeds `ItemGathererProvider::GatherersCount`. -/
def ItemGathererProvider.GatherersCount (p : ItemGathererProvider) : ℕ := p.gatherers_.length

/-- Embeds `ItemGathererProvider::AddItem`: appends and returns the new index. -/
def ItemGathererProvider.AddItem (p : ItemGathererProvider) (item : Item) :
    ItemGathererProvider × ℕ :=
  ({ p with items_ := p.items_ ++ [item] }, p.items_.length)

/-- Embeds `ItemGathererProvider::AddGatherer`: appends and returns the new index. -/
def ItemGathererProvider.AddGatherer (p : ItemGathererProvider) (g : Gatherer) :
    ItemGathererProvider × ℕ :=
  ({ p with gatherers_ := p.gatherers_ ++ [g] }, p.gatherers_.length)

/-- Embeds `GatheringEvent`. -/
structure GatheringEvent where
  item_id : ℕ
  gatherer_id : ℕ
  sq_distance : ℚ
  time : ℚ
deriving DecidableEq

/-- The lambda `is_points_equal` of `FindGatherEvents`. -/
def is_points_equal (p1 p2 : PointDouble) : Bool :=
  decide (p1.x = p2.x) && decide (p1.y = p2.y)

/-- The inner loop of `FindGatherEvents`: items `i, i+1, ...` against gatherer `g`. -/
def collectItems (gatherer : Gatherer) (g : ℕ) : ℕ → List Item → List GatheringEvent
  | _, [] => []
  | i, item :: rest =>
    let collect_result := TryCollectPoint gatherer.start_pos gatherer.end_pos item.position
    if collect_result.IsCollected (gatherer.raduis + item.radius) then
      { item_id := i, gatherer_id := g,
        sq_distance := collect_result.sq_distance,
        time := collect_result.proj_ratio } :: collectItems gatherer g (i + 1) rest
    else
      collectItems gatherer g (i + 1) rest

/-- The outer loop of `FindGatherEvents`: gatherers `g, g+1, ...`; a gatherer whose
start equals its end is skipped. -/
def collectGatherers (items : List Item) : ℕ → List Gatherer → List GatheringEvent
  | _, [] => []
  | g, gatherer :: rest =>
    if is_points_equal gatherer.start_pos gatherer.end_pos then
      collectGatherers items (g + 1) rest
    else
      collectItems gatherer g 0 items ++ collectGatherers items (g + 1) rest

/-- The events pushed to `detected_events` before the sort. -/
def detectedEvents (provider : ItemGathererProvider) : List GatheringEvent :=
  collectGatherers provider.items_ 0 provider.gatherers_

/-- The comparator handed to `std::sort`: `lhs.time < rhs.time`. -/
def eventLess (lhs rhs : GatheringEvent) : Bool := decide (lhs.time < rhs.time)

/-- One insertion step of the sort: `e` goes before the first element it is less than. -/
def sortInsert (e : GatheringEvent) : List GatheringEvent → List GatheringEvent
  | [] => [e]
  | x :: xs => if eventLess e x then e :: x :: xs else x :: sortInsert e xs

/-- The call `std::sort(begin, end, comp)`, run as a left-to-right insertion sort (the
algorithm of the standard library on short ranges). The standard only promises a
permutation ordered by the comparator. -/
def sortEvents (events : List GatheringEvent) : List GatheringEvent :=
  events.foldl (fun acc e => sortInsert e acc) []

/-- Embeds `FindGatherEvents(provider)`. -/
def FindGatherEvents (provider : ItemGathererProvider) : List GatheringEvent :=
  sortEvents (detectedEvents provider)

/-- The reference definition of a gather event, in the words of the specification:
gatherer `g` has `start ≠ end` and, with `u = item.position - start`, `v = end - start`,
`t = (u·v)/|v|²` and `d = |u|² - (u·v)²/|v|²`, both `0 ≤ t ≤ 1` and
`d ≤ (gatherer.radius + item.radius)²` hold. -/
def IsReferenceEvent (provider : ItemGathererProvider) (e : GatheringEvent) : Prop :=
  ∃ gatherer item,
    provider.gatherers_[e.gatherer_id]? = some gatherer ∧
    provider.items_[e.item_id]? = some item ∧
    gatherer.start_pos ≠ gatherer.end_pos ∧
    e.time =
      ((item.position.x - gatherer.start_pos.x) * (gatherer.end_pos.x - gatherer.start_pos.x)
        + (item.position.y - gatherer.start_pos.y) * (gatherer.end_pos.y - gatherer.start_pos.y))
      / ((gatherer.end_pos.x - gatherer.start_pos.x) ^ 2
        + (gatherer.end_pos.y - gatherer.start_pos.y) ^ 2) ∧
    e.sq_distance =
      ((item.position.x - gatherer.start_pos.x) ^ 2 + (item.position.y - gatherer.start_pos.y) ^ 2)
      - ((item.position.x - gatherer.start_pos.x) * (gatherer.end_pos.x - gatherer.start_pos.x)
        + (item.position.y - gatherer.start_pos.y) * (gatherer.end_pos.y - gatherer.start_pos.y)) ^ 2
      / ((gatherer.end_pos.x - gatherer.start_pos.x) ^ 2
        + (gatherer.end_pos.y - gatherer.start_pos.y) ^ 2) ∧
    0 ≤ e.time ∧ e.time ≤ 1 ∧
    e.sq_distance ≤ (gatherer.raduis + item.radius) ^ 2

/-- The provider of the scenario "single gatherer collects single item":
gatherer `(0,0) -> (0,2)` of radius 0.3 and one item at `(0.2, 1)` of radius 0.1. -/
def singleItemProvider : ItemGathererProvider :=
  { items_ := [{ position := ⟨1/5, 1⟩, radius := 1/10 }],
    gatherers_ := [{ start_pos := ⟨0, 0⟩, end_pos := ⟨0, 2⟩, raduis := 3/10 }] }

/-- The provider of the scenario "items in a row": gatherer `(0,0) -> (0,5)` of radius
0.3 and items at `(0,-1)`, `(0,3)`, `(0.1,2)`, `(-0.2,1)` of radius 0.1. -/
def rowProvider : ItemGathererProvider :=
  { items_ := [{ position := ⟨0, -1⟩, radius := 1/10 },
               { position := ⟨0, 3⟩, radius := 1/10 },
               { position := ⟨1/10, 2⟩, radius := 1/10 },
               { position := ⟨-1/5, 1⟩, radius := 1/10 }],
    gatherers_ := [{ start_pos := ⟨0, 0⟩, end_pos := ⟨0, 5⟩, raduis := 3/10 }] }

end collision_detector

/-! ## Containers: `std::unordered_map` as an association list -/

namespace umap

variable {κ ν : Type}

/-- Embeds `m.find(k)`: the value stored under `k`, if any. -/
def find [DecidableEq κ] : List (κ × ν) → κ → Option ν
  | [], _ => none
  | (k', v) :: rest, k => if k' = k then some v else find rest k

/-- Embeds `m.contains(k)`. -/
def contains [DecidableEq κ] (m : List (κ × ν)) (k : κ) : Bool := (find m k).isSome

/-- Embeds `m.emplace(k, v)`: inserts when the key is absent; returns the map and `inserted`. -/
def emplace [DecidableEq κ] (m : List (κ × ν)) (k : κ) (v : ν) : List (κ × ν) × Bool :=
  if contains m k then (m, false) else (m ++ [(k, v)], true)

/-- Embeds `m.erase(k)`. -/
def erase [DecidableEq κ] (m : List (κ × ν)) (k : κ) : List (κ × ν) :=
  m.filter (fun kv => decide (kv.1 ≠ k))

/-- Embeds `m[k] = v`: overwrites the value of an existing key, inserts otherwise. -/
def assign [DecidableEq κ] : List (κ × ν) → κ → ν → List (κ × ν)
  | [], k, v => [(k, v)]
  | (k', v') :: rest, k, v => if k' = k then (k', v) :: rest else (k', v') :: assign rest k v

end umap

/-! ## model.h / model.cpp -/

namespace model

open geom

/-- Embeds `TIME_FACTOR`. -/
def TIME_FACTOR : ℕ := 1000
/-- Embeds `ROAD_SIDE = 0.4`. -/
def ROAD_SIDE : ℚ := 2 / 5
/-- Embeds `DOG_WIDTH = 0.6`. -/
def DOG_WIDTH : ℚ := 3 / 5
/-- Embeds `OFFICE_WIDTH = 0.5`. -/
def OFFICE_WIDTH : ℚ := 1 / 2
/-- Embeds `LOOT_WIDTH = 0`. -/
def LOOT_WIDTH : ℚ := 0

/-- Embeds `Road::Rect`. -/
structure Rect where
  p1 : PointDouble
  p2 : PointDouble
deriving DecidableEq

/-- Embeds `Road`: a road object is the result of one of its two constructors. -/
inductive Road where
  | HORIZONTAL (start : PointInt) (end_x : ℤ)
  | VERTICAL (start : PointInt) (end_y : ℤ)
deriving DecidableEq

/-- Embeds `Road::GetStart`. -/
def Road.GetStart : Road → PointInt
  | .HORIZONTAL start _ => start
  | .VERTICAL start _ => start

/-- Embeds `Road::GetEnd`. -/
def Road.GetEnd : Road → PointInt
  | .HORIZONTAL start end_x => { x := end_x, y := start.y }
  | .VERTICAL start end_y => { x := start.x, y := end_y }

/-- Embeds `Road::GetRangeX`: the member `x_range_` set by the constructor. -/
def Road.GetRangeX : Road → ℤ × ℤ
  | .HORIZONTAL start end_x => (min start.x end_x, max start.x end_x)
  | .VERTICAL start _ => (start.x, start.x)

/-- Embeds `Road::GetRangeY`: the member `y_range_` set by the constructor. -/
def Road.GetRangeY : Road → ℤ × ℤ
  | .HORIZONTAL start _ => (start.y, start.y)
  | .VERTICAL start end_y => (min start.y end_y, max start.y end_y)

/-- Embeds `Road::GetAbsDimentions`: the rectangle computed by `CalculateDimentions`. -/
def Road.GetAbsDimentions (road : Road) : Rect :=
  { p1 := { x := (road.GetRangeX.1 : ℚ) - ROAD_SIDE, y := (road.GetRangeY.1 : ℚ) - ROAD_SIDE },
    p2 := { x := (road.GetRangeX.2 : ℚ) + ROAD_SIDE, y := (road.GetRangeY.2 : ℚ) + ROAD_SIDE } }

/-- Embeds `Road::IsHorizontal`. -/
def Road.IsHorizontal (road : Road) : Bool := decide (road.GetStart.y = road.GetEnd.y)

/-- Embeds `Road::IsVertical`. -/
def Road.IsVertical (road : Road) : Bool := decide (road.GetStart.x = road.GetEnd.x)

/-- Embeds `Offset`. -/
structure Offset where
  dx : ℤ
  dy : ℤ
deriving DecidableEq

/-- Embeds `Office`. -/
structure Office where
  id_ : String
  position_ : PointInt
  offset_ : Offset
deriving DecidableEq

/-- Embeds `Office::COLLISION_RADIUS`. -/
def Office.COLLISION_RADIUS : ℚ := OFFICE_WIDTH / 2

/-- Embeds `Map` (buildings are decorative and left out). -/
structure Map where
  id_ : String
  name_ : String
  roads_ : List Road
  offices_ : List Office
  dog_speed_ : ℚ
  bag_capacity_ : ℕ
  loot_types_worth_ : List ℕ
deriving DecidableEq

/-- Embeds `Map::GetDogBagCapacity`. -/
def Map.GetDogBagCapacity (m : Map) : ℕ := m.bag_capacity_

/-- Embeds `Map::GetLootTypeCount`. -/
def Map.GetLootTypeCount (m : Map) : ℕ := m.loot_types_worth_.length

/-- Embeds `Map::GetLootWorth`: `loot_types_worth_.at(loot_type)`. -/
def Map.GetLootWorth (m : Map) (loot_type : ℕ) : Option ℕ := m.loot_types_worth_[loot_type]?

/-- Embeds `LootObject`. -/
structure LootObject where
  id_ : ℕ
  type_ : ℕ
  worth_ : ℕ
deriving DecidableEq

/-- Embeds `LootObject::COLLISION_RADIUS`. -/
def LootObject.COLLISION_RADIUS : ℚ := LOOT_WIDTH / 2

/-- Embeds `LootObject::GetWorth`. -/
def LootObject.GetWorth (obj : LootObject) : ℕ := obj.worth_

/-- Embeds `Dog::Direction`. -/
inductive Direction where
  | NORTH
  | SOUTH
  | WEST
  | EAST
deriving DecidableEq

/-- Embeds `Dog`. -/
structure Dog where
  id_ : ℕ
  name_ : String
  direction_ : Direction
  coords_ : PointDouble
  speed_ : PointDouble
  prev_coords_ : PointDouble
  bagpack_ : List LootObject
  score_ : ℕ
  holding_time_ : ℕ
  time_in_game_ : ℕ
deriving DecidableEq

/-- Embeds `Dog::COLLISION_RADIUS`. -/
def Dog.COLLISION_RADIUS : ℚ := DOG_WIDTH / 2

/-- The constructor `Dog(id, name, coords, direction = NORTH, speed = {})`. -/
def Dog.mk_ (id : ℕ) (name : String) (coords : PointDouble)
    (direction : Direction) (speed : PointDouble) : Dog :=
  { id_ := id, name_ := name, direction_ := direction, coords_ := coords, speed_ := speed,
    prev_coords_ := coords, bagpack_ := [], score_ := 0, holding_time_ := 0, time_in_game_ := 0 }

/-- Embeds `Dog::GetScore`. -/
def Dog.GetScore (dog : Dog) : ℕ := dog.score_

/-- Embeds `Dog::GetHoldingPeriod`. -/
def Dog.GetHoldingPeriod (dog : Dog) : ℕ := dog.holding_time_

/-- Embeds `Dog::LootCountInBagpack`. -/
def Dog.LootCountInBagpack (dog : Dog) : ℕ := dog.bagpack_.length

/-- Embeds `Dog::AddLootObjectToBagpack`. -/
def Dog.AddLootObjectToBagpack (dog : Dog) (obj : LootObject) : Dog :=
  { dog with bagpack_ := dog.bagpack_ ++ [obj] }

/-- Embeds `Dog::AddScore`. -/
def Dog.AddScore (dog : Dog) (score : ℕ) : Dog :=
  { dog with score_ := dog.score_ + score }

/-- Embeds `Dog::DropBagpackContent`: `std::accumulate` of the worths onto the score, then
`clear`, with scores as unbounded naturals (`machine.DropBagpackContent` has the `size_t`
sum). -/
def Dog.DropBagpackContent (dog : Dog) : Dog :=
  { dog with
    score_ := dog.bagpack_.foldl (fun lhs rhs => lhs + rhs.GetWorth) dog.score_,
    bagpack_ := [] }

/-- Embeds `Dog::SetCoorginates`. -/
def Dog.SetCoorginates (dog : Dog) (move_to : PointDouble) : Dog :=
  { dog with prev_coords_ := dog.coords_, coords_ := move_to }

/-- Embeds `Dog::SetSpeed`. -/
def Dog.SetSpeed (dog : Dog) (speed : ℚ) : Dog :=
  { dog with
    speed_ :=
      { x := if dog.direction_ = Direction.NORTH ∨ dog.direction_ = Direction.SOUTH then 0
             else (if dog.direction_ = Direction.EAST then speed else -speed),
        y := if dog.direction_ = Direction.WEST ∨ dog.direction_ = Direction.EAST then 0
             else (if dog.direction_ = Direction.SOUTH then speed else -speed) } }

/-- Embeds `Dog::SetDirection`. -/
def Dog.SetDirection (dog : Dog) (dir : Direction) : Dog :=
  { dog with direction_ := dir }

/-- Embeds `Dog::Stop`. -/
def Dog.Stop (dog : Dog) : Dog :=
  { dog with speed_ := { x := 0, y := 0 }, holding_time_ := 0 }

/-- Embeds `Dog::IsStoped`. -/
def Dog.IsStoped (dog : Dog) : Bool :=
  decide (dog.speed_.x = 0) && decide (dog.speed_.y = 0)

/-- Embeds `Dog::AddTick`, with the clocks as unbounded naturals (`machine.AddTick` has
the `size_t` sums). -/
def Dog.AddTick (dog : Dog) (tick : ℕ) : Dog :=
  if dog.IsStoped then
    { dog with time_in_game_ := dog.time_in_game_ + tick,
               holding_time_ := dog.holding_time_ + tick }
  else
    { dog with time_in_game_ := dog.time_in_game_ + tick }

end model

namespace loot_gen

/-- Modelled from the spec: `loot_gen::LootGenerator` (loot_generator.h and its
implementation are not among the sources). Parameters *period* (ms) and *probability*;
state: a residual-time accumulator. -/
structure LootGenerator where
  period : ℕ
  probability : ℚ
  accumulator : ℕ
deriving DecidableEq

/-- Modelled from the spec: the loop of `LootGenerator::Generate` (§4.2), "while
accumulator ≥ period consume one period; with independent Bernoulli(probability) draws
per consumed period, emit up to `need` items". The `k`-th Bernoulli draw succeeds when the
uniform sample `draw k` of `[0, 1)` is below the probability. Returns the number emitted
and the residual accumulator; `none` when the fuel runs out (period 0 never terminates). -/
def consumePeriods (period : ℕ) (probability : ℚ) (need : ℕ) (draw : ℕ → ℚ) :
    ℕ → ℕ → ℕ → ℕ → Option (ℕ × ℕ)
  | 0, _, _, _ => none
  | fuel + 1, acc, k, emitted =>
    if period ≤ acc then
      consumePeriods period probability need draw fuel (acc - period) (k + 1)
        (if draw k < probability ∧ emitted < need then emitted + 1 else emitted)
    else
      some (emitted, acc)

/-- Modelled from the spec: `LootGenerator::Generate(Δt, current_loot_count, looter_count)`
(§4.2; loot_generator.h is not among the sources). "If `looter_count ≤
current_loot_count`, return 0; else compute `need = looter_count − current_loot_count`,
advance the accumulator by `Δt`", then run the loop above. -/
def LootGenerator.Generate (g : LootGenerator) (dt loot_count looter_count : ℕ)
    (draw : ℕ → ℚ) : Option (ℕ × LootGenerator) :=
  if looter_count ≤ loot_count then some (0, g)
  else
    match consumePeriods g.period g.probability (looter_count - loot_count) draw
        (g.accumulator + dt + 1) (g.accumulator + dt) 0 0 with
    | none => none
    | some (n, acc) => some (n, { g with accumulator := acc })

end loot_gen

namespace model

open geom collision_detector

/-- Embeds `GameSession`. The road index `coords_to_roads_` and `road_count_` are written once by
the constructor from the immutable map, so they are functions of `map_` below.
`dog_id_to_dog_` keeps the keys of the id index; a key stands for the first dog of `dogs_`
with that id. `do_on_retire_` tells whether the `std::function` holds a target. -/
structure GameSession where
  map_ : Map
  id_ : ℕ
  random_spawn_ : Bool
  loot_generator_ : loot_gen.LootGenerator
  dog_retirement_time_ : ℕ
  do_on_retire_ : Bool
  dogs_join_ : ℕ
  objects_spawned_ : ℕ
  dogs_to_retire_ : List ℕ
  dog_id_to_dog_ : List ℕ
  dogs_ : List Dog
  loot_obj_id_to_obj_ : List (ℕ × LootObject)
  loot_obj_id_to_coords_ : List (ℕ × PointDouble)
deriving DecidableEq

/-- The constructor of `GameSession`. -/
def GameSession.new (map : Map) (index : ℕ) (random_spawn : Bool)
    (period : ℕ) (probability : ℚ) (dog_retirement_time : ℕ) (do_on_retire : Bool)
    (dog_start_id loot_object_start_id : ℕ) : GameSession :=
  { map_ := map, id_ := index, random_spawn_ := random_spawn,
    loot_generator_ := { period := period, probability := probability, accumulator := 0 },
    dog_retirement_time_ := dog_retirement_time, do_on_retire_ := do_on_retire,
    dogs_join_ := dog_start_id, objects_spawned_ := loot_object_start_id,
    dogs_to_retire_ := [], dog_id_to_dog_ := [], dogs_ := [],
    loot_obj_id_to_obj_ := [], loot_obj_id_to_coords_ := [] }

/-- The integers `lo, lo+1, ..., hi` of a loop `for (int x = lo; x <= hi; ++x)`. -/
def intRange (lo hi : ℤ) : List ℤ :=
  (List.range (hi + 1 - lo).toNat).map (fun k => lo + (k : ℤ))

/-- Embeds `CoordsToRoad`: x tile -> multimap of (y tile, road). -/
abbrev CoordsToRoad := List (ℤ × List (ℤ × Road))

/-- The statement `coords_to_roads_[x].emplace(y, &road)`. -/
def indexTile : CoordsToRoad → ℤ → ℤ → Road → CoordsToRoad
  | [], x, y, road => [(x, [(y, road)])]
  | (x', col) :: rest, x, y, road =>
    if x' = x then (x', col ++ [(y, road)]) :: rest
    else (x', col) :: indexTile rest x y road

/-- Embeds `GameSession::PrepareRoads`. -/
def PrepareRoads (roads : List Road) : CoordsToRoad :=
  roads.foldl (fun index road =>
    (intRange road.GetRangeX.1 road.GetRangeX.2).foldl (fun index x =>
      (intRange road.GetRangeY.1 road.GetRangeY.2).foldl (fun index y =>
        indexTile index x y road) index) index) []

/-- The member `coords_to_roads_`, as left by the constructor. -/
def GameSession.coords_to_roads_ (s : GameSession) : CoordsToRoad := PrepareRoads s.map_.roads_

/-- The member `road_count_`, as left by the constructor. -/
def GameSession.road_count_ (s : GameSession) : ℕ := s.map_.roads_.length

/-- The lookup `coords_to_roads_.at(x).equal_range(y)` of `Move`: `none` when `at` throws,
otherwise the roads stored under `y`. -/
def roadsAtTile (index : CoordsToRoad) (tile : PointInt) : Option (List Road) :=
  match umap.find index tile.x with
  | none => none
  | some col => some ((col.filter (fun yr => decide (yr.1 = tile.y))).map Prod.snd)

/-- Embeds `PossibleMoveDist`. -/
def PossibleMoveDist (frm : PointDouble) (road : Road) (dir : Direction) : ℚ :=
  match dir with
  | .NORTH => road.GetAbsDimentions.p1.y - frm.y
  | .SOUTH => road.GetAbsDimentions.p2.y - frm.y
  | .WEST => road.GetAbsDimentions.p1.x - frm.x
  | .EAST => road.GetAbsDimentions.p2.x - frm.x

/-- Embeds `RoundRoadCoord`. -/
def RoundRoadCoord (coord : ℚ) : ℤ :=
  if coord - (⌊coord⌋ : ℚ) < 1 / 2 then ⌊coord⌋ else ⌈coord⌉

/-- Embeds `RoundRoadCoords`. -/
def RoundRoadCoords (coords : PointDouble) : PointInt :=
  { x := RoundRoadCoord coords.x, y := RoundRoadCoord coords.y }

/-- The loop of `Move` over the candidate roads, with `best_dist` as accumulator (the
iterator `best_road` the loop also keeps is never read afterwards). -/
def bestDist (frm : PointDouble) (dir : Direction) : List Road → ℚ → ℚ
  | [], best_dist => best_dist
  | road :: rest, best_dist =>
    let dist := PossibleMoveDist frm road dir
    if |dist| > |best_dist| then bestDist frm dir rest dist
    else bestDist frm dir rest best_dist

/-- Embeds `GameSession::Move(dog, delta_t)`, with `tick = delta_t.count()`, in exact
arithmetic (`machine.Move` rounds as the program does); `none` when the road lookup throws. -/
def GameSession.Move (s : GameSession) (dog : Dog) (tick : ℕ) : Option Dog :=
  let dog := dog.AddTick tick
  if dog.IsStoped then some dog
  else
    let road_coords := RoundRoadCoords dog.coords_
    let direction := dog.direction_
    match roadsAtTile s.coords_to_roads_ road_coords with
    | none => none
    | some roads =>
      let dp : PointDouble :=
        { x := dog.speed_.x * (tick : ℚ) / (TIME_FACTOR : ℚ),
          y := dog.speed_.y * (tick : ℚ) / (TIME_FACTOR : ℚ) }
      let best_dist := bestDist dog.coords_ direction roads 0
      let border : Bool :=
        if direction = Direction.WEST ∨ direction = Direction.EAST then
          decide (|best_dist| ≤ |dp.x|)
        else decide (|best_dist| ≤ |dp.y|)
      if border then
        let dp : PointDouble :=
          { x := if direction = Direction.WEST ∨ direction = Direction.EAST then best_dist
                 else dp.x,
            y := if direction = Direction.NORTH ∨ direction = Direction.SOUTH then best_dist
                 else dp.y }
        let dog := dog.Stop
        some (dog.SetCoorginates (dog.coords_.add dp))
      else
        some (dog.SetCoorginates (dog.coords_.add dp))

/-- The loop of `OnTick` over `dogs_`: every dog is moved; the ids pushed to
`dogs_to_retire_` are returned with the moved dogs. -/
def GameSession.moveDogs (s : GameSession) (tick : ℕ) : List Dog → Option (List Dog × List ℕ)
  | [] => some ([], [])
  | dog :: rest =>
    match s.Move dog tick with
    | none => none
    | some dog =>
      match GameSession.moveDogs s tick rest with
      | none => none
      | some (rest, retire) =>
        some (dog :: rest,
          if dog.IsStoped && decide (dog.GetHoldingPeriod ≥ s.dog_retirement_time_) then
            dog.id_ :: retire
          else retire)

/-- The loop of `RetireDogs` over the ids to retire: the sink is called (an empty
`std::function` throws), the id is extracted from the index (an absent id leaves an empty
node handle, whose `mapped()` is undefined) and its dog erased from the list. Returns the
index, the dogs and the calls made to the sink. -/
def retireLoop (do_on_retire : Bool) (map_id : String) :
    List ℕ → List ℕ → List Dog → Option (List ℕ × List Dog × List (ℕ × String))
  | [], index, dogs => some (index, dogs, [])
  | dog_id :: rest, index, dogs =>
    if do_on_retire = false then none
    else if dog_id ∉ index then none
    else
      match retireLoop do_on_retire map_id rest (index.erase dog_id)
          (dogs.eraseP (fun d => decide (d.id_ = dog_id))) with
      | none => none
      | some (index, dogs, calls) => some (index, dogs, (dog_id, map_id) :: calls)

/-- Embeds `GameSession::RetireDogs`. -/
def GameSession.RetireDogs (s : GameSession) : Option (GameSession × List (ℕ × String)) :=
  match retireLoop s.do_on_retire_ s.map_.id_ s.dogs_to_retire_ s.dog_id_to_dog_ s.dogs_ with
  | none => none
  | some (index, dogs, calls) =>
    some ({ s with dog_id_to_dog_ := index, dogs_ := dogs, dogs_to_retire_ := [] }, calls)

/-- Embeds `GameSession::ExtractLootObject`. -/
def GameSession.ExtractLootObject (s : GameSession) (id : ℕ) :
    GameSession × Option LootObject :=
  match umap.find s.loot_obj_id_to_obj_ id with
  | none => (s, none)
  | some obj =>
    ({ s with loot_obj_id_to_obj_ := umap.erase s.loot_obj_id_to_obj_ id,
              loot_obj_id_to_coords_ := umap.erase s.loot_obj_id_to_coords_ id }, some obj)

/-- Embeds `GameSession::HandleLootColletc(dog, id)`; the dog pointer is the position `g` of the
dog in `dogs_`. -/
def GameSession.HandleLootColletc (s : GameSession) (g : ℕ) (id : ℕ) : GameSession :=
  match s.dogs_[g]? with
  | none => s
  | some dog =>
    if dog.LootCountInBagpack ≥ s.map_.GetDogBagCapacity then s
    else
      match s.ExtractLootObject id with
      | (_, none) => s
      | (s, some loot_obj) =>
        { s with dogs_ := s.dogs_.set g (dog.AddLootObjectToBagpack loot_obj) }

/-- Embeds `GameSession::HandleLootDrop(dog)`. -/
def GameSession.HandleLootDrop (s : GameSession) (g : ℕ) : GameSession :=
  match s.dogs_[g]? with
  | none => s
  | some dog => { s with dogs_ := s.dogs_.set g dog.DropBagpackContent }

/-- The local `enum class ItemType` of `HandleCollisions`. -/
inductive ItemType where
  | LOOT
  | OFFICE
deriving DecidableEq

/-- The provider and the side tables built by `HandleCollisions`; item ids are
consecutive, so the two tables are lists indexed by item id. Gatherer `g` is the dog at
position `g` of `dogs_`. -/
structure CollisionTables where
  provider : ItemGathererProvider
  item_id_to_type : List ItemType
  item_id_to_loot_id : List ℕ
deriving DecidableEq

/-- The loop of `HandleCollisions` over `loot_obj_id_to_obj_`: one item per loot object at
`loot_obj_id_to_coords_.at(id)`; `none` when `at` throws. -/
def lootItems (coords : List (ℕ × PointDouble)) :
    List (ℕ × LootObject) → Option (List (Item × ℕ))
  | [] => some []
  | (_, loot_obj) :: rest =>
    match umap.find coords loot_obj.id_, lootItems coords rest with
    | some pos, some items =>
      some (({ position := pos, radius := LootObject.COLLISION_RADIUS }, loot_obj.id_) :: items)
    | _, _ => none

/-- The first part of `HandleCollisions`: gatherers from the dogs, items from the loot and
the offices. -/
def GameSession.collisionTables (s : GameSession) : Option CollisionTables :=
  match lootItems s.loot_obj_id_to_coords_ s.loot_obj_id_to_obj_ with
  | none => none
  | some loot =>
    some
      { provider :=
          { gatherers_ := s.dogs_.map (fun dog =>
              { start_pos := dog.prev_coords_, end_pos := dog.coords_,
                raduis := Dog.COLLISION_RADIUS }),
            items_ := loot.map Prod.fst ++ s.map_.offices_.map (fun office =>
              { position := { x := (office.position_.x : ℚ), y := (office.position_.y : ℚ) },
                radius := Office.COLLISION_RADIUS }) },
        item_id_to_type :=
          loot.map (fun _ => ItemType.LOOT) ++ s.map_.offices_.map (fun _ => ItemType.OFFICE),
        item_id_to_loot_id := loot.map Prod.snd }

/-- The body of the loop of `HandleCollisions` over the events; `none` when an `at`
lookup throws. -/
def GameSession.handleEvent (s : GameSession) (t : CollisionTables) (event : GatheringEvent) :
    Option GameSession :=
  match t.item_id_to_type[event.item_id]? with
  | none => none
  | some ItemType.LOOT =>
    match s.dogs_[event.gatherer_id]?, t.item_id_to_loot_id[event.item_id]? with
    | some _, some loot_id => some (s.HandleLootColletc event.gatherer_id loot_id)
    | _, _ => none
  | some ItemType.OFFICE =>
    match s.dogs_[event.gatherer_id]? with
    | some _ => some (s.HandleLootDrop event.gatherer_id)
    | none => none

/-- The loop of `HandleCollisions` over the events. -/
def GameSession.handleEvents (s : GameSession) (t : CollisionTables) :
    List GatheringEvent → Option GameSession
  | [] => some s
  | event :: rest =>
    match s.handleEvent t event with
    | none => none
    | some s => GameSession.handleEvents s t rest

/-- Embeds `GameSession::HandleCollisions`. -/
def GameSession.HandleCollisions (s : GameSession) : Option GameSession :=
  match s.collisionTables with
  | none => none
  | some t => s.handleEvents t (FindGatherEvents t.provider)

/-- The values drawn from the random device by one `SpawnLootObject`: the loot type, the
road index, and the positions of `x` and `y` within the road's rectangle as fractions. -/
structure SpawnDraw where
  type : ℕ
  road_index : ℕ
  fx : ℚ
  fy : ℚ
deriving DecidableEq

/-- Embeds `GameSession::GetRandomPointOnRandomRoad`, on the drawn values. -/
def GameSession.GetRandomPointOnRandomRoad (s : GameSession) (d : SpawnDraw) :
    Option PointDouble :=
  let road_index := if d.road_index < s.road_count_ then d.road_index else 0
  match s.map_.roads_[road_index]? with
  | none => none
  | some road =>
    let r := road.GetAbsDimentions
    some { x := r.p1.x + d.fx * (r.p2.x - r.p1.x), y := r.p1.y + d.fy * (r.p2.y - r.p1.y) }

/-- Embeds `GameSession::SpawnLootObject`; `none` when it throws. -/
def GameSession.SpawnLootObject (s : GameSession) (d : SpawnDraw) : Option GameSession :=
  let index := s.objects_spawned_
  let s := { s with objects_spawned_ := s.objects_spawned_ + 1 }
  match s.map_.GetLootWorth d.type with
  | none => none
  | some worth =>
    match umap.emplace s.loot_obj_id_to_obj_ index
        { id_ := index, type_ := d.type, worth_ := worth } with
    | (_, false) => none
    | (objs, true) =>
      match s.GetRandomPointOnRandomRoad d with
      | none => none
      | some pt =>
        some { s with loot_obj_id_to_obj_ := objs,
                      loot_obj_id_to_coords_ := umap.assign s.loot_obj_id_to_coords_ index pt }

/-- The loop `while (objects_count--) SpawnLootObject()`; the `k`-th object spawned in the
tick uses the draw `spawn k`. -/
def GameSession.spawnObjects (spawn : ℕ → SpawnDraw) :
    ℕ → ℕ → GameSession → Option GameSession
  | 0, _, s => some s
  | n + 1, k, s =>
    match s.SpawnLootObject (spawn k) with
    | none => none
    | some s => GameSession.spawnObjects spawn n (k + 1) s

/-- Embeds `GameSession::SpawnLoot(tick)`. -/
def GameSession.SpawnLoot (s : GameSession) (tick : ℕ) (draw : ℕ → ℚ)
    (spawn : ℕ → SpawnDraw) : Option GameSession :=
  match s.loot_generator_.Generate tick s.loot_obj_id_to_obj_.length s.dogs_.length draw with
  | none => none
  | some (objects_count, gen) =>
    GameSession.spawnObjects spawn objects_count 0 { s with loot_generator_ := gen }

/-- The first two phases of `OnTick`: the loop that moves the dogs and collects the ids
to retire, then `RetireDogs`. Returns the session and the calls made to the sink. -/
def GameSession.moveAndRetire (s : GameSession) (tick : ℕ) :
    Option (GameSession × List (ℕ × String)) :=
  match s.moveDogs tick s.dogs_ with
  | none => none
  | some (dogs, retire) =>
    GameSession.RetireDogs
      { s with dogs_ := dogs, dogs_to_retire_ := s.dogs_to_retire_ ++ retire }

/-- Embeds `GameSession::OnTick(tick)`: motion, retirement, collisions, loot spawning. Returns the
session and the calls made to the retirement sink; `none` when a phase throws. -/
def GameSession.OnTick (s : GameSession) (tick : ℕ) (draw : ℕ → ℚ)
    (spawn : ℕ → SpawnDraw) : Option (GameSession × List (ℕ × String)) :=
  match s.moveAndRetire tick with
  | none => none
  | some (s, calls) =>
    match s.HandleCollisions with
    | none => none
    | some s =>
      match s.SpawnLoot tick draw spawn with
      | none => none
      | some s => some (s, calls)

/-- The dog at position `g` of `dogs_` has free capacity in its bag. -/
def GameSession.bagHasRoom (s : GameSession) (g : ℕ) : Bool :=
  match s.dogs_[g]? with
  | some dog => decide (dog.LootCountInBagpack < s.map_.GetDogBagCapacity)
  | none => false

/-- The number of LOOT events, among the events handled from the session `s` on, at which
the bag of the gathering dog has free capacity just before the event. -/
def GameSession.lootEventsWithRoom (s : GameSession) (t : CollisionTables) :
    List GatheringEvent → ℕ
  | [] => 0
  | event :: rest =>
    (if t.item_id_to_type[event.item_id]? = some ItemType.LOOT ∧
        s.bagHasRoom event.gatherer_id = true then 1 else 0)
    + (match s.handleEvent t event with
       | some s => GameSession.lootEventsWithRoom s t rest
       | none => 0)

/-- The loot object of the event is still on the map of the session. -/
def GameSession.lootOnMap (s : GameSession) (t : CollisionTables) (event : GatheringEvent) :
    Bool :=
  match t.item_id_to_loot_id[event.item_id]? with
  | some loot_id => umap.contains s.loot_obj_id_to_obj_ loot_id
  | none => false

/-- The number of LOOT events, among the events handled from the session `s` on, at which
the bag of the gathering dog has free capacity and the loot object is still on the map just
before the event. -/
def GameSession.lootPickups (s : GameSession) (t : CollisionTables) :
    List GatheringEvent → ℕ
  | [] => 0
  | event :: rest =>
    (if t.item_id_to_type[event.item_id]? = some ItemType.LOOT ∧
        s.bagHasRoom event.gatherer_id = true ∧ s.lootOnMap t event = true then 1 else 0)
    + (match s.handleEvent t event with
       | some s => GameSession.lootPickups s t rest
       | none => 0)

end model

namespace model

open geom collision_detector

/-- A point lies inside a rectangle (borders included). -/
def Rect.Contains (r : Rect) (p : PointDouble) : Prop :=
  r.p1.x ≤ p.x ∧ p.x ≤ r.p2.x ∧ r.p1.y ≤ p.y ∧ p.y ≤ r.p2.y

instance Rect.decContains (r : Rect) (p : PointDouble) : Decidable (r.Contains p) := by
  unfold Rect.Contains; infer_instance

/-- A point lies inside the absolute rectangle of at least one road of the map. -/
def Map.OnRoads (m : Map) (p : PointDouble) : Prop :=
  ∃ road ∈ m.roads_, road.GetAbsDimentions.Contains p

instance Map.decOnRoads (m : Map) (p : PointDouble) : Decidable (m.OnRoads p) := by
  unfold Map.OnRoads; infer_instance

/-- The velocity of the dog is one that `UseCaseMovePlayer` (`SetSpeed` with the map's dog
speed, after `SetDirection`) or `UseCaseStopPlayer` (`Stop`) leaves. -/
def Dog.VelocitySetByPlayer (dog : Dog) (m : Map) : Prop :=
  dog.speed_ = dog.Stop.speed_ ∨ dog.speed_ = (dog.SetSpeed m.dog_speed_).speed_

instance Dog.decVelocitySetByPlayer (dog : Dog) (m : Map) :
    Decidable (dog.VelocitySetByPlayer m) := by
  unfold Dog.VelocitySetByPlayer; infer_instance

/-- The coordinate of a point on the axis of motion of a direction. -/
def alongAxis (dir : Direction) (p : PointDouble) : ℚ :=
  if dir = Direction.WEST ∨ dir = Direction.EAST then p.x else p.y

/-- The coordinate of a point on the axis across the motion of a direction. -/
def acrossAxis (dir : Direction) (p : PointDouble) : ℚ :=
  if dir = Direction.WEST ∨ dir = Direction.EAST then p.y else p.x

/-- The displacement `dp = velocity * tick / TIME_FACTOR` computed by `Move`. -/
def displacement (dog : Dog) (tick : ℕ) : PointDouble :=
  { x := dog.speed_.x * (tick : ℚ) / (TIME_FACTOR : ℚ),
    y := dog.speed_.y * (tick : ℚ) / (TIME_FACTOR : ℚ) }

/-- Embeds `GameSession::GetDogById`: the dog the id index resolves to. -/
def GameSession.GetDogById (s : GameSession) (id : ℕ) : Option Dog :=
  if id ∈ s.dog_id_to_dog_ then s.dogs_.find? (fun d => decide (d.id_ = id)) else none

/-- A write through the `Dog*` that `GetDogById` returns: `f` is applied in place to the
first dog of `dogs_` with that id. -/
def modifyFirst (id : ℕ) (f : Dog → Dog) : List Dog → List Dog
  | [] => []
  | d :: rest => if d.id_ = id then f d :: rest else d :: modifyFirst id f rest

/-- A write through the `Dog*` of a player into its session. -/
def GameSession.modifyDog (s : GameSession) (id : ℕ) (f : Dog → Dog) : GameSession :=
  { s with dogs_ := modifyFirst id f s.dogs_ }

/-- Embeds `GameSession::AddDog`: the dog is appended to `dogs_`, then its id is emplaced in the
index; the flag is false when "Dog already exists" is thrown (the list keeps the dog). -/
def GameSession.AddDog (s : GameSession) (dog : Dog) : GameSession × Bool :=
  if dog.id_ ∈ s.dog_id_to_dog_ then
    ({ s with dogs_ := s.dogs_ ++ [dog] }, false)
  else
    ({ s with dogs_ := s.dogs_ ++ [dog], dog_id_to_dog_ := s.dog_id_to_dog_ ++ [dog.id_] }, true)

/-- Embeds `GameSession::GetDogSpawnPoint`; `none` when the map has no road. -/
def GameSession.GetDogSpawnPoint (s : GameSession) (d : SpawnDraw) : Option PointDouble :=
  if s.random_spawn_ then s.GetRandomPointOnRandomRoad d
  else
    match s.map_.roads_ with
    | [] => none
    | road :: _ => some { x := (road.GetStart.x : ℚ), y := (road.GetStart.y : ℚ) }

/-- Embeds `GameSession::NewDog`: returns the session and the id of the new dog; `none` when the
spawn point or `AddDog` throws. -/
def GameSession.NewDog (s : GameSession) (name : String) (d : SpawnDraw) :
    Option (GameSession × ℕ) :=
  let index := s.dogs_join_
  let s := { s with dogs_join_ := s.dogs_join_ + 1 }
  match s.GetDogSpawnPoint d with
  | none => none
  | some pt =>
    match s.AddDog (Dog.mk_ index name pt Direction.NORTH { x := 0, y := 0 }) with
    | (s, true) => some (s, index)
    | (_, false) => none

/-- What `UseCaseMovePlayer` does to the dog of the player: `SetDirection(dir)` then
`SetSpeed(speed)` with the dog speed of the map. -/
def Dog.MovePlayer (dog : Dog) (dir : Direction) (speed : ℚ) : Dog :=
  (dog.SetDirection dir).SetSpeed speed

end model

/-! ## app.h / app.cpp / player.h -/

namespace model

/-- Embeds `Game`, as far as the use cases of the application read it. -/
structure Game where
  maps_ : List Map
  map_id_to_index_ : List (String × ℕ)
  map_id_to_session_ : List (String × GameSession)
  last_session_index_ : ℕ
  random_spawn_ : Bool
  loot_generator_period_ : ℕ
  loot_generator_probability_ : ℚ
  dog_retirement_time_ : ℕ
  do_on_retire_ : Bool
deriving DecidableEq

end model

namespace app

open model

/-- Embeds `Player`: its `Dog*` and `GameSession*`, as the id of the dog and the id of the map
whose session it is. The pair is also the key of the player in `Players`. -/
structure Player where
  dog_ : ℕ
  session_ : String
deriving DecidableEq

/-- Embeds `RetiredPlayer`. -/
structure RetiredPlayer where
  id_ : String
  name_ : String
  score_ : ℕ
  play_time_ : ℕ
deriving DecidableEq

/-- Embeds `PlayerTokens`: a `Player*` is the key of the player in `Players`. -/
structure PlayerTokens where
  token_to_player_ : List (String × (ℕ × String))
  player_to_token_ : List ((ℕ × String) × String)
deriving DecidableEq

/-- Embeds `Application`: the game, the two registries and the table `retired_players` behind
`db_` (rows in insertion order). -/
structure Application where
  game_ : Game
  players_ : List ((ℕ × String) × Player)
  player_tokens_ : PlayerTokens
  time_ticker_used_ : Bool
  retired_players_ : List RetiredPlayer
deriving DecidableEq

/-- Embeds `PlayerTokens::FindPlayerByToken`. -/
def PlayerTokens.FindPlayerByToken (t : PlayerTokens) (token : String) : Option (ℕ × String) :=
  if umap.contains t.token_to_player_ token then umap.find t.token_to_player_ token else none

/-- Embeds `PlayerTokens::ErasePlayer`; `none` when `player_to_token_.at(player)` throws. -/
def PlayerTokens.ErasePlayer (t : PlayerTokens) (player : ℕ × String) : Option PlayerTokens :=
  match umap.find t.player_to_token_ player with
  | none => none
  | some token =>
    some { token_to_player_ := umap.erase t.token_to_player_ token,
           player_to_token_ := umap.erase t.player_to_token_ player }

/-- Embeds `Players::FindByDogIdAndMapId`. -/
def FindByDogIdAndMapId (players : List ((ℕ × String) × Player)) (dog_id : ℕ)
    (map_id : String) : Option Player :=
  umap.find players (dog_id, map_id)

/-- Embeds `Players::ErasePlayer`. -/
def ErasePlayer (players : List ((ℕ × String) × Player)) (dog_id : ℕ) (map_id : String) :
    List ((ℕ × String) × Player) :=
  umap.erase players (dog_id, map_id)

/-- Embeds `Player::GetDog`: the dog behind the `Dog*` of the player; `none` when the pointer
dangles (no such session or dog). -/
def Application.GetDog (a : Application) (player : Player) : Option Dog :=
  match umap.find a.game_.map_id_to_session_ player.session_ with
  | none => none
  | some session => session.dogs_.find? (fun d => decide (d.id_ = player.dog_))

/-- A write through `player->GetDog()`. -/
def Application.modifyDog (a : Application) (player : Player) (f : Dog → Dog) : Application :=
  match umap.find a.game_.map_id_to_session_ player.session_ with
  | none => a
  | some session =>
    { a with game_ := { a.game_ with
        map_id_to_session_ :=
          umap.assign a.game_.map_id_to_session_ player.session_
            (session.modifyDog player.dog_ f) } }

/-- The player a token resolves to and its dog and session; `none` for an unknown token
or a dangling pointer. -/
def Application.resolve (a : Application) (token : String) :
    Option (Player × GameSession × Dog) :=
  match a.player_tokens_.FindPlayerByToken token with
  | none => none
  | some key =>
    match umap.find a.players_ key with
    | none => none
    | some player =>
      match umap.find a.game_.map_id_to_session_ player.session_ with
      | none => none
      | some session =>
        match session.dogs_.find? (fun d => decide (d.id_ = player.dog_)) with
        | none => none
        | some dog => some (player, session, dog)

/-- Embeds `UseCaseMovePlayer::operator()`; `none` when a pointer of the player dangles. -/
def UseCaseMovePlayer (a : Application) (player_token : String) (dir : Direction) :
    Option (Bool × Application) :=
  match a.player_tokens_.FindPlayerByToken player_token with
  | none => some (false, a)
  | some _ =>
    match a.resolve player_token with
    | none => none
    | some (player, session, _) =>
      let speed := session.map_.dog_speed_
      some (true, a.modifyDog player (fun dog => (dog.SetDirection dir).SetSpeed speed))

/-- Embeds `UseCaseStopPlayer::operator()`; `none` when a pointer of the player dangles. -/
def UseCaseStopPlayer (a : Application) (player_token : String) : Option (Bool × Application) :=
  match a.player_tokens_.FindPlayerByToken player_token with
  | none => some (false, a)
  | some _ =>
    match a.resolve player_token with
    | none => none
    | some (player, _, _) => some (true, a.modifyDog player Dog.Stop)

/-- Embeds `UseCaseDogRetire::operator()`; `uuid` is the value of `RetiredPlayerId::New()`. The
unit of work saves the row and commits before the player is erased from the registries;
`none` when the `Dog*` dangles or `PlayerTokens::ErasePlayer` throws. -/
def UseCaseDogRetire (a : Application) (dog_id : ℕ) (map_id : String) (uuid : String) :
    Option (Bool × Application) :=
  match FindByDogIdAndMapId a.players_ dog_id map_id with
  | none => some (true, a)
  | some player =>
    match a.GetDog player with
    | none => none
    | some dog =>
      let saved := a.retired_players_ ++
        [{ id_ := uuid, name_ := dog.name_, score_ := dog.GetScore, play_time_ := dog.time_in_game_ }]
      match a.player_tokens_.ErasePlayer (dog_id, map_id) with
      | none => none
      | some tokens =>
        some (true, { a with retired_players_ := saved,
                             players_ := ErasePlayer a.players_ dog_id map_id,
                             player_tokens_ := tokens })

end app

namespace model

open geom collision_detector

/-- The map of the scenario "clamp on boundary": one road `(0,0) -> (10,0)`, dog speed 3. -/
def clampMap : Map :=
  { id_ := "map1", name_ := "Map 1", roads_ := [Road.HORIZONTAL ⟨0, 0⟩ 10], offices_ := [],
    dog_speed_ := 3, bag_capacity_ := 3, loot_types_worth_ := [1] }

/-- A session on `clampMap`. -/
def clampSession : GameSession := GameSession.new clampMap 0 false 5000 1 60000 true 0 0

/-- The dog of the scenario "clamp on boundary": at `(9.5, 0)`, heading east at speed 3. -/
def clampDog : Dog :=
  (Dog.mk_ 0 "Rex" ⟨19 / 2, 0⟩ Direction.NORTH ⟨0, 0⟩).MovePlayer Direction.EAST 3

/-- A map with a horizontal road `(0,0) -> (10,0)` crossed at `(5,0)` by the vertical road
`(5,0) -> (5,10)`; dog speed 1. -/
def crossMap : Map :=
  { id_ := "map1", name_ := "Map 1",
    roads_ := [Road.HORIZONTAL ⟨0, 0⟩ 10, Road.VERTICAL ⟨5, 0⟩ 10],
    offices_ := [], dog_speed_ := 1, bag_capacity_ := 3, loot_types_worth_ := [1] }

/-- A fresh session on `crossMap`: generator period 5 s and probability 1/2, retirement
after 60 s. -/
def crossSession0 : GameSession := GameSession.new crossMap 0 false 5000 (1 / 2) 60000 true 0 0

/-- Bernoulli samples that never succeed at probability 1/2. -/
def quietDraw : ℕ → ℚ := fun _ => 3 / 4

/-- Spawn draws that pick loot type 0 at the lower corner of road 0. -/
def originSpawn : ℕ → SpawnDraw := fun _ => { type := 0, road_index := 0, fx := 0, fy := 0 }

/-- A play on `crossMap`: a dog joins at `(0,0)`, heads south for 300 ms, east for 5450 ms
and is then turned south again. -/
def crossTrace : Option GameSession :=
  (crossSession0.NewDog "Rex" (originSpawn 0)).bind fun (s, id) =>
  ((s.modifyDog id (fun d => d.MovePlayer Direction.SOUTH s.map_.dog_speed_)).OnTick
    300 quietDraw originSpawn).bind fun (s, _) =>
  ((s.modifyDog id (fun d => d.MovePlayer Direction.EAST s.map_.dog_speed_)).OnTick
    5450 quietDraw originSpawn).bind fun (s, _) =>
  some (s.modifyDog id (fun d => d.MovePlayer Direction.SOUTH s.map_.dog_speed_))

/-- The session `crossTrace` ends in: the dog stands at `(5.45, 0.3)`, inside the
horizontal road and beside the vertical one, heading south at the map speed. -/
def crossSession : GameSession :=
  { crossSession0 with
    loot_generator_ := { period := 5000, probability := 1 / 2, accumulator := 750 },
    dogs_join_ := 1,
    dog_id_to_dog_ := [0],
    dogs_ := [{ id_ := 0, name_ := "Rex", direction_ := Direction.SOUTH,
                coords_ := ⟨109 / 20, 3 / 10⟩, speed_ := ⟨0, 1⟩,
                prev_coords_ := ⟨0, 3 / 10⟩, bagpack_ := [], score_ := 0,
                holding_time_ := 0, time_in_game_ := 5750 }] }

/-- The session `crossSession` after a tick of 1000 ms: the dog has moved south to
`(5.45, 1.3)`. -/
def crossAfter : GameSession :=
  { crossSession with
    loot_generator_ := { period := 5000, probability := 1 / 2, accumulator := 1750 },
    dogs_ := [{ id_ := 0, name_ := "Rex", direction_ := Direction.SOUTH,
                coords_ := ⟨109 / 20, 13 / 10⟩, speed_ := ⟨0, 1⟩,
                prev_coords_ := ⟨109 / 20, 3 / 10⟩, bagpack_ := [], score_ := 0,
                holding_time_ := 0, time_in_game_ := 6750 }] }

end model

namespace model

open geom collision_detector

/-- A map with one road `(0,0) -> (10,0)` and an office at `(8,0)`; dog speed 2, two loot
types worth 10 and 20; the bag capacity is a parameter. -/
def marketMap (bag_capacity : ℕ) : Map :=
  { id_ := "market", name_ := "Market", roads_ := [Road.HORIZONTAL ⟨0, 0⟩ 10],
    offices_ := [{ id_ := "o0", position_ := ⟨8, 0⟩, offset_ := ⟨5, 0⟩ }],
    dog_speed_ := 2, bag_capacity_ := bag_capacity, loot_types_worth_ := [10, 20] }

/-- A dog of `marketMap` standing at `(x, 0)`, set in motion by `MovePlayer`. -/
def marketDog (id : ℕ) (name : String) (x : ℚ) (dir : Direction) : Dog :=
  (Dog.mk_ id name ⟨x, 0⟩ Direction.NORTH ⟨0, 0⟩).MovePlayer dir 2

/-- Two dogs walk towards each other over the only loot object of the map: dog 0 from
`(0,0)` eastwards, dog 1 from `(2,0)` westwards, loot 0 at `(1,0)`; bags of capacity 3. -/
def crossingSession : GameSession :=
  { GameSession.new (marketMap 3) 0 false 5000 (1 / 2) 60000 true 2 1 with
    dog_id_to_dog_ := [0, 1],
    dogs_ := [marketDog 0 "Rex" 0 Direction.EAST, marketDog 1 "Tuzik" 2 Direction.WEST],
    loot_obj_id_to_obj_ := [(0, { id_ := 0, type_ := 0, worth_ := 10 })],
    loot_obj_id_to_coords_ := [(0, ⟨1, 0⟩)] }

/-- One dog with a bag of capacity 1 walks from `(0,0)` eastwards over two loot objects, at
`(1/2, 0)` and `(1, 0)`. -/
def fullBagSession : GameSession :=
  { GameSession.new (marketMap 1) 0 false 5000 (1 / 2) 60000 true 1 2 with
    dog_id_to_dog_ := [0],
    dogs_ := [marketDog 0 "Rex" 0 Direction.EAST],
    loot_obj_id_to_obj_ := [(0, { id_ := 0, type_ := 0, worth_ := 10 }),
                            (1, { id_ := 1, type_ := 1, worth_ := 20 })],
    loot_obj_id_to_coords_ := [(0, ⟨1, 0⟩), (1, ⟨1 / 2, 0⟩)] }

/-- One dog with score 5 carrying two loot objects (worth 10 and 20) walks from `(7,0)`
eastwards past the office at `(8,0)`. -/
def officeSession : GameSession :=
  { GameSession.new (marketMap 3) 0 false 5000 (1 / 2) 60000 true 1 2 with
    dog_id_to_dog_ := [0],
    dogs_ := [{ marketDog 0 "Rex" 7 Direction.EAST with
                bagpack_ := [{ id_ := 0, type_ := 0, worth_ := 10 },
                             { id_ := 1, type_ := 1, worth_ := 20 }],
                score_ := 5 }] }

end model

namespace model

/-- A relation between a dog before and after a step of the tick that every step of the
tick respects: it holds when id, bag and score are kept (motion), when a loot object is put
into a bag with free capacity, and when the bag is dropped at an office. -/
structure DogStepRel (cap : ℕ) (R : Dog → Dog → Prop) : Prop where
  refl : ∀ d, R d d
  trans : ∀ a b c, R a b → R b c → R a c
  cargo : ∀ d d', d'.id_ = d.id_ → d'.bagpack_ = d.bagpack_ → d'.score_ = d.score_ → R d d'
  collect : ∀ d obj, d.bagpack_.length < cap → R d (d.AddLootObjectToBagpack obj)
  drop : ∀ d, R d d.DropBagpackContent

end model

namespace model

open geom collision_detector

/-- The session `fullBagSession` after a tick of 1000 ms: the dog walked to `(2,0)` and
took the loot object at `(1/2, 0)`; its bag being full, the one at `(1,0)` stays. -/
def fullBagAfter : GameSession :=
  { fullBagSession with
    dogs_ := [{ marketDog 0 "Rex" 0 Direction.EAST with
                coords_ := ⟨2, 0⟩, prev_coords_ := ⟨0, 0⟩,
                bagpack_ := [{ id_ := 1, type_ := 1, worth_ := 20 }],
                time_in_game_ := 1000 }],
    loot_obj_id_to_obj_ := [(0, { id_ := 0, type_ := 0, worth_ := 10 })],
    loot_obj_id_to_coords_ := [(0, ⟨1, 0⟩)] }

/-- The session `officeSession` after a tick of 1000 ms: the dog walked to `(9,0)` past
the office and its bag of worth 30 was added to its score of 5. -/
def officeAfter : GameSession :=
  { officeSession with
    loot_generator_ := { period := 5000, probability := 1 / 2, accumulator := 1000 },
    dogs_ := [{ marketDog 0 "Rex" 7 Direction.EAST with
                coords_ := ⟨9, 0⟩, prev_coords_ := ⟨7, 0⟩,
                bagpack_ := [], score_ := 35, time_in_game_ := 1000 }] }

end model

namespace app

open model

/-- Between two states of the application no score has decreased: every session of the
later state is a session of the earlier one, with the same dogs in the same order, each
with a score at least as large. -/
def ScoresGrow (a a' : Application) : Prop :=
  ∀ (m : String) (sess' : GameSession),
    umap.find a'.game_.map_id_to_session_ m = some sess' →
    ∃ sess, umap.find a.game_.map_id_to_session_ m = some sess ∧
      List.Forall₂ (fun d d' => d'.id_ = d.id_ ∧ d.GetScore ≤ d'.GetScore)
        sess.dogs_ sess'.dogs_

end app

namespace model

open geom collision_detector

/-- The three counts of the loot-conservation property over one tick: the number of loot
objects removed from the map (those on the map before the tick minus those left when the
collision phase ends; the spawning phase only adds), the number of LOOT events at which the
bag of the gathering dog had free capacity, and the number of those at which the loot
object was moreover still on the map. `none` when the tick throws before the end of the
collision phase. -/
def GameSession.lootRemovalCounts (s : GameSession) (tick : ℕ) : Option (ℕ × ℕ × ℕ) :=
  match s.moveAndRetire tick with
  | none => none
  | some (s1, _) =>
    match s1.collisionTables with
    | none => none
    | some t =>
      match s1.handleEvents t (FindGatherEvents t.provider) with
      | none => none
      | some s2 =>
        some (s.loot_obj_id_to_obj_.length - s2.loot_obj_id_to_obj_.length,
              s1.lootEventsWithRoom t (FindGatherEvents t.provider),
              s1.lootPickups t (FindGatherEvents t.provider))

end model

namespace model

open geom collision_detector

/-- The map of the scenario "loot spawns under pressure": one road `(0,0) -> (10,0)`, dog
speed 3, bag capacity 3, one loot type worth 1. -/
def lootMap : Map :=
  { id_ := "id", name_ := "name", roads_ := [Road.HORIZONTAL ⟨0, 0⟩ 10], offices_ := [],
    dog_speed_ := 3, bag_capacity_ := 3, loot_types_worth_ := [1] }

/-- The session of the scenario "loot spawns under pressure", before the dog joins:
generator period 5 s and probability 1; the retirement threshold (ms) and the presence of a
retirement sink are parameters. -/
def lootSession0 (dog_retirement_time : ℕ) (do_on_retire : Bool) : GameSession :=
  GameSession.new lootMap 0 false 5000 1 dog_retirement_time do_on_retire 0 0

/-- The session of the scenario "loot spawns under pressure" once the dog "dog" has joined
through `NewDog`: it stands still at `(0,0)`. -/
def lootSession (dog_retirement_time : ℕ) (do_on_retire : Bool) : GameSession :=
  { lootSession0 dog_retirement_time do_on_retire with
    dogs_join_ := 1,
    dog_id_to_dog_ := [0],
    dogs_ := [Dog.mk_ 0 "dog" ⟨0, 0⟩ Direction.NORTH ⟨0, 0⟩] }

/-- The number of loot objects on the map after `OnTick`, `none` when the tick throws. -/
def GameSession.lootCountAfterTick (s : GameSession) (tick : ℕ) (draw : ℕ → ℚ)
    (spawn : ℕ → SpawnDraw) : Option ℕ :=
  (s.OnTick tick draw spawn).map (fun r => r.1.loot_obj_id_to_obj_.length)

end model

namespace model

/-- The session `lootSession` after the motion phase of a tick of 5000 ms that does not
retire the dog: the dog has stood still for 5000 ms. -/
def lootSessionMoved (dog_retirement_time : ℕ) (do_on_retire : Bool) : GameSession :=
  { lootSession dog_retirement_time do_on_retire with
    dogs_ := [{ Dog.mk_ 0 "dog" ⟨0, 0⟩ Direction.NORTH ⟨0, 0⟩ with
                holding_time_ := 5000, time_in_game_ := 5000 }] }

end model

namespace model

/-- A dog that joined at `(0,0)` and has stood still for 500 ms. -/
def restingDog : Dog := (Dog.mk_ 0 "Rex" ⟨0, 0⟩ Direction.NORTH ⟨0, 0⟩).AddTick 500

end model

namespace app

open model

/-- An application with one session (`officeSession`, on the map "market") and one
registered player: dog 0 ("Rex", score 5) under one token. -/
def oneplayerApp : Application :=
  { game_ :=
      { maps_ := [marketMap 3], map_id_to_index_ := [("market", 0)],
        map_id_to_session_ := [("market", officeSession)], last_session_index_ := 1,
        random_spawn_ := false, loot_generator_period_ := 5000,
        loot_generator_probability_ := 1 / 2, dog_retirement_time_ := 60000,
        do_on_retire_ := true },
    players_ := [((0, "market"), { dog_ := 0, session_ := "market" })],
    player_tokens_ :=
      { token_to_player_ := [("ffffffff0123456701234567aaaaaaaa", (0, "market"))],
        player_to_token_ := [((0, "market"), "ffffffff0123456701234567aaaaaaaa")] },
    time_ticker_used_ := false,
    retired_players_ := [] }

/-- The application `oneplayerApp` after dog 0 of "market" has been retired: one row
saved, both registries empty. -/
def oneplayerRetired : Application :=
  { oneplayerApp with
    players_ := [],
    player_tokens_ := { token_to_player_ := [], player_to_token_ := [] },
    retired_players_ := [{ id_ := "uuid-1", name_ := "Rex", score_ := 5, play_time_ := 0 }] }

end app

namespace collision_detector

open geom

/-- The provider of the scenario "collect item on the edge": gatherer `(0,0) -> (0,2)` of
radius 0.6 and one item at `(0.65, 1)` of radius `r`. -/
def edgeProvider (r : ℚ) : ItemGathererProvider :=
  { items_ := [{ position := ⟨13/20, 1⟩, radius := r }],
    gatherers_ := [{ start_pos := ⟨0, 0⟩, end_pos := ⟨0, 2⟩, raduis := 3/5 }] }

end collision_detector

namespace app

/-- Embeds `operator<<` of an output stream in `std::hex` mode on an unsigned integer: the
digits of the value in base 16, lower case, most significant first, `0` as one digit. -/
def hexRender (value : ℕ) : List Char := Nat.toDigits 16 value

/-- Embeds the effect of `std::setw(width)` with `std::setfill(fill)` on the next output: the
text is right-aligned in the field, padded at the left when shorter than the field. -/
def setwFill (width : ℕ) (fill : Char) (text : List Char) : List Char :=
  List.replicate (width - text.length) fill ++ text

/-- Embeds `TokenGenerator::operator()`; `a` and `b` are the values drawn from `generator1_`
and `generator2_`. -/
def TokenGenerator (a b : ℕ) : String :=
  String.mk (setwFill 16 'f' (hexRender a) ++ setwFill 16 'a' (hexRender b))

/-- The characters `[0-9a-f]`. -/
def isLowerHex (c : Char) : Bool :=
  (decide ('0' ≤ c) && decide (c ≤ '9')) || (decide ('a' ≤ c) && decide (c ≤ 'f'))

/-- The value of one hexadecimal digit. -/
def hexDigitValue (c : Char) : ℕ :=
  if c ≤ '9' then c.toNat - '0'.toNat else c.toNat - 'a'.toNat + 10

/-- The value of a text of hexadecimal digits, most significant first. -/
def hexValue (text : List Char) : ℕ :=
  text.foldl (fun acc c => 16 * acc + hexDigitValue c) 0

end app

/-! ## request_handler.h / request_handler.cpp -/

namespace json

/-- The text `json::serialize` writes for one character of a string: the quote, the
backslash and the control characters are escaped. -/
def escapeChar (c : Char) : List Char :=
  if c = Char.ofNat 34 then [Char.ofNat 92, Char.ofNat 34]
  else if c = Char.ofNat 92 then [Char.ofNat 92, Char.ofNat 92]
  else if c = Char.ofNat 8 then [Char.ofNat 92, 'b']
  else if c = Char.ofNat 12 then [Char.ofNat 92, 'f']
  else if c = Char.ofNat 10 then [Char.ofNat 92, 'n']
  else if c = Char.ofNat 13 then [Char.ofNat 92, 'r']
  else if c = Char.ofNat 9 then [Char.ofNat 92, 't']
  else if c.toNat < 32 then
    [Char.ofNat 92, 'u', '0', '0', Nat.digitChar (c.toNat / 16), Nat.digitChar (c.toNat % 16)]
  else [c]

/-- The text `json::serialize` writes for a string: its characters, escaped, in quotes. -/
def serializeString (s : String) : String :=
  String.mk ([Char.ofNat 34] ++ s.data.flatMap escapeChar ++ [Char.ofNat 34])

end json

namespace http_handler

/-- Embeds `ErrorCode`. -/
inductive ErrorCode where
  | Ok
  | ActionParse
  | BadRequest
  | FileNotFound
  | InvalidAuthHeader
  | InvalidMethod
  | InvalidURI
  | JoinGameParse
  | MapNotFound
  | PlayerTokenNotFound
  | ServerError
  | TickParse
  | TickFail
deriving DecidableEq

/-- Embeds `ContentType::APPLICATION_JSON`. -/
def ContentType.APPLICATION_JSON : String := "application/json"

/-- Embeds `ContentType::TEXT_PLAIN`. -/
def ContentType.TEXT_PLAIN : String := "text/plain"

/-- Embeds `http::status::ok`; a status is the integer of the status line. -/
def status.ok : ℕ := 200

/-- Embeds `http::status::bad_request`. -/
def status.bad_request : ℕ := 400

/-- Embeds `http::status::unauthorized`. -/
def status.unauthorized : ℕ := 401

/-- Embeds `http::status::not_found`. -/
def status.not_found : ℕ := 404

/-- Embeds `http::status::method_not_allowed`. -/
def status.method_not_allowed : ℕ := 405

/-- Embeds `http::status::internal_server_error`. -/
def status.internal_server_error : ℕ := 500

/-- Embeds `http::status::unknown`, the value-initialised status. -/
def status.unknown : ℕ := 0

namespace ErrorBuilder

/-- Embeds `ErrorBuilder::Codes::MapNotFound`. -/
def Codes.MapNotFound : String := "mapNotFound"

/-- Embeds `ErrorBuilder::Codes::BadRequest`. -/
def Codes.BadRequest : String := "badRequest"

/-- Embeds `ErrorBuilder::Codes::FileNotFound` (no case of `Error` reads it). -/
def Codes.FileNotFound : String := "fileNotFound"

/-- Embeds `ErrorBuilder::Codes::InvalidMethod`. -/
def Codes.InvalidMethod : String := "invalidMethod"

/-- Embeds `ErrorBuilder::Codes::InvalidArgument`. -/
def Codes.InvalidArgument : String := "invalidArgument"

/-- Embeds `ErrorBuilder::Codes::InvalidToken`. -/
def Codes.InvalidToken : String := "invalidToken"

/-- Embeds `ErrorBuilder::Codes::UnknownToken`. -/
def Codes.UnknownToken : String := "unknownToken"

/-- Embeds `ErrorBuilder::Messages::MapNotFound`. -/
def Messages.MapNotFound : String := "Map not found"

/-- Embeds `ErrorBuilder::Messages::BadRequest`. -/
def Messages.BadRequest : String := "Bad request"

/-- Embeds `ErrorBuilder::Messages::InvalidURI`. -/
def Messages.InvalidURI : String := "Invalid URI"

/-- Embeds `ErrorBuilder::Messages::InvalidMethod`. -/
def Messages.InvalidMethod : String := "Invalid method"

/-- Embeds `ErrorBuilder::Messages::JoinGameParse`. -/
def Messages.JoinGameParse : String := "Join game request parse error"

/-- Embeds `ErrorBuilder::Messages::ActionParse`. -/
def Messages.ActionParse : String := "Failed to parse action"

/-- Embeds `ErrorBuilder::Messages::TickParse`. -/
def Messages.TickParse : String := "Failed to parse tick request JSON"

/-- Embeds `ErrorBuilder::Messages::FileNotFound`. -/
def Messages.FileNotFound : String := "File Not Found: "

/-- Embeds `ErrorBuilder::Messages::ServerError` (no case of `Error` reads it). -/
def Messages.ServerError : String := "Iternal server error"

/-- Embeds `ErrorBuilder::Messages::AuthHeader`. -/
def Messages.AuthHeader : String := "Authorization header is missing"

/-- Embeds `ErrorBuilder::Messages::PlayerToken`. -/
def Messages.PlayerToken : String := "Player token has not been found"

/-- Embeds `ErrorBuilder::Messages::InvalidEndpoint`. -/
def Messages.InvalidEndpoint : String := "Invalid endpoint"

/-- Embeds `ErrorBuilder::SerializeError`: the serialized object with the keys `code` and
`message`, in the order of insertion. -/
def SerializeError (code msg : String) : String :=
  "\x7b" ++ json.serializeString "code" ++ ":" ++ json.serializeString code ++ ","
    ++ json.serializeString "message" ++ ":" ++ json.serializeString msg ++ "\x7d"

/-- Embeds `ErrorBuilder::Error(ec, param)`: the status, the body and the content type. -/
def Error (ec : ErrorCode) (param : Option String) : ℕ × String × String :=
  match ec with
  | ErrorCode.MapNotFound =>
    (status.not_found, SerializeError Codes.MapNotFound Messages.MapNotFound,
      ContentType.APPLICATION_JSON)
  | ErrorCode.BadRequest =>
    (status.bad_request, SerializeError Codes.BadRequest Messages.BadRequest,
      ContentType.APPLICATION_JSON)
  | ErrorCode.InvalidURI =>
    (status.bad_request, SerializeError Codes.BadRequest Messages.InvalidURI,
      ContentType.APPLICATION_JSON)
  | ErrorCode.InvalidMethod =>
    let message := Messages.InvalidMethod ++
      (match param with
       | some p => ". Expected methods: " ++ p
       | none => "")
    (status.method_not_allowed, SerializeError Codes.InvalidMethod message,
      ContentType.APPLICATION_JSON)
  | ErrorCode.JoinGameParse =>
    (status.bad_request, SerializeError Codes.InvalidArgument Messages.JoinGameParse,
      ContentType.APPLICATION_JSON)
  | ErrorCode.ActionParse =>
    (status.bad_request, SerializeError Codes.InvalidArgument Messages.ActionParse,
      ContentType.APPLICATION_JSON)
  | ErrorCode.TickParse =>
    (status.bad_request, SerializeError Codes.InvalidArgument Messages.TickParse,
      ContentType.APPLICATION_JSON)
  | ErrorCode.FileNotFound =>
    (status.not_found, Messages.FileNotFound, ContentType.TEXT_PLAIN)
  | ErrorCode.ServerError =>
    (status.internal_server_error, Messages.FileNotFound, ContentType.TEXT_PLAIN)
  | ErrorCode.InvalidAuthHeader =>
    (status.unauthorized, SerializeError Codes.InvalidToken Messages.AuthHeader,
      ContentType.APPLICATION_JSON)
  | ErrorCode.PlayerTokenNotFound =>
    (status.unauthorized, SerializeError Codes.UnknownToken Messages.PlayerToken,
      ContentType.APPLICATION_JSON)
  | ErrorCode.TickFail =>
    (status.bad_request, SerializeError Codes.BadRequest Messages.InvalidEndpoint,
      ContentType.APPLICATION_JSON)
  | ErrorCode.Ok => (status.unknown, "", "")

end ErrorBuilder

end http_handler

/-! ## model.cpp: the sessions of a game; the state content of a session -/

namespace model

open geom

/-- Embeds `Game::AddMap`; `none` when "Map with id ... already exists" is thrown. -/
def Game.AddMap (g : Game) (map : Map) : Option Game :=
  match umap.emplace g.map_id_to_index_ map.id_ g.maps_.length with
  | (_, false) => none
  | (index, true) => some { g with maps_ := g.maps_ ++ [map], map_id_to_index_ := index }

/-- Embeds `Game::FindMap`; `none` is the null pointer (and an index outside `maps_`). -/
def Game.FindMap (g : Game) (id : String) : Option Map :=
  match umap.find g.map_id_to_index_ id with
  | none => none
  | some index => g.maps_[index]?

/-- Embeds `Game::GetGameSessionByMapId`: returns the game and the session the returned
pointer points to (`none` is the null pointer). The outer `none` is the undefined behaviour
of `maps_[index]` for an index outside `maps_`. -/
def Game.GetGameSessionByMapId (g : Game) (id : String) :
    Option (Game × Option GameSession) :=
  match umap.find g.map_id_to_session_ id with
  | some session => some (g, some session)
  | none =>
    match umap.find g.map_id_to_index_ id with
    | none => some (g, none)
    | some index =>
      match g.maps_[index]? with
      | none => none
      | some map =>
        let session := GameSession.new map g.last_session_index_ g.random_spawn_
          g.loot_generator_period_ g.loot_generator_probability_ g.dog_retirement_time_
          g.do_on_retire_ 0 0
        some ({ g with last_session_index_ := g.last_session_index_ + 1,
                       map_id_to_session_ := (umap.emplace g.map_id_to_session_ id session).1 },
              some session)

/-- Embeds `Game::AddGameSession`: returns the game and the session the returned pointer
points to, which is the session already stored under `id` when there is one. `none` when
"Map not found" is thrown (and for an index outside `maps_`). -/
def Game.AddGameSession (g : Game) (id : String) (index dog_start_id loot_object_start_id : ℕ) :
    Option (Game × GameSession) :=
  match umap.find g.map_id_to_index_ id with
  | none => none
  | some map_index =>
    match g.maps_[map_index]? with
    | none => none
    | some map =>
      let session := GameSession.new map index g.random_spawn_
        g.loot_generator_period_ g.loot_generator_probability_ g.dog_retirement_time_
        g.do_on_retire_ dog_start_id loot_object_start_id
      let sessions := (umap.emplace g.map_id_to_session_ id session).1
      match umap.find sessions id with
      | none => none
      | some stored => some ({ g with map_id_to_session_ := sessions }, stored)

/-- Embeds `GameSession::AddLootObject`; `none` when "Loot object already exists" is
thrown. -/
def GameSession.AddLootObject (s : GameSession) (obj : LootObject) (coords : PointDouble) :
    Option GameSession :=
  if umap.contains s.loot_obj_id_to_obj_ obj.id_ then none
  else
    some { s with
      loot_obj_id_to_coords_ := (umap.emplace s.loot_obj_id_to_coords_ obj.id_ coords).1,
      loot_obj_id_to_obj_ := (umap.emplace s.loot_obj_id_to_obj_ obj.id_ obj).1 }

/-- Embeds `GameSession::StateContent`. -/
structure StateContent where
  map_id : String
  session_id : ℕ
  dogs : List Dog
  loot_objects : List (LootObject × PointDouble)
  dogs_join : ℕ
  objects_spawned : ℕ
deriving DecidableEq

/-- The loop of `GetSessionStateContent` over `loot_obj_id_to_obj_`: every object with
`loot_obj_id_to_coords_.at(obj.GetId())`; `none` when `at` throws. -/
def GameSession.lootContent (coords : List (ℕ × PointDouble)) :
    List (ℕ × LootObject) → Option (List (LootObject × PointDouble))
  | [] => some []
  | (_, obj) :: rest =>
    match umap.find coords obj.id_ with
    | none => none
    | some pt =>
      match GameSession.lootContent coords rest with
      | none => none
      | some tail => some ((obj, pt) :: tail)

/-- Embeds `GameSession::GetSessionStateContent`. -/
def GameSession.GetSessionStateContent (s : GameSession) : Option StateContent :=
  match GameSession.lootContent s.loot_obj_id_to_coords_ s.loot_obj_id_to_obj_ with
  | none => none
  | some loot_objects =>
    some { map_id := s.map_.id_, session_id := s.id_, dogs := s.dogs_,
           loot_objects := loot_objects, dogs_join := s.dogs_join_,
           objects_spawned := s.objects_spawned_ }

end model

namespace model

/-- A game with the maps "map1" and "market" and no session yet, as it stands after the
configuration is loaded. -/
def twoMapGame : Game :=
  { maps_ := [clampMap, marketMap 3], map_id_to_index_ := [("map1", 0), ("market", 1)],
    map_id_to_session_ := [], last_session_index_ := 0,
    random_spawn_ := false, loot_generator_period_ := 5000,
    loot_generator_probability_ := 1 / 2, dog_retirement_time_ := 60000,
    do_on_retire_ := true }

/-- The map ids of the live sessions of a game, each with the id of its session. -/
def Game.sessionIds (g : Game) : List (String × ℕ) :=
  g.map_id_to_session_.map (fun kv => (kv.1, kv.2.id_))

/-- The game `twoMapGame` after a snapshot with the session 0 of "map1" is restored
(`AddGameSession("map1", 0)`) and a player then joins "market"
(`GetGameSessionByMapId("market")`). -/
def restoredThenJoined : Option Game :=
  (twoMapGame.AddGameSession "map1" 0 0 0).bind fun (g, _) =>
  (g.GetGameSessionByMapId "market").map fun (g, _) => g

end model

namespace model

open geom

/-- The loop `for (dog : dogs) session.AddDog(dog)`; `none` when `AddDog` throws. -/
def GameSession.addDogs : GameSession → List Dog → Option GameSession
  | s, [] => some s
  | s, dog :: rest =>
    match s.AddDog dog with
    | (s, true) => GameSession.addDogs s rest
    | (_, false) => none

/-- The loop `for ((obj, coords) : loot_objects) session.AddLootObject(obj, coords)`; `none`
when `AddLootObject` throws. -/
def GameSession.addLootObjects : GameSession → List (LootObject × PointDouble) →
    Option GameSession
  | s, [] => some s
  | s, (obj, coords) :: rest =>
    match s.AddLootObject obj coords with
    | none => none
    | some s => GameSession.addLootObjects s rest

/-- Modelled from the spec: the rebuild of a session from its state content (the body of
`AppSerializator::Restore` is not in the sources). A new session is constructed on the map
with the session id and the two counters of the content, then every dog is re-added with
`AddDog` and every loot object with its coordinates with `AddLootObject`. -/
def rebuildSession (map : Map) (random_spawn : Bool) (period : ℕ) (probability : ℚ)
    (dog_retirement_time : ℕ) (do_on_retire : Bool) (c : StateContent) : Option GameSession :=
  ((GameSession.new map c.session_id random_spawn period probability dog_retirement_time
      do_on_retire c.dogs_join c.objects_spawned).addDogs c.dogs).bind
    fun s => s.addLootObjects c.loot_objects

/-- The map of the test "GameSession params Serialization": no road, no office (the test
leaves the dog speed and the bag capacity unset). -/
def plutoMap : Map :=
  { id_ := "MapId", name_ := "MapName", roads_ := [], offices_ := [], dog_speed_ := 1,
    bag_capacity_ := 3, loot_types_worth_ := [] }

/-- The dog of the test: 42 "Pluto", constructed at `(42.2, 12.5)`, then score 42, two
objects in the bag, direction EAST, speed 2.3 and coordinates `(2.2, 2.5)`. -/
def plutoDog : Dog :=
  let dog := Dog.mk_ 42 "Pluto" ⟨211/5, 25/2⟩ Direction.NORTH ⟨0, 0⟩
  let dog := dog.AddScore 42
  let dog := dog.AddLootObjectToBagpack { id_ := 10, type_ := 2, worth_ := 15 }
  let dog := dog.AddLootObjectToBagpack { id_ := 4, type_ := 5, worth_ := 6 }
  let dog := dog.SetDirection Direction.EAST
  let dog := dog.SetSpeed (23/10)
  dog.SetCoorginates ⟨11/5, 5/2⟩

/-- The session of the test: id 42, counters 4 and 5, the dog `plutoDog` and the loot
object 7 (type 6, worth 7) at `(20.0, 15.5)`. -/
def plutoSession : Option GameSession :=
  ((GameSession.new plutoMap 42 true 1000 (1/2) 1000 true 4 5).AddDog plutoDog).1.AddLootObject
    { id_ := 7, type_ := 6, worth_ := 7 } ⟨20, 31/2⟩

/-- The state content of the session of the test. -/
def plutoContent : StateContent :=
  { map_id := "MapId", session_id := 42,
    dogs := [{ id_ := 42, name_ := "Pluto", direction_ := Direction.EAST,
               coords_ := ⟨11/5, 5/2⟩, speed_ := ⟨23/10, 0⟩, prev_coords_ := ⟨211/5, 25/2⟩,
               bagpack_ := [{ id_ := 10, type_ := 2, worth_ := 15 },
                            { id_ := 4, type_ := 5, worth_ := 6 }],
               score_ := 42, holding_time_ := 0, time_in_game_ := 0 }],
    loot_objects := [({ id_ := 7, type_ := 6, worth_ := 7 }, ⟨20, 31/2⟩)],
    dogs_join := 4, objects_spawned := 5 }

end model

namespace http_handler

/-- Embeds `http::verb`: the methods the handlers name; `unknown` is the value-initialised
verb and stands for every other method. -/
inductive Verb where
  | unknown
  | get
  | head
  | post
deriving DecidableEq

/-- The request as the handlers read it: `req.version()`, `req.keep_alive()`, `req.method()`,
`req.target()`, `req.body()`, `req[http::field::content_type]` (empty when the header is
absent) and the `Authorization` header, `none` when `req.count` of the field is 0. -/
structure Request where
  version : ℕ
  keep_alive : Bool
  method : Verb
  target : String
  body : String
  content_type : String
  authorization : Option String
deriving DecidableEq

/-- Embeds `RequestData` (`decoded_uri` is left to the routing of the request). -/
structure RequestData where
  http_version : ℕ
  keep_alive : Bool
  method : Verb
  raw_uri : String
  body : Option String
  content_type : Option String
  auth_token : Option String
deriving DecidableEq

/-- Embeds `RequestData() = default`: every member value-initialised. -/
def RequestData.new : RequestData :=
  { http_version := 0, keep_alive := false, method := Verb.unknown, raw_uri := "",
    body := none, content_type := none, auth_token := none }

/-- The character class `[0-9a-fA-F]` of `auth_token_pattern`. -/
def isHexChar (c : Char) : Bool :=
  (decide ('0' ≤ c) && decide (c ≤ '9')) || (decide ('a' ≤ c) && decide (c ≤ 'f'))
    || (decide ('A' ≤ c) && decide (c ≤ 'F'))

/-- Embeds `std::regex_match(req_field, full_r)` for `full_r = ^Bearer [0-9a-fA-F]{32}$`: the
whole text is `Bearer `, then exactly 32 characters of the class. -/
def matchesFull (req_field : List Char) : Bool :=
  decide (req_field.take 7 = ['B', 'e', 'a', 'r', 'e', 'r', ' '])
    && decide ((req_field.drop 7).length = 32) && (req_field.drop 7).all isHexChar

/-- The matches a `std::sregex_iterator` walks for `token_r = [0-9a-fA-F]{32}`: each match is
the leftmost window of 32 characters of the class, and the search goes on behind it; `skip`
is the number of characters of the last match still to pass. -/
def tokenMatches : ℕ → List Char → List (List Char)
  | _, [] => []
  | skip + 1, _ :: rest => tokenMatches skip rest
  | 0, c :: rest =>
    if ((c :: rest).take 32).length = 32 ∧ ((c :: rest).take 32).all isHexChar = true then
      (c :: rest).take 32 :: tokenMatches 31 rest
    else tokenMatches 0 rest

/-- Embeds `RequestData::ParseAuthToken`, on the value of the `Authorization` header. -/
def ParseAuthToken (req : Request) : Option String :=
  let req_field := (req.authorization.getD "").data
  if matchesFull req_field = false then none
  else
    match tokenMatches 0 req_field with
    | [token] => some (String.mk token)
    | _ => none

/-- Embeds `RequestData::Construct(req)`, called on the `req_data_` the handler keeps: the
members are overwritten from the request; `auth_token` is assigned only when the request
has an `Authorization` header. -/
def RequestData.Construct (d : RequestData) (req : Request) : RequestData :=
  let d := { d with http_version := req.version, keep_alive := req.keep_alive,
                    method := req.method, raw_uri := req.target }
  let d :=
    if req.method = Verb.post then
      { d with body := some req.body, content_type := some req.content_type }
    else { d with body := none, content_type := none }
  if req.authorization.isSome then { d with auth_token := ParseAuthToken req } else d

/-- Embeds `StringResponse`: the status, the headers the handlers set and the body. -/
structure StringResponse where
  status : ℕ
  version : ℕ
  content_type : String
  cache_control : String
  allow : Option String
  body : String
  content_length : ℕ
  keep_alive : Bool
deriving DecidableEq

/-- Embeds `Constants::NO_CACHE`. -/
def Constants.NO_CACHE : String := "no-cache"

/-- Embeds `Constants::EMPTY_JSON`. -/
def Constants.EMPTY_JSON : String := "\x7b\x7d"

/-- Embeds `Constants::TIME_DELTA`. -/
def Constants.TIME_DELTA : String := "timeDelta"

/-- Embeds `MakeStringResponse(status, body, req_data, content_type)`. -/
def MakeStringResponse (status : ℕ) (body : String) (req_data : RequestData)
    (content_type : String) : StringResponse :=
  let text :=
    if body.isEmpty && decide (content_type = ContentType.APPLICATION_JSON) then
      Constants.EMPTY_JSON
    else body
  { status := status, version := req_data.http_version, content_type := content_type,
    cache_control := Constants.NO_CACHE, allow := none, body := text,
    content_length := text.utf8ByteSize, keep_alive := req_data.keep_alive }

/-- Embeds `ErrorBuilder::MakeErrorResponse(ec, req_data, param)`. -/
def ErrorBuilder.MakeErrorResponse (ec : ErrorCode) (req_data : RequestData)
    (param : Option String) : StringResponse :=
  let r := ErrorBuilder.Error ec param
  MakeStringResponse r.1 r.2.1 req_data r.2.2

/-- Embeds `ApiHandler::ResponseApiError(ec)`, on the `req_data_` of the handler. -/
def ResponseApiError (req_data : RequestData) (ec : ErrorCode) : StringResponse :=
  ErrorBuilder.MakeErrorResponse ec req_data none

/-- Embeds `ApiHandler::ExecuteAuthorized(action)`, on the `req_data_` of the handler; the
action runs on the application and returns the response and the application. -/
def ExecuteAuthorized (req_data : RequestData) (a : app.Application)
    (action : String → app.Application → StringResponse × app.Application) :
    StringResponse × app.Application :=
  match req_data.auth_token with
  | none => (ResponseApiError req_data ErrorCode.InvalidAuthHeader, a)
  | some token => action token a

/-- Embeds `Methods::method_to_str.at(method)`; `none` when `at` throws. -/
def Methods.method_to_str (method : Verb) : Option String :=
  match method with
  | Verb.get => some "GET"
  | Verb.head => some "HEAD"
  | Verb.post => some "POST"
  | Verb.unknown => none

/-- Embeds `ApiHandler::PrintMethods`: the names of the methods, separated by `, `. -/
def PrintMethods : List Verb → Option String
  | [] => some ""
  | [arg] => Methods.method_to_str arg
  | arg :: args =>
    match Methods.method_to_str arg, PrintMethods args with
    | some name, some rest => some (name ++ ", " ++ rest)
    | _, _ => none

/-- Embeds `ApiHandler::MakeInvalidMethodResponse(allowed_methods...)`. -/
def MakeInvalidMethodResponse (req_data : RequestData) (allowed_methods : List Verb) :
    Option StringResponse :=
  match PrintMethods allowed_methods with
  | none => none
  | some methods =>
    some { ErrorBuilder.MakeErrorResponse ErrorCode.InvalidMethod req_data (some methods) with
           allow := some methods }

end http_handler

namespace json

/-- Embeds `boost::json::value`, by kind. -/
inductive value where
  | null
  | bool (b : Bool)
  | int64 (i : ℤ)
  | uint64 (u : ℕ)
  | double (d : ℚ)
  | string (s : String)
  | array (a : List value)
  | object (o : List (String × value))

/-- Embeds `value::is_object`. -/
def value.is_object : value → Bool
  | value.object _ => true
  | _ => false

/-- Embeds `value::is_int64`. -/
def value.is_int64 : value → Bool
  | value.int64 _ => true
  | _ => false

/-- Embeds `as_object().contains(key)`. -/
def value.contains : value → String → Bool
  | value.object o, key => (o.find? (fun kv => decide (kv.1 = key))).isSome
  | _, _ => false

/-- Embeds `as_object().at(key)`; `none` when it throws. -/
def value.at_ : value → String → Option value
  | value.object o, key => (o.find? (fun kv => decide (kv.1 = key))).map Prod.snd
  | _, _ => none

/-- Embeds `value::as_int64`; `none` when it throws. -/
def value.as_int64 : value → Option ℤ
  | value.int64 i => some i
  | _ => none

end json

namespace app

/-- Embeds `UseCaseTimeTick::operator()`: the flag returned and the duration
`Application::Tick` is called with, `none` when it is not called. -/
def UseCaseTimeTick (a : Application) (time_delta : ℤ) : Bool × Option ℤ :=
  if a.time_ticker_used_ then (false, none) else (true, some time_delta)

end app

namespace http_handler

/-- The conversion of an `int64_t` to `size_t`: the value modulo `2^64`. -/
def sizeOfInt64 (i : ℤ) : ℕ := (i % 2 ^ 64).toNat

/-- The conversion of a `size_t` count to the `int64_t` count of `std::chrono::milliseconds`:
the value modulo `2^64`, read as a signed integer. -/
def int64OfSize (n : ℕ) : ℤ :=
  if n % 2 ^ 64 < 2 ^ 63 then ((n % 2 ^ 64 : ℕ) : ℤ) else ((n % 2 ^ 64 : ℕ) : ℤ) - 2 ^ 64

/-- The lambda `action` of `ApiHandler::HandleTickRequest`, on the `req_data_` of the handler:
the response and the duration `Application::Tick` is called with, `none` when it is not
called; `parse` is `json::parse` (`none` when it sets the error code). The outer `none` is
an exception (`body.value()`, `at`, `as_int64`). -/
def tickAction (req_data : RequestData) (a : app.Application)
    (parse : String → Option json.value) : Option (StringResponse × Option ℤ) :=
  if req_data.content_type ≠ some ContentType.APPLICATION_JSON then
    some (ResponseApiError req_data ErrorCode.BadRequest, none)
  else
    match req_data.body with
    | none => none
    | some body =>
      match parse body with
      | none => some (ResponseApiError req_data ErrorCode.TickParse, none)
      | some content =>
        if !content.is_object || !content.contains Constants.TIME_DELTA
            || !((content.at_ Constants.TIME_DELTA).map json.value.is_int64).getD false then
          some (ResponseApiError req_data ErrorCode.TickParse, none)
        else
          match (content.at_ Constants.TIME_DELTA).bind json.value.as_int64 with
          | none => none
          | some i =>
            let time_delta : ℕ := sizeOfInt64 i
            if time_delta < 0 then
              some (ResponseApiError req_data ErrorCode.TickParse, none)
            else
              let tick := int64OfSize time_delta
              match app.UseCaseTimeTick a tick with
              | (true, called) =>
                some (MakeStringResponse status.ok "" req_data ContentType.APPLICATION_JSON,
                      called)
              | (false, called) => some (ResponseApiError req_data ErrorCode.TickFail, called)

/-- Embeds `ApiHandler::HandleTickRequest`: `ExecuteAllowedMethods(action, http::verb::post)`. -/
def HandleTickRequest (req_data : RequestData) (a : app.Application)
    (parse : String → Option json.value) : Option (StringResponse × Option ℤ) :=
  if req_data.method = Verb.post then tickAction req_data a parse
  else (MakeInvalidMethodResponse req_data [Verb.post]).map fun r => (r, none)

/-- The `json::parse` of the bodies of the tick scenarios: the object with the one key
`timeDelta` for the texts `{"timeDelta": -1}` and `{"timeDelta": 100}`, an error for every
other text. -/
def parseTick (body : String) : Option json.value :=
  if body = "\x7b\x22timeDelta\x22: -1\x7d" then
    some (json.value.object [("timeDelta", json.value.int64 (-1))])
  else if body = "\x7b\x22timeDelta\x22: 100\x7d" then
    some (json.value.object [("timeDelta", json.value.int64 100)])
  else none

/-- A tick request: `POST /api/v1/game/tick` with the content type `application/json` and
the given body. -/
def tickRequest (body : String) : Request :=
  { version := 11, keep_alive := true, method := Verb.post, target := "/api/v1/game/tick",
    body := body, content_type := "application/json", authorization := none }

/-- A request for the list of players, `GET /api/v1/game/players`, with the given
`Authorization` header. -/
def playersRequest (authorization : Option String) : Request :=
  { version := 11, keep_alive := true, method := Verb.get, target := "/api/v1/game/players",
    body := "", content_type := "", authorization := authorization }

end http_handler

/-! ## app.cpp: joining, the read-only use cases -/

namespace app

open model geom

/-- Embeds `Players::AddPlayer(dog, session)`: `dog_id` is the `Dog*`, `session_ptr` the
`GameSession*` (the key of the session in the game) and `session` the session it points to.
Returns the table and the key of the new player; `none` when "Dog already exists" is
thrown. -/
def AddPlayer (players : List ((ℕ × String) × Player)) (dog_id : ℕ) (session : GameSession)
    (session_ptr : String) : Option (List ((ℕ × String) × Player) × (ℕ × String)) :=
  match umap.emplace players (dog_id, session.map_.id_)
      { dog_ := dog_id, session_ := session_ptr } with
  | (_, false) => none
  | (players, true) => some (players, (dog_id, session.map_.id_))

/-- Embeds `PlayerTokens::AddPlayer(player)`: the list holds the successive values of
`get_token_()`; the first one that is not in the table yet is emplaced and returned. `none`
when every value of the list is taken (the loop has not ended with these draws). -/
def PlayerTokens.AddPlayer (t : PlayerTokens) (player : ℕ × String) :
    List String → Option (PlayerTokens × String)
  | [] => none
  | token :: rest =>
    match umap.emplace t.token_to_player_ token player with
    | (tokens, true) =>
      some ({ token_to_player_ := tokens,
              player_to_token_ := (umap.emplace t.player_to_token_ player token).1 }, token)
    | (_, false) => PlayerTokens.AddPlayer t player rest

/-- Embeds `UseCaseJoinPlayer::operator()`: `d` is the draw of the spawn point and `tokens`
the successive values of the token generator. Returns the result and the application;
`none` when a step throws. -/
def UseCaseJoinPlayer (a : Application) (map_id : String) (dog_name : String) (d : SpawnDraw)
    (tokens : List String) : Option (Option (String × ℕ) × Application) :=
  match a.game_.GetGameSessionByMapId map_id with
  | none => none
  | some (game, none) => some (none, { a with game_ := game })
  | some (game, some session) =>
    match session.NewDog dog_name d with
    | none => none
    | some (session, dog_id) =>
      let game := { game with
        map_id_to_session_ := umap.assign game.map_id_to_session_ map_id session }
      match AddPlayer a.players_ dog_id session map_id with
      | none => none
      | some (players, player) =>
        match a.player_tokens_.AddPlayer player tokens with
        | none => none
        | some (player_tokens, token) =>
          some (some (token, dog_id),
            { a with game_ := game, players_ := players, player_tokens_ := player_tokens })

/-- Embeds `UseCaseGetPlayers::operator()`: the id and the name of every dog of the session
of the player; `some none` for an unknown token, `none` when a pointer of the player
dangles. -/
def UseCaseGetPlayers (a : Application) (player_token : String) :
    Option (Option (List (ℕ × String))) :=
  match a.player_tokens_.FindPlayerByToken player_token with
  | none => some none
  | some key =>
    match umap.find a.players_ key with
    | none => none
    | some player =>
      match umap.find a.game_.map_id_to_session_ player.session_ with
      | none => none
      | some session => some (some (session.dogs_.map fun dog => (dog.id_, dog.name_)))

/-- Embeds `UseCaseGetGameState::PlayerState`. -/
structure PlayerState where
  id : ℕ
  pos : PointDouble
  speed : PointDouble
  dir : Direction
  bag : List (ℕ × ℕ)
  score : ℕ
deriving DecidableEq

/-- Embeds `UseCaseGetGameState::LootObjectState`. -/
structure LootObjectState where
  id : ℕ
  type : ℕ
  pos : PointDouble
deriving DecidableEq

/-- Embeds `UseCaseGetGameState::GameState`. -/
structure GameState where
  players : List PlayerState
  loot_objects : List LootObjectState
deriving DecidableEq

/-- The loop of `UseCaseGetGameState` over the loot objects of the session: every object
with `GetLootCoordsById(obj_id)`; `none` when that throws. -/
def lootStates (coords : List (ℕ × PointDouble)) :
    List (ℕ × LootObject) → Option (List LootObjectState)
  | [] => some []
  | (obj_id, obj) :: rest =>
    match umap.find coords obj_id with
    | none => none
    | some pos =>
      match lootStates coords rest with
      | none => none
      | some tail => some ({ id := obj_id, type := obj.type_, pos := pos } :: tail)

/-- Embeds `UseCaseGetGameState::operator()`; `some none` for an unknown token, `none` when a
pointer of the player dangles or the coordinates of a loot object are missing. -/
def UseCaseGetGameState (a : Application) (player_token : String) :
    Option (Option GameState) :=
  match a.player_tokens_.FindPlayerByToken player_token with
  | none => some none
  | some key =>
    match umap.find a.players_ key with
    | none => none
    | some player =>
      match umap.find a.game_.map_id_to_session_ player.session_ with
      | none => none
      | some session =>
        match lootStates session.loot_obj_id_to_coords_ session.loot_obj_id_to_obj_ with
        | none => none
        | some loot_objects =>
          some (some
            { players := session.dogs_.map fun dog =>
                { id := dog.id_, pos := dog.coords_, speed := dog.speed_,
                  dir := dog.direction_,
                  bag := dog.bagpack_.map fun loot_item => (loot_item.id_, loot_item.type_),
                  score := dog.GetScore },
              loot_objects := loot_objects })

/-- One call of the sequences of joins and retirements. -/
inductive RegistryCall where
  | join (map_id : String) (dog_name : String) (d : SpawnDraw) (tokens : List String)
  | retire (dog_id : ℕ) (map_id : String) (uuid : String)

/-- A sequence of `UseCaseJoinPlayer` and `UseCaseDogRetire` calls, run in order; `none` when
a call throws. -/
def runCalls : Application → List RegistryCall → Option Application
  | a, [] => some a
  | a, RegistryCall.join map_id dog_name d tokens :: rest =>
    match UseCaseJoinPlayer a map_id dog_name d tokens with
    | none => none
    | some (_, a) => runCalls a rest
  | a, RegistryCall.retire dog_id map_id uuid :: rest =>
    match UseCaseDogRetire a dog_id map_id uuid with
    | none => none
    | some (_, a) => runCalls a rest

/-- An application on the game `twoMapGame` right after start: no session, no player. -/
def freshApp : Application :=
  { game_ := twoMapGame, players_ := [],
    player_tokens_ := { token_to_player_ := [], player_to_token_ := [] },
    time_ticker_used_ := false, retired_players_ := [] }

end app

/-! ## The invariants of the game and of the registries -/

namespace model

/-- Every dog id of the session, in the id index and in the list of dogs, is below the
allocator `dogs_join_`. -/
def GameSession.DogIdsBelowCounter (s : GameSession) : Prop :=
  (∀ id ∈ s.dog_id_to_dog_, id < s.dogs_join_) ∧ (∀ dog ∈ s.dogs_, dog.id_ < s.dogs_join_)

instance (s : GameSession) : Decidable s.DogIdsBelowCounter := by
  unfold GameSession.DogIdsBelowCounter; infer_instance

/-- The game as `AddMap`, `GetGameSessionByMapId` and `NewDog` leave it: every entry of the
map index points at the map with that id, and every session stored under a map id runs on
the map of that id and has its dog ids below its allocator. -/
def Game.WellFormed (g : Game) : Prop :=
  (∀ p ∈ g.map_id_to_index_, (g.maps_[p.2]?).map (fun map => map.id_) = some p.1) ∧
  (∀ p ∈ g.map_id_to_session_, g.FindMap p.1 = some p.2.map_ ∧ p.2.DogIdsBelowCounter)

instance (g : Game) : Decidable g.WellFormed := by
  unfold Game.WellFormed; infer_instance

end model

namespace app

open model

/-- The player key `(dog id, map id)` points into the game: the session of the map exists,
it has a dog with that id, and the id is below the allocator of the session. -/
def Application.playerBound (a : Application) (key : ℕ × String) : Bool :=
  match umap.find a.game_.map_id_to_session_ key.2 with
  | none => false
  | some session =>
    decide (key.1 < session.dogs_join_)
      && (session.dogs_.find? (fun d => decide (d.id_ = key.1))).isSome

/-- The application as `UseCaseJoinPlayer` and `UseCaseDogRetire` leave it: the game is well
formed, the token table has pairwise distinct tokens and pairwise distinct players, the
table `player_to_token_` is its inverse and `players_` holds exactly its players, each under
the key `(dog id, map id)` of its dog and session, and every player points into the game. -/
def Application.WellFormed (a : Application) : Prop :=
  a.game_.WellFormed ∧
  (a.player_tokens_.token_to_player_.map Prod.fst).Nodup ∧
  (a.player_tokens_.token_to_player_.map Prod.snd).Nodup ∧
  a.player_tokens_.player_to_token_ =
    a.player_tokens_.token_to_player_.map (fun tk => (tk.2, tk.1)) ∧
  a.players_ =
    a.player_tokens_.token_to_player_.map
      (fun tk => (tk.2, { dog_ := tk.2.1, session_ := tk.2.2 })) ∧
  (∀ tk ∈ a.player_tokens_.token_to_player_, a.playerBound tk.2 = true)

instance (a : Application) : Decidable a.WellFormed := by
  unfold Application.WellFormed; infer_instance

end app

namespace app

open model

/-- A sequence of calls on `freshApp`: "Rex" and "Bob" join "market" (the first token drawn
for "Bob" is the one "Rex" holds), "Tom" joins "map1", then dog 0 of "market" is retired. -/
def registryCalls : List RegistryCall :=
  [RegistryCall.join "market" "Rex" (originSpawn 0) ["ffffffff0123456701234567aaaaaaaa"],
   RegistryCall.join "market" "Bob" (originSpawn 0)
     ["ffffffff0123456701234567aaaaaaaa", "ffffffff89abcdef89abcdefaaaaaaaa"],
   RegistryCall.join "map1" "Tom" (originSpawn 0) ["fffffffffedcba98fedcba98aaaaaaaa"],
   RegistryCall.retire 0 "market" "uuid-1"]

end app

namespace collision_detector

open geom

/-- The provider of the scenario "no items added": three gatherers, no item. -/
def noItemsProvider : ItemGathererProvider :=
  { items_ := [],
    gatherers_ := [{ start_pos := ⟨0, 0⟩, end_pos := ⟨0, 2⟩, raduis := 3/5 },
                   { start_pos := ⟨0, 1⟩, end_pos := ⟨0, 2⟩, raduis := 3/5 },
                   { start_pos := ⟨0, 0⟩, end_pos := ⟨5, 0⟩, raduis := 3/5 }] }

/-- The provider of the scenario "no gatherers added": three items, no gatherer. -/
def noGatherersProvider : ItemGathererProvider :=
  { items_ := [{ position := ⟨0, 0⟩, radius := 1/10 },
               { position := ⟨0, 1⟩, radius := 1/10 },
               { position := ⟨5, 0⟩, radius := 1/10 }],
    gatherers_ := [] }

/-- A provider whose gatherers all stand still, one of them on an item and with a radius
that covers the other items. -/
def standingProvider : ItemGathererProvider :=
  { items_ := [{ position := ⟨0, 0⟩, radius := 1/10 },
               { position := ⟨0, 1⟩, radius := 1/10 },
               { position := ⟨5, 0⟩, radius := 1/10 }],
    gatherers_ := [{ start_pos := ⟨0, 0⟩, end_pos := ⟨0, 0⟩, raduis := 10 },
                   { start_pos := ⟨5, 0⟩, end_pos := ⟨5, 0⟩, raduis := 3/5 }] }

end collision_detector

namespace app

open model

/-- The application `oneplayerApp` with its dog replaced by `restingDog`: dog 0 "Rex" of
"market" stands still at `(0,0)` with a holding time of 500 ms. -/
def restingApp : Application :=
  { oneplayerApp with
    game_ := { oneplayerApp.game_ with
      map_id_to_session_ := [("market", { officeSession with dogs_ := [restingDog] })] } }

end app

namespace model

open geom

/-- The unit vector of a direction; the y axis of the map points south. -/
def unitVector : Direction → PointDouble
  | Direction.NORTH => { x := 0, y := -1 }
  | Direction.SOUTH => { x := 0, y := 1 }
  | Direction.WEST => { x := -1, y := 0 }
  | Direction.EAST => { x := 1, y := 0 }

/-- The velocity of the dog is `(0,0)` or `s` times the unit vector of its direction. -/
def Dog.VelocityConsistent (dog : Dog) (s : ℚ) : Prop :=
  dog.speed_ = { x := 0, y := 0 } ∨
  dog.speed_ = { x := s * (unitVector dog.direction_).x, y := s * (unitVector dog.direction_).y }

/-- Every dog of the session has a velocity consistent with its direction and the dog
speed of the map of the session. -/
def GameSession.VelocityConsistent (s : GameSession) : Prop :=
  ∀ d ∈ s.dogs_, d.VelocityConsistent s.map_.dog_speed_

/-- The condition of the retirement scan of `OnTick`: the dog is stopped and its holding
period has reached the retirement time of the session. -/
def GameSession.dueToRetire (s : GameSession) (dog : Dog) : Bool :=
  dog.IsStoped && decide (dog.GetHoldingPeriod ≥ s.dog_retirement_time_)

/-- Three dogs on `marketMap` with a retirement time of 1000 ms: dog 0 walks east from
`(0,0)`, dog 1 has stood still at `(5,0)` for 900 ms and dog 2 at `(6,0)` for 100 ms. -/
def kennelSession : GameSession :=
  { GameSession.new (marketMap 3) 0 false 5000 (1 / 2) 1000 true 3 0 with
    dog_id_to_dog_ := [0, 1, 2],
    dogs_ := [marketDog 0 "Rex" 0 Direction.EAST,
              (Dog.mk_ 1 "Tuzik" ⟨5, 0⟩ Direction.NORTH ⟨0, 0⟩).AddTick 900,
              (Dog.mk_ 2 "Sharik" ⟨6, 0⟩ Direction.NORTH ⟨0, 0⟩).AddTick 100] }

end model

namespace app

open model

/-- Every session of the application has consistent velocities. -/
def Application.VelocityConsistent (a : Application) : Prop :=
  ∀ p ∈ a.game_.map_id_to_session_, p.2.VelocityConsistent

end app

namespace model

open geom

/-- The dogs of `kennelSession` after the motion phase of a tick of 200 ms: dog 0 has walked
to `(2/5, 0)`, dog 1 has stood still for 1100 ms and dog 2 for 300 ms. -/
def kennelMoved : List Dog :=
  [{ marketDog 0 "Rex" 0 Direction.EAST with
      coords_ := ⟨2 / 5, 0⟩, prev_coords_ := ⟨0, 0⟩, time_in_game_ := 200 },
   (Dog.mk_ 1 "Tuzik" ⟨5, 0⟩ Direction.NORTH ⟨0, 0⟩).AddTick 1100,
   (Dog.mk_ 2 "Sharik" ⟨6, 0⟩ Direction.NORTH ⟨0, 0⟩).AddTick 300]

end model

namespace model

open geom

/-- Three dogs and one loot object (id 0) on `marketMap`, with a loot generator of period
1 s and probability 1; the next loot id is 1. -/
def pressureSession : GameSession :=
  { GameSession.new (marketMap 3) 0 false 1000 1 60000 true 3 1 with
    dog_id_to_dog_ := [0, 1, 2],
    dogs_ := [marketDog 0 "Rex" 0 Direction.EAST, marketDog 1 "Tuzik" 2 Direction.WEST,
              marketDog 2 "Sharik" 4 Direction.EAST],
    loot_obj_id_to_obj_ := [(0, { id_ := 0, type_ := 0, worth_ := 10 })],
    loot_obj_id_to_coords_ := [(0, ⟨1, 0⟩)] }

/-- The draws of two spawns: type 1 at the fractions `(1/2, 1/4)` of the rectangle of road
0, then type 0 at the fractions `(1, 0)`. -/
def marketSpawn : ℕ → SpawnDraw := fun k =>
  if k = 0 then { type := 1, road_index := 0, fx := 1 / 2, fy := 1 / 4 }
  else { type := 0, road_index := 0, fx := 1, fy := 0 }

end model

namespace http_handler

/-- The C locale `isspace` that `strtoul` uses to skip leading white space: space, `\t`,
`\n`, `\v`, `\f`, `\r`. -/
def isspace (c : Char) : Bool :=
  decide (c.toNat = 32) || (decide (9 ≤ c.toNat) && decide (c.toNat ≤ 13))

/-- The value of a hexadecimal digit (`0-9`, `a-f`, `A-F`), if the character is one. -/
def xdigit (c : Char) : Option ℕ :=
  if 48 ≤ c.toNat ∧ c.toNat ≤ 57 then some (c.toNat - 48)
  else if 97 ≤ c.toNat ∧ c.toNat ≤ 102 then some (c.toNat - 87)
  else if 65 ≤ c.toNat ∧ c.toNat ≤ 70 then some (c.toNat - 55)
  else none

/-- The digit loop of `strtoul` in base 16: the longest run of hexadecimal digits; returns
the value and the number of digits. -/
def stoulDigits : List Char → ℕ → ℕ → ℕ × ℕ
  | [], v, n => (v, n)
  | c :: rest, v, n =>
    match xdigit c with
    | some d => stoulDigits rest (16 * v + d) (n + 1)
    | none => (v, n)

/-- The library function `std::stoul(str, &count, 16)`: `strtoul` skips leading white space,
takes an optional sign, an optional `0x`/`0X` prefix when a hexadecimal digit follows it,
and the longest run of hexadecimal digits. Returns the value (negated modulo `2^64` after a
minus sign) and `count`, the number of characters processed; `none` when it throws
(`invalid_argument` without a digit, `out_of_range` above `ULONG_MAX`). -/
def stoul (str : List Char) : Option (ℕ × ℕ) :=
  let s1 := str.dropWhile isspace
  let signed : Bool × List Char :=
    match s1 with
    | c :: r => if c = '+' then (false, r) else if c = '-' then (true, r) else (false, s1)
    | [] => (false, s1)
  let s2 := signed.2
  let s3 : List Char :=
    match s2 with
    | z :: x :: h :: r =>
      if z = '0' ∧ (x = 'x' ∨ x = 'X') ∧ (xdigit h).isSome then h :: r else s2
    | _ => s2
  let digits := stoulDigits s3 0 0
  if digits.2 = 0 then none
  else if digits.1 ≥ 2 ^ 64 then none
  else
    some (if signed.1 then (2 ^ 64 - digits.1) % 2 ^ 64 else digits.1,
      (str.length - s3.length) + digits.2)

/-- The constant `CHAR_MAX` of a platform with a signed 8-bit `char`. -/
def CHAR_MAX : ℕ := 127

/-- Embeds `DecodeURI(encoded)`, on the characters of the text: after a `%` the two next
characters go through `stoul`; `none` is `std::nullopt`. -/
def DecodeURI : List Char → Option (List Char)
  | [] => some []
  | c :: rest =>
    if c = '%' then
      match rest with
      | c1 :: c2 :: rest =>
        match stoul [c1, c2] with
        | none => none
        | some (v, count) =>
          if count ≠ 2 ∨ v > CHAR_MAX then none
          else (DecodeURI rest).map (fun decoded => Char.ofNat v :: decoded)
      | _ => none
    else (DecodeURI rest).map (fun decoded => (if c = '+' then ' ' else c) :: decoded)

/-- Every `%` of the text is followed by two hexadecimal digits of value at most 127. -/
def PercentsWellFormed (encoded : List Char) : Prop :=
  ∀ i, encoded[i]? = some '%' →
    ∃ x y a b, encoded[i + 1]? = some x ∧ encoded[i + 2]? = some y ∧
      xdigit x = some a ∧ xdigit y = some b ∧ 16 * a + b ≤ 127

end http_handler

namespace collision_detector

open geom

/-- The library function `std::iter_swap` on the positions `i` and `j` of a range. -/
def iterSwap (a : List GatheringEvent) (i j : ℕ) : List GatheringEvent :=
  match a[i]?, a[j]? with
  | some x, some y => (a.set i y).set j x
  | _, _ => a

/-- The function `__move_median_to_first(result, a, b, c, comp)` of the GNU C++ library:
swaps the median of the three positions to `result`; `none` for a position outside the
range. -/
def moveMedianToFirst (a : List GatheringEvent) (result ia ib ic : ℕ) :
    Option (List GatheringEvent) :=
  match a[ia]?, a[ib]?, a[ic]? with
  | some x, some y, some z =>
    some
      (if eventLess x y then
        (if eventLess y z then iterSwap a result ib
         else if eventLess x z then iterSwap a result ic
         else iterSwap a result ia)
       else if eventLess x z then iterSwap a result ia
       else if eventLess y z then iterSwap a result ic
       else iterSwap a result ib)
  | _, _, _ => none

/-- The loop `while (comp(first, pivot)) ++first` of `__unguarded_partition`; `none` when it
leaves the range. -/
def scanUp (a : List GatheringEvent) (pivot : GatheringEvent) : ℕ → ℕ → Option ℕ
  | 0, _ => none
  | fuel + 1, first =>
    match a[first]? with
    | none => none
    | some x => if eventLess x pivot then scanUp a pivot fuel (first + 1) else some first

/-- The loop `while (comp(pivot, last)) --last` of `__unguarded_partition`; `none` when it
leaves the range. -/
def scanDown (a : List GatheringEvent) (pivot : GatheringEvent) : ℕ → ℕ → Option ℕ
  | 0, _ => none
  | fuel + 1, last =>
    match a[last]? with
    | none => none
    | some x =>
      if eventLess pivot x then
        (if last = 0 then none else scanDown a pivot fuel (last - 1))
      else some last

/-- The function `__unguarded_partition(first, last, pivot, comp)` of the GNU C++ library:
returns the range and the cut. -/
def unguardedPartition : ℕ → List GatheringEvent → ℕ → ℕ → ℕ →
    Option (List GatheringEvent × ℕ)
  | 0, _, _, _, _ => none
  | fuel + 1, a, first, last, pivot =>
    match a[pivot]? with
    | none => none
    | some p =>
      match scanUp a p (a.length + 1) first with
      | none => none
      | some first =>
        if last = 0 then none
        else
          match scanDown a p (a.length + 1) (last - 1) with
          | none => none
          | some last =>
            if first < last then
              unguardedPartition fuel (iterSwap a first last) (first + 1) last pivot
            else some (a, first)

/-- The function `__unguarded_partition_pivot(first, last, comp)` of the GNU C++ library. -/
def unguardedPartitionPivot (a : List GatheringEvent) (first last : ℕ) :
    Option (List GatheringEvent × ℕ) :=
  let mid := first + (last - first) / 2
  match moveMedianToFirst a first (first + 1) mid (last - 1) with
  | none => none
  | some a => unguardedPartition (a.length + 1) a (first + 1) last first

/-- The function `__introsort_loop(first, last, depth_limit, comp)` of the GNU C++ library,
with `_S_threshold = 16`: ranges of more than 16 elements are partitioned around the median
of three. `none` when the depth limit is used up (the heap sort `__partial_sort` the
library then turns to is not embedded) or the fuel runs out. -/
def introsortLoop : ℕ → List GatheringEvent → ℕ → ℕ → ℕ → Option (List GatheringEvent)
  | 0, _, _, _, _ => none
  | fuel + 1, a, first, last, depth_limit =>
    if last - first > 16 then
      if depth_limit = 0 then none
      else
        match unguardedPartitionPivot a first last with
        | none => none
        | some (a, cut) =>
          match introsortLoop fuel a cut last (depth_limit - 1) with
          | none => none
          | some a => introsortLoop fuel a first cut (depth_limit - 1)
    else some a

/-- The call `std::sort(begin, end, comp)` as the GNU C++ library runs it (`__sort`):
`__introsort_loop` with the depth limit `2 * lg(n)`, then `__final_insertion_sort`, the
insertion sort `sortEvents`. On at most 16 elements it is `sortEvents` alone. -/
def gnuSort (events : List GatheringEvent) : Option (List GatheringEvent) :=
  if events = [] then some []
  else
    (introsortLoop (events.length + 1) events 0 events.length
      (Nat.log2 events.length * 2)).map sortEvents

/-- Embeds `FindGatherEvents(provider)` with `std::sort` as the GNU C++ library runs it. -/
def FindGatherEventsGnu (provider : ItemGathererProvider) : Option (List GatheringEvent) :=
  gnuSort (detectedEvents provider)

/-- The detection order of `FindGatherEvents`: by gatherer index and, for the same
gatherer, by item index. -/
def detectedBefore (lhs rhs : GatheringEvent) : Prop :=
  lhs.gatherer_id < rhs.gatherer_id ∨
  (lhs.gatherer_id = rhs.gatherer_id ∧ lhs.item_id < rhs.item_id)

instance detectedBefore.dec (lhs rhs : GatheringEvent) : Decidable (detectedBefore lhs rhs) := by
  unfold detectedBefore; infer_instance

/-- Two gatherers, from `(0,0)` to `(0,2)` and from `(1,1)` to `(-1,1)`, cross at `(0,1)`,
where two items lie. -/
def twinProvider : ItemGathererProvider :=
  { gatherers_ := [{ start_pos := ⟨0, 0⟩, end_pos := ⟨0, 2⟩, raduis := 3 / 5 },
                   { start_pos := ⟨1, 1⟩, end_pos := ⟨-1, 1⟩, raduis := 3 / 5 }],
    items_ := List.replicate 2 { position := ⟨0, 1⟩, radius := 0 } }

/-- One gatherer walks from `(0,0)` to `(0,2)` past 17 items that all lie at `(0,1)`: it
passes them at the same time, `1/2`. -/
def heapProvider : ItemGathererProvider :=
  { gatherers_ := [{ start_pos := ⟨0, 0⟩, end_pos := ⟨0, 2⟩, raduis := 3 / 5 }],
    items_ := List.replicate 17 { position := ⟨0, 1⟩, radius := 0 } }

end collision_detector

namespace model

open geom

/-- The tile lies in the tile ranges of the road on both axes. -/
def Road.CoversTile (road : Road) (tile : PointInt) : Prop :=
  road.GetRangeX.1 ≤ tile.x ∧ tile.x ≤ road.GetRangeX.2 ∧
  road.GetRangeY.1 ≤ tile.y ∧ tile.y ≤ road.GetRangeY.2

instance Road.decCoversTile (road : Road) (tile : PointInt) :
    Decidable (road.CoversTile tile) := by
  unfold Road.CoversTile; infer_instance

/-- The roads listed under a tile in the road index (none when the column is absent). -/
def roadsListed (index : CoordsToRoad) (tile : PointInt) : List Road :=
  (roadsAtTile index tile).getD []

/-- A map with two crossing roads, `(0,0) -> (3,0)` and `(2,-1) -> (2,2)`, the second built
from its far end. -/
def cornerMap : Map :=
  { id_ := "corner", name_ := "Corner",
    roads_ := [Road.HORIZONTAL ⟨0, 0⟩ 3, Road.VERTICAL ⟨2, 2⟩ (-1)],
    offices_ := [], dog_speed_ := 1, bag_capacity_ := 3, loot_types_worth_ := [1] }

/-- A session on `cornerMap`. -/
def cornerSession : GameSession := GameSession.new cornerMap 0 false 5000 (1 / 2) 60000 true 0 0

end model

namespace http_handler

/-- Embeds `ApiTokens::V1`. -/
def ApiTokens.V1 : String := "v1"

/-- Embeds `ApiTokens::JOIN`. -/
def ApiTokens.JOIN : String := "join"

/-- Embeds `ApiTokens::PLAYER`. -/
def ApiTokens.PLAYER : String := "player"

/-- Embeds `ApiTokens::PLAYERS`. -/
def ApiTokens.PLAYERS : String := "players"

/-- Embeds `ApiTokens::STATE`. -/
def ApiTokens.STATE : String := "state"

/-- Embeds `ApiTokens::ACTION`. -/
def ApiTokens.ACTION : String := "action"

/-- Embeds `ApiTokens::TICK`. -/
def ApiTokens.TICK : String := "tick"

/-- Embeds `ApiTokens::RECORDS`. -/
def ApiTokens.RECORDS : String := "records"

/-- The loop of `SplitIntoTokens(str, delimeter)`: `str` is the text from `pos` on (after
`find_first_not_of`), the token runs up to the next delimiter. -/
def splitLoop (delimeter : Char) : ℕ → List Char → List String
  | 0, _ => []
  | fuel + 1, str =>
    match str.dropWhile (fun c => decide (c = delimeter)) with
    | [] => []
    | c :: rest =>
      String.mk ((c :: rest).takeWhile (fun c => decide (c ≠ delimeter))) ::
        splitLoop delimeter fuel ((c :: rest).dropWhile (fun c => decide (c ≠ delimeter)))

/-- Embeds `SplitIntoTokens(str, delimeter)`: the queue of the maximal runs of characters
other than the delimiter, front first. -/
def SplitIntoTokens (str : String) (delimeter : Char) : List String :=
  splitLoop delimeter (str.length + 1) str.data

/-- The statements `front()` then `pop()` on the token queue; `none` on an empty queue,
where both are undefined. -/
def frontPop (req_tokens : List String) : Option (String × List String) :=
  match req_tokens with
  | [] => none
  | token :: rest => some (token, rest)

/-- The handler `HandleGameRequest` passes the request to, or the `BadRequest` error
response it returns itself. -/
inductive GameEndpoint where
  | BadRequest
  | PlayerJoin
  | Players
  | GameState
  | PlayerAction
  | Tick
  | Records (api_token : String)
deriving DecidableEq

/-- The end of `HandleGameRequest`, from the test of `ApiTokens::TICK` on. -/
def gameRequestTail (api_token : String) (req_tokens : List String) : GameEndpoint :=
  if api_token = ApiTokens.TICK ∧ req_tokens.isEmpty then GameEndpoint.Tick
  else if ApiTokens.RECORDS.data.isPrefixOf api_token.data then GameEndpoint.Records api_token
  else GameEndpoint.BadRequest

/-- Embeds `ApiHandler::HandleGameRequest(version)` on the token queue `req_tokens_`: returns
the handler the request is passed to; `none` when `front()` is called on an empty queue. -/
def HandleGameRequest (version : String) (req_tokens : List String) : Option GameEndpoint :=
  if version ≠ ApiTokens.V1 then some GameEndpoint.BadRequest
  else if req_tokens.isEmpty then some GameEndpoint.BadRequest
  else
    match frontPop req_tokens with
    | none => none
    | some (api_token, req_tokens) =>
      if api_token = ApiTokens.JOIN ∧ req_tokens.isEmpty then some GameEndpoint.PlayerJoin
      else if api_token = ApiTokens.PLAYERS ∧ req_tokens.isEmpty then some GameEndpoint.Players
      else if api_token = ApiTokens.STATE ∧ req_tokens.isEmpty then some GameEndpoint.GameState
      else if api_token = ApiTokens.PLAYER then
        match frontPop req_tokens with
        | none => none
        | some (api_token, req_tokens) =>
          if api_token = ApiTokens.ACTION ∧ req_tokens.isEmpty then
            some GameEndpoint.PlayerAction
          else some (gameRequestTail api_token req_tokens)
      else some (gameRequestTail api_token req_tokens)

end http_handler

namespace model

open geom

/-- A call made on a session: a join through `NewDog`, or a tick. -/
inductive SessionCall where
  | join (name : String) (d : SpawnDraw)
  | tick (dt : ℕ) (draw : ℕ → ℚ) (spawn : ℕ → SpawnDraw)

/-- A sequence of calls on a session; returns the session and the ids `NewDog` gave to the
dogs that joined, in the order of the joins; `none` when a call throws. -/
def runSession : GameSession → List SessionCall → Option (GameSession × List ℕ)
  | s, [] => some (s, [])
  | s, SessionCall.join name d :: rest =>
    match s.NewDog name d with
    | none => none
    | some (s, id) =>
      match runSession s rest with
      | none => none
      | some (s, ids) => some (s, id :: ids)
  | s, SessionCall.tick dt draw spawn :: rest =>
    match s.OnTick dt draw spawn with
    | none => none
    | some (s, _) => runSession s rest

end model

namespace model

open geom

/-- The ids of the loot objects in the bags of the dogs. -/
def bagIds : List Dog → List ℕ
  | [] => []
  | dog :: rest => dog.bagpack_.map (fun obj => obj.id_) ++ bagIds rest

/-- The loot ids of a session: the keys of the id->object map, then the ids in the bags. -/
def GameSession.lootIds (s : GameSession) : List ℕ :=
  s.loot_obj_id_to_obj_.map Prod.fst ++ bagIds s.dogs_

/-- The loot bookkeeping of a session is in order: the id->object map and the id->coords map
have the same keys, every stored object has its key as id, and the loot ids on the map and
in the bags are pairwise distinct and below `objects_spawned_`. -/
def GameSession.LootBookkeeping (s : GameSession) : Prop :=
  (∀ p ∈ s.loot_obj_id_to_obj_, (umap.find s.loot_obj_id_to_coords_ p.1).isSome = true) ∧
  (∀ p ∈ s.loot_obj_id_to_coords_, (umap.find s.loot_obj_id_to_obj_ p.1).isSome = true) ∧
  (∀ p ∈ s.loot_obj_id_to_obj_, p.2.id_ = p.1) ∧
  s.lootIds.Nodup ∧
  (∀ id ∈ s.lootIds, id < s.objects_spawned_)

instance (s : GameSession) : Decidable s.LootBookkeeping := by
  unfold GameSession.LootBookkeeping; infer_instance

end model

/-! ## Machine arithmetic: `size_t` and `double`

The embedding above computes with exact rationals and unbounded naturals. This section
embeds the arithmetic of the compiled program for the functions where the difference
shows: `size_t` values are 64-bit unsigned integers whose sums wrap around modulo `2 ^ 64`,
and every operation on `double` values is rounded to the nearest binary64 value, ties to
even. Values of type `double` are taken to be finite: overflow to an infinity and NaN are
not modelled. -/

namespace model

namespace machine

open geom

/-- The sum of two `size_t` values: 64-bit unsigned, modulo `2 ^ 64`. -/
def addSize (a b : ℕ) : ℕ := (a + b) % 2 ^ 64

/-- The power `2 ^ e` of an integer exponent, as a rational. -/
def pow2 (e : ℤ) : ℚ :=
  if 0 ≤ e then ((2 ^ e.toNat : ℕ) : ℚ) else 1 / ((2 ^ (-e).toNat : ℕ) : ℚ)

/-- The integer nearest to `q`, the even one of the two when `q` lies half way. -/
def roundTiesToEven (q : ℚ) : ℤ :=
  let f := ⌊q⌋
  if q - (f : ℚ) < 1 / 2 then f
  else if 1 / 2 < q - (f : ℚ) then f + 1
  else if f % 2 = 0 then f else f + 1

/-- The position of the highest set bit of `n` (0 for `n < 2`), found by halving `n`; the
first argument bounds the number of halvings. -/
def highBit : ℕ → ℕ → ℕ
  | 0, _ => 0
  | fuel + 1, n => if n < 2 then 0 else highBit fuel (n / 2) + 1

/-- The binary exponent of a rational `q ≠ 0`: the `e` with `2 ^ e ≤ |q| < 2 ^ (e + 1)`. -/
def exponent (q : ℚ) : ℤ :=
  let e : ℤ := (highBit q.num.natAbs q.num.natAbs : ℤ) - (highBit q.den q.den : ℤ)
  if pow2 e ≤ |q| then e else e - 1

/-- The binary64 value nearest to `q` (53 significant bits, ties to even, subnormal below
`2 ^ (-1022)`): the result of an operation of type `double` whose exact value is `q`. -/
def fl (q : ℚ) : ℚ :=
  if q = 0 then 0
  else
    let ulp := pow2 (max (exponent q) (-1022) - 52)
    (roundTiesToEven (q / ulp) : ℚ) * ulp

/-- Embeds `ROAD_SIDE = 0.4` as the `double` of the literal. -/
def ROAD_SIDE : ℚ := fl (2 / 5)

/-- Embeds `Road::GetAbsDimentions`: the rectangle computed by `CalculateDimentions` in
`double` arithmetic from the `int` ranges. -/
def GetAbsDimentions (road : Road) : Rect :=
  { p1 := { x := fl ((road.GetRangeX.1 : ℚ) - ROAD_SIDE),
            y := fl ((road.GetRangeY.1 : ℚ) - ROAD_SIDE) },
    p2 := { x := fl ((road.GetRangeX.2 : ℚ) + ROAD_SIDE),
            y := fl ((road.GetRangeY.2 : ℚ) + ROAD_SIDE) } }

/-- Embeds `PointDouble::operator+`. -/
def add (lhs rhs : PointDouble) : PointDouble :=
  { x := fl (lhs.x + rhs.x), y := fl (lhs.y + rhs.y) }

/-- The displacement `dp = speed * tick / TIME_FACTOR` computed by `Move` in `double`
arithmetic. -/
def displacement (dog : Dog) (tick : ℕ) : PointDouble :=
  { x := fl (fl (dog.speed_.x * fl (tick : ℚ)) / fl (TIME_FACTOR : ℚ)),
    y := fl (fl (dog.speed_.y * fl (tick : ℚ)) / fl (TIME_FACTOR : ℚ)) }

/-- Embeds `Dog::DropBagpackContent`: `std::accumulate` of the worths onto the score in
`size_t` arithmetic, then `clear`. -/
def DropBagpackContent (dog : Dog) : Dog :=
  { dog with
    score_ := dog.bagpack_.foldl (fun lhs rhs => addSize lhs rhs.GetWorth) dog.score_,
    bagpack_ := [] }

/-- Embeds `GameSession::HandleLootDrop(dog)`. -/
def HandleLootDrop (s : GameSession) (g : ℕ) : GameSession :=
  match s.dogs_[g]? with
  | none => s
  | some dog => { s with dogs_ := s.dogs_.set g (DropBagpackContent dog) }

/-- Embeds `Dog::AddTick`, `+=` on `size_t`. -/
def AddTick (dog : Dog) (tick : ℕ) : Dog :=
  if dog.IsStoped then
    { dog with time_in_game_ := addSize dog.time_in_game_ tick,
               holding_time_ := addSize dog.holding_time_ tick }
  else
    { dog with time_in_game_ := addSize dog.time_in_game_ tick }

/-- Embeds `PossibleMoveDist`. -/
def PossibleMoveDist (frm : PointDouble) (road : Road) (dir : Direction) : ℚ :=
  match dir with
  | .NORTH => fl ((GetAbsDimentions road).p1.y - frm.y)
  | .SOUTH => fl ((GetAbsDimentions road).p2.y - frm.y)
  | .WEST => fl ((GetAbsDimentions road).p1.x - frm.x)
  | .EAST => fl ((GetAbsDimentions road).p2.x - frm.x)

/-- Embeds `RoundRoadCoord`. -/
def RoundRoadCoord (coord : ℚ) : ℤ :=
  if fl (coord - (⌊coord⌋ : ℚ)) < 1 / 2 then ⌊coord⌋ else ⌈coord⌉

/-- Embeds `RoundRoadCoords`. -/
def RoundRoadCoords (coords : PointDouble) : PointInt :=
  { x := RoundRoadCoord coords.x, y := RoundRoadCoord coords.y }

/-- The loop of `Move` over the candidate roads, with `best_dist` as accumulator. -/
def bestDist (frm : PointDouble) (dir : Direction) : List Road → ℚ → ℚ
  | [], best_dist => best_dist
  | road :: rest, best_dist =>
    let dist := PossibleMoveDist frm road dir
    if |dist| > |best_dist| then bestDist frm dir rest dist
    else bestDist frm dir rest best_dist

/-- Embeds `GameSession::Move(dog, delta_t)`, with `tick = delta_t.count()`, in the
arithmetic of the program; `none` when the road lookup throws. In
`speed * tick / TIME_FACTOR` the two `size_t` operands are converted to `double`. -/
def Move (s : GameSession) (dog : Dog) (tick : ℕ) : Option Dog :=
  let dog := AddTick dog tick
  if dog.IsStoped then some dog
  else
    let road_coords := RoundRoadCoords dog.coords_
    let direction := dog.direction_
    match roadsAtTile s.coords_to_roads_ road_coords with
    | none => none
    | some roads =>
      let dp : PointDouble :=
        { x := fl (fl (dog.speed_.x * fl (tick : ℚ)) / fl (TIME_FACTOR : ℚ)),
          y := fl (fl (dog.speed_.y * fl (tick : ℚ)) / fl (TIME_FACTOR : ℚ)) }
      let best_dist := bestDist dog.coords_ direction roads 0
      let border : Bool :=
        if direction = Direction.WEST ∨ direction = Direction.EAST then
          decide (|best_dist| ≤ |dp.x|)
        else decide (|best_dist| ≤ |dp.y|)
      if border then
        let dp : PointDouble :=
          { x := if direction = Direction.WEST ∨ direction = Direction.EAST then best_dist
                 else dp.x,
            y := if direction = Direction.NORTH ∨ direction = Direction.SOUTH then best_dist
                 else dp.y }
        let dog := dog.Stop
        some (dog.SetCoorginates (add dog.coords_ dp))
      else
        some (dog.SetCoorginates (add dog.coords_ dp))

end machine

end model

namespace app

open model

/-- A map without roads, as the loader builds it from a configuration with `"roads": []`. -/
def bareMap : Map :=
  { id_ := "bare", name_ := "Bare", roads_ := [], offices_ := [],
    dog_speed_ := 1, bag_capacity_ := 3, loot_types_worth_ := [1] }

/-- An application right after start on a game whose only map, "bare", has no road. -/
def bareApp (random_spawn : Bool) : Application :=
  { game_ :=
      { maps_ := [bareMap], map_id_to_index_ := [("bare", 0)],
        map_id_to_session_ := [], last_session_index_ := 0,
        random_spawn_ := random_spawn, loot_generator_period_ := 5000,
        loot_generator_probability_ := 1 / 2, dog_retirement_time_ := 60000,
        do_on_retire_ := true },
    players_ := [],
    player_tokens_ := { token_to_player_ := [], player_to_token_ := [] },
    time_ticker_used_ := false, retired_players_ := [] }

end app

/-! # Theorems -/

/-! ## Theorems: collision engine -/

namespace collision_detector

open geom

theorem is_points_equal_iff (p1 p2 : PointDouble) :
    is_points_equal p1 p2 = true ↔ p1 = p2 := by
  cases p1; cases p2
  simp [is_points_equal]

theorem sortInsert_perm (e : GatheringEvent) (l : List GatheringEvent) :
    (sortInsert e l).Perm (e :: l) := by
  induction l with
  | nil => simp [sortInsert]
  | cons x xs ih =>
    unfold sortInsert
    split
    · exact List.Perm.refl _
    · exact (List.Perm.cons x ih).trans (List.Perm.swap e x xs)

theorem foldl_sortInsert_perm (l acc : List GatheringEvent) :
    (l.foldl (fun acc e => sortInsert e acc) acc).Perm (l ++ acc) := by
  induction l generalizing acc with
  | nil => simp
  | cons x xs ih =>
    simp only [List.foldl_cons, List.cons_append]
    refine (ih (sortInsert x acc)).trans ?_
    exact (List.Perm.append_left xs (sortInsert_perm x acc)).trans
      List.perm_middle

theorem sortEvents_perm (l : List GatheringEvent) : (sortEvents l).Perm l := by
  have h := foldl_sortInsert_perm l []
  simpa [sortEvents] using h

theorem mem_sortEvents (e : GatheringEvent) (l : List GatheringEvent) :
    e ∈ sortEvents l ↔ e ∈ l :=
  (sortEvents_perm l).mem_iff

theorem sortInsert_sorted (e : GatheringEvent) (l : List GatheringEvent)
    (h : l.Pairwise (fun a b => a.time ≤ b.time)) :
    (sortInsert e l).Pairwise (fun a b => a.time ≤ b.time) := by
  induction l with
  | nil => simp [sortInsert]
  | cons x xs ih =>
    rw [List.pairwise_cons] at h
    unfold sortInsert
    split
    · rename_i hlt
      have hlt2 : e.time < x.time := by simpa [eventLess] using hlt
      refine List.pairwise_cons.2 ⟨?_, List.pairwise_cons.2 h⟩
      intro a ha
      rcases List.mem_cons.1 ha with rfl | ha
      · exact le_of_lt hlt2
      · exact le_trans (le_of_lt hlt2) (h.1 a ha)
    · rename_i hlt
      have hge : x.time ≤ e.time := by
        have : ¬ e.time < x.time := by simpa [eventLess] using hlt
        exact not_lt.1 this
      refine List.pairwise_cons.2 ⟨?_, ih h.2⟩
      intro a ha
      rcases List.mem_cons.1 ((sortInsert_perm e xs).mem_iff.1 ha) with rfl | ha
      · exact hge
      · exact h.1 a ha

theorem foldl_sortInsert_sorted (l acc : List GatheringEvent)
    (h : acc.Pairwise (fun a b => a.time ≤ b.time)) :
    (l.foldl (fun acc e => sortInsert e acc) acc).Pairwise (fun a b => a.time ≤ b.time) := by
  induction l generalizing acc with
  | nil => simpa using h
  | cons x xs ih => exact ih _ (sortInsert_sorted x acc h)

theorem sortEvents_sorted (l : List GatheringEvent) :
    (sortEvents l).Pairwise (fun a b => a.time ≤ b.time) :=
  foldl_sortInsert_sorted l [] List.Pairwise.nil

theorem collectItems_cons (gatherer : Gatherer) (g i : ℕ) (item : Item) (rest : List Item) :
    collectItems gatherer g i (item :: rest) =
      if (TryCollectPoint gatherer.start_pos gatherer.end_pos item.position).IsCollected
          (gatherer.raduis + item.radius) = true then
        { item_id := i, gatherer_id := g,
          sq_distance :=
            (TryCollectPoint gatherer.start_pos gatherer.end_pos item.position).sq_distance,
          time := (TryCollectPoint gatherer.start_pos gatherer.end_pos item.position).proj_ratio }
          :: collectItems gatherer g (i + 1) rest
      else collectItems gatherer g (i + 1) rest := rfl

theorem mem_collectItems (gatherer : Gatherer) (g : ℕ) (e : GatheringEvent) (i : ℕ)
    (items : List Item) :
    e ∈ collectItems gatherer g i items ↔
      ∃ k item, items[k]? = some item ∧ e.item_id = i + k ∧ e.gatherer_id = g ∧
        e.sq_distance =
          (TryCollectPoint gatherer.start_pos gatherer.end_pos item.position).sq_distance ∧
        e.time = (TryCollectPoint gatherer.start_pos gatherer.end_pos item.position).proj_ratio ∧
        (TryCollectPoint gatherer.start_pos gatherer.end_pos item.position).IsCollected
          (gatherer.raduis + item.radius) = true := by
  induction items generalizing i with
  | nil => simp [collectItems]
  | cons item rest ih =>
    have step : (∃ k item', (item :: rest)[k]? = some item' ∧ e.item_id = i + k ∧
          e.gatherer_id = g ∧
          e.sq_distance =
            (TryCollectPoint gatherer.start_pos gatherer.end_pos item'.position).sq_distance ∧
          e.time =
            (TryCollectPoint gatherer.start_pos gatherer.end_pos item'.position).proj_ratio ∧
          (TryCollectPoint gatherer.start_pos gatherer.end_pos item'.position).IsCollected
            (gatherer.raduis + item'.radius) = true) ↔
        ((e.item_id = i ∧ e.gatherer_id = g ∧
          e.sq_distance =
            (TryCollectPoint gatherer.start_pos gatherer.end_pos item.position).sq_distance ∧
          e.time =
            (TryCollectPoint gatherer.start_pos gatherer.end_pos item.position).proj_ratio ∧
          (TryCollectPoint gatherer.start_pos gatherer.end_pos item.position).IsCollected
            (gatherer.raduis + item.radius) = true) ∨
         e ∈ collectItems gatherer g (i + 1) rest) := by
      rw [ih (i + 1)]
      constructor
      · rintro ⟨k, item', hk, hid, hrest⟩
        cases k with
        | zero =>
          simp only [List.getElem?_cons_zero, Option.some.injEq] at hk
          subst hk
          exact Or.inl ⟨by simpa using hid, hrest⟩
        | succ k =>
          simp only [List.getElem?_cons_succ] at hk
          exact Or.inr ⟨k, item', hk, by omega, hrest⟩
      · rintro (⟨hid, hrest⟩ | ⟨k, item', hk, hid, hrest⟩)
        · exact ⟨0, item, by simp, by simpa using hid, hrest⟩
        · exact ⟨k + 1, item', by simpa using hk, by omega, hrest⟩
    rw [step, collectItems_cons]
    by_cases hc : (TryCollectPoint gatherer.start_pos gatherer.end_pos item.position).IsCollected
        (gatherer.raduis + item.radius) = true
    · simp only [hc, if_true, List.mem_cons]
      constructor
      · rintro (rfl | h)
        · exact Or.inl ⟨rfl, rfl, rfl, rfl, trivial⟩
        · exact Or.inr h
      · rintro (⟨h1, h2, h3, h4, _⟩ | h)
        · left
          cases e
          simp_all
        · exact Or.inr h
    · simp only [hc, if_false]
      constructor
      · intro h; exact Or.inr h
      · rintro (⟨_, _, _, _, h5⟩ | h)
        · exact absurd h5 (by simp)
        · exact h

end collision_detector

namespace collision_detector

open geom

theorem mem_collectGatherers (items : List Item) (e : GatheringEvent) (g : ℕ)
    (gs : List Gatherer) :
    e ∈ collectGatherers items g gs ↔
      ∃ k gatherer, gs[k]? = some gatherer ∧ e.gatherer_id = g + k ∧
        gatherer.start_pos ≠ gatherer.end_pos ∧
        e ∈ collectItems gatherer (g + k) 0 items := by
  induction gs generalizing g with
  | nil => simp [collectGatherers]
  | cons gatherer rest ih =>
    have hid : ∀ (gt : Gatherer) (n : ℕ), e ∈ collectItems gt n 0 items → e.gatherer_id = n := by
      intro gt n h
      obtain ⟨_, _, _, _, h3, _⟩ := (mem_collectItems gt n e 0 items).1 h
      exact h3
    have key : e ∈ collectGatherers items g (gatherer :: rest) ↔
        ((gatherer.start_pos ≠ gatherer.end_pos ∧ e ∈ collectItems gatherer g 0 items) ∨
          e ∈ collectGatherers items (g + 1) rest) := by
      by_cases heq : gatherer.start_pos = gatherer.end_pos
      · have hb : is_points_equal gatherer.start_pos gatherer.end_pos = true :=
          (is_points_equal_iff _ _).2 heq
        rw [collectGatherers, if_pos hb]
        simp [heq]
      · have hb : is_points_equal gatherer.start_pos gatherer.end_pos = false := by
          cases hbb : is_points_equal gatherer.start_pos gatherer.end_pos
          · rfl
          · exact absurd ((is_points_equal_iff _ _).1 hbb) heq
        simp [collectGatherers, hb, heq]
    rw [key, ih (g + 1)]
    constructor
    · rintro (⟨hne, hmem⟩ | ⟨k, gt, hk, hg, hne, hmem⟩)
      · exact ⟨0, gatherer, by simp, by simpa using hid _ _ hmem, hne, by simpa using hmem⟩
      · refine ⟨k + 1, gt, by simpa using hk, by omega, hne, ?_⟩
        have : g + (k + 1) = g + 1 + k := by omega
        rw [this]; exact hmem
    · rintro ⟨k, gt, hk, hg, hne, hmem⟩
      cases k with
      | zero =>
        simp only [List.getElem?_cons_zero, Option.some.injEq] at hk
        subst hk
        exact Or.inl ⟨hne, by simpa using hmem⟩
      | succ k =>
        simp only [List.getElem?_cons_succ] at hk
        refine Or.inr ⟨k, gt, hk, by omega, hne, ?_⟩
        have : g + 1 + k = g + (k + 1) := by omega
        rw [this]; exact hmem

theorem mem_detectedEvents (p : ItemGathererProvider) (e : GatheringEvent) :
    e ∈ detectedEvents p ↔
      ∃ gatherer item, p.gatherers_[e.gatherer_id]? = some gatherer ∧
        p.items_[e.item_id]? = some item ∧
        gatherer.start_pos ≠ gatherer.end_pos ∧
        e.sq_distance =
          (TryCollectPoint gatherer.start_pos gatherer.end_pos item.position).sq_distance ∧
        e.time = (TryCollectPoint gatherer.start_pos gatherer.end_pos item.position).proj_ratio ∧
        (TryCollectPoint gatherer.start_pos gatherer.end_pos item.position).IsCollected
          (gatherer.raduis + item.radius) = true := by
  unfold detectedEvents
  rw [mem_collectGatherers]
  constructor
  · rintro ⟨k, gatherer, hk, hg, hne, hmem⟩
    obtain ⟨i, item, hi, hid, _, hd, ht, hc⟩ := (mem_collectItems _ _ _ _ _).1 hmem
    simp only [Nat.zero_add] at hg hid
    exact ⟨gatherer, item, by rw [hg]; exact hk, by rw [hid]; exact hi, hne, hd, ht, hc⟩
  · rintro ⟨gatherer, item, hg, hi, hne, hd, ht, hc⟩
    refine ⟨e.gatherer_id, gatherer, hg, by simp, hne, ?_⟩
    exact (mem_collectItems _ _ _ _ _).2 ⟨e.item_id, item, hi, by simp, by simp, hd, ht, hc⟩

/-- C1: `FindGatherEvents` equals its reference definition. For every provider, an event is
in the result if and only if its gatherer has `start ≠ end` and, with `u = item.position -
start`, `v = end - start`, its time is `(u·v)/|v|²`, its squared distance is
`|u|² - (u·v)²/|v|²`, `0 ≤ time ≤ 1` and `sq_distance ≤ (gatherer.radius + item.radius)²`
(exact rational arithmetic). The gatherer `(0,0) -> (0,2)` with the item `(0.2, 1)` gives
exactly one event, with time `0.5` and squared distance `0.04`. -/
theorem FindGatherEvents_eq_reference :
    (∀ (provider : ItemGathererProvider) (e : GatheringEvent),
      e ∈ FindGatherEvents provider ↔ IsReferenceEvent provider e) ∧
    FindGatherEvents singleItemProvider =
      [{ item_id := 0, gatherer_id := 0, sq_distance := 1/25, time := 1/2 }] := by
  refine ⟨?_, by decide!⟩
  intro p e
  unfold FindGatherEvents IsReferenceEvent
  rw [mem_sortEvents, mem_detectedEvents]
  constructor
  · rintro ⟨gatherer, item, hg, hi, hne, hd, ht, hc⟩
    refine ⟨gatherer, item, hg, hi, hne, ?_, ?_, ?_⟩
    · rw [ht]; simp only [TryCollectPoint]; ring
    · rw [hd]; simp only [TryCollectPoint]; ring
    · simp only [CollectionResult.IsCollected, Bool.and_eq_true, decide_eq_true_eq, ge_iff_le]
        at hc
      rw [ht, hd]
      refine ⟨hc.1.1, hc.1.2, ?_⟩
      have := hc.2
      rw [pow_two]; exact this
  · rintro ⟨gatherer, item, hg, hi, hne, ht, hd, h0, h1, hr⟩
    have ht2 : e.time =
        (TryCollectPoint gatherer.start_pos gatherer.end_pos item.position).proj_ratio := by
      rw [ht]; simp only [TryCollectPoint]; ring
    have hd2 : e.sq_distance =
        (TryCollectPoint gatherer.start_pos gatherer.end_pos item.position).sq_distance := by
      rw [hd]; simp only [TryCollectPoint]; ring
    refine ⟨gatherer, item, hg, hi, hne, hd2, ht2, ?_⟩
    simp only [CollectionResult.IsCollected, Bool.and_eq_true, decide_eq_true_eq, ge_iff_le]
    rw [← ht2, ← hd2]
    refine ⟨⟨h0, h1⟩, ?_⟩
    rw [← pow_two]; exact hr

/-- C2: the list returned by `FindGatherEvents` is ordered by non-decreasing time: every
event is no later than the event that follows it, also when the two come from different
gatherers. The gatherer `(0,0) -> (0,5)` with items `(0,-1)`, `(0,3)`, `(0.1,2)`, `(-0.2,1)`
yields the events of items 3, 2, 1 in that order, with times `0.2`, `0.4`, `0.6`. -/
theorem FindGatherEvents_sorted_by_time :
    (∀ (provider : ItemGathererProvider) (k : ℕ) (e1 e2 : GatheringEvent),
      (FindGatherEvents provider)[k]? = some e1 →
      (FindGatherEvents provider)[k + 1]? = some e2 → e1.time ≤ e2.time) ∧
    (∀ provider : ItemGathererProvider,
      (FindGatherEvents provider).Pairwise (fun a b => a.time ≤ b.time)) ∧
    FindGatherEvents rowProvider =
      [{ item_id := 3, gatherer_id := 0, sq_distance := 1/25, time := 1/5 },
       { item_id := 2, gatherer_id := 0, sq_distance := 1/100, time := 2/5 },
       { item_id := 1, gatherer_id := 0, sq_distance := 0, time := 3/5 }] := by
  refine ⟨?_, fun p => sortEvents_sorted _, by decide!⟩
  intro p k e1 e2 h1 h2
  have hs : (FindGatherEvents p).Pairwise (fun a b => a.time ≤ b.time) := sortEvents_sorted _
  rw [List.pairwise_iff_getElem] at hs
  obtain ⟨hk1, rfl⟩ := List.getElem?_eq_some.1 h1
  obtain ⟨hk2, rfl⟩ := List.getElem?_eq_some.1 h2
  exact hs k (k + 1) hk1 hk2 (Nat.lt_succ_self k)

end collision_detector

/-! ## Theorems: motion -/

namespace model

open geom collision_detector

theorem AddTick_of_moving (dog : Dog) (tick : ℕ) (h : dog.IsStoped = false) :
    dog.AddTick tick = { dog with time_in_game_ := dog.time_in_game_ + tick } := by
  simp [Dog.AddTick, h]

/-- C3 (the code breaks it): containment is not preserved by the tick. On a map with a
horizontal road `(0,0) -> (10,0)` and a vertical road `(5,0) -> (5,10)`, a dog that joined
and was steered south, east and south again stands at `(5.45, 0.3)`: inside the horizontal
road, with a velocity set by `MovePlayer`. Its rounded tile `(5, 0)` also lists the vertical
road, whose far edge `Move` picks; after `OnTick(1000 ms)` the dog is at `(5.45, 1.3)`,
inside no road of the map. -/
theorem OnTick_breaks_containment_off_axis :
    crossTrace = some crossSession ∧
    (∀ d ∈ crossSession.dogs_,
      crossSession.map_.OnRoads d.coords_ ∧ d.VelocitySetByPlayer crossSession.map_) ∧
    crossSession.OnTick 1000 quietDraw originSpawn = some (crossAfter, []) ∧
    crossAfter.map_ = crossMap ∧
    crossAfter.dogs_.map (fun d => (d.id_, d.coords_)) = [(0, ⟨109 / 20, 13 / 10⟩)] ∧
    ¬ crossMap.OnRoads ⟨109 / 20, 13 / 10⟩ ∧
    ¬ (∀ (s s' : GameSession) (tick : ℕ) (draw : ℕ → ℚ) (spawn : ℕ → SpawnDraw)
        (calls : List (ℕ × String)),
        (∀ d ∈ s.dogs_, s.map_.OnRoads d.coords_ ∧ d.VelocitySetByPlayer s.map_) →
        s.OnTick tick draw spawn = some (s', calls) →
        ∀ d ∈ s'.dogs_, s'.map_.OnRoads d.coords_) := by
  have hpre : ∀ d ∈ crossSession.dogs_,
      crossSession.map_.OnRoads d.coords_ ∧ d.VelocitySetByPlayer crossSession.map_ := by
    decide!
  have htick : crossSession.OnTick 1000 quietDraw originSpawn = some (crossAfter, []) := by
    decide!
  have hoff : ∃ d ∈ crossAfter.dogs_, ¬ crossAfter.map_.OnRoads d.coords_ := by decide!
  refine ⟨by decide!, hpre, htick, by decide!, by decide!, by decide!, fun hall => ?_⟩
  obtain ⟨d, hd, hnot⟩ := hoff
  exact hnot (hall crossSession crossAfter 1000 quietDraw originSpawn [] hpre htick d hd)

end model

/-! ## Theorems: the tick and the dogs -/

namespace model

open geom collision_detector

theorem AddTick_cargo (dog : Dog) (tick : ℕ) :
    (dog.AddTick tick).id_ = dog.id_ ∧ (dog.AddTick tick).bagpack_ = dog.bagpack_ ∧
    (dog.AddTick tick).score_ = dog.score_ := by
  unfold Dog.AddTick
  split <;> exact ⟨rfl, rfl, rfl⟩

theorem ite_some_eq_cases (c : Prop) [Decidable c] (a b x : Dog)
    (h : (if c then some a else some b) = some x) : x = a ∨ x = b := by
  split at h
  · exact Or.inl (Option.some.inj h).symm
  · exact Or.inr (Option.some.inj h).symm

theorem Move_cargo (s : GameSession) (dog dog' : Dog) (tick : ℕ)
    (h : s.Move dog tick = some dog') :
    dog'.id_ = dog.id_ ∧ dog'.bagpack_ = dog.bagpack_ ∧ dog'.score_ = dog.score_ := by
  obtain ⟨h1, h2, h3⟩ := AddTick_cargo dog tick
  unfold GameSession.Move at h
  simp only at h
  cases hst : (dog.AddTick tick).IsStoped with
  | true =>
    simp only [hst, if_true, Option.some.injEq] at h
    subst h; exact ⟨h1, h2, h3⟩
  | false =>
    simp only [hst, Bool.false_eq_true, if_false] at h
    cases hr : roadsAtTile s.coords_to_roads_ (RoundRoadCoords (dog.AddTick tick).coords_) with
    | none => simp [hr] at h
    | some roads =>
      simp only [hr] at h
      rcases ite_some_eq_cases _ _ _ _ h with e | e <;> subst e <;> exact ⟨h1, h2, h3⟩

theorem moveDogs_forall₂ (s : GameSession) (tick : ℕ) (R : Dog → Dog → Prop)
    (hR : ∀ d d', d'.id_ = d.id_ → d'.bagpack_ = d.bagpack_ → d'.score_ = d.score_ → R d d')
    (dogs dogs' : List Dog) (retire : List ℕ)
    (h : s.moveDogs tick dogs = some (dogs', retire)) :
    List.Forall₂ R dogs dogs' := by
  induction dogs generalizing dogs' retire with
  | nil =>
    simp only [GameSession.moveDogs, Option.some.injEq, Prod.mk.injEq] at h
    rw [← h.1]; exact List.Forall₂.nil
  | cons dog rest ih =>
    unfold GameSession.moveDogs at h
    cases hm : s.Move dog tick with
    | none => simp [hm] at h
    | some dog1 =>
      cases hr : s.moveDogs tick rest with
      | none => simp [hm, hr] at h
      | some pr =>
        obtain ⟨rest', retire'⟩ := pr
        simp only [hm, hr, Option.some.injEq, Prod.mk.injEq] at h
        rw [← h.1]
        obtain ⟨c1, c2, c3⟩ := Move_cargo s dog dog1 tick hm
        exact List.Forall₂.cons (hR _ _ c1 c2 c3) (ih rest' retire' hr)

theorem retireLoop_sublist (b : Bool) (m : String) (ids index : List ℕ) (dogs : List Dog)
    (index' : List ℕ) (dogs' : List Dog) (calls : List (ℕ × String))
    (h : retireLoop b m ids index dogs = some (index', dogs', calls)) :
    dogs'.Sublist dogs := by
  induction ids generalizing index dogs index' dogs' calls with
  | nil =>
    simp only [retireLoop, Option.some.injEq, Prod.mk.injEq] at h
    rw [← h.2.1]
  | cons id rest ih =>
    unfold retireLoop at h
    split at h
    · cases h
    · split at h
      · cases h
      · split at h
        · cases h
        · rename_i i2 d2 c2 heq
          simp only [Option.some.injEq, Prod.mk.injEq] at h
          rw [← h.2.1]
          exact (ih _ _ _ _ _ heq).trans (List.eraseP_sublist _)

theorem forall₂_set_of_rel (R : Dog → Dog → Prop) (hrefl : ∀ d, R d d) (l : List Dog) (g : ℕ)
    (d x : Dog) (hg : l[g]? = some d) (hx : R d x) : List.Forall₂ R l (l.set g x) := by
  induction l generalizing g with
  | nil => simp at hg
  | cons a rest ih =>
    cases g with
    | zero =>
      simp only [List.getElem?_cons_zero, Option.some.injEq] at hg
      subst hg
      exact List.Forall₂.cons hx (List.forall₂_same.2 (fun d _ => hrefl d))
    | succ g =>
      simp only [List.getElem?_cons_succ] at hg
      exact List.Forall₂.cons (hrefl a) (ih g hg)

theorem forall₂_refl_of (R : Dog → Dog → Prop) (hrefl : ∀ d, R d d) (l : List Dog) :
    List.Forall₂ R l l :=
  List.forall₂_same.2 (fun d _ => hrefl d)

theorem forall₂_trans_of (R : Dog → Dog → Prop) (htrans : ∀ a b c, R a b → R b c → R a c)
    (l1 l2 l3 : List Dog) (h12 : List.Forall₂ R l1 l2) (h23 : List.Forall₂ R l2 l3) :
    List.Forall₂ R l1 l3 := by
  induction h12 generalizing l3 with
  | nil => cases h23; exact List.Forall₂.nil
  | cons hab _ ih =>
    cases h23 with
    | cons hbc h23' => exact List.Forall₂.cons (htrans _ _ _ hab hbc) (ih _ h23')

theorem forall₂_mem_right (R : Dog → Dog → Prop) (l1 l2 : List Dog)
    (h : List.Forall₂ R l1 l2) (d' : Dog) (hd : d' ∈ l2) : ∃ d ∈ l1, R d d' := by
  induction h with
  | nil => cases hd
  | cons hab _ ih =>
    rcases List.mem_cons.1 hd with rfl | hd
    · exact ⟨_, List.mem_cons_self _ _, hab⟩
    · obtain ⟨d, hd1, hd2⟩ := ih hd
      exact ⟨d, List.mem_cons_of_mem _ hd1, hd2⟩

theorem ExtractLootObject_dogs (s : GameSession) (id : ℕ) :
    (s.ExtractLootObject id).1.dogs_ = s.dogs_ ∧ (s.ExtractLootObject id).1.map_ = s.map_ := by
  unfold GameSession.ExtractLootObject
  split <;> exact ⟨rfl, rfl⟩

theorem HandleLootColletc_step (cap : ℕ) (R : Dog → Dog → Prop) (hR : DogStepRel cap R)
    (s : GameSession) (hcap : s.map_.bag_capacity_ = cap) (g id : ℕ) :
    (s.HandleLootColletc g id).map_ = s.map_ ∧
    List.Forall₂ R s.dogs_ (s.HandleLootColletc g id).dogs_ := by
  unfold GameSession.HandleLootColletc
  split
  · exact ⟨rfl, forall₂_refl_of R hR.refl _⟩
  · rename_i dog hg
    split
    · exact ⟨rfl, forall₂_refl_of R hR.refl _⟩
    · rename_i hroom
      obtain ⟨e1, e2⟩ := ExtractLootObject_dogs s id
      split
      · exact ⟨rfl, forall₂_refl_of R hR.refl _⟩
      · rename_i s1 obj heq
        have hs1 : s1 = (s.ExtractLootObject id).1 := by rw [heq]
        refine ⟨by simp only [hs1, e2], ?_⟩
        simp only [hs1, e1]
        refine forall₂_set_of_rel R hR.refl _ _ dog _ hg (hR.collect dog obj ?_)
        simp only [Dog.LootCountInBagpack, Map.GetDogBagCapacity, ge_iff_le, not_le] at hroom
        rw [← hcap]; exact hroom

theorem HandleLootDrop_step (cap : ℕ) (R : Dog → Dog → Prop) (hR : DogStepRel cap R)
    (s : GameSession) (g : ℕ) :
    (s.HandleLootDrop g).map_ = s.map_ ∧
    List.Forall₂ R s.dogs_ (s.HandleLootDrop g).dogs_ := by
  unfold GameSession.HandleLootDrop
  split
  · exact ⟨rfl, forall₂_refl_of R hR.refl _⟩
  · rename_i dog hg
    exact ⟨rfl, forall₂_set_of_rel R hR.refl _ _ dog _ hg (hR.drop dog)⟩

theorem handleEvent_step (cap : ℕ) (R : Dog → Dog → Prop) (hR : DogStepRel cap R)
    (s s' : GameSession) (hcap : s.map_.bag_capacity_ = cap) (t : CollisionTables)
    (event : GatheringEvent) (h : s.handleEvent t event = some s') :
    s'.map_ = s.map_ ∧ List.Forall₂ R s.dogs_ s'.dogs_ := by
  unfold GameSession.handleEvent at h
  split at h
  · cases h
  · split at h
    · cases h; exact HandleLootColletc_step cap R hR s hcap _ _
    · cases h
  · split at h
    · cases h; exact HandleLootDrop_step cap R hR s _
    · cases h

theorem handleEvents_step (cap : ℕ) (R : Dog → Dog → Prop) (hR : DogStepRel cap R)
    (t : CollisionTables) (events : List GatheringEvent) (s s' : GameSession)
    (hcap : s.map_.bag_capacity_ = cap) (h : s.handleEvents t events = some s') :
    s'.map_ = s.map_ ∧ List.Forall₂ R s.dogs_ s'.dogs_ := by
  induction events generalizing s with
  | nil =>
    simp only [GameSession.handleEvents, Option.some.injEq] at h
    subst h
    exact ⟨rfl, forall₂_refl_of R hR.refl _⟩
  | cons event rest ih =>
    unfold GameSession.handleEvents at h
    cases he : s.handleEvent t event with
    | none => simp [he] at h
    | some s1 =>
      simp only [he] at h
      obtain ⟨m1, f1⟩ := handleEvent_step cap R hR s s1 hcap t event he
      obtain ⟨m2, f2⟩ := ih s1 (by rw [m1]; exact hcap) h
      exact ⟨m2.trans m1, forall₂_trans_of R hR.trans _ _ _ f1 f2⟩

theorem SpawnLootObject_dogs (s s' : GameSession) (d : SpawnDraw)
    (h : s.SpawnLootObject d = some s') : s'.dogs_ = s.dogs_ ∧ s'.map_ = s.map_ := by
  unfold GameSession.SpawnLootObject at h
  simp only at h
  split at h
  · cases h
  · split at h
    · cases h
    · split at h
      · cases h
      · cases h; exact ⟨rfl, rfl⟩

theorem spawnObjects_dogs (spawn : ℕ → SpawnDraw) (n k : ℕ) (s s' : GameSession)
    (h : GameSession.spawnObjects spawn n k s = some s') :
    s'.dogs_ = s.dogs_ ∧ s'.map_ = s.map_ := by
  induction n generalizing k s with
  | zero =>
    simp only [GameSession.spawnObjects, Option.some.injEq] at h
    subst h; exact ⟨rfl, rfl⟩
  | succ n ih =>
    unfold GameSession.spawnObjects at h
    cases hs : s.SpawnLootObject (spawn k) with
    | none => simp [hs] at h
    | some s1 =>
      simp only [hs] at h
      obtain ⟨a1, a2⟩ := SpawnLootObject_dogs s s1 _ hs
      obtain ⟨b1, b2⟩ := ih (k + 1) s1 h
      exact ⟨b1.trans a1, b2.trans a2⟩

theorem SpawnLoot_dogs (s s' : GameSession) (tick : ℕ) (draw : ℕ → ℚ) (spawn : ℕ → SpawnDraw)
    (h : s.SpawnLoot tick draw spawn = some s') : s'.dogs_ = s.dogs_ ∧ s'.map_ = s.map_ := by
  unfold GameSession.SpawnLoot at h
  split at h
  · cases h
  · have := spawnObjects_dogs spawn _ 0 _ s' h
    exact this

theorem moveAndRetire_step (R : Dog → Dog → Prop)
    (hR : ∀ d d', d'.id_ = d.id_ → d'.bagpack_ = d.bagpack_ → d'.score_ = d.score_ → R d d')
    (s s' : GameSession) (tick : ℕ) (calls : List (ℕ × String))
    (h : s.moveAndRetire tick = some (s', calls)) :
    s'.map_ = s.map_ ∧ s'.loot_obj_id_to_obj_ = s.loot_obj_id_to_obj_ ∧
    s'.loot_obj_id_to_coords_ = s.loot_obj_id_to_coords_ ∧
    ∀ d' ∈ s'.dogs_, ∃ d ∈ s.dogs_, R d d' := by
  unfold GameSession.moveAndRetire at h
  cases hm : s.moveDogs tick s.dogs_ with
  | none => simp [hm] at h
  | some pr =>
    obtain ⟨dogs, retire⟩ := pr
    simp only [hm] at h
    unfold GameSession.RetireDogs at h
    simp only at h
    split at h
    · cases h
    · rename_i index dogs' calls' heq
      simp only [Option.some.injEq, Prod.mk.injEq] at h
      obtain ⟨h1, _⟩ := h
      subst h1
      refine ⟨rfl, rfl, rfl, ?_⟩
      intro d' hd'
      have hsub := retireLoop_sublist _ _ _ _ _ _ _ _ heq
      exact forall₂_mem_right R _ _ (moveDogs_forall₂ s tick R hR _ _ _ hm) d' (hsub.subset hd')

/-- Every dog left by `OnTick` descends from a dog of the session before the tick through
steps that respect `R`; the map of the session is the same. -/
theorem OnTick_dogs_step (R : Dog → Dog → Prop) (s s' : GameSession)
    (hR : DogStepRel s.map_.bag_capacity_ R) (tick : ℕ) (draw : ℕ → ℚ)
    (spawn : ℕ → SpawnDraw) (calls : List (ℕ × String))
    (h : s.OnTick tick draw spawn = some (s', calls)) :
    s'.map_ = s.map_ ∧ ∀ d' ∈ s'.dogs_, ∃ d ∈ s.dogs_, R d d' := by
  unfold GameSession.OnTick at h
  cases h1 : s.moveAndRetire tick with
  | none => simp [h1] at h
  | some pr =>
    obtain ⟨s1, calls1⟩ := pr
    simp only [h1] at h
    cases h2 : s1.HandleCollisions with
    | none => simp [h2] at h
    | some s2 =>
      simp only [h2] at h
      cases h3 : s2.SpawnLoot tick draw spawn with
      | none => simp [h3] at h
      | some s3 =>
        simp only [h3, Option.some.injEq, Prod.mk.injEq] at h
        obtain ⟨rfl, _⟩ := h
        obtain ⟨m1, _, _, d1⟩ := moveAndRetire_step R hR.cargo s s1 tick calls1 h1
        unfold GameSession.HandleCollisions at h2
        cases ht : s1.collisionTables with
        | none => simp [ht] at h2
        | some t =>
          simp only [ht] at h2
          obtain ⟨m2, f2⟩ := handleEvents_step _ R hR t _ s1 s2 (by rw [m1]) h2
          obtain ⟨e3, m3⟩ := SpawnLoot_dogs s2 s3 tick draw spawn h3
          refine ⟨m3.trans (m2.trans m1), ?_⟩
          intro d' hd'
          rw [e3] at hd'
          obtain ⟨d2, hd2, r2⟩ := forall₂_mem_right R _ _ f2 d' hd'
          obtain ⟨d, hd, r1⟩ := d1 d2 hd2
          exact ⟨d, hd, hR.trans _ _ _ r1 r2⟩

theorem bagRel_step (cap : ℕ) :
    DogStepRel cap (fun d d' => d.bagpack_.length ≤ cap → d'.bagpack_.length ≤ cap) where
  refl := fun _ h => h
  trans := fun _ _ _ h1 h2 h => h2 (h1 h)
  cargo := fun _ _ _ hb _ h => by rw [hb]; exact h
  collect := fun d obj hlt _ => by
    simp only [Dog.AddLootObjectToBagpack, List.length_append, List.length_singleton]
    omega
  drop := fun _ _ => by simp [Dog.DropBagpackContent]

/-- C5: bag capacity is an invariant of the tick. If every dog of a session has at most
`map.bag_capacity` objects in its bag, then so has every dog after `OnTick`, for every tick
length; and so has every dog after the handling of any list of gather events. -/
theorem OnTick_preserves_bag_capacity (s s' : GameSession) (tick : ℕ) (draw : ℕ → ℚ)
    (spawn : ℕ → SpawnDraw) (calls : List (ℕ × String))
    (hinv : ∀ d ∈ s.dogs_, d.LootCountInBagpack ≤ s.map_.GetDogBagCapacity)
    (h : s.OnTick tick draw spawn = some (s', calls)) :
    (∀ d ∈ s'.dogs_, d.LootCountInBagpack ≤ s'.map_.GetDogBagCapacity) ∧
    (∀ (t : CollisionTables) (events : List GatheringEvent) (s2 : GameSession),
      s.handleEvents t events = some s2 →
      ∀ d ∈ s2.dogs_, d.LootCountInBagpack ≤ s2.map_.GetDogBagCapacity) := by
  constructor
  · obtain ⟨hm, hd⟩ := OnTick_dogs_step _ s s' (bagRel_step s.map_.bag_capacity_) tick draw
      spawn calls h
    intro d' hd'
    obtain ⟨d, hmem, hr⟩ := hd d' hd'
    simp only [Dog.LootCountInBagpack, Map.GetDogBagCapacity, hm]
    exact hr (hinv d hmem)
  · intro t events s2 h2
    obtain ⟨hm, hf⟩ := handleEvents_step _ _ (bagRel_step s.map_.bag_capacity_) t events s s2
      rfl h2
    intro d' hd'
    obtain ⟨d, hmem, hr⟩ := forall₂_mem_right _ _ _ hf d' hd'
    simp only [Dog.LootCountInBagpack, Map.GetDogBagCapacity, hm]
    exact hr (hinv d hmem)

/-- C5, at a concrete tick: a dog with a bag of capacity 1 walks over two loot objects; it
takes the first it meets and leaves the other on the map. -/
theorem OnTick_preserves_bag_capacity_witness :
    (∀ d ∈ fullBagSession.dogs_, d.LootCountInBagpack ≤ fullBagSession.map_.GetDogBagCapacity) ∧
    fullBagSession.OnTick 1000 quietDraw originSpawn = some (fullBagAfter, []) ∧
    (∀ d ∈ fullBagAfter.dogs_, d.LootCountInBagpack ≤ fullBagAfter.map_.GetDogBagCapacity) :=
  ⟨by decide!, by decide!,
    (OnTick_preserves_bag_capacity fullBagSession fullBagAfter 1000 quietDraw originSpawn []
      (by decide!) (by decide!)).1⟩

theorem foldl_worth_ge (bag : List LootObject) (init : ℕ) :
    init ≤ bag.foldl (fun lhs rhs => lhs + rhs.GetWorth) init := by
  induction bag generalizing init with
  | nil => exact le_refl _
  | cons obj rest ih => exact le_trans (Nat.le_add_right _ _) (ih _)

theorem scoreRel_step (cap : ℕ) :
    DogStepRel cap (fun d d' => d'.id_ = d.id_ ∧ d.score_ ≤ d'.score_) where
  refl := fun _ => ⟨rfl, le_refl _⟩
  trans := fun _ _ _ h1 h2 => ⟨h2.1.trans h1.1, le_trans h1.2 h2.2⟩
  cargo := fun _ _ hi _ hs => ⟨hi, by rw [hs]⟩
  collect := fun _ _ _ => ⟨rfl, le_refl _⟩
  drop := fun d => ⟨rfl, foldl_worth_ge d.bagpack_ d.score_⟩

end model

namespace umap

variable {κ ν : Type}

theorem find_assign [DecidableEq κ] (m : List (κ × ν)) (k k' : κ) (v : ν) :
    find (assign m k v) k' = if k = k' then some v else find m k' := by
  induction m with
  | nil => simp [assign, find]
  | cons kv rest ih =>
    obtain ⟨k0, v0⟩ := kv
    unfold assign
    by_cases h0 : k0 = k
    · subst h0
      by_cases h1 : k0 = k' <;> simp [find, h1]
    · simp only [h0, if_false]
      by_cases h1 : k0 = k'
      · subst h1
        have : ¬ k = k0 := fun e => h0 e.symm
        simp [find, this]
      · simp [find, h1, ih]

theorem find_erase_self [DecidableEq κ] (m : List (κ × ν)) (k : κ) :
    find (erase m k) k = none := by
  induction m with
  | nil => rfl
  | cons kv rest ih =>
    obtain ⟨k0, v0⟩ := kv
    unfold erase at ih ⊢
    by_cases h0 : k0 = k
    · simpa [List.filter, h0] using ih
    · simpa [List.filter, h0, find] using ih

end umap

/-! ## Theorems: scores -/

namespace app

open model

theorem forall₂_modifyFirst (R : Dog → Dog → Prop) (hrefl : ∀ d, R d d) (id : ℕ)
    (f : Dog → Dog) (hf : ∀ d, R d (f d)) (dogs : List Dog) :
    List.Forall₂ R dogs (modifyFirst id f dogs) := by
  induction dogs with
  | nil => exact List.Forall₂.nil
  | cons d rest ih =>
    unfold modifyFirst
    split
    · exact List.Forall₂.cons (hf d) (forall₂_refl_of R hrefl rest)
    · exact List.Forall₂.cons (hrefl d) ih

theorem ScoresGrow_refl (a : Application) : ScoresGrow a a := by
  intro m sess' h
  exact ⟨sess', h, forall₂_refl_of _ (fun _ => ⟨rfl, le_refl _⟩) _⟩

theorem ScoresGrow_modifyDog (a : Application) (player : Player) (f : Dog → Dog)
    (hf : ∀ d, (f d).id_ = d.id_ ∧ d.GetScore ≤ (f d).GetScore) :
    ScoresGrow a (a.modifyDog player f) := by
  unfold Application.modifyDog
  cases hs : umap.find a.game_.map_id_to_session_ player.session_ with
  | none => exact ScoresGrow_refl a
  | some session =>
    intro m sess' h
    simp only [umap.find_assign] at h
    by_cases hm : player.session_ = m
    · subst hm
      simp only [if_true, Option.some.injEq] at h
      subst h
      exact ⟨session, hs, forall₂_modifyFirst _ (fun _ => ⟨rfl, le_refl _⟩) _ f hf _⟩
    · simp only [hm, if_false] at h
      exact ⟨sess', h, forall₂_refl_of _ (fun _ => ⟨rfl, le_refl _⟩) _⟩

theorem UseCaseMovePlayer_scores (a a' : Application) (token : String) (dir : Direction)
    (r : Bool) (h : UseCaseMovePlayer a token dir = some (r, a')) : ScoresGrow a a' := by
  unfold UseCaseMovePlayer at h
  split at h
  · cases h; exact ScoresGrow_refl a
  · split at h
    · cases h
    · cases h
      exact ScoresGrow_modifyDog a _ _ (fun d => ⟨rfl, le_refl _⟩)

theorem UseCaseStopPlayer_scores (a a' : Application) (token : String)
    (r : Bool) (h : UseCaseStopPlayer a token = some (r, a')) : ScoresGrow a a' := by
  unfold UseCaseStopPlayer at h
  split at h
  · cases h; exact ScoresGrow_refl a
  · split at h
    · cases h
    · cases h
      exact ScoresGrow_modifyDog a _ _ (fun d => ⟨rfl, le_refl _⟩)

end app

namespace model

open geom collision_detector

/-- C6: score monotonicity. No operation that touches a dog lowers its score (scores as
unbounded naturals): `AddScore`, `DropBagpackContent` (the office drop), `MovePlayer` and
`StopPlayer` (on the dog and through the use cases), and `OnTick`, after which every
remaining dog has a score at least as large as the dog of the same id had before. -/
theorem score_never_decreases :
    (∀ (dog : Dog) (score : ℕ), dog.GetScore ≤ (dog.AddScore score).GetScore) ∧
    (∀ dog : Dog, dog.GetScore ≤ dog.DropBagpackContent.GetScore) ∧
    (∀ (dog : Dog) (dir : Direction) (speed : ℚ),
      (dog.MovePlayer dir speed).GetScore = dog.GetScore) ∧
    (∀ dog : Dog, dog.Stop.GetScore = dog.GetScore) ∧
    (∀ (a a' : app.Application) (token : String) (dir : Direction) (r : Bool),
      app.UseCaseMovePlayer a token dir = some (r, a') → app.ScoresGrow a a') ∧
    (∀ (a a' : app.Application) (token : String) (r : Bool),
      app.UseCaseStopPlayer a token = some (r, a') → app.ScoresGrow a a') ∧
    (∀ (s s' : GameSession) (tick : ℕ) (draw : ℕ → ℚ) (spawn : ℕ → SpawnDraw)
        (calls : List (ℕ × String)),
      s.OnTick tick draw spawn = some (s', calls) →
      ∀ d' ∈ s'.dogs_, ∃ d ∈ s.dogs_, d'.id_ = d.id_ ∧ d.GetScore ≤ d'.GetScore) := by
  refine ⟨fun dog score => Nat.le_add_right _ _, fun dog => foldl_worth_ge _ _,
    fun _ _ _ => rfl, fun _ => rfl, app.UseCaseMovePlayer_scores,
    app.UseCaseStopPlayer_scores, ?_⟩
  intro s s' tick draw spawn calls h
  exact (OnTick_dogs_step _ s s' (scoreRel_step s.map_.bag_capacity_) tick draw spawn calls h).2

/-- C6, at a concrete tick: a dog with score 5 carrying loot worth 10 and 20 walks past
the office; after the tick its score is 35. -/
theorem score_never_decreases_office_witness :
    officeSession.OnTick 1000 quietDraw originSpawn = some (officeAfter, []) ∧
    officeSession.dogs_.map (fun d => (d.id_, d.GetScore)) = [(0, 5)] ∧
    officeAfter.dogs_.map (fun d => (d.id_, d.GetScore)) = [(0, 35)] ∧
    (∀ d' ∈ officeAfter.dogs_, ∃ d ∈ officeSession.dogs_,
      d'.id_ = d.id_ ∧ d.GetScore ≤ d'.GetScore) :=
  ⟨by decide!, by decide!, by decide!,
    score_never_decreases.2.2.2.2.2.2 officeSession officeAfter 1000 quietDraw originSpawn []
      (by decide!)⟩

end model

/-! ## Theorems: loot conservation -/

namespace umap

variable {κ ν : Type}

theorem erase_of_not_mem [DecidableEq κ] (m : List (κ × ν)) (k : κ)
    (h : k ∉ m.map Prod.fst) : erase m k = m := by
  unfold erase
  rw [List.filter_eq_self]
  intro kv hkv
  have : kv.1 ≠ k := by
    intro e
    exact h (List.mem_map.2 ⟨kv, hkv, e⟩)
  simpa using this

theorem length_erase_of_find [DecidableEq κ] (m : List (κ × ν)) (k : κ) (v : ν)
    (hnd : (m.map Prod.fst).Nodup) (h : find m k = some v) :
    (erase m k).length + 1 = m.length := by
  induction m with
  | nil => simp [find] at h
  | cons kv rest ih =>
    obtain ⟨k0, v0⟩ := kv
    simp only [List.map_cons, List.nodup_cons] at hnd
    by_cases h0 : k0 = k
    · subst h0
      have e := erase_of_not_mem rest k0 hnd.1
      unfold erase at e ⊢
      rw [List.filter_cons_of_neg (by simp), e]
      rfl
    · simp only [find, h0, if_false] at h
      have := ih hnd.2 h
      unfold erase at this ⊢
      simp only [List.filter, ne_eq, h0, not_false_eq_true, decide_True, List.length_cons]
      simpa using this

theorem nodup_keys_erase [DecidableEq κ] (m : List (κ × ν)) (k : κ)
    (hnd : (m.map Prod.fst).Nodup) : ((erase m k).map Prod.fst).Nodup := by
  unfold erase
  exact hnd.sublist ((List.filter_sublist _).map Prod.fst)

end umap

namespace model

open geom collision_detector

theorem HandleLootColletc_count (s : GameSession) (g id : ℕ)
    (hnd : (s.loot_obj_id_to_obj_.map Prod.fst).Nodup) :
    ((s.HandleLootColletc g id).loot_obj_id_to_obj_.map Prod.fst).Nodup ∧
    (s.HandleLootColletc g id).loot_obj_id_to_obj_.length
        + (if s.bagHasRoom g = true ∧ umap.contains s.loot_obj_id_to_obj_ id = true then 1 else 0)
      = s.loot_obj_id_to_obj_.length := by
  unfold GameSession.HandleLootColletc GameSession.bagHasRoom
  cases hg : s.dogs_[g]? with
  | none => simp [hnd]
  | some dog =>
    simp only
    by_cases hroom : dog.LootCountInBagpack ≥ s.map_.GetDogBagCapacity
    · have : ¬ dog.LootCountInBagpack < s.map_.GetDogBagCapacity := not_lt.2 hroom
      simp [hroom, this, hnd]
    · have hlt : dog.LootCountInBagpack < s.map_.GetDogBagCapacity := not_le.1 hroom
      simp only [hroom, if_false, hlt, decide_True, true_and]
      unfold GameSession.ExtractLootObject umap.contains
      cases hf : umap.find s.loot_obj_id_to_obj_ id with
      | none => simp [hnd]
      | some obj =>
        simp only [Option.isSome_some, if_true]
        exact ⟨umap.nodup_keys_erase _ _ hnd, umap.length_erase_of_find _ _ _ hnd hf⟩

theorem HandleLootDrop_loot (s : GameSession) (g : ℕ) :
    (s.HandleLootDrop g).loot_obj_id_to_obj_ = s.loot_obj_id_to_obj_ := by
  unfold GameSession.HandleLootDrop
  split <;> rfl

theorem handleEvent_count (s s1 : GameSession) (t : CollisionTables) (event : GatheringEvent)
    (hnd : (s.loot_obj_id_to_obj_.map Prod.fst).Nodup)
    (h : s.handleEvent t event = some s1) :
    (s1.loot_obj_id_to_obj_.map Prod.fst).Nodup ∧
    s1.loot_obj_id_to_obj_.length
        + (if t.item_id_to_type[event.item_id]? = some ItemType.LOOT ∧
            s.bagHasRoom event.gatherer_id = true ∧ s.lootOnMap t event = true then 1 else 0)
      = s.loot_obj_id_to_obj_.length := by
  unfold GameSession.handleEvent at h
  cases hty : t.item_id_to_type[event.item_id]? with
  | none => simp [hty] at h
  | some ty =>
    cases ty with
    | LOOT =>
      simp only [hty] at h
      cases hg : s.dogs_[event.gatherer_id]? with
      | none => simp [hg] at h
      | some dog =>
        cases hl : t.item_id_to_loot_id[event.item_id]? with
        | none => simp [hg, hl] at h
        | some loot_id =>
          simp only [hg, hl, Option.some.injEq] at h
          subst h
          have := HandleLootColletc_count s event.gatherer_id loot_id hnd
          simpa [GameSession.lootOnMap, hl] using this
    | OFFICE =>
      simp only [hty] at h
      cases hg : s.dogs_[event.gatherer_id]? with
      | none => simp [hg] at h
      | some dog =>
        simp only [hg, Option.some.injEq] at h
        subst h
        rw [HandleLootDrop_loot]
        simp [hnd]

theorem handleEvents_count (t : CollisionTables) (events : List GatheringEvent)
    (s s2 : GameSession) (hnd : (s.loot_obj_id_to_obj_.map Prod.fst).Nodup)
    (h : s.handleEvents t events = some s2) :
    s2.loot_obj_id_to_obj_.length + s.lootPickups t events = s.loot_obj_id_to_obj_.length := by
  induction events generalizing s with
  | nil =>
    simp only [GameSession.handleEvents, Option.some.injEq] at h
    subst h; simp [GameSession.lootPickups]
  | cons event rest ih =>
    unfold GameSession.handleEvents at h
    cases he : s.handleEvent t event with
    | none => simp [he] at h
    | some s1 =>
      simp only [he] at h
      obtain ⟨hnd1, hc1⟩ := handleEvent_count s s1 t event hnd he
      have := ih s1 hnd1 h
      unfold GameSession.lootPickups
      simp only [he]
      omega

theorem lootPickups_le (t : CollisionTables) (events : List GatheringEvent) (s : GameSession) :
    s.lootPickups t events ≤ s.lootEventsWithRoom t events := by
  induction events generalizing s with
  | nil => simp [GameSession.lootPickups, GameSession.lootEventsWithRoom]
  | cons event rest ih =>
    unfold GameSession.lootPickups GameSession.lootEventsWithRoom
    have h1 : (if t.item_id_to_type[event.item_id]? = some ItemType.LOOT ∧
          s.bagHasRoom event.gatherer_id = true ∧ s.lootOnMap t event = true then 1 else 0)
        ≤ (if t.item_id_to_type[event.item_id]? = some ItemType.LOOT ∧
          s.bagHasRoom event.gatherer_id = true then 1 else 0) := by
      split
      · rename_i hc
        rw [if_pos ⟨hc.1, hc.2.1⟩]
      · exact Nat.zero_le _
    cases he : s.handleEvent t event with
    | none => simpa using h1
    | some s1 =>
      simp only
      exact Nat.add_le_add h1 (ih s1)

/-- C7, as amended: over one `OnTick` (on a loot map with distinct keys), the number of loot
objects removed from the map equals the number of LOOT gather events at which the bag of
the gathering dog had free capacity and the loot object was still on the map just before
the event; this is at most the number of LOOT events at which the bag had free capacity. -/
theorem OnTick_loot_removed_eq_pickups (s s' : GameSession) (tick : ℕ) (draw : ℕ → ℚ)
    (spawn : ℕ → SpawnDraw) (calls : List (ℕ × String))
    (hkeys : (s.loot_obj_id_to_obj_.map Prod.fst).Nodup)
    (h : s.OnTick tick draw spawn = some (s', calls)) :
    ∃ removed withRoom pickups,
      s.lootRemovalCounts tick = some (removed, withRoom, pickups) ∧
      removed = pickups ∧ pickups ≤ withRoom := by
  unfold GameSession.OnTick at h
  cases h1 : s.moveAndRetire tick with
  | none => simp [h1] at h
  | some pr =>
    obtain ⟨s1, calls1⟩ := pr
    simp only [h1] at h
    cases h2 : s1.HandleCollisions with
    | none => simp [h2] at h
    | some s2 =>
      unfold GameSession.HandleCollisions at h2
      cases ht : s1.collisionTables with
      | none => simp [ht] at h2
      | some t =>
        simp only [ht] at h2
        obtain ⟨_, hl, _, _⟩ := moveAndRetire_step (fun _ _ => True) (fun _ _ _ _ _ => trivial)
          s s1 tick calls1 h1
        have hc := handleEvents_count t _ s1 s2 (by rw [hl]; exact hkeys) h2
        have hcounts : s.lootRemovalCounts tick =
            some (s.loot_obj_id_to_obj_.length - s2.loot_obj_id_to_obj_.length,
              s1.lootEventsWithRoom t (FindGatherEvents t.provider),
              s1.lootPickups t (FindGatherEvents t.provider)) := by
          simp only [GameSession.lootRemovalCounts, h1, ht, h2]
        refine ⟨_, _, _, hcounts, ?_, lootPickups_le t _ s1⟩
        rw [hl] at hc
        omega

/-- C7, as amended, at a concrete tick: two dogs walk over the only loot object of the map;
one object is removed, at the one event at which it was still on the map. -/
theorem OnTick_loot_removed_eq_pickups_witness :
    (crossingSession.loot_obj_id_to_obj_.map Prod.fst).Nodup ∧
    (crossingSession.OnTick 1000 quietDraw originSpawn).isSome = true ∧
    ∃ removed withRoom pickups,
      crossingSession.lootRemovalCounts 1000 = some (removed, withRoom, pickups) ∧
      removed = pickups ∧ pickups ≤ withRoom := by
  have h : (crossingSession.OnTick 1000 quietDraw originSpawn).isSome = true := by decide!
  obtain ⟨r, hr⟩ := Option.isSome_iff_exists.1 h
  exact ⟨by decide!, h,
    OnTick_loot_removed_eq_pickups crossingSession r.1 1000 quietDraw originSpawn r.2
      (by decide!) hr⟩

/-- C7 as stated fails: when dog 0 (walking east from `(0,0)`) and dog 1 (walking west from
`(2,0)`) both sweep over the loot object at `(1,0)` in one tick, both LOOT events find a bag
with free capacity, yet only one object is removed from the map: the second dog finds it
gone. -/
theorem loot_removed_ne_events_with_room :
    crossingSession.lootRemovalCounts 1000 = some (1, 2, 1) ∧
    ¬ (∀ removed withRoom pickups,
        crossingSession.lootRemovalCounts 1000 = some (removed, withRoom, pickups) →
        removed = withRoom) := by
  have h : crossingSession.lootRemovalCounts 1000 = some (1, 2, 1) := by decide!
  refine ⟨h, fun hall => ?_⟩
  have := hall 1 2 1 h
  omega

end model

/-! ## Theorems: loot spawning -/

namespace loot_gen

theorem consumePeriods_le (period : ℕ) (probability : ℚ) (need : ℕ) (draw : ℕ → ℚ)
    (fuel acc k emitted n acc' : ℕ) (hle : emitted ≤ need)
    (h : consumePeriods period probability need draw fuel acc k emitted = some (n, acc')) :
    n ≤ need := by
  induction fuel generalizing acc k emitted with
  | zero => simp [consumePeriods] at h
  | succ fuel ih =>
    unfold consumePeriods at h
    split at h
    · refine ih _ _ _ ?_ h
      split
      · rename_i hc; omega
      · exact hle
    · simp only [Option.some.injEq, Prod.mk.injEq] at h
      omega

theorem consumePeriods_isSome (period : ℕ) (probability : ℚ) (need : ℕ) (draw : ℕ → ℚ)
    (hp : 0 < period) (fuel acc k emitted : ℕ) (hfuel : acc < fuel) :
    (consumePeriods period probability need draw fuel acc k emitted).isSome = true := by
  induction fuel generalizing acc k emitted with
  | zero => omega
  | succ fuel ih =>
    unfold consumePeriods
    split
    · exact ih _ _ _ (by omega)
    · rfl

theorem Generate_le (g g' : LootGenerator) (dt loot_count looter_count n : ℕ) (draw : ℕ → ℚ)
    (h : g.Generate dt loot_count looter_count draw = some (n, g')) :
    n ≤ looter_count - loot_count := by
  unfold LootGenerator.Generate at h
  split at h
  · simp only [Option.some.injEq, Prod.mk.injEq] at h
    omega
  · split at h
    · cases h
    · rename_i n1 acc1 heq
      simp only [Option.some.injEq, Prod.mk.injEq] at h
      rw [← h.1]
      exact consumePeriods_le _ _ _ _ _ _ _ _ _ _ (Nat.zero_le _) heq

theorem Generate_no_scarcity (g : LootGenerator) (dt loot_count looter_count : ℕ)
    (draw : ℕ → ℚ) (h : looter_count ≤ loot_count) :
    g.Generate dt loot_count looter_count draw = some (0, g) := by
  simp [LootGenerator.Generate, h]

theorem Generate_isSome (g : LootGenerator) (dt loot_count looter_count : ℕ) (draw : ℕ → ℚ)
    (hp : 0 < g.period) : (g.Generate dt loot_count looter_count draw).isSome = true := by
  unfold LootGenerator.Generate
  split
  · rfl
  · have := consumePeriods_isSome g.period g.probability (looter_count - loot_count) draw hp
      (g.accumulator + dt + 1) (g.accumulator + dt) 0 0 (Nat.lt_succ_self _)
    obtain ⟨r, hr⟩ := Option.isSome_iff_exists.1 this
    rw [hr]
    rfl

end loot_gen

namespace model

open geom collision_detector

theorem SpawnLootObject_count (s s' : GameSession) (d : SpawnDraw)
    (h : s.SpawnLootObject d = some s') :
    s'.loot_obj_id_to_obj_.length = s.loot_obj_id_to_obj_.length + 1 := by
  unfold GameSession.SpawnLootObject at h
  simp only at h
  split at h
  · cases h
  · split at h
    · cases h
    · rename_i objs heq
      split at h
      · cases h
      · cases h
        simp only
        unfold umap.emplace at heq
        split at heq
        · simp at heq
        · simp only [Prod.mk.injEq, and_true] at heq
          rw [← heq]
          simp

theorem spawnObjects_count (spawn : ℕ → SpawnDraw) (n k : ℕ) (s s' : GameSession)
    (h : GameSession.spawnObjects spawn n k s = some s') :
    s'.loot_obj_id_to_obj_.length = s.loot_obj_id_to_obj_.length + n := by
  induction n generalizing k s with
  | zero =>
    simp only [GameSession.spawnObjects, Option.some.injEq] at h
    subst h; rfl
  | succ n ih =>
    unfold GameSession.spawnObjects at h
    cases hs : s.SpawnLootObject (spawn k) with
    | none => simp [hs] at h
    | some s1 =>
      simp only [hs] at h
      rw [ih (k + 1) s1 h, SpawnLootObject_count s s1 _ hs]
      omega

theorem SpawnLoot_count_le (s s' : GameSession) (tick : ℕ) (draw : ℕ → ℚ)
    (spawn : ℕ → SpawnDraw) (h : s.SpawnLoot tick draw spawn = some s') :
    s'.loot_obj_id_to_obj_.length ≤
      s.loot_obj_id_to_obj_.length + (s.dogs_.length - s.loot_obj_id_to_obj_.length) := by
  unfold GameSession.SpawnLoot at h
  split at h
  · cases h
  · rename_i n gen heq
    have h1 := spawnObjects_count spawn n 0 _ s' h
    have h2 := loot_gen.Generate_le _ _ _ _ _ _ _ heq
    simp only at h1
    omega

theorem SpawnLoot_no_scarcity (s : GameSession) (tick : ℕ) (draw : ℕ → ℚ)
    (spawn : ℕ → SpawnDraw) (h : s.dogs_.length ≤ s.loot_obj_id_to_obj_.length) :
    s.SpawnLoot tick draw spawn = some s := by
  unfold GameSession.SpawnLoot
  rw [loot_gen.Generate_no_scarcity _ _ _ _ _ h]
  rfl

theorem lootScenario_generate (draw : ℕ → ℚ) (h : draw 0 < 1) :
    loot_gen.LootGenerator.Generate ⟨5000, 1, 0⟩ 5000 0 1 draw = some (1, ⟨5000, 1, 0⟩) := by
  simp only [loot_gen.LootGenerator.Generate]
  norm_num
  rw [show (5001 : ℕ) = 5000 + 1 from rfl, loot_gen.consumePeriods]
  simp only [le_refl, if_true, h, Nat.sub_self]
  rw [show (5000 : ℕ) = 4999 + 1 from rfl, loot_gen.consumePeriods]
  simp

theorem lootScenario_tick (T : ℕ) (hT : 5000 < T) (b : Bool) (draw : ℕ → ℚ) (h : draw 0 < 1)
    (spawn : ℕ → SpawnDraw) (hs : (spawn 0).type = 0) :
    (lootSession T b).lootCountAfterTick 5000 draw spawn = some 1 := by
  have hT2 : ¬ T ≤ 5000 := by omega
  have hmove : (lootSession T b).moveAndRetire 5000 = some (lootSessionMoved T b, []) := by
    simp [GameSession.moveAndRetire, lootSession, lootSession0, GameSession.new,
      GameSession.moveDogs, GameSession.Move, Dog.AddTick, Dog.IsStoped, Dog.mk_,
      GameSession.RetireDogs, retireLoop, Dog.GetHoldingPeriod, hT2, lootSessionMoved]
  have hcoll : (lootSessionMoved T b).HandleCollisions = some (lootSessionMoved T b) := by
    simp [GameSession.HandleCollisions, GameSession.collisionTables, lootSession, lootSession0,
      GameSession.new, lootItems, FindGatherEvents, detectedEvents, collectGatherers,
      is_points_equal, Dog.mk_, sortEvents, GameSession.handleEvents, lootMap, lootSessionMoved]
  have hspawn : ∃ s', (lootSessionMoved T b).SpawnLoot 5000 draw spawn = some s' ∧
      s'.loot_obj_id_to_obj_.length = 1 := by
    simp [GameSession.SpawnLoot, lootSession, lootSession0, GameSession.new,
      lootScenario_generate draw h,
      GameSession.spawnObjects, GameSession.SpawnLootObject, lootMap, Map.GetLootWorth, hs,
      umap.emplace, umap.contains, umap.find, GameSession.GetRandomPointOnRandomRoad,
      GameSession.road_count_, lootSessionMoved]
  obtain ⟨s', hs1, hs2⟩ := hspawn
  simp [GameSession.lootCountAfterTick, GameSession.OnTick, hmove, hcoll, hs1, hs2]

/-- Loot spawning is bounded by scarcity. In one `SpawnLoot` call with `L`
loot objects on the map and `D` dogs in the session, nothing is spawned (the session is
unchanged) when `D ≤ L`, and otherwise at most `D - L` objects are added; the generator
returns a count of at most `D - L`, and it does return when its period is positive.
Scenario: period 5 s, probability 1, one dog that joined through `NewDog`, no loot and a
retirement threshold above 5000 ms: `OnTick(5000 ms)` leaves exactly 1 loot object. -/
theorem SpawnLoot_bounded_by_scarcity :
    (∀ (s : GameSession) (tick : ℕ) (draw : ℕ → ℚ) (spawn : ℕ → SpawnDraw),
      s.dogs_.length ≤ s.loot_obj_id_to_obj_.length → s.SpawnLoot tick draw spawn = some s) ∧
    (∀ (s s' : GameSession) (tick : ℕ) (draw : ℕ → ℚ) (spawn : ℕ → SpawnDraw),
      s.SpawnLoot tick draw spawn = some s' →
      s'.loot_obj_id_to_obj_.length ≤
        s.loot_obj_id_to_obj_.length + (s.dogs_.length - s.loot_obj_id_to_obj_.length)) ∧
    (∀ (g g' : loot_gen.LootGenerator) (dt loot_count looter_count n : ℕ) (draw : ℕ → ℚ),
      g.Generate dt loot_count looter_count draw = some (n, g') →
      n ≤ looter_count - loot_count) ∧
    (∀ (g : loot_gen.LootGenerator) (dt loot_count looter_count : ℕ) (draw : ℕ → ℚ),
      0 < g.period → (g.Generate dt loot_count looter_count draw).isSome = true) ∧
    (∀ (T : ℕ) (b : Bool) (d : SpawnDraw),
      (lootSession0 T b).NewDog "dog" d = some (lootSession T b, 0)) ∧
    (∀ (T : ℕ) (b : Bool) (draw : ℕ → ℚ) (spawn : ℕ → SpawnDraw),
      5000 < T → draw 0 < 1 → (spawn 0).type = 0 →
      (lootSession T b).lootCountAfterTick 5000 draw spawn = some 1) := by
  refine ⟨SpawnLoot_no_scarcity, SpawnLoot_count_le, loot_gen.Generate_le,
    fun g dt l d draw hp => loot_gen.Generate_isSome g dt l d draw hp, ?_, ?_⟩
  · intro T b d
    simp [GameSession.NewDog, GameSession.GetDogSpawnPoint, lootSession0, GameSession.new,
      lootMap, GameSession.AddDog, lootSession, Dog.mk_, Road.GetStart]
  · intro T b draw spawn hT hd hs
    exact lootScenario_tick T hT b draw hd spawn hs

/-- The scarcity bound at concrete inputs: with a retirement threshold of 60 s the scenario
leaves exactly one loot object; with two loot objects and one dog `SpawnLoot` changes
nothing. -/
theorem SpawnLoot_bounded_by_scarcity_witness :
    (lootSession 60000 true).lootCountAfterTick 5000 quietDraw originSpawn = some 1 ∧
    fullBagSession.SpawnLoot 1000 quietDraw originSpawn = some fullBagSession :=
  ⟨SpawnLoot_bounded_by_scarcity.2.2.2.2.2 60000 true quietDraw originSpawn
      (by decide) (by decide!) rfl,
    SpawnLoot_bounded_by_scarcity.1 fullBagSession 1000 quietDraw originSpawn (by decide)⟩

/-- C8: the scenario of the claim is the repository's test "Loot spawn" (one road, one dog
joined through `NewDog`, period 5 s, probability 1, retirement threshold 1000 ms, an empty
function as retirement sink), which expects exactly one loot object after `OnTick(5000 ms)`.
The code does not deliver it: the dog that joined stands still, so the tick brings its
holding time to 5000 ms and retires it before the spawning phase. With the empty sink of
the test the call of the sink throws and the tick does not return; with a sink the tick
retires dog 0, the spawning phase sees no looter and no loot object is left. -/
theorem loot_scenario_retires_the_dog :
    (lootSession0 1000 false).NewDog "dog" (originSpawn 0) = some (lootSession 1000 false, 0) ∧
    (lootSession 1000 false).OnTick 5000 quietDraw originSpawn = none ∧
    (lootSession 1000 true).lootCountAfterTick 5000 quietDraw originSpawn = some 0 ∧
    ((lootSession 1000 true).OnTick 5000 quietDraw originSpawn).map
      (fun r => (r.1.dogs_, r.2)) = some ([], [(0, "id")]) ∧
    (lootSession 1000 false).lootCountAfterTick 5000 quietDraw originSpawn ≠ some 1 ∧
    (lootSession 1000 true).lootCountAfterTick 5000 quietDraw originSpawn ≠ some 1 := by
  refine ⟨by decide!, by decide!, by decide!, by decide!, by decide!, by decide!⟩

end model

/-! ## Theorems: holding time and retirement -/

namespace model

/-- C9, as amended: setting a dog in motion (`SetDirection` followed by `SetSpeed(s)`, as
`UseCaseMovePlayer` does) leaves `GetHoldingPeriod()` at the value it had while the dog was
stopped; the value does not grow while the dog moves (`AddTick` on a moving dog keeps it),
and it is `Stop` (run by `StopPlayer`, and by `Move` at a road edge) that sets it to 0. -/
theorem MovePlayer_keeps_holding_time :
    (∀ (dog : Dog) (dir : Direction) (s : ℚ),
      ((dog.SetDirection dir).SetSpeed s).GetHoldingPeriod = dog.GetHoldingPeriod) ∧
    (∀ (dog : Dog) (tick : ℕ), dog.IsStoped = false →
      (dog.AddTick tick).GetHoldingPeriod = dog.GetHoldingPeriod) ∧
    (∀ (dog : Dog) (tick : ℕ), dog.IsStoped = true →
      (dog.AddTick tick).GetHoldingPeriod = dog.GetHoldingPeriod + tick) ∧
    (∀ dog : Dog, dog.Stop.GetHoldingPeriod = 0 ∧ dog.Stop.IsStoped = true) := by
  refine ⟨fun _ _ _ => rfl, ?_, ?_, fun _ => ⟨rfl, rfl⟩⟩
  · intro dog tick h
    simp [Dog.AddTick, h, Dog.GetHoldingPeriod]
  · intro dog tick h
    simp [Dog.AddTick, h, Dog.GetHoldingPeriod]

/-- C9, as amended, at a concrete dog: the dog that stood still for 500 ms keeps a holding
period of 500 when it is set in motion, and a further tick of 250 ms in motion keeps it. -/
theorem MovePlayer_keeps_holding_time_witness :
    restingDog.GetHoldingPeriod = 500 ∧
    ((restingDog.SetDirection Direction.EAST).SetSpeed 3).GetHoldingPeriod
      = restingDog.GetHoldingPeriod ∧
    ((restingDog.MovePlayer Direction.EAST 3).AddTick 250).GetHoldingPeriod
      = (restingDog.MovePlayer Direction.EAST 3).GetHoldingPeriod :=
  ⟨by decide!, MovePlayer_keeps_holding_time.1 restingDog Direction.EAST 3,
    MovePlayer_keeps_holding_time.2.1 (restingDog.MovePlayer Direction.EAST 3) 250 (by decide!)⟩

/-- C9 as stated fails: a dog that stood still for 500 ms and is then set in motion
eastwards at speed 3 (a non-zero speed) is moving with a holding period of 500, not 0. -/
theorem MovePlayer_does_not_reset_holding_time :
    restingDog.IsStoped = true ∧
    ((restingDog.SetDirection Direction.EAST).SetSpeed 3).IsStoped = false ∧
    ((restingDog.SetDirection Direction.EAST).SetSpeed 3).GetHoldingPeriod = 500 ∧
    ¬ (∀ (dog : Dog) (dir : Direction) (s : ℚ), s ≠ 0 →
        ((dog.SetDirection dir).SetSpeed s).GetHoldingPeriod = 0) := by
  have h : ((restingDog.SetDirection Direction.EAST).SetSpeed 3).GetHoldingPeriod = 500 := by
    decide!
  refine ⟨by decide!, by decide!, h, fun hall => ?_⟩
  have h0 := hall restingDog Direction.EAST 3 (by norm_num)
  rw [h] at h0
  exact absurd h0 (by decide)

end model

namespace app

open model

/-- C10: retirement is idempotent. `UseCaseDogRetire(dog_id, map_id)` for a pair with no
registered player returns true and leaves the application as it was: no record is saved,
the player table and the token table are unchanged. Hence, whenever a call returns, it
returns true, a second call for the same pair changes nothing more, and the two calls
together save exactly one record when the player was registered and none otherwise. -/
theorem DogRetire_idempotent (a : Application) (dog_id : ℕ) (map_id : String)
    (uuid1 uuid2 : String) :
    (FindByDogIdAndMapId a.players_ dog_id map_id = none →
      UseCaseDogRetire a dog_id map_id uuid1 = some (true, a)) ∧
    (∀ (r : Bool) (a1 : Application),
      UseCaseDogRetire a dog_id map_id uuid1 = some (r, a1) →
      r = true ∧
      UseCaseDogRetire a1 dog_id map_id uuid2 = some (true, a1) ∧
      ((FindByDogIdAndMapId a.players_ dog_id map_id).isSome = true →
        a1.retired_players_.length = a.retired_players_.length + 1) ∧
      (FindByDogIdAndMapId a.players_ dog_id map_id = none →
        a1.retired_players_ = a.retired_players_)) := by
  have habsent : ∀ (b : Application) (u : String),
      FindByDogIdAndMapId b.players_ dog_id map_id = none →
      UseCaseDogRetire b dog_id map_id u = some (true, b) := by
    intro b u hb
    simp [UseCaseDogRetire, hb]
  refine ⟨habsent a uuid1, ?_⟩
  intro r a1 h
  cases hf : FindByDogIdAndMapId a.players_ dog_id map_id with
  | none =>
    rw [habsent a uuid1 hf] at h
    simp only [Option.some.injEq, Prod.mk.injEq] at h
    obtain ⟨rfl, rfl⟩ := h
    exact ⟨rfl, habsent _ uuid2 hf, by simp, fun _ => rfl⟩
  | some player =>
    unfold UseCaseDogRetire at h
    simp only [hf] at h
    split at h
    · cases h
    · split at h
      · cases h
      · simp only [Option.some.injEq, Prod.mk.injEq] at h
        obtain ⟨rfl, rfl⟩ := h
        refine ⟨rfl, ?_, by simp, by simp⟩
        apply habsent
        simp only [FindByDogIdAndMapId, ErasePlayer]
        exact umap.find_erase_self _ _

/-- C10, at a concrete application: retiring the registered dog 0 of "market" saves one
record and empties the registries; retiring it again changes nothing, so exactly one record
is persisted. -/
theorem DogRetire_idempotent_witness :
    UseCaseDogRetire oneplayerApp 0 "market" "uuid-1" = some (true, oneplayerRetired) ∧
    UseCaseDogRetire oneplayerRetired 0 "market" "uuid-2" = some (true, oneplayerRetired) ∧
    oneplayerRetired.retired_players_.length = oneplayerApp.retired_players_.length + 1 :=
  have h : UseCaseDogRetire oneplayerApp 0 "market" "uuid-1" = some (true, oneplayerRetired) := by
    decide!
  have h2 := (DogRetire_idempotent oneplayerApp 0 "market" "uuid-1" "uuid-2").2 true
    oneplayerRetired h
  ⟨h, h2.2.1, h2.2.2.1 (by decide!)⟩

end app

/-! ## Theorems: collection and the radii -/

namespace collision_detector

open geom

theorem IsCollected_mono (c : CollectionResult) (r1 r2 : ℚ) (h0 : 0 ≤ r1) (h : r1 ≤ r2)
    (hc : c.IsCollected r1 = true) : c.IsCollected r2 = true := by
  simp only [CollectionResult.IsCollected, Bool.and_eq_true, decide_eq_true_eq, ge_iff_le]
    at hc ⊢
  exact ⟨hc.1, le_trans hc.2 (mul_le_mul h h h0 (le_trans h0 h))⟩

/-- C20: collection is monotone in the item radius and the event data does not depend on
it. When `FindGatherEvents` emits an event for item `i` and a gatherer whose radius plus the
radius of the item is not negative, the gatherer has `start ≠ end`, the time and the squared
distance of the event are those of `TryCollectPoint` on the three points alone, and the very
same event is emitted after the radius of the item is replaced by any `r' ≥ r`. -/
theorem FindGatherEvents_monotone_in_item_radius (p : ItemGathererProvider) (i : ℕ)
    (item : Item) (gatherer : Gatherer) (r' : ℚ) (e : GatheringEvent)
    (hi : p.items_[i]? = some item)
    (hg : p.gatherers_[e.gatherer_id]? = some gatherer)
    (hsum : 0 ≤ gatherer.raduis + item.radius) (hr : item.radius ≤ r')
    (hei : e.item_id = i) (he : e ∈ FindGatherEvents p) :
    gatherer.start_pos ≠ gatherer.end_pos ∧
    e.time = (TryCollectPoint gatherer.start_pos gatherer.end_pos item.position).proj_ratio ∧
    e.sq_distance =
      (TryCollectPoint gatherer.start_pos gatherer.end_pos item.position).sq_distance ∧
    e ∈ FindGatherEvents { p with items_ := p.items_.set i { item with radius := r' } } := by
  unfold FindGatherEvents at he ⊢
  rw [mem_sortEvents, mem_detectedEvents] at he ⊢
  obtain ⟨gatherer', item', hg', hi', hne, hd, ht, hc⟩ := he
  rw [hg] at hg'
  rw [hei, hi] at hi'
  simp only [Option.some.injEq] at hg' hi'
  subst hg' hi'
  refine ⟨hne, ht, hd, gatherer, { item with radius := r' }, hg, ?_, hne, hd, ht, ?_⟩
  · obtain ⟨hlt, _⟩ := List.getElem?_eq_some.1 hi
    simp [hei, List.getElem?_set, hlt]
  · exact IsCollected_mono _ _ _ hsum (by simpa using hr) hc

/-- The scenario "collect item on the edge": with the gatherer `(0,0) -> (0,2)` of radius
0.6, the item at `(0.65, 1)` is collected with radius 0.1, at time 0.5 and squared distance
0.4225, it is not collected with radius 0, and the same event is emitted with radius 0.2. -/
theorem FindGatherEvents_monotone_in_item_radius_witness :
    FindGatherEvents (edgeProvider (1/10)) =
      [{ item_id := 0, gatherer_id := 0, sq_distance := 169/400, time := 1/2 }] ∧
    FindGatherEvents (edgeProvider 0) = [] ∧
    ({ item_id := 0, gatherer_id := 0, sq_distance := 169/400, time := 1/2 } : GatheringEvent)
      ∈ FindGatherEvents (edgeProvider (1/5)) :=
  ⟨by decide!, by decide!,
   (FindGatherEvents_monotone_in_item_radius (edgeProvider (1/10)) 0
      { position := ⟨13/20, 1⟩, radius := 1/10 }
      { start_pos := ⟨0, 0⟩, end_pos := ⟨0, 2⟩, raduis := 3/5 } (1/5)
      { item_id := 0, gatherer_id := 0, sq_distance := 169/400, time := 1/2 }
      (by decide!) (by decide!) (by decide!) (by decide!) rfl (by decide!)).2.2.2⟩

end collision_detector

/-! ## Theorems: the token generator -/

namespace app

theorem digitChar_isLowerHex (d : ℕ) (h : d < 16) : isLowerHex (Nat.digitChar d) = true := by
  interval_cases d <;> decide

theorem toDigitsCore_isLowerHex (f n : ℕ) (acc : List Char)
    (hacc : ∀ c ∈ acc, isLowerHex c = true) :
    ∀ c ∈ Nat.toDigitsCore 16 f n acc, isLowerHex c = true := by
  induction f generalizing n acc with
  | zero => simpa [Nat.toDigitsCore] using hacc
  | succ f ih =>
    have hd : isLowerHex (Nat.digitChar (n % 16)) = true :=
      digitChar_isLowerHex _ (Nat.mod_lt _ (by decide))
    have hacc2 : ∀ c ∈ Nat.digitChar (n % 16) :: acc, isLowerHex c = true := by
      intro c hc
      rcases List.mem_cons.1 hc with rfl | hc
      · exact hd
      · exact hacc c hc
    simp only [Nat.toDigitsCore]
    split
    · exact hacc2
    · exact ih _ _ hacc2

theorem hexRender_isLowerHex (n : ℕ) : ∀ c ∈ hexRender n, isLowerHex c = true :=
  toDigitsCore_isLowerHex _ _ _ (by simp)

theorem hexRender_length (n : ℕ) (h : n < 2 ^ 64) : (hexRender n).length ≤ 16 :=
  Nat.toDigitsCore_length 16 (by decide) _ n 16 (by simpa using h) (by decide)

theorem setwFill_length (width : ℕ) (fill : Char) (text : List Char)
    (h : text.length ≤ width) : (setwFill width fill text).length = width := by
  simp [setwFill]; omega

theorem hexDigitValue_digitChar (d : ℕ) (h : d < 16) :
    hexDigitValue (Nat.digitChar d) = d := by
  interval_cases d <;> decide

theorem foldl_hexValue (text : List Char) (init : ℕ) :
    text.foldl (fun acc c => 16 * acc + hexDigitValue c) init =
      init * 16 ^ text.length + hexValue text := by
  induction text generalizing init with
  | nil => simp [hexValue]
  | cons c rest ih =>
    simp only [hexValue, List.foldl_cons, List.length_cons]
    rw [ih, ih (16 * 0 + hexDigitValue c)]
    ring

theorem hexValue_cons (c : Char) (rest : List Char) :
    hexValue (c :: rest) = hexDigitValue c * 16 ^ rest.length + hexValue rest := by
  simp only [hexValue, List.foldl_cons]
  rw [foldl_hexValue]
  simp [hexValue]

theorem hexValue_toDigitsCore (f n : ℕ) (acc : List Char) (h : n < f) :
    hexValue (Nat.toDigitsCore 16 f n acc) = n * 16 ^ acc.length + hexValue acc := by
  induction f generalizing n acc with
  | zero => omega
  | succ f ih =>
    simp only [Nat.toDigitsCore]
    split
    · next h0 =>
      rw [hexValue_cons, hexDigitValue_digitChar _ (Nat.mod_lt _ (by decide))]
      have : n % 16 = n := by omega
      rw [this]
    · next h0 =>
      rw [ih _ _ (by omega), hexValue_cons, hexDigitValue_digitChar _ (Nat.mod_lt _ (by decide))]
      simp only [List.length_cons, pow_succ]
      have hn : n = 16 * (n / 16) + n % 16 := (Nat.div_add_mod n 16).symm
      conv_rhs => rw [hn]
      ring

theorem hexValue_hexRender (n : ℕ) : hexValue (hexRender n) = n := by
  unfold hexRender Nat.toDigits
  rw [hexValue_toDigitsCore _ _ _ (Nat.lt_succ_self n)]
  simp [hexValue]

/-- C15: token format. For every pair of 64-bit values `a`, `b` drawn by the two generators,
`TokenGenerator` returns a string of exactly 32 characters, all in `[0-9a-f]`; its first 16
characters are the hexadecimal digits of `a` (a text whose value is `a`) padded at the left
with `f`, and its last 16 are the hexadecimal digits of `b` padded at the left with `a`. -/
theorem TokenGenerator_format (a b : ℕ) (ha : a < 2 ^ 64) (hb : b < 2 ^ 64) :
    (TokenGenerator a b).length = 32 ∧
    (∀ c ∈ (TokenGenerator a b).data, isLowerHex c = true) ∧
    (TokenGenerator a b).data.take 16 =
      List.replicate (16 - (hexRender a).length) 'f' ++ hexRender a ∧
    (TokenGenerator a b).data.drop 16 =
      List.replicate (16 - (hexRender b).length) 'a' ++ hexRender b ∧
    hexValue (hexRender a) = a ∧ hexValue (hexRender b) = b := by
  have la := setwFill_length 16 'f' _ (hexRender_length a ha)
  have lb := setwFill_length 16 'a' _ (hexRender_length b hb)
  refine ⟨?_, ?_, ?_, ?_, hexValue_hexRender a, hexValue_hexRender b⟩
  · simp [TokenGenerator, String.length, la, lb]
  · intro c hc
    simp only [TokenGenerator, List.mem_append, setwFill, List.mem_replicate] at hc
    rcases hc with (⟨_, rfl⟩ | hc) | (⟨_, rfl⟩ | hc)
    · decide
    · exact hexRender_isLowerHex a c hc
    · decide
    · exact hexRender_isLowerHex b c hc
  · simp only [TokenGenerator]
    rw [List.take_append_of_le_length (by omega), List.take_of_length_le (by omega)]
    rfl
  · simp only [TokenGenerator]
    rw [List.drop_append_of_le_length (by omega), List.drop_of_length_le (by omega)]
    rfl

/-- The draws `a = 0x1234`, `b = 0` give the token `ffffffffffff1234aaaaaaaaaaaaaaa0`, and
the draws `a = b = 2^64 - 1` give 32 times `f`. -/
theorem TokenGenerator_format_witness :
    TokenGenerator 0x1234 0 = "ffffffffffff1234aaaaaaaaaaaaaaa0" ∧
    TokenGenerator (2 ^ 64 - 1) (2 ^ 64 - 1) = "ffffffffffffffffffffffffffffffff" ∧
    (0x1234 < 2 ^ 64 ∧ 0 < 2 ^ 64) ∧
    (TokenGenerator 0x1234 0).length = 32 :=
  ⟨by decide, by decide, by decide,
   (TokenGenerator_format 0x1234 0 (by decide) (by decide)).1⟩

end app

/-! ## Theorems: error responses -/

namespace http_handler

open ErrorBuilder

/-- C17, as the code has it: `ErrorBuilder::Error` returns 404 `mapNotFound` for
`MapNotFound`, 400 `badRequest` for `BadRequest`, 405 `invalidMethod` for `InvalidMethod`, 400
`invalidArgument` for `JoinGameParse`, `ActionParse` and `TickParse`, 401 `invalidToken` for
`InvalidAuthHeader` and 401 `unknownToken` for `PlayerTokenNotFound`, each as the serialized
object `{code, message}` with the content type `application/json`; for `FileNotFound` it
returns 404 and for `ServerError` 500, both with the content type `text/plain` and a body
that is not an object. -/
theorem Error_statuses_and_codes :
    (∀ param, ∃ message,
      Error ErrorCode.MapNotFound param =
        (404, SerializeError "mapNotFound" message, "application/json")) ∧
    (∀ param, ∃ message,
      Error ErrorCode.BadRequest param =
        (400, SerializeError "badRequest" message, "application/json")) ∧
    (∀ param, ∃ message,
      Error ErrorCode.InvalidMethod param =
        (405, SerializeError "invalidMethod" message, "application/json")) ∧
    (∀ param, ∃ message,
      Error ErrorCode.JoinGameParse param =
        (400, SerializeError "invalidArgument" message, "application/json")) ∧
    (∀ param, ∃ message,
      Error ErrorCode.ActionParse param =
        (400, SerializeError "invalidArgument" message, "application/json")) ∧
    (∀ param, ∃ message,
      Error ErrorCode.TickParse param =
        (400, SerializeError "invalidArgument" message, "application/json")) ∧
    (∀ param, ∃ message,
      Error ErrorCode.InvalidAuthHeader param =
        (401, SerializeError "invalidToken" message, "application/json")) ∧
    (∀ param, ∃ message,
      Error ErrorCode.PlayerTokenNotFound param =
        (401, SerializeError "unknownToken" message, "application/json")) ∧
    (∀ param, Error ErrorCode.FileNotFound param = (404, "File Not Found: ", "text/plain")) ∧
    (∀ param, (Error ErrorCode.ServerError param).1 = 500 ∧
      (Error ErrorCode.ServerError param).2.2 = "text/plain" ∧
      (Error ErrorCode.ServerError param).2.1.data.head? ≠ some (Char.ofNat 123)) ∧
    SerializeError "mapNotFound" "Map not found" =
      "\x7b\x22code\x22:\x22mapNotFound\x22,\x22message\x22:\x22Map not found\x22\x7d" := by
  refine ⟨fun _ => ⟨_, rfl⟩, fun _ => ⟨_, rfl⟩, fun _ => ⟨_, rfl⟩, fun _ => ⟨_, rfl⟩,
    fun _ => ⟨_, rfl⟩, fun _ => ⟨_, rfl⟩, fun _ => ⟨_, rfl⟩, fun _ => ⟨_, rfl⟩, fun _ => rfl,
    fun _ => ⟨rfl, rfl, ?_⟩, by decide⟩
  show Messages.FileNotFound.data.head? ≠ some (Char.ofNat 123)
  decide

/-- The bodies of `FileNotFound` and `ServerError` are plain text, not an object with a
`code`: both are the text `File Not Found: ` with the content type `text/plain`, and neither
equals the serialized object with the code `fileNotFound` or `serverError` and the message
of the kind. -/
theorem Error_FileNotFound_ServerError_are_plain_text :
    Error ErrorCode.FileNotFound none = (404, "File Not Found: ", "text/plain") ∧
    Error ErrorCode.ServerError none = (500, "File Not Found: ", "text/plain") ∧
    (Error ErrorCode.FileNotFound none).2.1 ≠
      SerializeError "fileNotFound" Messages.FileNotFound ∧
    (Error ErrorCode.ServerError none).2.1 ≠
      SerializeError "serverError" Messages.ServerError ∧
    (Error ErrorCode.FileNotFound none).2.1.data.head? = some 'F' ∧
    (Error ErrorCode.ServerError none).2.1.data.head? = some 'F' := by
  decide

end http_handler

/-! ## Theorems: session ids -/

namespace model

theorem twoMapGame_is_loaded :
    ((({ twoMapGame with maps_ := [], map_id_to_index_ := [] } : Game).AddMap clampMap).bind
      fun g => g.AddMap (marketMap 3)) = some twoMapGame := by
  decide!

/-- C11, as the code has it: session ids are not unique once a snapshot is restored. In the
game with the maps "map1" and "market", `AddGameSession("map1", 0)` stores a session with
the id 0 and leaves `last_session_index_` at 0, so the session `GetGameSessionByMapId`
then creates for "market" gets the id 0 as well: two live sessions share their id. Two
lazy creations in a row give the ids 0 and 1. -/
theorem AddGameSession_then_lazy_creation_repeats_session_id :
    restoredThenJoined.map Game.sessionIds = some [("map1", 0), ("market", 0)] ∧
    restoredThenJoined.map (fun g => g.last_session_index_) = some 1 ∧
    ((twoMapGame.GetGameSessionByMapId "map1").bind fun (g, _) =>
      (g.GetGameSessionByMapId "market").map fun (g, _) => g.sessionIds) =
      some [("map1", 0), ("market", 1)] := by
  decide!

end model

/-! ## Theorems: the state content of a session -/

namespace umap

variable {κ ν : Type}

theorem find_eq_none_iff [DecidableEq κ] (m : List (κ × ν)) (k : κ) :
    find m k = none ↔ k ∉ m.map Prod.fst := by
  induction m with
  | nil => simp [find]
  | cons kv rest ih =>
    obtain ⟨k', v⟩ := kv
    by_cases h : k' = k
    · simp [find, h]
    · simp only [find, h, if_false, ih, List.map_cons, List.mem_cons]
      constructor
      · intro hn hc
        rcases hc with hc | hc
        · exact h hc.symm
        · exact hn hc
      · intro hn hc
        exact hn (Or.inr hc)

theorem contains_eq_false_iff [DecidableEq κ] (m : List (κ × ν)) (k : κ) :
    contains m k = false ↔ k ∉ m.map Prod.fst := by
  rw [← find_eq_none_iff]
  unfold contains
  cases find m k <;> simp

theorem emplace_of_not_mem [DecidableEq κ] (m : List (κ × ν)) (k : κ) (v : ν)
    (h : k ∉ m.map Prod.fst) : emplace m k v = (m ++ [(k, v)], true) := by
  unfold emplace
  rw [(contains_eq_false_iff m k).2 h]
  simp

theorem find_append [DecidableEq κ] (m1 m2 : List (κ × ν)) (k : κ) :
    find (m1 ++ m2) k = (find m1 k).orElse (fun _ => find m2 k) := by
  induction m1 with
  | nil => simp [find]
  | cons kv rest ih =>
    obtain ⟨k', v⟩ := kv
    by_cases h : k' = k
    · simp [find, h]
    · simp [find, h, ih]

end umap

namespace model

open geom

theorem addDogs_spec (dogs : List Dog) (s : GameSession)
    (h : (s.dog_id_to_dog_ ++ dogs.map (fun d => d.id_)).Nodup) :
    s.addDogs dogs =
      some { s with dogs_ := s.dogs_ ++ dogs,
                    dog_id_to_dog_ := s.dog_id_to_dog_ ++ dogs.map (fun d => d.id_) } := by
  induction dogs generalizing s with
  | nil => simp [GameSession.addDogs]
  | cons dog rest ih =>
    have hnot : dog.id_ ∉ s.dog_id_to_dog_ := by
      intro hc
      have := List.nodup_append.1 h
      exact this.2.2 hc (by simp)
    have hstep : s.AddDog dog =
        ({ s with dogs_ := s.dogs_ ++ [dog], dog_id_to_dog_ := s.dog_id_to_dog_ ++ [dog.id_] },
          true) := by
      simp [GameSession.AddDog, hnot]
    rw [GameSession.addDogs, hstep]
    simp only
    rw [ih]
    · simp
    · simpa using h

theorem addLootObjects_spec (loot : List (LootObject × PointDouble)) (s : GameSession)
    (hobj : (s.loot_obj_id_to_obj_.map Prod.fst ++ loot.map (fun p => p.1.id_)).Nodup)
    (hpt : (s.loot_obj_id_to_coords_.map Prod.fst ++ loot.map (fun p => p.1.id_)).Nodup) :
    s.addLootObjects loot =
      some { s with
        loot_obj_id_to_coords_ := s.loot_obj_id_to_coords_ ++ loot.map (fun p => (p.1.id_, p.2)),
        loot_obj_id_to_obj_ := s.loot_obj_id_to_obj_ ++ loot.map (fun p => (p.1.id_, p.1)) } := by
  induction loot generalizing s with
  | nil => simp [GameSession.addLootObjects]
  | cons p rest ih =>
    obtain ⟨obj, pt⟩ := p
    have hnot1 : obj.id_ ∉ s.loot_obj_id_to_obj_.map Prod.fst := by
      intro hc
      exact (List.nodup_append.1 hobj).2.2 hc (by simp)
    have hnot2 : obj.id_ ∉ s.loot_obj_id_to_coords_.map Prod.fst := by
      intro hc
      exact (List.nodup_append.1 hpt).2.2 hc (by simp)
    have hstep : s.AddLootObject obj pt =
        some { s with
          loot_obj_id_to_coords_ := s.loot_obj_id_to_coords_ ++ [(obj.id_, pt)],
          loot_obj_id_to_obj_ := s.loot_obj_id_to_obj_ ++ [(obj.id_, obj)] } := by
      unfold GameSession.AddLootObject
      rw [(umap.contains_eq_false_iff _ _).2 hnot1, umap.emplace_of_not_mem _ _ _ hnot1,
        umap.emplace_of_not_mem _ _ _ hnot2]
      simp
    rw [GameSession.addLootObjects, hstep]
    simp only
    rw [ih]
    · simp
    · simpa using hobj
    · simpa using hpt

theorem lootContent_of_find (coords : List (ℕ × PointDouble))
    (loot : List (LootObject × PointDouble))
    (h : ∀ p ∈ loot, umap.find coords p.1.id_ = some p.2) :
    GameSession.lootContent coords (loot.map (fun p => (p.1.id_, p.1))) = some loot := by
  induction loot with
  | nil => rfl
  | cons p rest ih =>
    simp only [List.map_cons, GameSession.lootContent]
    rw [h p (by simp), ih (fun q hq => h q (by simp [hq]))]

theorem find_loot_coords (loot : List (LootObject × PointDouble))
    (h : (loot.map (fun p => p.1.id_)).Nodup) :
    ∀ p ∈ loot, umap.find (loot.map (fun p => (p.1.id_, p.2))) p.1.id_ = some p.2 := by
  induction loot with
  | nil => simp
  | cons q rest ih =>
    intro p hp
    simp only [List.map_cons, List.nodup_cons] at h
    rcases List.mem_cons.1 hp with rfl | hp
    · simp [umap.find]
    · have hne : q.1.id_ ≠ p.1.id_ := by
        intro hc
        exact h.1 (hc ▸ List.mem_map_of_mem (fun p => p.1.id_) hp)
      simp only [List.map_cons, umap.find, hne, if_false]
      exact ih h.2 p hp

theorem lootContent_ids (coords : List (ℕ × PointDouble)) (objs : List (ℕ × LootObject))
    (loot : List (LootObject × PointDouble))
    (h : GameSession.lootContent coords objs = some loot) :
    loot.map (fun p => p.1) = objs.map Prod.snd := by
  induction objs generalizing loot with
  | nil =>
    simp only [GameSession.lootContent, Option.some.injEq] at h
    subst h; rfl
  | cons kv rest ih =>
    obtain ⟨k, obj⟩ := kv
    simp only [GameSession.lootContent] at h
    cases hf : umap.find coords obj.id_ with
    | none => simp [hf] at h
    | some pt =>
      cases hr : GameSession.lootContent coords rest with
      | none => simp [hf, hr] at h
      | some tail =>
        simp only [hf, hr, Option.some.injEq] at h
        subst h
        simp [ih tail hr]

theorem rebuildSession_eq (map : Map) (random_spawn : Bool) (period : ℕ) (probability : ℚ)
    (dog_retirement_time : ℕ) (do_on_retire : Bool) (c : StateContent)
    (hdogs : (c.dogs.map (fun d => d.id_)).Nodup)
    (hloot : (c.loot_objects.map (fun p => p.1.id_)).Nodup) :
    rebuildSession map random_spawn period probability dog_retirement_time do_on_retire c =
      some { GameSession.new map c.session_id random_spawn period probability
               dog_retirement_time do_on_retire c.dogs_join c.objects_spawned with
             dogs_ := c.dogs, dog_id_to_dog_ := c.dogs.map (fun d => d.id_),
             loot_obj_id_to_coords_ := c.loot_objects.map (fun p => (p.1.id_, p.2)),
             loot_obj_id_to_obj_ := c.loot_objects.map (fun p => (p.1.id_, p.1)) } := by
  have h1 := addDogs_spec c.dogs
    (GameSession.new map c.session_id random_spawn period probability dog_retirement_time
      do_on_retire c.dogs_join c.objects_spawned) (by simpa [GameSession.new] using hdogs)
  simp only [rebuildSession]
  rw [h1]
  simp only [Option.bind]
  rw [addLootObjects_spec]
  · simp [GameSession.new]
  · simpa [GameSession.new] using hloot
  · simpa [GameSession.new] using hloot

/-- C18: snapshot round trip of a session. For every session whose dogs have pairwise
distinct ids and whose loot objects have pairwise distinct ids, and whose state content `c`
is returned by `GetSessionStateContent`, building a new session on the same map with the
session id and the two counters of `c` and re-adding every dog (`AddDog`) and every loot
object with its coordinates (`AddLootObject`) succeeds, and the state content of the
session built has the same map id, session id, `dogs_join`, `objects_spawned`, the same
dogs in the same order and the same (loot object, coordinates) pairs. -/
theorem session_state_round_trip (s : GameSession) (c : StateContent)
    (random_spawn : Bool) (period : ℕ) (probability : ℚ) (dog_retirement_time : ℕ)
    (do_on_retire : Bool)
    (hc : s.GetSessionStateContent = some c)
    (hdogs : (s.dogs_.map (fun d => d.id_)).Nodup)
    (hloot : (s.loot_obj_id_to_obj_.map (fun kv => kv.2.id_)).Nodup) :
    ∃ s' c',
      rebuildSession s.map_ random_spawn period probability dog_retirement_time
        do_on_retire c = some s' ∧
      s'.GetSessionStateContent = some c' ∧
      c'.map_id = c.map_id ∧ c'.session_id = c.session_id ∧
      c'.dogs_join = c.dogs_join ∧ c'.objects_spawned = c.objects_spawned ∧
      c'.dogs = c.dogs ∧ c'.dogs = s.dogs_ ∧
      (∀ p, p ∈ c'.loot_objects ↔ p ∈ c.loot_objects) ∧
      s'.map_ = s.map_ ∧ s'.id_ = s.id_ := by
  unfold GameSession.GetSessionStateContent at hc
  cases hl : GameSession.lootContent s.loot_obj_id_to_coords_ s.loot_obj_id_to_obj_ with
  | none => simp [hl] at hc
  | some loot =>
    simp only [hl, Option.some.injEq] at hc
    subst hc
    have hids : (loot.map (fun p => p.1.id_)).Nodup := by
      have := lootContent_ids _ _ _ hl
      have h2 : loot.map (fun p => p.1.id_) =
          (loot.map (fun p => p.1)).map (fun o => o.id_) := by simp
      rw [h2, this]
      simpa using hloot
    refine ⟨_, ⟨s.map_.id_, s.id_, s.dogs_, loot, s.dogs_join_, s.objects_spawned_⟩,
      rebuildSession_eq _ _ _ _ _ _ _ hdogs hids, ?_,
      rfl, rfl, rfl, rfl, rfl, rfl, fun _ => Iff.rfl, rfl, rfl⟩
    simp only [GameSession.GetSessionStateContent, GameSession.new]
    rw [lootContent_of_find _ _ (find_loot_coords loot hids)]

/-- The session of the test "GameSession params Serialization" (session id 42, counters 4
and 5, dog 42 "Pluto", loot object 7 at `(20.0, 15.5)`): its state content is `plutoContent`,
and the session rebuilt from it has that same state content. -/
theorem session_state_round_trip_witness :
    plutoSession.bind GameSession.GetSessionStateContent = some plutoContent ∧
    (rebuildSession plutoMap false 5000 (1/3) 60000 false plutoContent).bind
      GameSession.GetSessionStateContent = some plutoContent ∧
    ∃ s' c',
      rebuildSession plutoMap false 5000 (1/3) 60000 false plutoContent = some s' ∧
      s'.GetSessionStateContent = some c' ∧
      c'.map_id = "MapId" ∧ c'.session_id = 42 ∧ c'.dogs_join = 4 ∧ c'.objects_spawned = 5 ∧
      c'.dogs = plutoContent.dogs ∧ c'.dogs = [plutoDog] ∧
      (∀ p, p ∈ c'.loot_objects ↔ p ∈ plutoContent.loot_objects) ∧
      s'.map_ = plutoMap ∧ s'.id_ = 42 :=
  ⟨by decide!, by decide!,
   session_state_round_trip
     (((GameSession.new plutoMap 42 true 1000 (1/2) 1000 true 4 5).AddDog plutoDog).1.AddLootObject
        { id_ := 7, type_ := 6, worth_ := 7 } ⟨20, 31/2⟩ |>.get (by decide!))
     plutoContent false 5000 (1/3) 60000 false (by decide!) (by decide!) (by decide!)⟩

end model

/-! ## Theorems: the Authorization header -/

namespace http_handler

theorem all_take_false (l : List Char) (k : ℕ) (c : Char) (hk : k < 32)
    (hc : l[k]? = some c) (hbad : isHexChar c = false) :
    (l.take 32).all isHexChar = false := by
  have hmem : c ∈ l.take 32 := by
    have h1 : (l.take 32)[k]? = some c := by
      rw [List.getElem?_take_of_lt hk]; exact hc
    exact List.mem_iff_getElem?.2 ⟨k, h1⟩
  cases hall : (l.take 32).all isHexChar with
  | false => rfl
  | true =>
    have := List.all_eq_true.1 hall c hmem
    rw [hbad] at this
    exact absurd this (by simp)

theorem tokenMatches_zero_cons_of_bad (c : Char) (rest : List Char)
    (h : ((c :: rest).take 32).all isHexChar = false) :
    tokenMatches 0 (c :: rest) = tokenMatches 0 rest := by
  rw [tokenMatches, if_neg]
  rintro ⟨_, h2⟩
  rw [h] at h2
  exact absurd h2 (by simp)

theorem tokenMatches_skip (l : List Char) (k : ℕ) (h : l.length ≤ k) :
    tokenMatches k l = [] := by
  induction l generalizing k with
  | nil => cases k <;> rfl
  | cons x xs ih =>
    cases k with
    | zero => simp at h
    | succ k =>
      rw [tokenMatches]
      exact ih k (by simpa using h)

theorem tokenMatches_bearer (rest : List Char) (hlen : rest.length = 32)
    (hhex : rest.all isHexChar = true) :
    tokenMatches 0 ('B' :: 'e' :: 'a' :: 'r' :: 'e' :: 'r' :: ' ' :: rest) = [rest] := by
  have hr : isHexChar 'r' = false := by decide
  have hs : isHexChar ' ' = false := by decide
  rw [tokenMatches_zero_cons_of_bad 'B' ('e' :: 'a' :: 'r' :: 'e' :: 'r' :: ' ' :: rest)
      (all_take_false _ 3 'r' (by decide) (by simp) hr),
    tokenMatches_zero_cons_of_bad 'e' ('a' :: 'r' :: 'e' :: 'r' :: ' ' :: rest)
      (all_take_false _ 2 'r' (by decide) (by simp) hr),
    tokenMatches_zero_cons_of_bad 'a' ('r' :: 'e' :: 'r' :: ' ' :: rest)
      (all_take_false _ 1 'r' (by decide) (by simp) hr),
    tokenMatches_zero_cons_of_bad 'r' ('e' :: 'r' :: ' ' :: rest)
      (all_take_false _ 0 'r' (by decide) (by simp) hr),
    tokenMatches_zero_cons_of_bad 'e' ('r' :: ' ' :: rest)
      (all_take_false _ 1 'r' (by decide) (by simp) hr),
    tokenMatches_zero_cons_of_bad 'r' (' ' :: rest)
      (all_take_false _ 0 'r' (by decide) (by simp) hr),
    tokenMatches_zero_cons_of_bad ' ' rest
      (all_take_false _ 0 ' ' (by decide) (by simp) hs)]
  cases rest with
  | nil => simp at hlen
  | cons c tail =>
    have htake : (c :: tail).take 32 = c :: tail := List.take_of_length_le (by omega)
    have htail : tail.length ≤ 31 := by simp at hlen; omega
    rw [tokenMatches, htake, if_pos ⟨hlen, hhex⟩, tokenMatches_skip tail 31 htail]

theorem matchesFull_iff (field : List Char) :
    matchesFull field = true ↔
      ∃ rest, field = 'B' :: 'e' :: 'a' :: 'r' :: 'e' :: 'r' :: ' ' :: rest ∧
        rest.length = 32 ∧ rest.all isHexChar = true := by
  constructor
  · intro h
    simp only [matchesFull, Bool.and_eq_true, decide_eq_true_eq] at h
    refine ⟨field.drop 7, ?_, h.1.2, h.2⟩
    have := List.take_append_drop 7 field
    rw [h.1.1] at this
    exact this.symm
  · rintro ⟨rest, rfl, hlen, hhex⟩
    simp [matchesFull, hlen, hhex]

/-- The token `ParseAuthToken` yields: the header value is `Bearer ` followed by exactly 32
characters of `[0-9a-fA-F]`, and the token is those 32 characters. -/
theorem ParseAuthToken_iff (req : Request) (token : String) :
    ParseAuthToken req = some token ↔
      (req.authorization.getD "").data =
        'B' :: 'e' :: 'a' :: 'r' :: 'e' :: 'r' :: ' ' :: token.data ∧
      token.length = 32 ∧ token.data.all isHexChar = true := by
  unfold ParseAuthToken
  constructor
  · intro h
    cases hm : matchesFull (req.authorization.getD "").data with
    | false => simp [hm] at h
    | true =>
      obtain ⟨rest, hf, hlen, hhex⟩ := (matchesFull_iff _).1 hm
      rw [hf] at hm h
      simp only [hm, tokenMatches_bearer rest hlen hhex] at h
      have h2 : String.mk rest = token := by simpa using h
      subst h2
      exact ⟨hf, hlen, hhex⟩
  · rintro ⟨hf, hlen, hhex⟩
    have hm : matchesFull (req.authorization.getD "").data = true :=
      (matchesFull_iff _).2 ⟨token.data, hf, hlen, hhex⟩
    rw [hf] at hm ⊢
    simp only [hm, tokenMatches_bearer token.data hlen hhex]
    simp

end http_handler

namespace http_handler

open ErrorBuilder

theorem Construct_auth_token_of_some (d : RequestData) (req : Request)
    (h : req.authorization.isSome = true) :
    (d.Construct req).auth_token = ParseAuthToken req := by
  unfold RequestData.Construct
  by_cases hp : req.method = Verb.post <;> simp [hp, h]

theorem Construct_auth_token_of_none (d : RequestData) (req : Request)
    (h : req.authorization = none) :
    (d.Construct req).auth_token = d.auth_token := by
  unfold RequestData.Construct
  by_cases hp : req.method = Verb.post <;> simp [hp, h]

/-- C16, as the code has it. `ParseAuthToken` yields a token exactly for the header value
`Bearer ` followed by 32 characters of `[0-9a-fA-F]`, the token being those characters; a
request whose header is present with any other value is answered with 401 `invalidToken`
and the action is not run; so is a request without the header when `req_data_` is fresh.
But `Construct` leaves `auth_token` as it is when the header is absent, and the handler
keeps one `req_data_` for all requests: after a request with a valid header, a request
without any `Authorization` header runs the action with the token of the earlier request. -/
theorem ExecuteAuthorized_keeps_token_of_earlier_request :
    (∀ (req : Request) (token : String),
      ParseAuthToken req = some token ↔
        (req.authorization.getD "").data =
          'B' :: 'e' :: 'a' :: 'r' :: 'e' :: 'r' :: ' ' :: token.data ∧
        token.length = 32 ∧ token.data.all isHexChar = true) ∧
    (∀ (d : RequestData) (req : Request) (a : app.Application)
        (action : String → app.Application → StringResponse × app.Application),
      req.authorization.isSome = true → ParseAuthToken req = none →
        ExecuteAuthorized (d.Construct req) a action =
          (ResponseApiError (d.Construct req) ErrorCode.InvalidAuthHeader, a)) ∧
    (∀ (req : Request) (a : app.Application)
        (action : String → app.Application → StringResponse × app.Application),
      req.authorization = none →
        ExecuteAuthorized (RequestData.new.Construct req) a action =
          (ResponseApiError (RequestData.new.Construct req) ErrorCode.InvalidAuthHeader, a)) ∧
    (∀ (d : RequestData),
      (ResponseApiError d ErrorCode.InvalidAuthHeader).status = 401 ∧
      (ResponseApiError d ErrorCode.InvalidAuthHeader).body =
        SerializeError "invalidToken" "Authorization header is missing") ∧
    (∀ (a : app.Application)
        (action : String → app.Application → StringResponse × app.Application),
      ExecuteAuthorized
        ((RequestData.new.Construct
          (playersRequest (some "Bearer 0123456789abcdefABCDEF0123456789"))).Construct
          (playersRequest none)) a action =
        action "0123456789abcdefABCDEF0123456789" a) := by
  refine ⟨ParseAuthToken_iff, ?_, ?_, ?_, ?_⟩
  · intro d req a action hsome hnone
    have h := Construct_auth_token_of_some d req hsome
    rw [hnone] at h
    simp only [ExecuteAuthorized, h]
  · intro req a action hnone
    have h : (RequestData.new.Construct req).auth_token = none :=
      Construct_auth_token_of_none RequestData.new req hnone
    simp only [ExecuteAuthorized, h]
  · intro d
    refine ⟨rfl, ?_⟩
    simp only [ResponseApiError, MakeErrorResponse, Error, MakeStringResponse]
    rw [if_neg]
    · rfl
    · decide
  · intro a action
    have h : ((RequestData.new.Construct
          (playersRequest (some "Bearer 0123456789abcdefABCDEF0123456789"))).Construct
          (playersRequest none)).auth_token = some "0123456789abcdefABCDEF0123456789" := by
      decide
    simp only [ExecuteAuthorized, h]

end http_handler

/-! ## Theorems: the tick request -/

namespace http_handler

theorem int64OfSize_sizeOfInt64 (i : ℤ) (hlo : -2 ^ 63 ≤ i) (hhi : i < 2 ^ 63) :
    int64OfSize (sizeOfInt64 i) = i := by
  unfold int64OfSize sizeOfInt64
  have h0 : (0 : ℤ) ≤ i % 2 ^ 64 := Int.emod_nonneg _ (by norm_num)
  have h1 : i % 2 ^ 64 < 2 ^ 64 := Int.emod_lt_of_pos _ (by norm_num)
  have hmod : (i % 2 ^ 64).toNat % 2 ^ 64 = (i % 2 ^ 64).toNat := by
    apply Nat.mod_eq_of_lt
    have : ((i % 2 ^ 64).toNat : ℤ) < 2 ^ 64 := by rw [Int.toNat_of_nonneg h0]; exact h1
    exact_mod_cast this
  rw [hmod]
  have hcast : ((i % 2 ^ 64).toNat : ℤ) = i % 2 ^ 64 := Int.toNat_of_nonneg h0
  by_cases hneg : 0 ≤ i
  · have hm : i % 2 ^ 64 = i := Int.emod_eq_of_lt hneg (by linarith)
    have hlt : (i % 2 ^ 64).toNat < 2 ^ 63 := by
      have : ((i % 2 ^ 64).toNat : ℤ) < 2 ^ 63 := by rw [hcast, hm]; exact hhi
      exact_mod_cast this
    rw [if_pos hlt, hcast, hm]
  · have hm : i % 2 ^ 64 = i + 2 ^ 64 := by
      have : (i + 2 ^ 64) % 2 ^ 64 = i + 2 ^ 64 :=
        Int.emod_eq_of_lt (by linarith) (by linarith)
      rw [← this]; simp
    have hge : ¬ (i % 2 ^ 64).toNat < 2 ^ 63 := by
      intro hc
      have : ((i % 2 ^ 64).toNat : ℤ) < 2 ^ 63 := by exact_mod_cast hc
      rw [hcast, hm] at this
      linarith
    rw [if_neg hge, hcast, hm]
    ring

/-- C19, as the code has it: a negative `timeDelta` is not rejected. The handler stores the
`int64` value of `timeDelta` in a `size_t`, so its test `time_delta < 0` never holds: for
every request `POST` with the content type `application/json` whose body parses to an object
with an `int64` `timeDelta` of any sign, in manual-tick mode, the answer is 200 with the
body `{}` and `Application::Tick` is called with that very duration. With the body
`{"timeDelta": -1}` the tick is -1 ms; the sessions read it as the tick `2^64 - 1`, which
runs the dog at `(9.5, 0)` to the end of its road and adds `2^64 - 1` to its time in game. -/
theorem HandleTickRequest_accepts_negative_timeDelta :
    (∀ (d : RequestData) (a : app.Application) (parse : String → Option json.value)
        (body : String) (i : ℤ),
      d.method = Verb.post → d.content_type = some ContentType.APPLICATION_JSON →
      d.body = some body →
      parse body = some (json.value.object [(Constants.TIME_DELTA, json.value.int64 i)]) →
      a.time_ticker_used_ = false → -2 ^ 63 ≤ i → i < 2 ^ 63 →
        HandleTickRequest d a parse =
          some (MakeStringResponse status.ok "" d ContentType.APPLICATION_JSON, some i)) ∧
    (HandleTickRequest (RequestData.new.Construct (tickRequest "\x7b\x22timeDelta\x22: -1\x7d"))
        app.oneplayerApp parseTick).map (fun r => (r.1.status, r.1.body, r.2)) =
      some (200, "\x7b\x7d", some (-1)) ∧
    model.clampSession.Move model.clampDog (sizeOfInt64 (-1)) =
      some { model.clampDog with
        coords_ := ⟨52 / 5, 0⟩, prev_coords_ := ⟨19 / 2, 0⟩, speed_ := ⟨0, 0⟩,
        holding_time_ := 0, time_in_game_ := 2 ^ 64 - 1 } := by
  refine ⟨?_, by decide!, by decide!⟩
  intro d a parse body i hm hct hb hp ht hlo hhi
  have hfind : (json.value.object [(Constants.TIME_DELTA, json.value.int64 i)]).at_
      Constants.TIME_DELTA = some (json.value.int64 i) := by
    simp [json.value.at_]
  have hcont : (json.value.object [(Constants.TIME_DELTA, json.value.int64 i)]).contains
      Constants.TIME_DELTA = true := by
    simp [json.value.contains]
  simp only [HandleTickRequest, hm, if_true, tickAction, hct, ne_eq, not_true_eq_false,
    if_false, hb, hp, json.value.is_object, hcont, hfind, Option.map_some', json.value.is_int64,
    Option.getD_some, Bool.not_true, Bool.or_false, Bool.false_eq_true, Option.bind,
    json.value.as_int64, Nat.not_lt_zero, app.UseCaseTimeTick, ht,
    int64OfSize_sizeOfInt64 i hlo hhi]

end http_handler

/-! ## Theorems: unknown tokens -/

namespace app

open model

/-- C13: unknown tokens fail without effect. For every token that is not in the token
table, `UseCaseGetPlayers` and `UseCaseGetGameState` return no result, `UseCaseMovePlayer`
(for every direction) and `UseCaseStopPlayer` return false, and the application they
return is the application they were called on: every session, every dog and both
registries are unchanged. -/
theorem unknown_token_fails_without_effect (a : Application) (token : String)
    (h : umap.find a.player_tokens_.token_to_player_ token = none) :
    a.player_tokens_.FindPlayerByToken token = none ∧
    UseCaseGetPlayers a token = some none ∧
    UseCaseGetGameState a token = some none ∧
    (∀ dir, UseCaseMovePlayer a token dir = some (false, a)) ∧
    UseCaseStopPlayer a token = some (false, a) := by
  have hf : a.player_tokens_.FindPlayerByToken token = none := by
    simp [PlayerTokens.FindPlayerByToken, umap.contains, h]
  refine ⟨hf, ?_, ?_, ?_, ?_⟩
  · simp [UseCaseGetPlayers, hf]
  · simp [UseCaseGetGameState, hf]
  · intro dir
    simp [UseCaseMovePlayer, hf]
  · simp [UseCaseStopPlayer, hf]

/-- In `oneplayerApp` the token `00000000000000000000000000000000` is unknown: the four use
cases fail and leave the application as it is, while the registered token lists dog 0. -/
theorem unknown_token_fails_without_effect_witness :
    umap.find oneplayerApp.player_tokens_.token_to_player_ "00000000000000000000000000000000"
      = none ∧
    UseCaseGetPlayers oneplayerApp "ffffffff0123456701234567aaaaaaaa" = some (some [(0, "Rex")]) ∧
    (oneplayerApp.player_tokens_.FindPlayerByToken "00000000000000000000000000000000" = none ∧
     UseCaseGetPlayers oneplayerApp "00000000000000000000000000000000" = some none ∧
     UseCaseGetGameState oneplayerApp "00000000000000000000000000000000" = some none ∧
     (∀ dir, UseCaseMovePlayer oneplayerApp "00000000000000000000000000000000" dir
        = some (false, oneplayerApp)) ∧
     UseCaseStopPlayer oneplayerApp "00000000000000000000000000000000"
        = some (false, oneplayerApp)) :=
  ⟨by decide!, by decide!,
   unknown_token_fails_without_effect oneplayerApp "00000000000000000000000000000000"
     (by decide!)⟩

end app

/-! ## Theorems: the registries of players and tokens -/

namespace umap

variable {κ ν : Type}

theorem find_some_mem [DecidableEq κ] (m : List (κ × ν)) (k : κ) (v : ν)
    (h : find m k = some v) : (k, v) ∈ m := by
  induction m with
  | nil => simp [find] at h
  | cons kv rest ih =>
    obtain ⟨k', v'⟩ := kv
    by_cases hk : k' = k
    · simp only [find, hk, if_true, Option.some.injEq] at h
      subst hk; subst h
      exact List.mem_cons_self _ _
    · simp only [find, hk, if_false] at h
      exact List.mem_cons_of_mem _ (ih h)

theorem find_of_mem_nodup [DecidableEq κ] (m : List (κ × ν)) (k : κ) (v : ν)
    (hnd : (m.map Prod.fst).Nodup) (h : (k, v) ∈ m) : find m k = some v := by
  induction m with
  | nil => simp at h
  | cons kv rest ih =>
    obtain ⟨k', v'⟩ := kv
    simp only [List.map_cons, List.nodup_cons] at hnd
    rcases List.mem_cons.1 h with heq | hmem
    · simp only [Prod.mk.injEq] at heq
      obtain ⟨rfl, rfl⟩ := heq
      simp [find]
    · have hne : k' ≠ k := by
        intro hc
        subst hc
        exact hnd.1 (List.mem_map_of_mem Prod.fst hmem)
      simp only [find, hne, if_false]
      exact ih hnd.2 hmem

theorem mem_assign [DecidableEq κ] (m : List (κ × ν)) (k : κ) (v : ν) (p : κ × ν)
    (h : p ∈ assign m k v) : p ∈ m ∨ p = (k, v) := by
  induction m with
  | nil =>
    simp only [assign, List.mem_singleton] at h
    exact Or.inr h
  | cons kv rest ih =>
    obtain ⟨k', v'⟩ := kv
    by_cases hk : k' = k
    · simp only [assign, hk, if_true, List.mem_cons] at h
      rcases h with h | h
      · exact Or.inr h
      · exact Or.inl (List.mem_cons_of_mem _ h)
    · simp only [assign, hk, if_false, List.mem_cons] at h
      rcases h with h | h
      · exact Or.inl (h ▸ List.mem_cons_self _ _)
      · rcases ih h with h | h
        · exact Or.inl (List.mem_cons_of_mem _ h)
        · exact Or.inr h

theorem emplace_true [DecidableEq κ] (m m' : List (κ × ν)) (k : κ) (v : ν)
    (h : emplace m k v = (m', true)) : m' = m ++ [(k, v)] ∧ k ∉ m.map Prod.fst := by
  unfold emplace at h
  cases hc : contains m k with
  | true => simp [hc] at h
  | false =>
    simp only [hc, Bool.false_eq_true, if_false, Prod.mk.injEq, and_true] at h
    exact ⟨h.symm, (contains_eq_false_iff m k).1 hc⟩

theorem emplace_false [DecidableEq κ] (m m' : List (κ × ν)) (k : κ) (v : ν)
    (h : emplace m k v = (m', false)) : k ∈ m.map Prod.fst := by
  unfold emplace at h
  cases hc : contains m k with
  | true =>
    by_contra hn
    rw [(contains_eq_false_iff m k).2 hn] at hc
    cases hc
  | false => simp [hc] at h

theorem find_isSome_iff [DecidableEq κ] (m : List (κ × ν)) (k : κ) :
    (find m k).isSome = true ↔ k ∈ m.map Prod.fst := by
  have := find_eq_none_iff m k
  cases hf : find m k with
  | none =>
    rw [hf] at this
    simp only [true_iff] at this
    simp [this]
  | some v =>
    rw [hf] at this
    simp only [false_iff, not_not, reduceCtorEq] at this
    simp [this]

end umap

namespace model

theorem FindMap_id (g : Game) (hwf : g.WellFormed) (id : String) (map : Map)
    (h : g.FindMap id = some map) : map.id_ = id := by
  unfold Game.FindMap at h
  cases hf : umap.find g.map_id_to_index_ id with
  | none => simp [hf] at h
  | some index =>
    simp only [hf] at h
    have := hwf.1 (id, index) (umap.find_some_mem _ _ _ hf)
    simp only [h, Option.map_some', Option.some.injEq] at this
    exact this

theorem FindMap_eq_none (g : Game) (hwf : g.WellFormed) (id : String)
    (h : g.FindMap id = none) : umap.find g.map_id_to_index_ id = none := by
  unfold Game.FindMap at h
  cases hf : umap.find g.map_id_to_index_ id with
  | none => rfl
  | some index =>
    simp only [hf] at h
    have := hwf.1 (id, index) (umap.find_some_mem _ _ _ hf)
    simp [h] at this

theorem GameSession_new_below (map : Map) (index : ℕ) (random_spawn : Bool) (period : ℕ)
    (probability : ℚ) (dog_retirement_time : ℕ) (do_on_retire : Bool) (d l : ℕ) :
    (GameSession.new map index random_spawn period probability dog_retirement_time
      do_on_retire d l).DogIdsBelowCounter := by
  simp [GameSession.DogIdsBelowCounter, GameSession.new]

/-- What `GetGameSessionByMapId` does on a well-formed game: nothing when no map has the id;
otherwise it returns the session stored under the id, created on the map of that id when
there was none, and leaves every other session as it is. -/
theorem GetGameSessionByMapId_spec (g : Game) (hwf : g.WellFormed) (id : String) :
    (g.FindMap id = none ∧ g.GetGameSessionByMapId id = some (g, none)) ∨
    (∃ g' session, g.GetGameSessionByMapId id = some (g', some session) ∧
      g'.WellFormed ∧ g.FindMap id = some session.map_ ∧ session.DogIdsBelowCounter ∧
      umap.find g'.map_id_to_session_ id = some session ∧
      g'.maps_ = g.maps_ ∧ g'.map_id_to_index_ = g.map_id_to_index_ ∧
      (∀ id', id' ≠ id →
        umap.find g'.map_id_to_session_ id' = umap.find g.map_id_to_session_ id') ∧
      (umap.find g.map_id_to_session_ id = none → session.dogs_ = [] ∧ session.dogs_join_ = 0) ∧
      (∀ s0, umap.find g.map_id_to_session_ id = some s0 → g' = g ∧ session = s0)) := by
  rcases Option.eq_none_or_eq_some (umap.find g.map_id_to_session_ id) with hs | ⟨session, hs⟩
  · rcases Option.eq_none_or_eq_some (umap.find g.map_id_to_index_ id) with hi | ⟨index, hi⟩
    · left
      exact ⟨by simp [Game.FindMap, hi], by simp [Game.GetGameSessionByMapId, hs, hi]⟩
    · have hg1 := hwf.1 (id, index) (umap.find_some_mem _ _ _ hi)
      rcases Option.eq_none_or_eq_some (g.maps_[index]?) with hm | ⟨map, hm⟩
      · simp [hm] at hg1
      · right
        have hnot : id ∉ g.map_id_to_session_.map Prod.fst :=
          (umap.find_eq_none_iff _ _).1 hs
        have hfm : g.FindMap id = some map := by simp [Game.FindMap, hi, hm]
        have hres : g.GetGameSessionByMapId id =
            some ({ g with
                last_session_index_ := g.last_session_index_ + 1,
                map_id_to_session_ := g.map_id_to_session_ ++
                  [(id, GameSession.new map g.last_session_index_ g.random_spawn_
                    g.loot_generator_period_ g.loot_generator_probability_
                    g.dog_retirement_time_ g.do_on_retire_ 0 0)] },
              some (GameSession.new map g.last_session_index_ g.random_spawn_
                    g.loot_generator_period_ g.loot_generator_probability_
                    g.dog_retirement_time_ g.do_on_retire_ 0 0)) := by
          simp only [Game.GetGameSessionByMapId, hs, hi, hm,
            umap.emplace_of_not_mem _ _ _ hnot]
        refine ⟨_, _, hres, ⟨?_, ?_⟩, hfm, GameSession_new_below _ _ _ _ _ _ _ _ _, ?_, rfl, rfl,
          ?_, fun _ => ⟨rfl, rfl⟩, ?_⟩
        · exact hwf.1
        · intro p hp
          simp only [List.mem_append, List.mem_singleton] at hp
          rcases hp with hp | rfl
          · exact hwf.2 p hp
          · exact ⟨hfm, GameSession_new_below _ _ _ _ _ _ _ _ _⟩
        · simp only [umap.find_append, hs]
          simp [umap.find]
        · intro id' hne
          simp only [umap.find_append]
          cases umap.find g.map_id_to_session_ id' with
          | none => simp [umap.find, Ne.symm hne]
          | some v => simp
        · intro s0 h
          rw [hs] at h
          cases h
  · right
    have hmem := umap.find_some_mem _ _ _ hs
    have := hwf.2 (id, session) hmem
    refine ⟨g, session, by simp [Game.GetGameSessionByMapId, hs], hwf, this.1, this.2, hs,
      rfl, rfl, fun _ _ => rfl, ?_, ?_⟩
    · intro h
      rw [hs] at h
      cases h
    · intro s0 h
      rw [hs] at h
      exact ⟨rfl, by simpa using h⟩

end model

namespace model

open geom

theorem GetDogSpawnPoint_isSome (s : GameSession) (d : SpawnDraw)
    (hroads : s.map_.roads_ ≠ []) : ∃ pt, s.GetDogSpawnPoint d = some pt := by
  unfold GameSession.GetDogSpawnPoint
  cases hr : s.map_.roads_ with
  | nil => exact absurd hr hroads
  | cons road rest =>
    by_cases hrs : s.random_spawn_ = true
    · simp only [hrs, if_true, GameSession.GetRandomPointOnRandomRoad, GameSession.road_count_,
        hr]
      by_cases hlt : d.road_index < (road :: rest).length
      · simp only [hlt, if_true]
        obtain ⟨r, hrr⟩ : ∃ r, (road :: rest)[d.road_index]? = some r :=
          ⟨_, List.getElem?_eq_getElem hlt⟩
        rw [hrr]
        exact ⟨_, rfl⟩
      · simp only [hlt, if_false, List.getElem?_cons_zero]
        exact ⟨_, rfl⟩
    · simp only [hrs, Bool.false_eq_true, if_false]
      exact ⟨_, rfl⟩

/-- What a returning `NewDog` does: the id is the value of `dogs_join_` before the call, the
allocator is raised by one, and a dog with that id and the name is appended. -/
theorem NewDog_some (s s' : GameSession) (name : String) (d : SpawnDraw) (id : ℕ)
    (h : s.NewDog name d = some (s', id)) :
    id = s.dogs_join_ ∧ s'.map_ = s.map_ ∧ s'.dogs_join_ = s.dogs_join_ + 1 ∧
    s'.dog_id_to_dog_ = s.dog_id_to_dog_ ++ [s.dogs_join_] ∧
    s.dogs_join_ ∉ s.dog_id_to_dog_ ∧
    ∃ dog, s'.dogs_ = s.dogs_ ++ [dog] ∧ dog.id_ = s.dogs_join_ ∧ dog.name_ = name := by
  unfold GameSession.NewDog at h
  simp only at h
  split at h
  · cases h
  · next pt hpt =>
    unfold GameSession.AddDog at h
    by_cases hin : s.dogs_join_ ∈ s.dog_id_to_dog_
    · simp [Dog.mk_, hin] at h
    · simp only [Dog.mk_, hin, if_false, Option.some.injEq, Prod.mk.injEq] at h
      obtain ⟨rfl, rfl⟩ := h
      exact ⟨rfl, rfl, rfl, rfl, hin, _, rfl, rfl, rfl⟩

theorem NewDog_isSome (s : GameSession) (name : String) (d : SpawnDraw)
    (hroads : s.map_.roads_ ≠ []) (hbelow : s.DogIdsBelowCounter) :
    ∃ s', s.NewDog name d = some (s', s.dogs_join_) := by
  obtain ⟨pt, hpt⟩ := GetDogSpawnPoint_isSome { s with dogs_join_ := s.dogs_join_ + 1 } d hroads
  have hin : s.dogs_join_ ∉ s.dog_id_to_dog_ := fun hc => Nat.lt_irrefl _ (hbelow.1 _ hc)
  unfold GameSession.NewDog
  simp only [hpt, GameSession.AddDog, Dog.mk_, hin, if_false]
  exact ⟨_, rfl⟩

theorem NewDog_below (s s' : GameSession) (name : String) (d : SpawnDraw) (id : ℕ)
    (h : s.NewDog name d = some (s', id)) (hbelow : s.DogIdsBelowCounter) :
    s'.DogIdsBelowCounter := by
  obtain ⟨_, _, hj, hidx, _, dog, hdogs, hid, _⟩ := NewDog_some s s' name d id h
  constructor
  · intro i hi
    rw [hidx] at hi
    rw [hj]
    rcases List.mem_append.1 hi with hi | hi
    · exact Nat.lt_succ_of_lt (hbelow.1 i hi)
    · simp only [List.mem_singleton] at hi
      omega
  · intro dg hdg
    rw [hdogs] at hdg
    rw [hj]
    rcases List.mem_append.1 hdg with hdg | hdg
    · exact Nat.lt_succ_of_lt (hbelow.2 dg hdg)
    · simp only [List.mem_singleton] at hdg
      subst hdg
      omega

end model

namespace app

open model

theorem PlayerTokens_AddPlayer_some (t t' : PlayerTokens) (player : ℕ × String)
    (tokens : List String) (token : String)
    (h : t.AddPlayer player tokens = some (t', token)) :
    token ∈ tokens ∧ token ∉ t.token_to_player_.map Prod.fst ∧
    t'.token_to_player_ = t.token_to_player_ ++ [(token, player)] ∧
    t'.player_to_token_ = (umap.emplace t.player_to_token_ player token).1 := by
  induction tokens with
  | nil => simp [PlayerTokens.AddPlayer] at h
  | cons tk rest ih =>
    rw [PlayerTokens.AddPlayer] at h
    rcases he : umap.emplace t.token_to_player_ tk player with ⟨m, b⟩
    cases b with
    | true =>
      simp only [he, Option.some.injEq, Prod.mk.injEq] at h
      obtain ⟨rfl, rfl⟩ := h
      obtain ⟨hm, hnot⟩ := umap.emplace_true _ _ _ _ he
      exact ⟨List.mem_cons_self _ _, hnot, hm, rfl⟩
    | false =>
      simp only [he] at h
      obtain ⟨h1, h2⟩ := ih h
      exact ⟨List.mem_cons_of_mem _ h1, h2⟩

theorem PlayerTokens_AddPlayer_isSome (t : PlayerTokens) (player : ℕ × String)
    (tokens : List String)
    (h : ∃ token ∈ tokens, umap.find t.token_to_player_ token = none) :
    ∃ t' token, t.AddPlayer player tokens = some (t', token) := by
  induction tokens with
  | nil =>
    obtain ⟨_, hm, _⟩ := h
    simp at hm
  | cons tk rest ih =>
    rw [PlayerTokens.AddPlayer]
    rcases he : umap.emplace t.token_to_player_ tk player with ⟨m, b⟩
    cases b with
    | true => exact ⟨_, _, rfl⟩
    | false =>
      simp only
      apply ih
      obtain ⟨token, hm, hf⟩ := h
      rcases List.mem_cons.1 hm with rfl | hm
      · have := umap.emplace_false _ _ _ _ he
        exact absurd this ((umap.find_eq_none_iff _ _).1 hf)
      · exact ⟨token, hm, hf⟩

theorem AddPlayer_some (players players' : List ((ℕ × String) × Player)) (dog_id : ℕ)
    (session : GameSession) (session_ptr : String) (key : ℕ × String)
    (h : AddPlayer players dog_id session session_ptr = some (players', key)) :
    key = (dog_id, session.map_.id_) ∧ key ∉ players.map Prod.fst ∧
    players' = players ++ [(key, { dog_ := dog_id, session_ := session_ptr })] := by
  unfold AddPlayer at h
  rcases he : umap.emplace players (dog_id, session.map_.id_)
      { dog_ := dog_id, session_ := session_ptr } with ⟨m, b⟩
  cases b with
  | false => simp [he] at h
  | true =>
    simp only [he, Option.some.injEq, Prod.mk.injEq] at h
    obtain ⟨rfl, rfl⟩ := h
    obtain ⟨hm, hnot⟩ := umap.emplace_true _ _ _ _ he
    exact ⟨rfl, hnot, hm⟩

theorem AddPlayer_isSome (players : List ((ℕ × String) × Player)) (dog_id : ℕ)
    (session : GameSession) (session_ptr : String)
    (h : (dog_id, session.map_.id_) ∉ players.map Prod.fst) :
    ∃ players', AddPlayer players dog_id session session_ptr =
      some (players', (dog_id, session.map_.id_)) := by
  unfold AddPlayer
  rw [umap.emplace_of_not_mem _ _ _ h]
  exact ⟨_, rfl⟩

theorem Game_FindMap_congr (g g' : Game) (h1 : g'.maps_ = g.maps_)
    (h2 : g'.map_id_to_index_ = g.map_id_to_index_) (id : String) :
    g'.FindMap id = g.FindMap id := by
  simp [Game.FindMap, h1, h2]

theorem find?_append_new (dogs : List Dog) (dog : Dog) (id : ℕ)
    (hold : ∀ d ∈ dogs, d.id_ < id) (hid : dog.id_ = id) :
    (dogs ++ [dog]).find? (fun d => decide (d.id_ = id)) = some dog := by
  rw [List.find?_append]
  have : dogs.find? (fun d => decide (d.id_ = id)) = none := by
    rw [List.find?_eq_none]
    intro d hd
    have := hold d hd
    simp only [decide_eq_true_eq]
    omega
  rw [this]
  simp [hid]

theorem find?_append_isSome (dogs : List Dog) (dog : Dog) (id : ℕ)
    (h : (dogs.find? (fun d => decide (d.id_ = id))).isSome = true) :
    ((dogs ++ [dog]).find? (fun d => decide (d.id_ = id))).isSome = true := by
  rw [List.find?_append]
  cases hf : dogs.find? (fun d => decide (d.id_ = id)) with
  | none => rw [hf] at h; cases h
  | some v => rfl

end app

namespace app

open model

theorem playerBound_iff (a : Application) (key : ℕ × String) :
    a.playerBound key = true ↔
      ∃ session, umap.find a.game_.map_id_to_session_ key.2 = some session ∧
        key.1 < session.dogs_join_ ∧
        (session.dogs_.find? (fun d => decide (d.id_ = key.1))).isSome = true := by
  unfold Application.playerBound
  cases umap.find a.game_.map_id_to_session_ key.2 with
  | none => simp
  | some session => simp

/-- What a returning `UseCaseJoinPlayer` does on a well-formed application: either no map
has the id, there is no result and nothing changes; or the result is a token of the draws
and the id of a new dog, the token is appended to the token table with the player
`(dog id, map id)`, the session of the map holds a dog with that id and the name, and the
application is well formed again. -/
theorem UseCaseJoinPlayer_spec (a : Application) (hwf : a.WellFormed) (map_id name : String)
    (d : SpawnDraw) (tokens : List String) (res : Option (String × ℕ)) (a' : Application)
    (h : UseCaseJoinPlayer a map_id name d tokens = some (res, a')) :
    (res = none ∧ a' = a ∧ a.game_.FindMap map_id = none) ∨
    (∃ token dog_id session dog, res = some (token, dog_id) ∧ a'.WellFormed ∧
      (a.game_.FindMap map_id).isSome = true ∧ token ∈ tokens ∧
      a'.player_tokens_.token_to_player_ =
        a.player_tokens_.token_to_player_ ++ [(token, (dog_id, map_id))] ∧
      umap.find a'.game_.map_id_to_session_ map_id = some session ∧
      session.map_.id_ = map_id ∧
      session.dogs_.find? (fun d => decide (d.id_ = dog_id)) = some dog ∧
      dog.name_ = name ∧ a'.retired_players_ = a.retired_players_ ∧
      (∀ id', id' ≠ map_id →
        umap.find a'.game_.map_id_to_session_ id' = umap.find a.game_.map_id_to_session_ id') ∧
      (∀ s0, umap.find a.game_.map_id_to_session_ map_id = some s0 →
        session.dogs_ = s0.dogs_ ++ [dog])) := by
  obtain ⟨hg, hnd1, hnd2, hr3, hr4, hr5⟩ := hwf
  unfold UseCaseJoinPlayer at h
  rcases GetGameSessionByMapId_spec a.game_ hg map_id with
    ⟨hfm, hres⟩ | ⟨g', session, hres, hg', hfm, hbelow, hfind, hmaps, hidx, hother, hnew, hold⟩
  · left
    rw [hres] at h
    simp only [Option.some.injEq, Prod.mk.injEq] at h
    exact ⟨h.1.symm, h.2.symm, hfm⟩
  · right
    rw [hres] at h
    simp only at h
    rcases hnd : session.NewDog name d with _ | ⟨s', dog_id⟩
    · simp [hnd] at h
    · simp only [hnd] at h
      obtain ⟨hid, hmap, hjoin, hindex, hnotin, dog, hdogs, hdogid, hdogname⟩ :=
        NewDog_some _ _ _ _ _ hnd
      have hbelow' := NewDog_below _ _ _ _ _ hnd hbelow
      have hmapid : s'.map_.id_ = map_id := by
        rw [hmap]; exact FindMap_id a.game_ hg map_id _ hfm
      rcases hap : AddPlayer a.players_ dog_id s' map_id with _ | ⟨players', key⟩
      · simp [hap] at h
      · simp only [hap] at h
        obtain ⟨hkey, hknot, hplayers⟩ := AddPlayer_some _ _ _ _ _ _ hap
        rw [hmapid] at hkey
        rcases htk : a.player_tokens_.AddPlayer key tokens with _ | ⟨pt', token⟩
        · simp [htk] at h
        · simp only [htk, Option.some.injEq, Prod.mk.injEq] at h
          obtain ⟨rfl, rfl⟩ := h
          obtain ⟨htmem, htnot, htp, hpt⟩ := PlayerTokens_AddPlayer_some _ _ _ _ _ htk
          have hdogfind : s'.dogs_.find? (fun d => decide (d.id_ = dog_id)) = some dog := by
            rw [hdogs]
            exact find?_append_new _ _ _ (fun d hd => by rw [hid]; exact hbelow.2 d hd)
              (by rw [hdogid, hid])
          have hkeys : a.players_.map Prod.fst =
              a.player_tokens_.token_to_player_.map Prod.snd := by
            rw [hr4]; simp [List.map_map, Function.comp_def]
          have hkeys2 : a.player_tokens_.player_to_token_.map Prod.fst =
              a.player_tokens_.token_to_player_.map Prod.snd := by
            rw [hr3]; simp [List.map_map, Function.comp_def]
          have hknot2 : key ∉ a.player_tokens_.token_to_player_.map Prod.snd := by
            rw [← hkeys]; exact hknot
          have hfindnew : umap.find (umap.assign g'.map_id_to_session_ map_id s') map_id
              = some s' := by
            rw [umap.find_assign]; simp
          refine ⟨token, dog_id, s', dog, rfl, ⟨⟨?_, ?_⟩, ?_, ?_, ?_, ?_, ?_⟩, ?_, htmem, ?_,
            hfindnew, hmapid, hdogfind, hdogname, rfl, ?_, ?_⟩
          · -- the map index
            intro p hp
            have := hg'.1 p hp
            exact this
          · -- the sessions
            intro p hp
            rcases umap.mem_assign _ _ _ _ hp with hp | rfl
            · have := hg'.2 p hp
              exact ⟨by rw [← this.1]; rfl, this.2⟩
            · refine ⟨?_, hbelow'⟩
              show Game.FindMap _ map_id = some s'.map_
              rw [hmap, ← hfm]
              exact Game_FindMap_congr _ _ hmaps hidx map_id
          · -- tokens distinct
            show (List.map Prod.fst pt'.token_to_player_).Nodup
            rw [htp, List.map_append, List.nodup_append]
            refine ⟨hnd1, by simp, ?_⟩
            intro x hx hx2
            simp only [List.map_cons, List.map_nil, List.mem_singleton] at hx2
            subst hx2
            exact htnot hx
          · -- players distinct
            show (List.map Prod.snd pt'.token_to_player_).Nodup
            rw [htp, List.map_append, List.nodup_append]
            refine ⟨hnd2, by simp, ?_⟩
            intro x hx hx2
            simp only [List.map_cons, List.map_nil, List.mem_singleton] at hx2
            subst hx2
            exact hknot2 hx
          · -- the inverse table
            show pt'.player_to_token_ = List.map (fun tk => (tk.2, tk.1)) pt'.token_to_player_
            rw [hpt, htp, umap.emplace_of_not_mem _ _ _ (by rw [hkeys2]; exact hknot2), hr3]
            simp
          · -- the player table
            show players' = List.map _ pt'.token_to_player_
            rw [hplayers, htp, hr4, hkey]
            simp
          · -- every player points into the game
            intro tk htkmem
            show Application.playerBound _ tk.2 = true
            rw [playerBound_iff]
            rw [htp] at htkmem
            rcases List.mem_append.1 htkmem with hmem | hmem
            · obtain ⟨s0, hs0, hlt, hsome⟩ := (playerBound_iff a tk.2).1 (hr5 tk hmem)
              by_cases hk : tk.2.2 = map_id
              · rw [hk] at hs0
                obtain ⟨_, hsess⟩ := hold s0 hs0
                subst hsess
                refine ⟨s', ?_, ?_, ?_⟩
                · show umap.find (umap.assign g'.map_id_to_session_ map_id s') tk.2.2 = some s'
                  rw [hk]; exact hfindnew
                · rw [hjoin]; omega
                · rw [hdogs]; exact find?_append_isSome _ _ _ hsome
              · refine ⟨s0, ?_, hlt, hsome⟩
                show umap.find (umap.assign g'.map_id_to_session_ map_id s') tk.2.2 = some s0
                rw [umap.find_assign, if_neg (fun hc => hk hc.symm), hother _ hk]
                exact hs0
            · simp only [List.mem_singleton] at hmem
              subst hmem
              rw [hkey]
              refine ⟨s', hfindnew, ?_, ?_⟩
              · show dog_id < s'.dogs_join_
                rw [hjoin, hid]; omega
              · show (s'.dogs_.find? _).isSome = true
                rw [hdogfind]; rfl
          · rw [hfm]; rfl
          · show pt'.token_to_player_ = _
            rw [htp, hkey]
          · intro id' hne
            show umap.find (umap.assign g'.map_id_to_session_ map_id s') id' = _
            rw [umap.find_assign, if_neg (fun hc => hne hc.symm), hother _ hne]
          · intro s0 hs0
            obtain ⟨_, hsess⟩ := hold s0 hs0
            subst hsess
            exact hdogs

end app

namespace app

open model

/-- On a well-formed application `UseCaseJoinPlayer` returns a token and a dog id whenever a
map has the id, that map has a road and one of the drawn tokens is not in the table yet. -/
theorem UseCaseJoinPlayer_returns (a : Application) (hwf : a.WellFormed)
    (map_id name : String) (d : SpawnDraw) (tokens : List String) (map : Map)
    (hfm : a.game_.FindMap map_id = some map) (hroads : map.roads_ ≠ [])
    (hfresh : ∃ token ∈ tokens, umap.find a.player_tokens_.token_to_player_ token = none) :
    ∃ token dog_id a',
      UseCaseJoinPlayer a map_id name d tokens = some (some (token, dog_id), a') := by
  obtain ⟨hg, hnd1, hnd2, hr3, hr4, hr5⟩ := hwf
  rcases GetGameSessionByMapId_spec a.game_ hg map_id with
    ⟨hnone, _⟩ | ⟨g', session, hres, hg', hfm', hbelow, hfind, hmaps, hidx, hother, hnew, hold⟩
  · rw [hnone] at hfm; cases hfm
  · have hmapeq : session.map_ = map := by
      rw [hfm] at hfm'
      simpa using hfm'.symm
    obtain ⟨s', hnd⟩ := NewDog_isSome session name d (by rw [hmapeq]; exact hroads) hbelow
    obtain ⟨_, hmap, _, _, _, _⟩ := NewDog_some _ _ _ _ _ hnd
    have hmapid : s'.map_.id_ = map_id := by
      rw [hmap, hmapeq]; exact FindMap_id a.game_ hg map_id _ hfm
    have hknot : (session.dogs_join_, s'.map_.id_) ∉ a.players_.map Prod.fst := by
      rw [hr4, hmapid]
      simp only [List.map_map, Function.comp_def, List.mem_map, not_exists, not_and]
      intro tk htk hc
      obtain ⟨s0, hs0, hlt, _⟩ := (playerBound_iff a tk.2).1 (hr5 tk htk)
      rw [hc] at hs0 hlt
      obtain ⟨_, hsess⟩ := hold s0 hs0
      subst hsess
      exact Nat.lt_irrefl _ hlt
    obtain ⟨players', hap⟩ := AddPlayer_isSome a.players_ session.dogs_join_ s' map_id hknot
    obtain ⟨pt', token, htk⟩ :=
      PlayerTokens_AddPlayer_isSome a.player_tokens_ (session.dogs_join_, s'.map_.id_)
        tokens hfresh
    have hjoin : UseCaseJoinPlayer a map_id name d tokens =
        some (some (token, session.dogs_join_),
          { a with
            game_ := { g' with
              map_id_to_session_ := umap.assign g'.map_id_to_session_ map_id s' },
            players_ := players', player_tokens_ := pt' }) := by
      unfold UseCaseJoinPlayer
      rw [hres]
      simp only [hnd, hap, htk]
    exact ⟨_, _, _, hjoin⟩

end app

namespace app

open model

theorem FindPlayerByToken_eq (t : PlayerTokens) (token : String) :
    t.FindPlayerByToken token = umap.find t.token_to_player_ token := by
  unfold PlayerTokens.FindPlayerByToken umap.contains
  cases umap.find t.token_to_player_ token <;> simp

theorem find_players_of_mem (a : Application) (hwf : a.WellFormed) (tk : String × (ℕ × String))
    (h : tk ∈ a.player_tokens_.token_to_player_) :
    umap.find a.players_ tk.2 = some { dog_ := tk.2.1, session_ := tk.2.2 } := by
  obtain ⟨_, _, hnd2, _, hr4, _⟩ := hwf
  apply umap.find_of_mem_nodup
  · rw [hr4]
    simpa [List.map_map, Function.comp_def] using hnd2
  · rw [hr4]
    exact List.mem_map.2 ⟨tk, h, rfl⟩

/-- On a well-formed application a registered token resolves to its player, the session and
the dog of the player, and the player is the one stored under the id of that dog and the
map id of that session. -/
theorem resolve_of_token (a : Application) (hwf : a.WellFormed) (token : String)
    (key : ℕ × String) (h : a.player_tokens_.FindPlayerByToken token = some key) :
    ∃ player session dog, a.resolve token = some (player, session, dog) ∧
      player = { dog_ := key.1, session_ := key.2 } ∧
      umap.find a.players_ key = some player ∧
      umap.find a.game_.map_id_to_session_ key.2 = some session ∧
      dog.id_ = key.1 ∧ session.map_.id_ = key.2 ∧ dog ∈ session.dogs_ ∧
      session.dogs_.find? (fun d => decide (d.id_ = key.1)) = some dog ∧
      FindByDogIdAndMapId a.players_ dog.id_ session.map_.id_ = some player := by
  have hmem : (token, key) ∈ a.player_tokens_.token_to_player_ := by
    rw [FindPlayerByToken_eq] at h
    exact umap.find_some_mem _ _ _ h
  have hp := find_players_of_mem a hwf (token, key) hmem
  obtain ⟨session, hs, _, hsome⟩ := (playerBound_iff a key).1 (hwf.2.2.2.2.2 (token, key) hmem)
  rcases hd : session.dogs_.find? (fun d => decide (d.id_ = key.1)) with _ | dog
  · rw [hd] at hsome; cases hsome
  · have hid : dog.id_ = key.1 := by
      have := List.find?_some hd
      simpa using this
    have hmid : session.map_.id_ = key.2 :=
      FindMap_id a.game_ hwf.1 key.2 _ (hwf.1.2 (key.2, session) (umap.find_some_mem _ _ _ hs)).1
    refine ⟨_, session, dog, ?_, rfl, hp, hs, hid, hmid, List.mem_of_find?_eq_some hd, hd, ?_⟩
    · simp only [Application.resolve, h, hp, hs, hd]
    · rw [hid, hmid]
      exact hp

theorem fst_eq_iff_snd_eq (l : List (String × (ℕ × String)))
    (hnd1 : (l.map Prod.fst).Nodup) (hnd2 : (l.map Prod.snd).Nodup)
    (p q : String × (ℕ × String)) (hp : p ∈ l) (hq : q ∈ l) : q.1 = p.1 ↔ q.2 = p.2 := by
  constructor
  · intro h
    rw [List.inj_on_of_nodup_map hnd1 hq hp h]
  · intro h
    rw [List.inj_on_of_nodup_map hnd2 hq hp h]

/-- What a returning `UseCaseDogRetire` does on a well-formed application: the application
is well formed again, the pair `(dog_id, map_id)` has no player any more, and a token that
resolved to that player resolves to none. -/
theorem UseCaseDogRetire_spec (a : Application) (hwf : a.WellFormed) (dog_id : ℕ)
    (map_id uuid : String) (r : Bool) (a' : Application)
    (h : UseCaseDogRetire a dog_id map_id uuid = some (r, a')) :
    a'.WellFormed ∧ FindByDogIdAndMapId a'.players_ dog_id map_id = none ∧
    (∀ token, a.player_tokens_.FindPlayerByToken token = some (dog_id, map_id) →
      a'.player_tokens_.FindPlayerByToken token = none) ∧
    (∀ token key, key ≠ (dog_id, map_id) →
      a.player_tokens_.FindPlayerByToken token = some key →
      a'.player_tokens_.FindPlayerByToken token = some key) := by
  unfold UseCaseDogRetire at h
  rcases hf : FindByDogIdAndMapId a.players_ dog_id map_id with _ | player
  · simp only [hf, Option.some.injEq, Prod.mk.injEq] at h
    obtain ⟨_, rfl⟩ := h
    refine ⟨hwf, hf, ?_, fun _ _ _ h => h⟩
    intro token ht
    obtain ⟨_, _, _, _, _, hp, _⟩ := resolve_of_token a hwf token _ ht
    simp only [FindByDogIdAndMapId] at hf
    rw [hf] at hp
    cases hp
  · simp only [hf] at h
    rcases hd : a.GetDog player with _ | dog
    · simp [hd] at h
    · simp only [hd] at h
      rcases he : a.player_tokens_.ErasePlayer (dog_id, map_id) with _ | tokens
      · simp [he] at h
      · simp only [he, Option.some.injEq, Prod.mk.injEq] at h
        obtain ⟨_, rfl⟩ := h
        obtain ⟨hg, hnd1, hnd2, hr3, hr4, hr5⟩ := hwf
        unfold PlayerTokens.ErasePlayer at he
        rcases hft : umap.find a.player_tokens_.player_to_token_ (dog_id, map_id) with _ | t'
        · simp [hft] at he
        · simp only [hft, Option.some.injEq] at he
          subst he
          have hmem : (t', (dog_id, map_id)) ∈ a.player_tokens_.token_to_player_ := by
            have := umap.find_some_mem _ _ _ hft
            rw [hr3] at this
            obtain ⟨tk, htk, heq⟩ := List.mem_map.1 this
            simp only [Prod.mk.injEq] at heq
            obtain ⟨h1, h2⟩ := heq
            have : tk = (t', (dog_id, map_id)) := by
              cases tk; simp_all
            rw [← this]; exact htk
          have hfilter : ∀ tk ∈ a.player_tokens_.token_to_player_,
              decide (tk.2 ≠ (dog_id, map_id)) = decide (tk.1 ≠ t') := by
            intro tk htk
            have := fst_eq_iff_snd_eq _ hnd1 hnd2 _ tk hmem htk
            simp only [ne_eq, decide_not]
            congr 1
            exact decide_eq_decide.2 this.symm
          have herase : umap.erase a.player_tokens_.token_to_player_ t' =
              a.player_tokens_.token_to_player_.filter
                (fun tk => decide (tk.2 ≠ (dog_id, map_id))) := by
            unfold umap.erase
            exact (List.filter_congr hfilter).symm
          refine ⟨⟨hg, ?_, ?_, ?_, ?_, ?_⟩, ?_, ?_, ?_⟩
          · exact umap.nodup_keys_erase _ _ hnd1
          · show (List.map Prod.snd (umap.erase _ t')).Nodup
            unfold umap.erase
            exact hnd2.sublist ((List.filter_sublist _).map Prod.snd)
          · show umap.erase a.player_tokens_.player_to_token_ (dog_id, map_id) =
              List.map (fun tk => (tk.2, tk.1)) (umap.erase a.player_tokens_.token_to_player_ t')
            rw [herase, hr3]
            unfold umap.erase
            rw [List.filter_map]
            rfl
          · show ErasePlayer a.players_ dog_id map_id =
              List.map _ (umap.erase a.player_tokens_.token_to_player_ t')
            rw [herase, hr4]
            unfold ErasePlayer umap.erase
            rw [List.filter_map]
            rfl
          · intro tk htk
            have hsub : tk ∈ a.player_tokens_.token_to_player_ := by
              have : tk ∈ umap.erase a.player_tokens_.token_to_player_ t' := htk
              unfold umap.erase at this
              exact List.mem_of_mem_filter this
            exact hr5 tk hsub
          · exact umap.find_erase_self _ _
          · intro token ht
            rw [FindPlayerByToken_eq] at ht ⊢
            have hm2 := umap.find_some_mem _ _ _ ht
            have : token = t' :=
              (fst_eq_iff_snd_eq _ hnd1 hnd2 _ (token, (dog_id, map_id)) hmem hm2).2 rfl
            subst this
            exact umap.find_erase_self _ _
          · intro token key hne ht
            rw [FindPlayerByToken_eq] at ht ⊢
            have hm2 := umap.find_some_mem _ _ _ ht
            apply umap.find_of_mem_nodup _ _ _ (umap.nodup_keys_erase _ _ hnd1)
            show (token, key) ∈ umap.erase a.player_tokens_.token_to_player_ t'
            rw [herase]
            exact List.mem_filter.2 ⟨hm2, by simpa using hne⟩

theorem runCalls_WellFormed (calls : List RegistryCall) (a0 a : Application)
    (h0 : a0.WellFormed) (hrun : runCalls a0 calls = some a) : a.WellFormed := by
  induction calls generalizing a0 with
  | nil =>
    simp only [runCalls, Option.some.injEq] at hrun
    subst hrun; exact h0
  | cons call rest ih =>
    cases call with
    | join map_id dog_name d tokens =>
      rw [runCalls] at hrun
      rcases hj : UseCaseJoinPlayer a0 map_id dog_name d tokens with _ | ⟨res, a1⟩
      · simp [hj] at hrun
      · simp only [hj] at hrun
        rcases UseCaseJoinPlayer_spec a0 h0 _ _ _ _ _ _ hj with
          ⟨_, heq, _⟩ | ⟨_, _, _, _, _, hwf1, _⟩
        · rw [heq] at hrun
          exact ih a0 h0 hrun
        · exact ih a1 hwf1 hrun
    | retire dog_id map_id uuid =>
      rw [runCalls] at hrun
      rcases hj : UseCaseDogRetire a0 dog_id map_id uuid with _ | ⟨r, a1⟩
      · simp [hj] at hrun
      · simp only [hj] at hrun
        exact ih a1 (UseCaseDogRetire_spec a0 h0 _ _ _ _ _ hj).1 hrun

end app

/-! ## Theorems: joining the game -/

namespace app

open model

theorem UseCaseJoinPlayer_none (a : Application) (hwf : a.WellFormed) (map_id name : String)
    (d : SpawnDraw) (tokens : List String) (h : a.game_.FindMap map_id = none) :
    UseCaseJoinPlayer a map_id name d tokens = some (none, a) := by
  rcases GetGameSessionByMapId_spec a.game_ hwf.1 map_id with
    ⟨_, hres⟩ | ⟨_, session, _, _, hfm, _⟩
  · unfold UseCaseJoinPlayer
    rw [hres]
  · rw [h] at hfm; cases hfm

/-- C12: the contract of `UseCaseJoinPlayer`, on a well-formed application and token draws of
which one is not in the table yet. If no map has the id, the call returns no result and the
application is unchanged. If a map has the id (and a road, for the spawn point), the call
returns a token and a dog id. Whenever the call returns, it returns no result exactly when
no map has the id; a returned token resolves to a player whose dog has the returned id and
the name and stands in the session stored under the map id, and every token that resolved
to a player before resolves to the same player, with the same dog, after the call. -/
theorem JoinPlayer_contract (a : Application) (map_id name : String) (d : SpawnDraw)
    (tokens : List String) (hwf : a.WellFormed)
    (hfresh : ∃ token ∈ tokens, umap.find a.player_tokens_.token_to_player_ token = none) :
    (a.game_.FindMap map_id = none →
      UseCaseJoinPlayer a map_id name d tokens = some (none, a)) ∧
    (∀ map, a.game_.FindMap map_id = some map → map.roads_ ≠ [] →
      ∃ token dog_id a',
        UseCaseJoinPlayer a map_id name d tokens = some (some (token, dog_id), a')) ∧
    (∀ res a', UseCaseJoinPlayer a map_id name d tokens = some (res, a') →
      (res = none ↔ a.game_.FindMap map_id = none) ∧
      (res = none → a' = a) ∧
      (∀ token dog_id, res = some (token, dog_id) →
        (∃ player session dog, a'.resolve token = some (player, session, dog) ∧
          player.dog_ = dog_id ∧ player.session_ = map_id ∧
          dog.id_ = dog_id ∧ dog.name_ = name ∧
          umap.find a'.game_.map_id_to_session_ map_id = some session ∧
          session.map_.id_ = map_id ∧ dog ∈ session.dogs_) ∧
        (∀ t key, a.player_tokens_.FindPlayerByToken t = some key →
          a'.player_tokens_.FindPlayerByToken t = some key ∧
          umap.find a'.players_ key = umap.find a.players_ key ∧
          ∀ player, umap.find a.players_ key = some player →
            a'.GetDog player = a.GetDog player))) := by
  refine ⟨UseCaseJoinPlayer_none a hwf map_id name d tokens,
    fun map hfm hroads => UseCaseJoinPlayer_returns a hwf map_id name d tokens map hfm hroads
      hfresh, ?_⟩
  intro res a' h
  rcases UseCaseJoinPlayer_spec a hwf _ _ _ _ _ _ h with
    ⟨rfl, rfl, hfm⟩ |
    ⟨token, dog_id, session, dog, rfl, hwf', hfm, _, hL, hsess, hmid, hdog, hname, _, hother,
      hdogs⟩
  · exact ⟨⟨fun _ => hfm, fun _ => rfl⟩, fun _ => rfl, fun _ _ hc => (by cases hc)⟩
  · have hne : a.game_.FindMap map_id ≠ none := by
      intro hc
      rw [hc] at hfm
      cases hfm
    refine ⟨⟨fun hc => (by cases hc), fun hc => absurd hc hne⟩,
      fun hc => (by cases hc), ?_⟩
    intro token' dog_id' heq
    simp only [Option.some.injEq, Prod.mk.injEq] at heq
    obtain ⟨rfl, rfl⟩ := heq
    have hnew : a'.player_tokens_.FindPlayerByToken token = some (dog_id, map_id) := by
      rw [FindPlayerByToken_eq]
      apply umap.find_of_mem_nodup _ _ _ hwf'.2.1
      rw [hL]; simp
    constructor
    · obtain ⟨player, session', dog', hres, hp, _, hs', hid', _, hmem', hfd', _⟩ :=
        resolve_of_token a' hwf' token _ hnew
      simp only at hs' hid' hfd'
      rw [hsess] at hs'
      simp only [Option.some.injEq] at hs'
      subst hs'
      rw [hdog] at hfd'
      simp only [Option.some.injEq] at hfd'
      subst hfd'
      exact ⟨player, session, dog, hres, by rw [hp], by rw [hp], hid', hname, hsess, hmid,
        hmem'⟩
    · intro t key ht
      have htmem : (t, key) ∈ a.player_tokens_.token_to_player_ := by
        rw [FindPlayerByToken_eq] at ht
        exact umap.find_some_mem _ _ _ ht
      have htmem' : (t, key) ∈ a'.player_tokens_.token_to_player_ := by
        rw [hL]; exact List.mem_append_left _ htmem
      have hp := find_players_of_mem a hwf (t, key) htmem
      have hp' := find_players_of_mem a' hwf' (t, key) htmem'
      refine ⟨?_, by rw [hp, hp'], ?_⟩
      · rw [FindPlayerByToken_eq]
        exact umap.find_of_mem_nodup _ _ _ hwf'.2.1 htmem'
      · intro player hpl
        simp only at hp
        rw [hp] at hpl
        simp only [Option.some.injEq] at hpl
        subst hpl
        obtain ⟨s0, hs0, _, hsome⟩ :=
          (playerBound_iff a key).1 (hwf.2.2.2.2.2 (t, key) htmem)
        unfold Application.GetDog
        simp only
        by_cases hk : key.2 = map_id
        · rw [hk] at hs0 ⊢
          rw [hsess, hs0]
          simp only
          rw [hdogs s0 hs0, List.find?_append]
          rcases hf0 : s0.dogs_.find? (fun d => decide (d.id_ = key.1)) with _ | d0
          · rw [hf0] at hsome; cases hsome
          · rw [hf0]; rfl
        · rw [hother _ hk]

/-- The application `freshApp` (maps "map1" and "market", nobody registered): a join on the
unknown map "nomap" returns no result and changes nothing; a join on "market" returns a
token and a dog id. -/
theorem JoinPlayer_contract_witness :
    freshApp.WellFormed ∧
    UseCaseJoinPlayer freshApp "nomap" "Rex" (originSpawn 0)
      ["ffffffff0123456701234567aaaaaaaa"] = some (none, freshApp) ∧
    (UseCaseJoinPlayer freshApp "market" "Rex" (originSpawn 0)
      ["ffffffff0123456701234567aaaaaaaa"]).map (fun r => r.1) =
      some (some ("ffffffff0123456701234567aaaaaaaa", 0)) ∧
    ∃ token dog_id a',
      UseCaseJoinPlayer freshApp "market" "Rex" (originSpawn 0)
        ["ffffffff0123456701234567aaaaaaaa"] = some (some (token, dog_id), a') :=
  ⟨by decide!,
   (JoinPlayer_contract freshApp "nomap" "Rex" (originSpawn 0)
      ["ffffffff0123456701234567aaaaaaaa"] (by decide!) (by decide!)).1 (by decide!),
   by decide!,
   (JoinPlayer_contract freshApp "market" "Rex" (originSpawn 0)
      ["ffffffff0123456701234567aaaaaaaa"] (by decide!) (by decide!)).2.1 (marketMap 3)
      (by decide!) (by decide!)⟩

end app

/-! ## Theorems: registry consistency -/

namespace app

open model

theorem WellFormed_of_empty (a : Application) (hg : a.game_.WellFormed)
    (h1 : a.players_ = []) (h2 : a.player_tokens_.token_to_player_ = [])
    (h3 : a.player_tokens_.player_to_token_ = []) : a.WellFormed := by
  refine ⟨hg, ?_, ?_, ?_, ?_, ?_⟩ <;> simp [h1, h2, h3]

/-- C14: registry consistency. After any sequence of `UseCaseJoinPlayer` and
`UseCaseDogRetire` calls that return, run from a well-formed application (such as one with a
well-formed game and empty registries), the application is well formed; every registered
token resolves to a player `P`, and `FindByDogIdAndMapId` on the id of the dog of `P` and
the map id of the session of `P` is `P` again; the token table, its inverse and the player
table have the same number of entries; and after a further `UseCaseDogRetire(d, m)` neither
the key `(d, m)` nor a token that resolved to that player resolves to a player, and the
tables still have the same number of entries. -/
theorem registry_consistent_after_calls (a0 : Application) (calls : List RegistryCall)
    (a : Application) (h0 : a0.WellFormed) (hrun : runCalls a0 calls = some a) :
    a.WellFormed ∧
    (∀ token key, a.player_tokens_.FindPlayerByToken token = some key →
      ∃ player session dog, a.resolve token = some (player, session, dog) ∧
        umap.find a.players_ key = some player ∧
        FindByDogIdAndMapId a.players_ dog.id_ session.map_.id_ = some player) ∧
    a.player_tokens_.token_to_player_.length = a.players_.length ∧
    a.player_tokens_.player_to_token_.length = a.players_.length ∧
    (∀ dog_id map_id uuid r a', UseCaseDogRetire a dog_id map_id uuid = some (r, a') →
      FindByDogIdAndMapId a'.players_ dog_id map_id = none ∧
      (∀ token, a.player_tokens_.FindPlayerByToken token = some (dog_id, map_id) →
        a'.player_tokens_.FindPlayerByToken token = none) ∧
      a'.player_tokens_.token_to_player_.length = a'.players_.length) := by
  have hwf := runCalls_WellFormed calls a0 a h0 hrun
  have hlen : ∀ b : Application, b.WellFormed →
      b.player_tokens_.token_to_player_.length = b.players_.length ∧
      b.player_tokens_.player_to_token_.length = b.players_.length := by
    intro b hb
    obtain ⟨_, _, _, hr3, hr4, _⟩ := hb
    rw [hr3, hr4]
    simp
  refine ⟨hwf, ?_, (hlen a hwf).1, (hlen a hwf).2, ?_⟩
  · intro token key ht
    obtain ⟨player, session, dog, hres, _, hp, _, _, _, _, _, hfind⟩ :=
      resolve_of_token a hwf token key ht
    exact ⟨player, session, dog, hres, hp, hfind⟩
  · intro dog_id map_id uuid r a' hret
    obtain ⟨hwf', hnone, htok, _⟩ := UseCaseDogRetire_spec a hwf _ _ _ _ _ hret
    exact ⟨hnone, htok, (hlen a' hwf').1⟩

/-- The calls `registryCalls` on `freshApp` return; they leave the players `(1, "market")`
and `(0, "map1")` under two tokens, and the registries are consistent. -/
theorem registry_consistent_after_calls_witness :
    freshApp.WellFormed ∧
    (runCalls freshApp registryCalls).map (fun a => a.players_.map Prod.fst) =
      some [(1, "market"), (0, "map1")] ∧
    (runCalls freshApp registryCalls).map
        (fun a => a.player_tokens_.token_to_player_.map Prod.fst) =
      some ["ffffffff89abcdef89abcdefaaaaaaaa", "fffffffffedcba98fedcba98aaaaaaaa"] ∧
    ∃ a, runCalls freshApp registryCalls = some a ∧ a.WellFormed ∧
      a.player_tokens_.token_to_player_.length = a.players_.length ∧
      a.player_tokens_.player_to_token_.length = a.players_.length :=
  have hs : (runCalls freshApp registryCalls).isSome = true := by decide!
  have hrun : runCalls freshApp registryCalls = some ((runCalls freshApp registryCalls).get hs) :=
    (Option.some_get hs).symm
  have h := registry_consistent_after_calls freshApp registryCalls _ (by decide!) hrun
  ⟨by decide!, by decide!, by decide!, _, hrun, h.1, h.2.2.1, h.2.2.2.1⟩

end app

/-! ## Theorems: providers without events -/

namespace collision_detector

open geom

/-- C21: `FindGatherEvents` returns the empty list whenever the provider has no items, or
has no gatherers, or every gatherer has its start equal to its end, whatever the radii
are. -/
theorem FindGatherEvents_eq_nil (p : ItemGathererProvider)
    (h : p.items_ = [] ∨ p.gatherers_ = [] ∨
      ∀ gatherer ∈ p.gatherers_, gatherer.start_pos = gatherer.end_pos) :
    FindGatherEvents p = [] := by
  rw [List.eq_nil_iff_forall_not_mem]
  intro e he
  unfold FindGatherEvents at he
  rw [mem_sortEvents, mem_detectedEvents] at he
  obtain ⟨gatherer, item, hg, hi, hne, _⟩ := he
  rcases h with h | h | h
  · rw [h] at hi; simp at hi
  · rw [h] at hg; simp at hg
  · exact hne (h gatherer (List.mem_iff_getElem?.2 ⟨_, hg⟩))

/-- The scenarios "no items added" and "no gatherers added" give no event, and neither does
a provider whose gatherers all stand still. -/
theorem FindGatherEvents_eq_nil_witness :
    FindGatherEvents noItemsProvider = [] ∧ FindGatherEvents noGatherersProvider = [] ∧
    FindGatherEvents standingProvider = [] :=
  ⟨FindGatherEvents_eq_nil noItemsProvider (Or.inl rfl),
   FindGatherEvents_eq_nil noGatherersProvider (Or.inr (Or.inl rfl)),
   FindGatherEvents_eq_nil standingProvider (Or.inr (Or.inr (by decide)))⟩

end collision_detector

/-! ## Theorems: stopping -/

namespace model

theorem find?_modifyFirst (f : Dog → Dog) (hf : ∀ d, (f d).id_ = d.id_) (id : ℕ)
    (dogs : List Dog) :
    (modifyFirst id f dogs).find? (fun d => decide (d.id_ = id)) =
      (dogs.find? (fun d => decide (d.id_ = id))).map f := by
  induction dogs with
  | nil => rfl
  | cons d rest ih =>
    by_cases h : d.id_ = id
    · simp [modifyFirst, h, hf]
    · simp [modifyFirst, h, ih]

end model

namespace app

open model

theorem GetDog_modifyDog (a : Application) (player : Player) (f : Dog → Dog)
    (hf : ∀ d, (f d).id_ = d.id_) :
    (a.modifyDog player f).GetDog player = (a.GetDog player).map f := by
  unfold Application.modifyDog Application.GetDog
  rcases Option.eq_none_or_eq_some (umap.find a.game_.map_id_to_session_ player.session_) with
    hs | ⟨session, hs⟩
  · simp [hs]
  · simp only [hs, umap.find_assign, if_true, GameSession.modifyDog]
    exact find?_modifyFirst f hf _ _

/-- C30: `Dog::Stop` is a total reset of motion. It sets the velocity to `(0,0)` and the
holding time to 0 and keeps every other member of the dog; applied twice it equals itself
applied once; and `UseCaseStopPlayer` on the token of a player leaves the dog of the player
as `Stop` of what it was, so that on a dog that already stands still the holding time it
has accumulated goes back to 0. The dog of `restingApp` has stood still for 500 ms: after
`StopPlayer` it stands still with a holding time of 0. -/
theorem Stop_resets_motion :
    (∀ dog : Dog,
      dog.Stop.speed_ = { x := 0, y := 0 } ∧ dog.Stop.holding_time_ = 0 ∧
      dog.Stop.id_ = dog.id_ ∧ dog.Stop.name_ = dog.name_ ∧
      dog.Stop.direction_ = dog.direction_ ∧ dog.Stop.coords_ = dog.coords_ ∧
      dog.Stop.prev_coords_ = dog.prev_coords_ ∧ dog.Stop.bagpack_ = dog.bagpack_ ∧
      dog.Stop.score_ = dog.score_ ∧ dog.Stop.time_in_game_ = dog.time_in_game_ ∧
      dog.Stop.Stop = dog.Stop) ∧
    (∀ (a : Application) (token : String) (player : Player) (session : GameSession)
        (dog : Dog),
      a.resolve token = some (player, session, dog) →
      ∃ a', UseCaseStopPlayer a token = some (true, a') ∧
        a'.GetDog player = some dog.Stop ∧
        (dog.IsStoped = true → dog.Stop.speed_ = dog.speed_ ∧ dog.Stop.holding_time_ = 0)) ∧
    (restingApp.GetDog { dog_ := 0, session_ := "market" }).map
        (fun dog => (dog.IsStoped, dog.holding_time_)) = some (true, 500) ∧
    ((UseCaseStopPlayer restingApp "ffffffff0123456701234567aaaaaaaa").bind fun r =>
      (r.2.GetDog { dog_ := 0, session_ := "market" }).map
        (fun dog => (r.1, dog.IsStoped, dog.holding_time_))) = some (true, true, 0) := by
  refine ⟨fun dog => ⟨rfl, rfl, rfl, rfl, rfl, rfl, rfl, rfl, rfl, rfl, rfl⟩, ?_,
    by decide!, by decide!⟩
  intro a token player session dog hres
  have hres' := hres
  unfold Application.resolve at hres
  rcases hft : a.player_tokens_.FindPlayerByToken token with _ | key
  · simp [hft] at hres
  · simp only [hft] at hres
    rcases hfp : umap.find a.players_ key with _ | player'
    · simp [hfp] at hres
    · simp only [hfp] at hres
      rcases hfs : umap.find a.game_.map_id_to_session_ player'.session_ with _ | session'
      · simp [hfs] at hres
      · simp only [hfs] at hres
        rcases hfd : session'.dogs_.find? (fun d => decide (d.id_ = player'.dog_)) with
          _ | dog'
        · simp [hfd] at hres
        · simp only [hfd, Option.some.injEq, Prod.mk.injEq] at hres
          obtain ⟨rfl, rfl, rfl⟩ := hres
          refine ⟨a.modifyDog player' Dog.Stop, ?_, ?_, ?_⟩
          · simp [UseCaseStopPlayer, hft, hres']
          · rw [GetDog_modifyDog a player' Dog.Stop (fun _ => rfl)]
            simp [Application.GetDog, hfs, hfd]
          · intro hstop
            simp only [Dog.IsStoped, Bool.and_eq_true, decide_eq_true_eq] at hstop
            refine ⟨?_, rfl⟩
            cases hsp : dog'.speed_
            rw [hsp] at hstop
            simp only at hstop
            simp [Dog.Stop, hstop.1, hstop.2]

end app
/-! ## Theorems: the handlers of the gather events -/

namespace umap

variable {κ ν : Type}

theorem find_erase_ne [DecidableEq κ] (m : List (κ × ν)) (k k' : κ) (h : k' ≠ k) :
    find (erase m k) k' = find m k' := by
  induction m with
  | nil => rfl
  | cons kv rest ih =>
    obtain ⟨k0, v0⟩ := kv
    by_cases h0 : k0 = k
    · have hne : k0 ≠ k' := fun hc => h (hc.symm.trans h0)
      have : erase ((k0, v0) :: rest) k = erase rest k := by
        simp [erase, List.filter, h0]
      rw [this, ih]
      simp [find, hne]
    · have : erase ((k0, v0) :: rest) k = (k0, v0) :: erase rest k := by
        simp [erase, List.filter, h0]
      rw [this]
      by_cases h1 : k0 = k'
      · simp [find, h1]
      · simp only [find, h1, if_false]
        exact ih

end umap

namespace model

open geom collision_detector

theorem foldl_worth_eq (bag : List LootObject) (init : ℕ) :
    bag.foldl (fun lhs rhs => lhs + rhs.GetWorth) init =
      init + (bag.map LootObject.GetWorth).sum := by
  induction bag generalizing init with
  | nil => simp
  | cons obj rest ih =>
    simp only [List.foldl_cons, List.map_cons, List.sum_cons]
    rw [ih]
    omega

/-- The three ways `Move` returns: the dog is stopped and only its clocks advance, or it is
moved to a point, or it is stopped at the end of a road and moved to a point. -/
theorem Move_cases (s : GameSession) (dog dog' : Dog) (tick : ℕ)
    (h : s.Move dog tick = some dog') :
    ((dog.AddTick tick).IsStoped = true ∧ dog' = dog.AddTick tick) ∨
    ((dog.AddTick tick).IsStoped = false ∧
      ∃ p : PointDouble, dog' = (dog.AddTick tick).SetCoorginates p ∨
        dog' = (dog.AddTick tick).Stop.SetCoorginates p) := by
  unfold GameSession.Move at h
  simp only at h
  cases hst : (dog.AddTick tick).IsStoped with
  | true =>
    simp only [hst, if_true, Option.some.injEq] at h
    exact Or.inl ⟨rfl, h.symm⟩
  | false =>
    simp only [hst, Bool.false_eq_true, if_false] at h
    cases hr : roadsAtTile s.coords_to_roads_ (RoundRoadCoords (dog.AddTick tick).coords_) with
    | none => simp [hr] at h
    | some roads =>
      simp only [hr] at h
      rcases ite_some_eq_cases _ _ _ _ h with e | e
      · exact Or.inr ⟨rfl, _, Or.inr e⟩
      · exact Or.inr ⟨rfl, _, Or.inl e⟩

/-- The office drop with scores as unbounded naturals. `Dog::DropBagpackContent` raises the
score of the dog by exactly the sum of `GetWorth()` over the objects of its bag and leaves
the bag empty; id, name, position, previous position, velocity, direction, holding time and
time in game are unchanged, and on an empty bag the dog is unchanged. `HandleLootDrop` applies it to the one
dog of the gatherer and leaves the loot on the map, the map and the other dogs as they
are. The dog of `officeSession` (score 5, bag worth 10 + 20) ends with score 35 and an empty
bag. -/
theorem DropBagpackContent_spec :
    (∀ dog : Dog,
      dog.DropBagpackContent.score_ =
        dog.score_ + (dog.bagpack_.map LootObject.GetWorth).sum ∧
      dog.DropBagpackContent.bagpack_ = [] ∧
      dog.DropBagpackContent.coords_ = dog.coords_ ∧
      dog.DropBagpackContent.prev_coords_ = dog.prev_coords_ ∧
      dog.DropBagpackContent.speed_ = dog.speed_ ∧
      dog.DropBagpackContent.direction_ = dog.direction_ ∧
      dog.DropBagpackContent.id_ = dog.id_ ∧ dog.DropBagpackContent.name_ = dog.name_ ∧
      dog.DropBagpackContent.holding_time_ = dog.holding_time_ ∧
      dog.DropBagpackContent.time_in_game_ = dog.time_in_game_ ∧
      (dog.bagpack_ = [] → dog.DropBagpackContent = dog)) ∧
    (∀ (s : GameSession) (g : ℕ),
      (s.HandleLootDrop g).loot_obj_id_to_obj_ = s.loot_obj_id_to_obj_ ∧
      (s.HandleLootDrop g).loot_obj_id_to_coords_ = s.loot_obj_id_to_coords_ ∧
      (s.HandleLootDrop g).map_ = s.map_ ∧
      (s.HandleLootDrop g).dogs_[g]? = (s.dogs_[g]?).map Dog.DropBagpackContent ∧
      (∀ g', g' ≠ g → (s.HandleLootDrop g).dogs_[g']? = s.dogs_[g']?)) ∧
    (officeSession.HandleLootDrop 0).dogs_.map (fun dog => (dog.score_, dog.bagpack_)) =
      [(35, [])] := by
  refine ⟨fun dog => ⟨foldl_worth_eq _ _, rfl, rfl, rfl, rfl, rfl, rfl, rfl, rfl, rfl, ?_⟩, ?_,
    by decide!⟩
  · intro h
    cases dog
    simp only at h
    simp [Dog.DropBagpackContent, h]
  · intro s g
    rcases Option.eq_none_or_eq_some (s.dogs_[g]?) with hg | ⟨dog, hg⟩
    · have hres : s.HandleLootDrop g = s := by
        unfold GameSession.HandleLootDrop
        simp only [hg]
      rw [hres, hg]
      exact ⟨rfl, rfl, rfl, rfl, fun _ _ => rfl⟩
    · have hres : s.HandleLootDrop g =
          { s with dogs_ := s.dogs_.set g dog.DropBagpackContent } := by
        unfold GameSession.HandleLootDrop
        simp only [hg]
      rw [hres, hg]
      refine ⟨rfl, rfl, rfl, ?_, ?_⟩
      · have hlt := (List.getElem?_eq_some.1 hg).1
        simp [List.getElem?_set, hlt]
      · intro g' hne
        simp [List.getElem?_set, Ne.symm hne]

/-- A stopped dog skips motion, with the clocks as unbounded naturals. For a dog with zero
velocity `Move` returns the dog with the tick added to its time in game and to its holding
time and nothing else changed (the previous coordinates stay what they were); for a dog with a non-zero velocity a
returning `Move` adds the tick to the time in game and adds nothing to the holding time,
which stays as it was or is reset to 0 by the stop at the end of a road. -/
theorem Move_of_stopped_dog :
    (∀ (s : GameSession) (dog : Dog) (tick : ℕ), dog.IsStoped = true →
      ∃ dog', s.Move dog tick = some dog' ∧
        dog'.time_in_game_ = dog.time_in_game_ + tick ∧
        dog'.holding_time_ = dog.holding_time_ + tick ∧
        dog'.coords_ = dog.coords_ ∧ dog'.prev_coords_ = dog.prev_coords_ ∧
        dog'.speed_ = dog.speed_ ∧ dog'.direction_ = dog.direction_ ∧
        dog'.bagpack_ = dog.bagpack_ ∧ dog'.score_ = dog.score_ ∧
        dog'.id_ = dog.id_ ∧ dog'.name_ = dog.name_) ∧
    (∀ (s : GameSession) (dog dog' : Dog) (tick : ℕ), dog.IsStoped = false →
      s.Move dog tick = some dog' →
        dog'.time_in_game_ = dog.time_in_game_ + tick ∧
        (dog'.holding_time_ = dog.holding_time_ ∨
          (dog'.IsStoped = true ∧ dog'.holding_time_ = 0))) ∧
    clampSession.Move restingDog 250 =
      some { restingDog with time_in_game_ := 750, holding_time_ := 750 } ∧
    (clampSession.Move (restingDog.MovePlayer Direction.EAST 3) 250).map
      (fun dog => (dog.coords_, dog.time_in_game_, dog.holding_time_)) =
      some (⟨3/4, 0⟩, 750, 500) := by
  refine ⟨?_, ?_, by decide!, by decide!⟩
  · intro s dog tick h
    refine ⟨{ dog with time_in_game_ := dog.time_in_game_ + tick,
                       holding_time_ := dog.holding_time_ + tick }, ?_,
      rfl, rfl, rfl, rfl, rfl, rfl, rfl, rfl, rfl, rfl⟩
    have h1 : dog.AddTick tick =
        { dog with time_in_game_ := dog.time_in_game_ + tick,
                   holding_time_ := dog.holding_time_ + tick } := by
      simp [Dog.AddTick, h]
    have h2 : (dog.AddTick tick).IsStoped = true := by
      rw [h1]; exact h
    unfold GameSession.Move
    simp only [h2, if_true]
    rw [h1]
  · intro s dog dog' tick h hm
    have h1 := AddTick_of_moving dog tick h
    have h2 : (dog.AddTick tick).IsStoped = false := by
      rw [h1]; exact h
    rcases Move_cases s dog dog' tick hm with ⟨h3, _⟩ | ⟨_, p, e | e⟩
    · rw [h2] at h3; cases h3
    · subst e
      exact ⟨by rw [h1]; rfl, Or.inl (by rw [h1]; rfl)⟩
    · subst e
      exact ⟨by rw [h1]; rfl, Or.inr ⟨rfl, rfl⟩⟩

/-- C25: the loot pickup. A LOOT event of the gatherer `g` for the loot id `id` is handled by
`HandleLootColletc g id`, which for a dog with fewer objects in its bag than the bag
capacity of the map and a loot id that is on the map removes the id
from the id->object map and from the id->coords map, keeps every other loot id with its
object and coordinates, appends the object as the last element of the bag of the dog and
leaves every other dog as it is; when the bag is full, or the id is not on the map, the
session is unchanged. -/
theorem HandleLootColletc_spec (s : GameSession) (g id : ℕ) (dog : Dog)
    (hg : s.dogs_[g]? = some dog) :
    (∀ (t : CollisionTables) (event : GatheringEvent), event.gatherer_id = g →
      t.item_id_to_type[event.item_id]? = some ItemType.LOOT →
      t.item_id_to_loot_id[event.item_id]? = some id →
      s.handleEvent t event = some (s.HandleLootColletc g id)) ∧
    (dog.bagpack_.length < s.map_.bag_capacity_ →
      ∀ obj, umap.find s.loot_obj_id_to_obj_ id = some obj →
        umap.find (s.HandleLootColletc g id).loot_obj_id_to_obj_ id = none ∧
        umap.find (s.HandleLootColletc g id).loot_obj_id_to_coords_ id = none ∧
        (∀ id', id' ≠ id →
          umap.find (s.HandleLootColletc g id).loot_obj_id_to_obj_ id' =
            umap.find s.loot_obj_id_to_obj_ id' ∧
          umap.find (s.HandleLootColletc g id).loot_obj_id_to_coords_ id' =
            umap.find s.loot_obj_id_to_coords_ id') ∧
        (s.HandleLootColletc g id).dogs_[g]? =
          some { dog with bagpack_ := dog.bagpack_ ++ [obj] } ∧
        (∀ g', g' ≠ g → (s.HandleLootColletc g id).dogs_[g']? = s.dogs_[g']?) ∧
        (s.HandleLootColletc g id).dogs_.length = s.dogs_.length) ∧
    ((s.map_.bag_capacity_ ≤ dog.bagpack_.length ∨
        umap.find s.loot_obj_id_to_obj_ id = none) →
      s.HandleLootColletc g id = s) := by
  refine ⟨?_, ?_, ?_⟩
  · intro t event he ht hl
    subst he
    unfold GameSession.handleEvent
    simp only [ht, hg, hl]
  · intro hcap obj hobj
    have hlt := (List.getElem?_eq_some.1 hg).1
    have hres : s.HandleLootColletc g id =
        { s with loot_obj_id_to_obj_ := umap.erase s.loot_obj_id_to_obj_ id,
                 loot_obj_id_to_coords_ := umap.erase s.loot_obj_id_to_coords_ id,
                 dogs_ := s.dogs_.set g (dog.AddLootObjectToBagpack obj) } := by
      unfold GameSession.HandleLootColletc
      simp only [hg, Dog.LootCountInBagpack, Map.GetDogBagCapacity, ge_iff_le,
        Nat.not_le.2 hcap, if_false, GameSession.ExtractLootObject, hobj]
    rw [hres]
    refine ⟨umap.find_erase_self _ _, umap.find_erase_self _ _, ?_, ?_, ?_, ?_⟩
    · intro id' hne
      exact ⟨umap.find_erase_ne _ _ _ hne, umap.find_erase_ne _ _ _ hne⟩
    · simp [List.getElem?_set, hlt, Dog.AddLootObjectToBagpack]
    · intro g' hne
      simp [List.getElem?_set, Ne.symm hne]
    · simp
  · intro h
    unfold GameSession.HandleLootColletc
    simp only [hg, Dog.LootCountInBagpack, Map.GetDogBagCapacity, ge_iff_le]
    rcases h with h | h
    · simp [h]
    · by_cases hc : s.map_.bag_capacity_ ≤ dog.bagpack_.length
      · simp [hc]
      · simp [hc, GameSession.ExtractLootObject, h]

/-- The dog of `fullBagSession` (bag capacity 1) takes the loot object 1 and then, its bag
being full, leaves the loot object 0 on the map; a pickup of an id that is not on the map
changes nothing. -/
theorem HandleLootColletc_spec_witness :
    fullBagSession.dogs_[0]? = some (marketDog 0 "Rex" 0 Direction.EAST) ∧
    (fullBagSession.HandleLootColletc 0 1).loot_obj_id_to_obj_ =
      [(0, { id_ := 0, type_ := 0, worth_ := 10 })] ∧
    (fullBagSession.HandleLootColletc 0 1).loot_obj_id_to_coords_ = [(0, ⟨1, 0⟩)] ∧
    (fullBagSession.HandleLootColletc 0 1).dogs_.map (fun dog => dog.bagpack_) =
      [[{ id_ := 1, type_ := 1, worth_ := 20 }]] ∧
    ((fullBagSession.HandleLootColletc 0 1).HandleLootColletc 0 0) =
      fullBagSession.HandleLootColletc 0 1 ∧
    fullBagSession.HandleLootColletc 0 7 = fullBagSession :=
  ⟨by decide!, by decide!, by decide!, by decide!, by decide!,
   (HandleLootColletc_spec fullBagSession 0 7 (marketDog 0 "Rex" 0 Direction.EAST)
      (by decide!)).2.2 (Or.inr (by decide!))⟩

end model

/-! ## Theorems: what a tick keeps of the dogs -/

namespace model

open geom collision_detector

theorem map_set_of_eq {α : Type} (f : Dog → α) (l : List Dog) (g : ℕ) (d x : Dog)
    (hg : l[g]? = some d) (hx : f x = f d) : (l.set g x).map f = l.map f := by
  induction l generalizing g with
  | nil => rfl
  | cons a rest ih =>
    cases g with
    | zero =>
      simp only [List.getElem?_cons_zero, Option.some.injEq] at hg
      subst hg
      simp [hx]
    | succ g =>
      simp only [List.getElem?_cons_succ] at hg
      simp [ih g hg]

/-- The handlers of the gather events change at most bags and scores: whatever `f` reads
of a dog and neither a pickup nor a drop changes is the same, dog by dog, after the loop
of `HandleCollisions`. -/
theorem handleEvents_keeps {α : Type} (f : Dog → α)
    (hcollect : ∀ d obj, f (d.AddLootObjectToBagpack obj) = f d)
    (hdrop : ∀ d, f d.DropBagpackContent = f d)
    (t : CollisionTables) (events : List GatheringEvent) (s s' : GameSession)
    (h : s.handleEvents t events = some s') :
    s'.map_ = s.map_ ∧ s'.dog_retirement_time_ = s.dog_retirement_time_ ∧
    s'.dog_id_to_dog_ = s.dog_id_to_dog_ ∧ s'.dogs_.map f = s.dogs_.map f := by
  induction events generalizing s with
  | nil =>
    simp only [GameSession.handleEvents, Option.some.injEq] at h
    subst h
    exact ⟨rfl, rfl, rfl, rfl⟩
  | cons event rest ih =>
    unfold GameSession.handleEvents at h
    cases he : s.handleEvent t event with
    | none => simp [he] at h
    | some s1 =>
      simp only [he] at h
      obtain ⟨m2, r2, i2, f2⟩ := ih s1 h
      have h1 : s1.map_ = s.map_ ∧ s1.dog_retirement_time_ = s.dog_retirement_time_ ∧
          s1.dog_id_to_dog_ = s.dog_id_to_dog_ ∧ s1.dogs_.map f = s.dogs_.map f := by
        unfold GameSession.handleEvent at he
        split at he
        · cases he
        · split at he
          · cases he
            unfold GameSession.HandleLootColletc
            split
            · exact ⟨rfl, rfl, rfl, rfl⟩
            · rename_i dog hg
              split
              · exact ⟨rfl, rfl, rfl, rfl⟩
              · unfold GameSession.ExtractLootObject
                split
                · exact ⟨rfl, rfl, rfl, rfl⟩
                · rename_i s2 obj heq
                  split at heq
                  · cases heq
                  · cases heq
                    exact ⟨rfl, rfl, rfl, map_set_of_eq f _ _ dog _ hg (hcollect _ _)⟩
          · cases he
        · split at he
          · cases he
            unfold GameSession.HandleLootDrop
            split
            · exact ⟨rfl, rfl, rfl, rfl⟩
            · rename_i dog hg
              exact ⟨rfl, rfl, rfl, map_set_of_eq f _ _ dog _ hg (hdrop _)⟩
          · cases he
      exact ⟨m2.trans h1.1, r2.trans h1.2.1, i2.trans h1.2.2.1, f2.trans h1.2.2.2⟩

theorem HandleCollisions_keeps {α : Type} (f : Dog → α)
    (hcollect : ∀ d obj, f (d.AddLootObjectToBagpack obj) = f d)
    (hdrop : ∀ d, f d.DropBagpackContent = f d) (s s' : GameSession)
    (h : s.HandleCollisions = some s') :
    s'.map_ = s.map_ ∧ s'.dog_retirement_time_ = s.dog_retirement_time_ ∧
    s'.dog_id_to_dog_ = s.dog_id_to_dog_ ∧ s'.dogs_.map f = s.dogs_.map f := by
  unfold GameSession.HandleCollisions at h
  cases ht : s.collisionTables with
  | none => simp [ht] at h
  | some t =>
    simp only [ht] at h
    exact handleEvents_keeps f hcollect hdrop t _ s s' h

theorem SpawnLootObject_frame (s s' : GameSession) (d : SpawnDraw)
    (h : s.SpawnLootObject d = some s') :
    s'.dogs_ = s.dogs_ ∧ s'.map_ = s.map_ ∧
    s'.dog_retirement_time_ = s.dog_retirement_time_ ∧
    s'.dog_id_to_dog_ = s.dog_id_to_dog_ := by
  unfold GameSession.SpawnLootObject at h
  simp only at h
  split at h
  · cases h
  · split at h
    · cases h
    · split at h
      · cases h
      · cases h; exact ⟨rfl, rfl, rfl, rfl⟩

theorem spawnObjects_frame (spawn : ℕ → SpawnDraw) (n k : ℕ) (s s' : GameSession)
    (h : GameSession.spawnObjects spawn n k s = some s') :
    s'.dogs_ = s.dogs_ ∧ s'.map_ = s.map_ ∧
    s'.dog_retirement_time_ = s.dog_retirement_time_ ∧
    s'.dog_id_to_dog_ = s.dog_id_to_dog_ := by
  induction n generalizing k s with
  | zero =>
    simp only [GameSession.spawnObjects, Option.some.injEq] at h
    subst h; exact ⟨rfl, rfl, rfl, rfl⟩
  | succ n ih =>
    unfold GameSession.spawnObjects at h
    cases hs : s.SpawnLootObject (spawn k) with
    | none => simp [hs] at h
    | some s1 =>
      simp only [hs] at h
      obtain ⟨a1, a2, a3, a4⟩ := SpawnLootObject_frame s s1 _ hs
      obtain ⟨b1, b2, b3, b4⟩ := ih (k + 1) s1 h
      exact ⟨b1.trans a1, b2.trans a2, b3.trans a3, b4.trans a4⟩

theorem SpawnLoot_frame (s s' : GameSession) (tick : ℕ) (draw : ℕ → ℚ)
    (spawn : ℕ → SpawnDraw) (h : s.SpawnLoot tick draw spawn = some s') :
    s'.dogs_ = s.dogs_ ∧ s'.map_ = s.map_ ∧
    s'.dog_retirement_time_ = s.dog_retirement_time_ ∧
    s'.dog_id_to_dog_ = s.dog_id_to_dog_ := by
  unfold GameSession.SpawnLoot at h
  split at h
  · cases h
  · obtain ⟨a1, a2, a3, a4⟩ := spawnObjects_frame spawn _ 0 _ s' h
    exact ⟨a1, a2, a3, a4⟩

/-- The loop of `OnTick` over the dogs: every dog of the result is `Move` of the dog at the
same position, and the ids collected for retirement are those of the moved dogs that are
due to retire, in the order of the dogs. -/
theorem moveDogs_spec (s : GameSession) (tick : ℕ) (dogs moved : List Dog) (retire : List ℕ)
    (h : s.moveDogs tick dogs = some (moved, retire)) :
    List.Forall₂ (fun d d' => s.Move d tick = some d') dogs moved ∧
    retire = (moved.filter s.dueToRetire).map (fun d => d.id_) := by
  induction dogs generalizing moved retire with
  | nil =>
    simp only [GameSession.moveDogs, Option.some.injEq, Prod.mk.injEq] at h
    rw [← h.1, ← h.2]
    exact ⟨List.Forall₂.nil, rfl⟩
  | cons dog rest ih =>
    unfold GameSession.moveDogs at h
    cases hm : s.Move dog tick with
    | none => simp [hm] at h
    | some dog1 =>
      cases hr : s.moveDogs tick rest with
      | none => simp [hm, hr] at h
      | some pr =>
        obtain ⟨rest', retire'⟩ := pr
        simp only [hm, hr, Option.some.injEq, Prod.mk.injEq] at h
        obtain ⟨f1, r1⟩ := ih rest' retire' hr
        rw [← h.1, ← h.2]
        refine ⟨List.Forall₂.cons hm f1, ?_⟩
        cases hd : s.dueToRetire dog1 with
        | true =>
          have hd' : (dog1.IsStoped &&
              decide (dog1.GetHoldingPeriod ≥ s.dog_retirement_time_)) = true := hd
          simp only [hd', if_true, List.filter_cons, hd, List.map_cons, r1]
        | false =>
          have hd' : (dog1.IsStoped &&
              decide (dog1.GetHoldingPeriod ≥ s.dog_retirement_time_)) = false := hd
          simp only [hd', Bool.false_eq_true, if_false, List.filter_cons, hd, r1]

theorem Move_keeps_id (s : GameSession) (dog dog' : Dog) (tick : ℕ)
    (h : s.Move dog tick = some dog') : dog'.id_ = dog.id_ :=
  (Move_cargo s dog dog' tick h).1

/-- A returning `Move` keeps the direction of the dog and keeps its velocity or sets it to
`(0,0)`. -/
theorem Move_velocity (s : GameSession) (dog dog' : Dog) (tick : ℕ)
    (h : s.Move dog tick = some dog') :
    dog'.direction_ = dog.direction_ ∧
    (dog'.speed_ = dog.speed_ ∨ dog'.speed_ = { x := 0, y := 0 }) := by
  have hdir : (dog.AddTick tick).direction_ = dog.direction_ := by
    unfold Dog.AddTick; split <;> rfl
  have hsp : (dog.AddTick tick).speed_ = dog.speed_ := by
    unfold Dog.AddTick; split <;> rfl
  rcases Move_cases s dog dog' tick h with ⟨_, e⟩ | ⟨_, p, e | e⟩
  · subst e; exact ⟨hdir, Or.inl hsp⟩
  · subst e; exact ⟨hdir, Or.inl hsp⟩
  · subst e; exact ⟨hdir, Or.inr rfl⟩

theorem moveDogs_map_id (s : GameSession) (tick : ℕ) (dogs moved : List Dog)
    (h : List.Forall₂ (fun d d' => s.Move d tick = some d') dogs moved) :
    moved.map (fun d => d.id_) = dogs.map (fun d => d.id_) := by
  induction h with
  | nil => rfl
  | cons hab _ ih =>
    simp only [List.map_cons, ih, Move_keeps_id _ _ _ _ hab]

end model
namespace model

open geom collision_detector

theorem moveAndRetire_cases (s s1 : GameSession) (tick : ℕ) (calls : List (ℕ × String))
    (h : s.moveAndRetire tick = some (s1, calls)) :
    ∃ moved retire, s.moveDogs tick s.dogs_ = some (moved, retire) ∧
      retireLoop s.do_on_retire_ s.map_.id_ (s.dogs_to_retire_ ++ retire) s.dog_id_to_dog_ moved
        = some (s1.dog_id_to_dog_, s1.dogs_, calls) ∧
      s1.map_ = s.map_ ∧ s1.dog_retirement_time_ = s.dog_retirement_time_ := by
  unfold GameSession.moveAndRetire at h
  cases hm : s.moveDogs tick s.dogs_ with
  | none => simp [hm] at h
  | some pr =>
    obtain ⟨moved, retire⟩ := pr
    simp only [hm] at h
    unfold GameSession.RetireDogs at h
    simp only at h
    split at h
    · cases h
    · rename_i index dogs' calls' heq
      simp only [Option.some.injEq, Prod.mk.injEq] at h
      obtain ⟨h1, h2⟩ := h
      subst h1 h2
      exact ⟨moved, retire, rfl, heq, rfl, rfl⟩

theorem OnTick_cases (s s' : GameSession) (tick : ℕ) (draw : ℕ → ℚ) (spawn : ℕ → SpawnDraw)
    (calls : List (ℕ × String)) (h : s.OnTick tick draw spawn = some (s', calls)) :
    ∃ s1 s2, s.moveAndRetire tick = some (s1, calls) ∧ s1.HandleCollisions = some s2 ∧
      s2.SpawnLoot tick draw spawn = some s' := by
  unfold GameSession.OnTick at h
  cases h1 : s.moveAndRetire tick with
  | none => simp [h1] at h
  | some pr =>
    obtain ⟨s1, calls1⟩ := pr
    simp only [h1] at h
    cases h2 : s1.HandleCollisions with
    | none => simp [h2] at h
    | some s2 =>
      simp only [h2] at h
      cases h3 : s2.SpawnLoot tick draw spawn with
      | none => simp [h3] at h
      | some s3 =>
        simp only [h3, Option.some.injEq, Prod.mk.injEq] at h
        obtain ⟨rfl, rfl⟩ := h
        exact ⟨s1, s2, rfl, h2, h3⟩

theorem VelocityConsistent_of_eq (d d' : Dog) (speed : ℚ) (hd : d'.direction_ = d.direction_)
    (hs : d'.speed_ = d.speed_ ∨ d'.speed_ = { x := 0, y := 0 })
    (h : d.VelocityConsistent speed) : d'.VelocityConsistent speed := by
  unfold Dog.VelocityConsistent at *
  rcases hs with hs | hs
  · rw [hs, hd]; exact h
  · exact Or.inl hs

theorem MovePlayer_velocity (dog : Dog) (dir : Direction) (speed : ℚ) :
    (dog.MovePlayer dir speed).direction_ = dir ∧
    (dog.MovePlayer dir speed).speed_ =
      { x := speed * (unitVector dir).x, y := speed * (unitVector dir).y } := by
  cases dir <;> simp [Dog.MovePlayer, Dog.SetSpeed, Dog.SetDirection, unitVector]

theorem OnTick_VelocityConsistent (s s' : GameSession) (tick : ℕ) (draw : ℕ → ℚ)
    (spawn : ℕ → SpawnDraw) (calls : List (ℕ × String))
    (h : s.OnTick tick draw spawn = some (s', calls)) (hv : s.VelocityConsistent) :
    s'.VelocityConsistent := by
  obtain ⟨s1, s2, h1, h2, h3⟩ := OnTick_cases s s' tick draw spawn calls h
  obtain ⟨moved, retire, hm, hr, m1, _⟩ := moveAndRetire_cases s s1 tick calls h1
  obtain ⟨m2, _, _, f2⟩ := HandleCollisions_keeps (fun d => (d.speed_, d.direction_))
    (fun _ _ => rfl) (fun _ => rfl) s1 s2 h2
  obtain ⟨d3, m3, _, _⟩ := SpawnLoot_frame s2 s' tick draw spawn h3
  intro d' hd'
  rw [d3] at hd'
  rw [m3, m2, m1]
  have hmem : (d'.speed_, d'.direction_) ∈ s2.dogs_.map (fun d => (d.speed_, d.direction_)) :=
    List.mem_map.2 ⟨d', hd', rfl⟩
  rw [f2] at hmem
  obtain ⟨d1, hd1, e1⟩ := List.mem_map.1 hmem
  simp only [Prod.mk.injEq] at e1
  have hsub := retireLoop_sublist _ _ _ _ _ _ _ _ hr
  obtain ⟨d, hd, hmove⟩ := forall₂_mem_right _ _ _ (moveDogs_spec s tick _ _ _ hm).1 d1
    (hsub.subset hd1)
  obtain ⟨v1, v2⟩ := Move_velocity s d d1 tick hmove
  have hv1 := VelocityConsistent_of_eq d d1 s.map_.dog_speed_ v1 v2 (hv d hd)
  exact VelocityConsistent_of_eq d1 d' s.map_.dog_speed_ e1.2.symm (Or.inl e1.1.symm) hv1

theorem mem_modifyFirst (id : ℕ) (f : Dog → Dog) (dogs : List Dog) (d' : Dog)
    (h : d' ∈ modifyFirst id f dogs) : ∃ d ∈ dogs, d' = d ∨ d' = f d := by
  induction dogs with
  | nil => cases h
  | cons d rest ih =>
    unfold modifyFirst at h
    split at h
    · rcases List.mem_cons.1 h with h | h
      · exact ⟨d, List.mem_cons_self _ _, Or.inr h⟩
      · exact ⟨d', List.mem_cons_of_mem _ h, Or.inl rfl⟩
    · rcases List.mem_cons.1 h with h | h
      · exact ⟨d, List.mem_cons_self _ _, Or.inl h⟩
      · obtain ⟨d0, h0, e0⟩ := ih h
        exact ⟨d0, List.mem_cons_of_mem _ h0, e0⟩

end model

namespace app

open model geom

theorem resolve_some (a : Application) (token : String) (player : Player)
    (session : GameSession) (dog : Dog) (h : a.resolve token = some (player, session, dog)) :
    (a.player_tokens_.FindPlayerByToken token).isSome = true ∧
    umap.find a.game_.map_id_to_session_ player.session_ = some session ∧
    session.dogs_.find? (fun d => decide (d.id_ = player.dog_)) = some dog := by
  unfold Application.resolve at h
  rcases hft : a.player_tokens_.FindPlayerByToken token with _ | key
  · simp [hft] at h
  · simp only [hft] at h
    rcases hfp : umap.find a.players_ key with _ | player'
    · simp [hfp] at h
    · simp only [hfp] at h
      rcases hfs : umap.find a.game_.map_id_to_session_ player'.session_ with _ | session'
      · simp [hfs] at h
      · simp only [hfs] at h
        rcases hfd : session'.dogs_.find? (fun d => decide (d.id_ = player'.dog_)) with
          _ | dog'
        · simp [hfd] at h
        · simp only [hfd, Option.some.injEq, Prod.mk.injEq] at h
          obtain ⟨rfl, rfl, rfl⟩ := h
          exact ⟨rfl, hfs, hfd⟩

/-- A write through the dog of a player keeps the velocities consistent when what is
written to the dog is consistent with the dog speed of the map of its session. -/
theorem VelocityConsistent_modifyDog (a : Application) (player : Player) (f : Dog → Dog)
    (hf : ∀ session d, umap.find a.game_.map_id_to_session_ player.session_ = some session →
      d.VelocityConsistent session.map_.dog_speed_ →
      (f d).VelocityConsistent session.map_.dog_speed_)
    (hv : a.VelocityConsistent) : (a.modifyDog player f).VelocityConsistent := by
  unfold Application.modifyDog
  rcases Option.eq_none_or_eq_some (umap.find a.game_.map_id_to_session_ player.session_) with
    hs | ⟨session, hs⟩
  · simp only [hs]; exact hv
  · simp only [hs]
    intro p hp
    rcases umap.mem_assign _ _ _ _ hp with hp | hp
    · exact hv p hp
    · subst hp
      intro d' hd'
      obtain ⟨d, hd, e⟩ := mem_modifyFirst _ _ _ _ hd'
      have hvd := hv _ (umap.find_some_mem _ _ _ hs) d hd
      rcases e with e | e
      · subst e; exact hvd
      · subst e; exact hf session d hs hvd

/-- C29: velocity is consistent with direction. After `UseCaseMovePlayer(token, dir)` for
the token of a player on a map with dog speed `s` the velocity of the dog of the player is
`(0,-s)` for NORTH, `(0,s)` for SOUTH, `(-s,0)` for WEST and `(s,0)` for EAST, and its
direction is `dir`; and the predicate "the velocity is `(0,0)` or `s` times the unit vector
of the direction of the dog", over all the dogs of all the sessions, is preserved by
`UseCaseMovePlayer`, by `UseCaseStopPlayer` and, session by session, by `OnTick`. -/
theorem velocity_consistent_with_direction :
    (∀ (a : Application) (token : String) (dir : Direction) (player : Player)
        (session : GameSession) (dog : Dog),
      a.resolve token = some (player, session, dog) →
      ∃ a', UseCaseMovePlayer a token dir = some (true, a') ∧
        (a'.GetDog player).map (fun d => d.direction_) = some dir ∧
        (a'.GetDog player).map (fun d => d.speed_) =
          some (match dir with
            | Direction.NORTH => { x := 0, y := -session.map_.dog_speed_ }
            | Direction.SOUTH => { x := 0, y := session.map_.dog_speed_ }
            | Direction.WEST => { x := -session.map_.dog_speed_, y := 0 }
            | Direction.EAST => { x := session.map_.dog_speed_, y := 0 })) ∧
    (∀ (a a' : Application) (token : String) (dir : Direction) (r : Bool),
      UseCaseMovePlayer a token dir = some (r, a') →
      a.VelocityConsistent → a'.VelocityConsistent) ∧
    (∀ (a a' : Application) (token : String) (r : Bool),
      UseCaseStopPlayer a token = some (r, a') →
      a.VelocityConsistent → a'.VelocityConsistent) ∧
    (∀ (s s' : GameSession) (tick : ℕ) (draw : ℕ → ℚ) (spawn : ℕ → SpawnDraw)
        (calls : List (ℕ × String)),
      s.OnTick tick draw spawn = some (s', calls) →
      s.VelocityConsistent → s'.VelocityConsistent) ∧
    ((UseCaseMovePlayer restingApp "ffffffff0123456701234567aaaaaaaa" Direction.WEST).bind
      fun r => (r.2.GetDog { dog_ := 0, session_ := "market" }).map
        (fun d => (r.1, d.direction_, d.speed_))) =
      some (true, Direction.WEST, { x := -2, y := 0 }) := by
  refine ⟨?_, ?_, ?_, OnTick_VelocityConsistent, by decide!⟩
  · intro a token dir player session dog hres
    obtain ⟨h1, h2, h3⟩ := resolve_some a token player session dog hres
    obtain ⟨key, hkey⟩ := Option.isSome_iff_exists.1 h1
    refine ⟨a.modifyDog player
      (fun dog => (dog.SetDirection dir).SetSpeed session.map_.dog_speed_), ?_, ?_, ?_⟩
    · simp [UseCaseMovePlayer, hkey, hres]
    · rw [GetDog_modifyDog a player
        (fun dog => (dog.SetDirection dir).SetSpeed session.map_.dog_speed_) (fun _ => rfl)]
      simp [Application.GetDog, h2, h3, Dog.SetSpeed, Dog.SetDirection]
    · rw [GetDog_modifyDog a player
        (fun dog => (dog.SetDirection dir).SetSpeed session.map_.dog_speed_) (fun _ => rfl)]
      cases dir <;> simp [Application.GetDog, h2, h3, Dog.SetSpeed, Dog.SetDirection]
  · intro a a' token dir r h hv
    unfold UseCaseMovePlayer at h
    split at h
    · cases h; exact hv
    · split at h
      · cases h
      · rename_i player session dog hres
        cases h
        obtain ⟨_, h2, _⟩ := resolve_some a token player session dog hres
        refine VelocityConsistent_modifyDog a player _ ?_ hv
        intro session' d hs' _
        rw [h2] at hs'
        cases hs'
        have hm := MovePlayer_velocity d dir session.map_.dog_speed_
        refine Or.inr ?_
        show (d.MovePlayer dir session.map_.dog_speed_).speed_ =
          { x := session.map_.dog_speed_ *
              (unitVector (d.MovePlayer dir session.map_.dog_speed_).direction_).x,
            y := session.map_.dog_speed_ *
              (unitVector (d.MovePlayer dir session.map_.dog_speed_).direction_).y }
        rw [hm.1]
        exact hm.2
  · intro a a' token r h hv
    unfold UseCaseStopPlayer at h
    split at h
    · cases h; exact hv
    · split at h
      · cases h
      · cases h
        exact VelocityConsistent_modifyDog a _ _ (fun _ _ _ _ => Or.inl rfl) hv

end app

/-! ## Theorems: the retirement scan -/

namespace model

open geom collision_detector

theorem eraseP_id_eq_filter (i : ℕ) (dogs : List Dog)
    (h : (dogs.map (fun d => d.id_)).Nodup) :
    dogs.eraseP (fun d => decide (d.id_ = i)) = dogs.filter (fun d => !decide (d.id_ = i)) := by
  induction dogs with
  | nil => rfl
  | cons d rest ih =>
    simp only [List.map_cons, List.nodup_cons] at h
    by_cases hd : d.id_ = i
    · have hrest : ∀ x ∈ rest, (!decide (x.id_ = i)) = true := by
        intro x hx
        have : x.id_ ≠ i := fun hc => h.1 (List.mem_map.2 ⟨x, hx, hc.trans hd.symm⟩)
        simp [this]
      simp only [List.eraseP_cons, hd, decide_True, if_true, List.filter_cons, Bool.not_true,
        Bool.false_eq_true, if_false, cond_true]
      exact (List.filter_eq_self.2 hrest).symm
    · simp only [List.eraseP_cons, hd, decide_False, Bool.false_eq_true, if_false,
        List.filter_cons, Bool.not_false, if_true, ih h.2, cond_false]

/-- The loop of `RetireDogs` with a sink, over distinct ids that are all in the index and
dogs of distinct ids: it returns, with the ids taken out of the index, the dogs of these
ids removed and one call of the sink per id, in order. -/
theorem retireLoop_spec (m : String) (ids index : List ℕ) (dogs : List Dog)
    (hids : ids.Nodup) (hindex : ∀ i ∈ ids, i ∈ index)
    (hdogs : (dogs.map (fun d => d.id_)).Nodup) :
    retireLoop true m ids index dogs =
      some (index.diff ids, dogs.filter (fun d => !decide (d.id_ ∈ ids)),
        ids.map (fun i => (i, m))) := by
  induction ids generalizing index dogs with
  | nil => simp [retireLoop]
  | cons i rest ih =>
    simp only [List.nodup_cons] at hids
    have hi : i ∈ index := hindex i (List.mem_cons_self _ _)
    have hrest : ∀ j ∈ rest, j ∈ index.erase i := by
      intro j hj
      have hne : j ≠ i := fun hc => hids.1 (hc ▸ hj)
      exact (List.mem_erase_of_ne hne).2 (hindex j (List.mem_cons_of_mem _ hj))
    have hsub : ((dogs.eraseP (fun d => decide (d.id_ = i))).map (fun d => d.id_)).Nodup :=
      List.Nodup.sublist (List.Sublist.map _ (List.eraseP_sublist _)) hdogs
    rw [retireLoop]
    simp only [Bool.true_eq_false, if_false, hi, not_true_eq_false]
    rw [ih (index.erase i) _ hids.2 hrest hsub, eraseP_id_eq_filter i dogs hdogs]
    simp only [List.filter_filter, List.map_cons, List.diff_cons, Option.some.injEq,
      Prod.mk.injEq, true_and, and_true]
    apply List.filter_congr
    intro d _
    by_cases h1 : d.id_ = i <;> simp [h1]

theorem dueToRetire_congr (s s' : GameSession) (d d' : Dog)
    (hs : s'.dog_retirement_time_ = s.dog_retirement_time_) (h1 : d'.speed_ = d.speed_)
    (h2 : d'.holding_time_ = d.holding_time_) : s'.dueToRetire d' = s.dueToRetire d := by
  simp [GameSession.dueToRetire, Dog.IsStoped, Dog.GetHoldingPeriod, hs, h1, h2]

theorem mem_retire_ids (s : GameSession) (moved : List Dog)
    (hn : (moved.map (fun d => d.id_)).Nodup) (d : Dog) (hd : d ∈ moved) :
    d.id_ ∈ (moved.filter s.dueToRetire).map (fun d => d.id_) ↔ s.dueToRetire d = true := by
  constructor
  · intro h
    obtain ⟨x, hx, e⟩ := List.mem_map.1 h
    obtain ⟨hx1, hx2⟩ := List.mem_filter.1 hx
    have : x = d := List.inj_on_of_nodup_map hn hx1 hd e
    rw [← this]; exact hx2
  · intro h
    exact List.mem_map.2 ⟨d, List.mem_filter.2 ⟨hd, h⟩, rfl⟩

/-- C24: the retirement scan of `OnTick`. In a session whose dogs have distinct ids, all in
the id index, with no id left in `dogs_to_retire_` and with a retirement sink, let `moved`
be the dogs right after the motion phase. The retirement phase returns: the sink is called
once for each moved dog that is stopped with a holding time of at least the retirement time,
with the id of the dog and the id of the map of the session, in the order of the dogs; these
dogs are removed from the list and their ids from the index, and the other dogs are kept.
When `OnTick` returns, the calls to the sink are these calls, no two of them alike, a moved
dog is still in the session exactly when it was not due to retire, and no dog of the
session is stopped with a holding time of at least the retirement time. -/
theorem OnTick_retirement_scan (s : GameSession) (tick : ℕ) (moved : List Dog)
    (retire : List ℕ)
    (hids : (s.dogs_.map (fun d => d.id_)).Nodup)
    (hindex : ∀ d ∈ s.dogs_, d.id_ ∈ s.dog_id_to_dog_)
    (hclear : s.dogs_to_retire_ = [])
    (hsink : s.do_on_retire_ = true)
    (hmove : s.moveDogs tick s.dogs_ = some (moved, retire)) :
    (∃ s1, s.moveAndRetire tick =
        some (s1, (moved.filter s.dueToRetire).map (fun d => (d.id_, s.map_.id_))) ∧
      s1.dogs_ = moved.filter (fun d => !s.dueToRetire d) ∧
      s1.dog_id_to_dog_ =
        s.dog_id_to_dog_.diff ((moved.filter s.dueToRetire).map (fun d => d.id_)) ∧
      s1.dogs_to_retire_ = []) ∧
    (∀ (draw : ℕ → ℚ) (spawn : ℕ → SpawnDraw) (s' : GameSession) (calls : List (ℕ × String)),
      s.OnTick tick draw spawn = some (s', calls) →
      calls = (moved.filter s.dueToRetire).map (fun d => (d.id_, s.map_.id_)) ∧
      calls.Nodup ∧
      s'.dogs_.map (fun d => d.id_) =
        (moved.filter (fun d => !s.dueToRetire d)).map (fun d => d.id_) ∧
      s'.dog_id_to_dog_ =
        s.dog_id_to_dog_.diff ((moved.filter s.dueToRetire).map (fun d => d.id_)) ∧
      (∀ d ∈ moved, d.id_ ∈ s'.dogs_.map (fun d => d.id_) ↔ s.dueToRetire d = false) ∧
      s'.dog_retirement_time_ = s.dog_retirement_time_ ∧
      ∀ d ∈ s'.dogs_, s'.dueToRetire d = false) := by
  obtain ⟨hf, hret⟩ := moveDogs_spec s tick s.dogs_ moved retire hmove
  have hmid := moveDogs_map_id s tick s.dogs_ moved hf
  have hn : (moved.map (fun d => d.id_)).Nodup := by rw [hmid]; exact hids
  have hrn : retire.Nodup := by
    rw [hret]
    exact List.Nodup.sublist (List.Sublist.map _ (List.filter_sublist _)) hn
  have hri : ∀ i ∈ retire, i ∈ s.dog_id_to_dog_ := by
    intro i hi
    rw [hret] at hi
    obtain ⟨x, hx, e⟩ := List.mem_map.1 hi
    have hx' : x.id_ ∈ moved.map (fun d => d.id_) :=
      List.mem_map.2 ⟨x, (List.mem_filter.1 hx).1, rfl⟩
    rw [hmid] at hx'
    obtain ⟨d, hd, e'⟩ := List.mem_map.1 hx'
    rw [← e, ← e']
    exact hindex d hd
  have hloop := retireLoop_spec s.map_.id_ retire s.dog_id_to_dog_ moved hrn hri hn
  have hfilter : moved.filter (fun d => !decide (d.id_ ∈ retire)) =
      moved.filter (fun d => !s.dueToRetire d) := by
    apply List.filter_congr
    intro d hd
    have := mem_retire_ids s moved hn d hd
    rw [← hret] at this
    by_cases hdue : s.dueToRetire d = true
    · simp [hdue, this.2 hdue]
    · have hni : d.id_ ∉ retire := fun hc => hdue (this.1 hc)
      simp [hdue, hni]
  have hcalls : retire.map (fun i => (i, s.map_.id_)) =
      (moved.filter s.dueToRetire).map (fun d => (d.id_, s.map_.id_)) := by
    rw [hret, List.map_map]; rfl
  have hphase : s.moveAndRetire tick =
      some ({ s with dogs_ := moved.filter (fun d => !s.dueToRetire d),
                     dog_id_to_dog_ := s.dog_id_to_dog_.diff retire,
                     dogs_to_retire_ := [] },
        (moved.filter s.dueToRetire).map (fun d => (d.id_, s.map_.id_))) := by
    unfold GameSession.moveAndRetire
    simp only [hmove]
    unfold GameSession.RetireDogs
    simp only [hclear, List.nil_append, hsink, hloop, hfilter, hcalls]
  refine ⟨⟨_, hphase, rfl, by rw [hret], rfl⟩, ?_⟩
  intro draw spawn s' calls htick
  obtain ⟨s1, s2, h1, h2, h3⟩ := OnTick_cases s s' tick draw spawn calls htick
  rw [hphase] at h1
  simp only [Option.some.injEq, Prod.mk.injEq] at h1
  obtain ⟨e1, e2⟩ := h1
  subst e1
  obtain ⟨_, r2, i2, f2⟩ := HandleCollisions_keeps
    (fun d => (d.id_, d.speed_, d.holding_time_)) (fun _ _ => rfl) (fun _ => rfl) _ s2 h2
  obtain ⟨d3, _, r3, i3⟩ := SpawnLoot_frame s2 s' tick draw spawn h3
  have hids' : s'.dogs_.map (fun d => d.id_) =
      (moved.filter (fun d => !s.dueToRetire d)).map (fun d => d.id_) := by
    have := congrArg (List.map Prod.fst) f2
    simp only [List.map_map] at this
    rw [d3]
    exact this
  have hrt : s'.dog_retirement_time_ = s.dog_retirement_time_ := r3.trans r2
  refine ⟨e2.symm, ?_, hids', ?_, ?_, hrt, ?_⟩
  · rw [← e2]
    apply List.Nodup.of_map Prod.fst
    rw [List.map_map]
    exact List.Nodup.sublist (List.Sublist.map _ (List.filter_sublist _)) hn
  · rw [i3, i2, hret]
  · intro d hd
    rw [hids']
    constructor
    · intro h
      obtain ⟨x, hx, e⟩ := List.mem_map.1 h
      obtain ⟨hx1, hx2⟩ := List.mem_filter.1 hx
      have : x = d := List.inj_on_of_nodup_map hn hx1 hd e
      rw [← this]
      simpa using hx2
    · intro h
      exact List.mem_map.2 ⟨d, List.mem_filter.2 ⟨hd, by simp [h]⟩, rfl⟩
  · intro d' hd'
    rw [d3] at hd'
    have hmem : (d'.id_, d'.speed_, d'.holding_time_) ∈
        s2.dogs_.map (fun d => (d.id_, d.speed_, d.holding_time_)) :=
      List.mem_map.2 ⟨d', hd', rfl⟩
    rw [f2] at hmem
    obtain ⟨d1, hd1, e⟩ := List.mem_map.1 hmem
    simp only [Prod.mk.injEq] at e
    have hd1' : d1 ∈ moved.filter (fun d => !s.dueToRetire d) := hd1
    have hnd : s.dueToRetire d1 = false := by
      simpa using (List.mem_filter.1 hd1').2
    rw [dueToRetire_congr s s' d1 d' hrt e.2.1.symm e.2.2.symm]
    exact hnd

/-- The scan on `kennelSession` with a tick of 200 ms: of the three dogs only dog 1, which
has then stood still for 1100 ms, is due; the sink is called once, with `(1, "market")`, and
the dogs 0 and 2 stay. -/
theorem OnTick_retirement_scan_witness :
    (kennelSession.dogs_.map (fun d => d.id_)).Nodup ∧
    (∀ d ∈ kennelSession.dogs_, d.id_ ∈ kennelSession.dog_id_to_dog_) ∧
    kennelSession.dogs_to_retire_ = [] ∧ kennelSession.do_on_retire_ = true ∧
    kennelSession.moveDogs 200 kennelSession.dogs_ = some (kennelMoved, [1]) ∧
    kennelMoved.map kennelSession.dueToRetire = [false, true, false] ∧
    (kennelSession.OnTick 200 quietDraw originSpawn).map
      (fun r => (r.1.dogs_.map (fun d => d.id_), r.1.dog_id_to_dog_, r.2)) =
      some ([0, 2], [0, 2], [(1, "market")]) ∧
    ∃ s1, kennelSession.moveAndRetire 200 =
        some (s1, (kennelMoved.filter kennelSession.dueToRetire).map
          (fun d => (d.id_, kennelSession.map_.id_))) ∧
      s1.dogs_ = kennelMoved.filter (fun d => !kennelSession.dueToRetire d) ∧
      s1.dog_id_to_dog_ = kennelSession.dog_id_to_dog_.diff
        ((kennelMoved.filter kennelSession.dueToRetire).map (fun d => d.id_)) ∧
      s1.dogs_to_retire_ = [] :=
  ⟨by decide!, by decide!, by decide!, by decide!, by decide!, by decide!, by decide!,
   (OnTick_retirement_scan kennelSession 200 kennelMoved [1] (by decide!) (by decide!)
      (by decide!) (by decide!) (by decide!)).1⟩

end model

/-! ## Theorems: loot spawning -/

namespace umap

variable {κ ν : Type}

theorem find_append_of_none [DecidableEq κ] (m1 m2 : List (κ × ν)) (k : κ)
    (h : find m2 k = none) : find (m1 ++ m2) k = find m1 k := by
  rw [find_append, h]
  cases find m1 k <;> rfl

theorem find_append_of_left_none [DecidableEq κ] (m1 m2 : List (κ × ν)) (k : κ)
    (h : find m1 k = none) : find (m1 ++ m2) k = find m2 k := by
  rw [find_append, h]
  rfl

end umap

namespace model

open geom collision_detector

theorem GetRandomPointOnRandomRoad_spec (s : GameSession) (d : SpawnDraw)
    (hroads : s.map_.roads_ ≠ []) :
    ∃ road ∈ s.map_.roads_, s.GetRandomPointOnRandomRoad d =
      some { x := road.GetAbsDimentions.p1.x +
                  d.fx * (road.GetAbsDimentions.p2.x - road.GetAbsDimentions.p1.x),
             y := road.GetAbsDimentions.p1.y +
                  d.fy * (road.GetAbsDimentions.p2.y - road.GetAbsDimentions.p1.y) } := by
  unfold GameSession.GetRandomPointOnRandomRoad
  have hlen : 0 < s.map_.roads_.length := List.length_pos.2 hroads
  have hidx : (if d.road_index < s.road_count_ then d.road_index else 0) <
      s.map_.roads_.length := by
    unfold GameSession.road_count_
    split
    · assumption
    · exact hlen
  simp only []
  rw [List.getElem?_eq_getElem hidx]
  exact ⟨_, List.getElem_mem _, rfl⟩

theorem Road_rect_ordered (road : Road) :
    road.GetAbsDimentions.p1.x ≤ road.GetAbsDimentions.p2.x ∧
    road.GetAbsDimentions.p1.y ≤ road.GetAbsDimentions.p2.y := by
  have hside : (0 : ℚ) ≤ ROAD_SIDE := by unfold ROAD_SIDE; norm_num
  cases road with
  | HORIZONTAL start end_x =>
    have h : ((min start.x end_x : ℤ) : ℚ) ≤ ((max start.x end_x : ℤ) : ℚ) := by
      exact_mod_cast min_le_max
    simp only [Road.GetAbsDimentions, Road.GetRangeX, Road.GetRangeY]
    constructor <;> linarith
  | VERTICAL start end_y =>
    have h : ((min start.y end_y : ℤ) : ℚ) ≤ ((max start.y end_y : ℤ) : ℚ) := by
      exact_mod_cast min_le_max
    simp only [Road.GetAbsDimentions, Road.GetRangeX, Road.GetRangeY]
    constructor <;> linarith

theorem between_of_fraction (a b f : ℚ) (hab : a ≤ b) (h0 : 0 ≤ f) (h1 : f ≤ 1) :
    a ≤ a + f * (b - a) ∧ a + f * (b - a) ≤ b := by
  have hw : 0 ≤ b - a := by linarith
  constructor
  · have := mul_nonneg h0 hw
    linarith
  · have := mul_nonneg (by linarith : (0 : ℚ) ≤ 1 - f) hw
    nlinarith

/-- The point drawn by `GetRandomPointOnRandomRoad` with fractions in `[0,1]` lies inside
the absolute rectangle of a road of the map. -/
theorem GetRandomPointOnRandomRoad_OnRoads (s : GameSession) (d : SpawnDraw) (pt : PointDouble)
    (h : s.GetRandomPointOnRandomRoad d = some pt)
    (hx0 : 0 ≤ d.fx) (hx1 : d.fx ≤ 1) (hy0 : 0 ≤ d.fy) (hy1 : d.fy ≤ 1) :
    s.map_.OnRoads pt := by
  have hroads : s.map_.roads_ ≠ [] := by
    intro hc
    unfold GameSession.GetRandomPointOnRandomRoad at h
    simp [hc] at h
  obtain ⟨road, hmem, e⟩ := GetRandomPointOnRandomRoad_spec s d hroads
  rw [h] at e
  cases e
  obtain ⟨ox, oy⟩ := Road_rect_ordered road
  obtain ⟨x1, x2⟩ := between_of_fraction _ _ d.fx ox hx0 hx1
  obtain ⟨y1, y2⟩ := between_of_fraction _ _ d.fy oy hy0 hy1
  exact ⟨road, hmem, x1, x2, y1, y2⟩

/-- One `SpawnLootObject` with a type of the catalog, roads on the map and every loot id
below the counter: it returns, the object gets the value of the counter as id and the
catalog worth of its type, the counter is raised by one. -/
theorem SpawnLootObject_spec (s : GameSession) (d : SpawnDraw)
    (hroads : s.map_.roads_ ≠ [])
    (hbelow : ∀ id ∈ s.loot_obj_id_to_obj_.map Prod.fst, id < s.objects_spawned_)
    (htype : d.type < s.map_.GetLootTypeCount) :
    ∃ worth pt, s.map_.GetLootWorth d.type = some worth ∧
      s.GetRandomPointOnRandomRoad d = some pt ∧
      ∃ s1, s.SpawnLootObject d = some s1 ∧
      s1.objects_spawned_ = s.objects_spawned_ + 1 ∧ s1.map_ = s.map_ ∧
      s1.loot_obj_id_to_obj_ = s.loot_obj_id_to_obj_ ++
        [(s.objects_spawned_, ⟨s.objects_spawned_, d.type, worth⟩)] ∧
      s1.loot_obj_id_to_coords_ =
        umap.assign s.loot_obj_id_to_coords_ s.objects_spawned_ pt := by
  have hw : s.map_.GetLootWorth d.type = some (s.map_.loot_types_worth_[d.type]) := by
    unfold Map.GetLootWorth
    exact List.getElem?_eq_getElem htype
  obtain ⟨road, _, hpt⟩ := GetRandomPointOnRandomRoad_spec s d hroads
  have hnot : s.objects_spawned_ ∉ s.loot_obj_id_to_obj_.map Prod.fst :=
    fun hc => lt_irrefl _ (hbelow _ hc)
  have hpt' : GameSession.GetRandomPointOnRandomRoad
      { s with objects_spawned_ := s.objects_spawned_ + 1 } d = _ := hpt
  refine ⟨_, _, hw, hpt, ?_⟩
  unfold GameSession.SpawnLootObject
  simp only [hw, umap.emplace_of_not_mem _ _ _ hnot, hpt']
  exact ⟨_, rfl, rfl, rfl, rfl, rfl⟩

theorem find_range_map {ν : Type} (k n : ℕ) (g : ℕ → ν) (id : ℕ) :
    umap.find ((List.range n).map (fun j => (k + j, g j))) id =
      if k ≤ id ∧ id < k + n then some (g (id - k)) else none := by
  induction n with
  | zero =>
    have : ¬ (k ≤ id ∧ id < k) := by omega
    simp [umap.find, this]
  | succ n ih =>
    rw [List.range_succ, List.map_append, umap.find_append, ih]
    by_cases h1 : k ≤ id ∧ id < k + n
    · have h2 : k ≤ id ∧ id < k + (n + 1) := ⟨h1.1, by omega⟩
      simp [h1, h2]
    · by_cases h3 : id = k + n
      · subst h3
        simp [h1, umap.find]
      · have h2 : ¬ (k ≤ id ∧ id < k + (n + 1)) := by omega
        have h4 : ¬ (k + n = id) := fun hc => h3 hc.symm
        simp [h1, h2, umap.find, h4]

/-- The loop of `SpawnLoot`: `n` objects are appended under the ids `k, ..., k+n-1`, `k` the
value of the counter before; the coordinates of the other ids are untouched and each new
id gets the point drawn for it. -/
theorem spawnObjects_spec (spawn : ℕ → SpawnDraw) (n k0 : ℕ) (s : GameSession)
    (hroads : s.map_.roads_ ≠ [])
    (hbelow : ∀ id ∈ s.loot_obj_id_to_obj_.map Prod.fst, id < s.objects_spawned_)
    (htype : ∀ j, j < n → (spawn (k0 + j)).type < s.map_.GetLootTypeCount) :
    ∃ s', GameSession.spawnObjects spawn n k0 s = some s' ∧
      s'.objects_spawned_ = s.objects_spawned_ + n ∧ s'.map_ = s.map_ ∧
      s'.loot_obj_id_to_obj_ = s.loot_obj_id_to_obj_ ++ (List.range n).map (fun j =>
        (s.objects_spawned_ + j,
          ({ id_ := s.objects_spawned_ + j, type_ := (spawn (k0 + j)).type,
             worth_ := (s.map_.GetLootWorth (spawn (k0 + j)).type).getD 0 } : LootObject))) ∧
      (∀ id, id < s.objects_spawned_ ∨ s.objects_spawned_ + n ≤ id →
        umap.find s'.loot_obj_id_to_coords_ id = umap.find s.loot_obj_id_to_coords_ id) ∧
      (∀ j, j < n → ∃ pt, s.GetRandomPointOnRandomRoad (spawn (k0 + j)) = some pt ∧
        umap.find s'.loot_obj_id_to_coords_ (s.objects_spawned_ + j) = some pt) := by
  induction n generalizing k0 s with
  | zero =>
    refine ⟨s, rfl, rfl, rfl, by simp, fun _ _ => rfl, ?_⟩
    intro j hj
    omega
  | succ n ih =>
    obtain ⟨worth, pt, hw, hpt, s1, hstep, hc1, hm1, ho1, hf1⟩ :=
      SpawnLootObject_spec s (spawn k0) hroads hbelow (by simpa using htype 0 (by omega))
    have hbelow1 : ∀ id ∈ s1.loot_obj_id_to_obj_.map Prod.fst, id < s1.objects_spawned_ := by
      intro id hid
      rw [ho1] at hid
      rw [hc1]
      simp only [List.map_append, List.map_cons, List.map_nil, List.mem_append,
        List.mem_singleton] at hid
      rcases hid with hid | hid
      · exact Nat.lt_succ_of_lt (hbelow id hid)
      · omega
    obtain ⟨s', hs', c1, m1, o1, f1, p1⟩ := ih (k0 + 1) s1 (by rw [hm1]; exact hroads) hbelow1
      (fun j hj => by
        have := htype (j + 1) (by omega)
        rw [show k0 + 1 + j = k0 + (j + 1) by omega, hm1]
        exact this)
    simp only [hc1, hm1, ho1, hf1] at c1 m1 o1 f1 p1
    refine ⟨s', ?_, ?_, m1, ?_, ?_, ?_⟩
    · rw [GameSession.spawnObjects, hstep]
      exact hs'
    · rw [c1]; omega
    · rw [o1]
      simp only [List.append_assoc, List.singleton_append]
      congr 1
      rw [List.range_succ_eq_map, List.map_cons, List.map_map]
      simp only [Nat.add_zero, hw, Option.getD_some]
      congr 1
      apply List.map_congr_left
      intro j _
      simp only [Function.comp]
      rw [show s.objects_spawned_ + 1 + j = s.objects_spawned_ + (j + 1) by omega,
        show k0 + 1 + j = k0 + (j + 1) by omega]
    · intro id hid
      rw [f1 id (by omega)]
      simp only [umap.find_assign]
      have : ¬ s.objects_spawned_ = id := by omega
      simp [this]
    · intro j hj
      cases j with
      | zero =>
        refine ⟨pt, hpt, ?_⟩
        rw [Nat.add_zero, f1 _ (Or.inl (by omega))]
        simp [umap.find_assign]
      | succ j =>
        obtain ⟨pt', hpt', hf'⟩ := p1 j (by omega)
        have hcongr : s1.GetRandomPointOnRandomRoad (spawn (k0 + 1 + j)) =
            s.GetRandomPointOnRandomRoad (spawn (k0 + 1 + j)) := by
          unfold GameSession.GetRandomPointOnRandomRoad GameSession.road_count_
          rw [hm1]
        refine ⟨pt', ?_, ?_⟩
        · rw [show k0 + (j + 1) = k0 + 1 + j by omega, ← hcongr]
          exact hpt'
        · rw [show s.objects_spawned_ + (j + 1) = s.objects_spawned_ + 1 + j by omega]
          exact hf'

/-- C27: the postcondition of `SpawnLoot`. When the generator returns `n`, the map has a
road, every loot id on the map is below `objects_spawned_ = k`, and the draws are in the
ranges of their distributions (a type below the loot type count of the map, fractions of
the rectangle in `[0,1]`), `SpawnLoot` returns: it adds exactly `n` loot objects, with the
ids `k, k+1, ..., k+n-1`, after the loot that was there; `objects_spawned_` becomes `k+n`;
each new object has a type below the loot type count and the catalog worth of its type, and
coordinates inside the absolute rectangle of a road of the map; every loot id below `k`
keeps its object and its coordinates; the dogs and the map are unchanged. -/
theorem SpawnLoot_postcondition (s : GameSession) (tick : ℕ) (draw : ℕ → ℚ)
    (spawn : ℕ → SpawnDraw) (n : ℕ) (gen : loot_gen.LootGenerator)
    (hgen : s.loot_generator_.Generate tick s.loot_obj_id_to_obj_.length s.dogs_.length draw =
      some (n, gen))
    (hroads : s.map_.roads_ ≠ [])
    (hbelow : ∀ id ∈ s.loot_obj_id_to_obj_.map Prod.fst, id < s.objects_spawned_)
    (hdraw : ∀ j, j < n → (spawn j).type < s.map_.GetLootTypeCount ∧
      0 ≤ (spawn j).fx ∧ (spawn j).fx ≤ 1 ∧ 0 ≤ (spawn j).fy ∧ (spawn j).fy ≤ 1) :
    ∃ s', s.SpawnLoot tick draw spawn = some s' ∧
      s'.objects_spawned_ = s.objects_spawned_ + n ∧
      s'.loot_obj_id_to_obj_.length = s.loot_obj_id_to_obj_.length + n ∧
      s'.loot_obj_id_to_obj_.map Prod.fst =
        s.loot_obj_id_to_obj_.map Prod.fst ++
          (List.range n).map (fun j => s.objects_spawned_ + j) ∧
      (∀ j, j < n → ∃ obj pt,
        umap.find s'.loot_obj_id_to_obj_ (s.objects_spawned_ + j) = some obj ∧
        obj.id_ = s.objects_spawned_ + j ∧ obj.type_ = (spawn j).type ∧
        obj.type_ < s.map_.GetLootTypeCount ∧
        s.map_.GetLootWorth obj.type_ = some obj.worth_ ∧
        umap.find s'.loot_obj_id_to_coords_ (s.objects_spawned_ + j) = some pt ∧
        s.map_.OnRoads pt) ∧
      (∀ id, id < s.objects_spawned_ →
        umap.find s'.loot_obj_id_to_obj_ id = umap.find s.loot_obj_id_to_obj_ id ∧
        umap.find s'.loot_obj_id_to_coords_ id = umap.find s.loot_obj_id_to_coords_ id) ∧
      s'.dogs_ = s.dogs_ ∧ s'.map_ = s.map_ := by
  obtain ⟨s', hs', c1, m1, o1, f1, p1⟩ := spawnObjects_spec spawn n 0
    { s with loot_generator_ := gen } hroads hbelow
    (fun j hj => by rw [Nat.zero_add]; exact (hdraw j hj).1)
  simp only [Nat.zero_add] at o1 p1
  have hsp : s.SpawnLoot tick draw spawn = some s' := by
    unfold GameSession.SpawnLoot
    simp only [hgen]
    exact hs'
  obtain ⟨d1, _, _, _⟩ := SpawnLoot_frame s s' tick draw spawn hsp
  refine ⟨s', hsp, c1, ?_, ?_, ?_, ?_, d1, m1⟩
  · rw [o1]; simp
  · rw [o1]; simp [List.map_append, List.map_map, Function.comp]
  · intro j hj
    obtain ⟨pt, hpt, hfind⟩ := p1 j hj
    obtain ⟨ht, hx0, hx1, hy0, hy1⟩ := hdraw j hj
    have hnone : umap.find s.loot_obj_id_to_obj_ (s.objects_spawned_ + j) = none := by
      rw [umap.find_eq_none_iff]
      intro hc
      have := hbelow _ hc
      omega
    have hw : s.map_.GetLootWorth (spawn j).type =
        some (s.map_.loot_types_worth_[(spawn j).type]) := by
      unfold Map.GetLootWorth
      exact List.getElem?_eq_getElem ht
    refine ⟨⟨s.objects_spawned_ + j, (spawn j).type,
      (s.map_.GetLootWorth (spawn j).type).getD 0⟩, pt, ?_, rfl, rfl, ht, ?_, hfind, ?_⟩
    · rw [o1]
      show umap.find (s.loot_obj_id_to_obj_ ++ _) _ = _
      rw [umap.find_append_of_left_none _ _ _ hnone, find_range_map]
      have : s.objects_spawned_ ≤ s.objects_spawned_ + j ∧
          s.objects_spawned_ + j < s.objects_spawned_ + n := ⟨by omega, by omega⟩
      simp only [this, and_self, if_true, Nat.add_sub_cancel_left]
    · simp only [hw, Option.getD_some]
    · exact GetRandomPointOnRandomRoad_OnRoads _ _ pt hpt hx0 hx1 hy0 hy1
  · intro id hid
    refine ⟨?_, f1 id (Or.inl hid)⟩
    rw [o1]
    show umap.find (s.loot_obj_id_to_obj_ ++ _) _ = _
    apply umap.find_append_of_none
    rw [find_range_map]
    have : ¬ (s.objects_spawned_ ≤ id ∧ id < s.objects_spawned_ + n) := by
      intro hc
      have := hc.1
      change id < s.objects_spawned_ at hid
      omega
    simp only [this, if_false]

/-- The postcondition on `pressureSession`: three dogs and one loot object, a generator of
period 1 s and probability 1 and a tick of 2 s give `n = 2`; the objects 1 (type 1, worth
20) and 2 (type 0, worth 10) are added at `(5, -1/5)` and `(52/5, -2/5)`, the counter goes
from 1 to 3 and the object 0 stays where it was. -/
theorem SpawnLoot_postcondition_witness :
    pressureSession.loot_generator_.Generate 2000 pressureSession.loot_obj_id_to_obj_.length
      pressureSession.dogs_.length quietDraw = some (2, ⟨1000, 1, 0⟩) ∧
    pressureSession.map_.roads_ ≠ [] ∧
    (∀ id ∈ pressureSession.loot_obj_id_to_obj_.map Prod.fst,
      id < pressureSession.objects_spawned_) ∧
    (∀ j, j < 2 → (marketSpawn j).type < pressureSession.map_.GetLootTypeCount ∧
      0 ≤ (marketSpawn j).fx ∧ (marketSpawn j).fx ≤ 1 ∧
      0 ≤ (marketSpawn j).fy ∧ (marketSpawn j).fy ≤ 1) ∧
    (pressureSession.SpawnLoot 2000 quietDraw marketSpawn).map
      (fun s => (s.objects_spawned_, s.loot_obj_id_to_obj_, s.loot_obj_id_to_coords_)) =
      some (3,
        [(0, { id_ := 0, type_ := 0, worth_ := 10 }), (1, { id_ := 1, type_ := 1, worth_ := 20 }),
         (2, { id_ := 2, type_ := 0, worth_ := 10 })],
        [(0, ⟨1, 0⟩), (1, ⟨5, -1 / 5⟩), (2, ⟨52 / 5, -2 / 5⟩)]) ∧
    ∃ s', pressureSession.SpawnLoot 2000 quietDraw marketSpawn = some s' ∧
      s'.objects_spawned_ = pressureSession.objects_spawned_ + 2 :=
  ⟨by decide!, by decide!, by decide!, by decide!, by decide!,
   (SpawnLoot_postcondition pressureSession 2000 quietDraw marketSpawn 2 ⟨1000, 1, 0⟩
      (by decide!) (by decide!) (by decide!) (by decide!)).imp (fun _ h => ⟨h.1, h.2.1⟩)⟩

end model

/-! ## Theorems: DecodeURI -/

namespace http_handler

theorem DecodeURI_cons_of_ne (c : Char) (rest : List Char) (hc : c ≠ '%') :
    DecodeURI (c :: rest) =
      (DecodeURI rest).map (fun decoded => (if c = '+' then ' ' else c) :: decoded) := by
  rcases rest with _ | ⟨c1, _ | ⟨c2, rest⟩⟩ <;> simp [DecodeURI, hc]

theorem DecodeURI_plain (encoded : List Char) (h : '%' ∉ encoded) :
    DecodeURI encoded = some (encoded.map (fun c => if c = '+' then ' ' else c)) := by
  induction encoded with
  | nil => rfl
  | cons c rest ih =>
    have hc : c ≠ '%' := fun hc => h (hc ▸ List.mem_cons_self _ _)
    have hr : '%' ∉ rest := fun hr => h (List.mem_cons_of_mem _ hr)
    rw [DecodeURI_cons_of_ne c rest hc, ih hr]
    rfl

theorem xdigit_lt (c : Char) (a : ℕ) (h : xdigit c = some a) : a < 16 := by
  unfold xdigit at h
  split at h
  · cases h; omega
  · split at h
    · cases h; omega
    · split at h
      · cases h; omega
      · cases h

theorem xdigit_not_space (c : Char) (a : ℕ) (h : xdigit c = some a) :
    isspace c = false ∧ c ≠ '+' ∧ c ≠ '-' := by
  have hn : (48 ≤ c.toNat ∧ c.toNat ≤ 57) ∨ (97 ≤ c.toNat ∧ c.toNat ≤ 102) ∨
      (65 ≤ c.toNat ∧ c.toNat ≤ 70) := by
    unfold xdigit at h
    split at h
    · left; assumption
    · split at h
      · right; left; assumption
      · split at h
        · right; right; assumption
        · cases h
  refine ⟨?_, ?_, ?_⟩
  · unfold isspace
    have h1 : ¬ c.toNat = 32 := by omega
    have h2 : ¬ c.toNat ≤ 13 := by omega
    simp [h1, h2]
  · intro hc
    rw [hc] at hn
    revert hn
    decide
  · intro hc
    rw [hc] at hn
    revert hn
    decide

/-- On two hexadecimal digits `stoul` returns their value and `count = 2`. -/
theorem stoul_two_digits (x y : Char) (a b : ℕ) (hx : xdigit x = some a)
    (hy : xdigit y = some b) : stoul [x, y] = some (16 * a + b, 2) := by
  obtain ⟨s1, p1, m1⟩ := xdigit_not_space x a hx
  have ha := xdigit_lt x a hx
  have hb := xdigit_lt y b hy
  have hlt : 16 * a + b < 18446744073709551616 := by omega
  simp [stoul, List.dropWhile, s1, p1, m1, stoulDigits, hx, hy, hlt]

theorem DecodeURI_escape (x y : Char) (a b : ℕ) (rest : List Char) (hx : xdigit x = some a)
    (hy : xdigit y = some b) (hv : 16 * a + b ≤ 127) :
    DecodeURI ('%' :: x :: y :: rest) =
      (DecodeURI rest).map (fun decoded => Char.ofNat (16 * a + b) :: decoded) := by
  have hgt : ¬ (16 * a + b > CHAR_MAX) := by unfold CHAR_MAX; omega
  rw [DecodeURI]
  simp only [if_true, stoul_two_digits x y a b hx hy, ne_eq, not_true_eq_false, hgt, or_self,
    if_false]

theorem PercentsWellFormed_tail (c : Char) (rest : List Char)
    (h : PercentsWellFormed (c :: rest)) : PercentsWellFormed rest := by
  intro i hi
  obtain ⟨x, y, a, b, h1, h2, h3⟩ := h (i + 1) (by simpa using hi)
  exact ⟨x, y, a, b, by simpa using h1, by simpa using h2, h3⟩

theorem DecodeURI_isSome_of_wellFormed (n : ℕ) (encoded : List Char) (hn : encoded.length ≤ n)
    (h : PercentsWellFormed encoded) : (DecodeURI encoded).isSome = true := by
  induction n generalizing encoded with
  | zero =>
    have : encoded = [] := List.length_eq_zero.1 (by omega)
    subst this
    rfl
  | succ n ih =>
    cases encoded with
    | nil => rfl
    | cons c rest =>
      by_cases hc : c = '%'
      · subst hc
        obtain ⟨x, y, a, b, h1, h2, hx, hy, hv⟩ := h 0 (by simp)
        cases rest with
        | nil => simp at h1
        | cons x' rest1 =>
          cases rest1 with
          | nil => simp at h2
          | cons y' rest2 =>
            simp only [zero_add, List.getElem?_cons_succ, List.getElem?_cons_zero,
              Option.some.injEq] at h1 h2
            subst h1 h2
            rw [DecodeURI_escape _ _ a b rest2 hx hy hv, Option.isSome_map']
            apply ih
            · simp only [List.length_cons] at hn; omega
            · exact PercentsWellFormed_tail _ _
                (PercentsWellFormed_tail _ _ (PercentsWellFormed_tail _ _ h))
      · rw [DecodeURI_cons_of_ne c rest hc, Option.isSome_map']
        apply ih
        · simp only [List.length_cons] at hn; omega
        · exact PercentsWellFormed_tail _ _ h

/-- C23: `DecodeURI` against its contract. What holds: a text without `%` comes back with
each `+` replaced by a space and every other character kept; `%XY` with `X`, `Y`
hexadecimal digits of value at most 127 is replaced by the character of that value; a text
in which every `%` is followed by two such digits is decoded (a failure implies a `%`
that is not); `"%4"` and `"%zz"` fail. What does not hold: `"%+1"` and `"% 1"` do not
fail. `std::stoul` takes a sign and skips white space, processes both characters and
returns 1, so the result is the text of the one character U+0001, though the `%` is not
followed by two hexadecimal digits. -/
theorem DecodeURI_accepts_sign_and_white_space :
    (∀ encoded : List Char, '%' ∉ encoded →
      DecodeURI encoded = some (encoded.map (fun c => if c = '+' then ' ' else c))) ∧
    (∀ (x y : Char) (a b : ℕ) (rest : List Char), xdigit x = some a → xdigit y = some b →
      16 * a + b ≤ 127 →
      DecodeURI ('%' :: x :: y :: rest) =
        (DecodeURI rest).map (fun decoded => Char.ofNat (16 * a + b) :: decoded)) ∧
    (∀ encoded : List Char, PercentsWellFormed encoded → (DecodeURI encoded).isSome = true) ∧
    DecodeURI "%4".data = none ∧ DecodeURI "%zz".data = none ∧
    DecodeURI "a+b%41%7e".data = some "a bA~".data ∧
    ¬ PercentsWellFormed "%+1".data ∧ ¬ PercentsWellFormed "% 1".data ∧
    DecodeURI "%+1".data = some [Char.ofNat 1] ∧
    DecodeURI "% 1".data = some [Char.ofNat 1] := by
  refine ⟨DecodeURI_plain, DecodeURI_escape,
    fun encoded h => DecodeURI_isSome_of_wellFormed _ encoded (le_refl _) h,
    by decide!, by decide!, by decide!, ?_, ?_, by decide!, by decide!⟩
  · intro h
    obtain ⟨x, y, a, b, h1, _, hx, _⟩ := h 0 (by decide)
    have : x = '+' := by
      have h1' : ("%+1".data)[1]? = some '+' := by decide
      rw [zero_add, h1'] at h1
      exact (Option.some.inj h1).symm
    subst this
    have hnone : xdigit '+' = none := by decide
    rw [hnone] at hx
    cases hx
  · intro h
    obtain ⟨x, y, a, b, h1, _, hx, _⟩ := h 0 (by decide)
    have : x = ' ' := by
      have h1' : ("% 1".data)[1]? = some ' ' := by decide
      rw [zero_add, h1'] at h1
      exact (Option.some.inj h1).symm
    subst this
    have hnone : xdigit ' ' = none := by decide
    rw [hnone] at hx
    cases hx

end http_handler

/-! ## Theorems: the order of simultaneous gather events -/

namespace collision_detector

open geom

theorem collectItems_pairwise (gatherer : Gatherer) (g i : ℕ) (items : List Item) :
    (collectItems gatherer g i items).Pairwise detectedBefore := by
  induction items generalizing i with
  | nil => exact List.Pairwise.nil
  | cons item rest ih =>
    rw [collectItems_cons]
    split
    · refine List.pairwise_cons.2 ⟨?_, ih (i + 1)⟩
      intro e he
      obtain ⟨k, _, _, h1, h2, _⟩ := (mem_collectItems gatherer g e (i + 1) rest).1 he
      exact Or.inr ⟨h2.symm, by simp only [h1]; omega⟩
    · exact ih (i + 1)

theorem collectGatherers_pairwise (items : List Item) (g : ℕ) (gs : List Gatherer) :
    (collectGatherers items g gs).Pairwise detectedBefore := by
  induction gs generalizing g with
  | nil => exact List.Pairwise.nil
  | cons gatherer rest ih =>
    unfold collectGatherers
    split
    · exact ih (g + 1)
    · refine List.pairwise_append.2 ⟨collectItems_pairwise _ _ _ _, ih (g + 1), ?_⟩
      intro a ha b hb
      obtain ⟨_, _, _, _, h1, _⟩ := (mem_collectItems gatherer g a 0 items).1 ha
      obtain ⟨k, _, _, h2, _⟩ := (mem_collectGatherers items b (g + 1) rest).1 hb
      exact Or.inl (by rw [h1, h2]; omega)

/-- The events are detected in the order of the gatherer index and, for the same
gatherer, of the item index. -/
theorem detectedEvents_pairwise (p : ItemGathererProvider) :
    (detectedEvents p).Pairwise detectedBefore :=
  collectGatherers_pairwise _ _ _

theorem sortInsert_ties (R : GatheringEvent → GatheringEvent → Prop) (e : GatheringEvent)
    (acc : List GatheringEvent) (hsorted : acc.Pairwise (fun a b => a.time ≤ b.time))
    (hT : acc.Pairwise (fun a b => a.time = b.time → R a b)) (h : ∀ x ∈ acc, R x e) :
    (sortInsert e acc).Pairwise (fun a b => a.time = b.time → R a b) := by
  induction acc with
  | nil => simp [sortInsert]
  | cons x xs ih =>
    rw [List.pairwise_cons] at hsorted hT
    unfold sortInsert
    split
    · rename_i hlt
      have hlt2 : e.time < x.time := by simpa [eventLess] using hlt
      refine List.pairwise_cons.2 ⟨?_, List.pairwise_cons.2 hT⟩
      intro a ha heq
      exfalso
      rcases List.mem_cons.1 ha with rfl | ha
      · exact absurd heq (ne_of_lt hlt2)
      · have := hsorted.1 a ha
        rw [← heq] at this
        exact absurd hlt2 (not_lt.2 this)
    · refine List.pairwise_cons.2
        ⟨?_, ih hsorted.2 hT.2 (fun y hy => h y (List.mem_cons_of_mem _ hy))⟩
      intro a ha heq
      rcases List.mem_cons.1 ((sortInsert_perm e xs).mem_iff.1 ha) with rfl | ha
      · exact h x (List.mem_cons_self _ _)
      · exact hT.1 a ha heq

theorem foldl_sortInsert_ties (R : GatheringEvent → GatheringEvent → Prop)
    (l acc : List GatheringEvent) (hsorted : acc.Pairwise (fun a b => a.time ≤ b.time))
    (hT : acc.Pairwise (fun a b => a.time = b.time → R a b))
    (hacc : ∀ x ∈ acc, ∀ e ∈ l, R x e) (hl : l.Pairwise R) :
    (l.foldl (fun acc e => sortInsert e acc) acc).Pairwise
      (fun a b => a.time = b.time → R a b) := by
  induction l generalizing acc with
  | nil => simpa using hT
  | cons e rest ih =>
    rw [List.pairwise_cons] at hl
    simp only [List.foldl_cons]
    refine ih (sortInsert e acc) (sortInsert_sorted e acc hsorted)
      (sortInsert_ties R e acc hsorted hT (fun x hx => hacc x hx e (List.mem_cons_self _ _)))
      ?_ hl.2
    intro x hx e' he'
    rcases List.mem_cons.1 ((sortInsert_perm e acc).mem_iff.1 hx) with rfl | hx
    · exact hl.1 e' he'
    · exact hacc x hx e' (List.mem_cons_of_mem _ he')

/-- The insertion sort keeps events of equal time in the order they had before. -/
theorem sortEvents_ties (R : GatheringEvent → GatheringEvent → Prop)
    (l : List GatheringEvent) (hl : l.Pairwise R) :
    (sortEvents l).Pairwise (fun a b => a.time = b.time → R a b) :=
  foldl_sortInsert_ties R l [] List.Pairwise.nil List.Pairwise.nil
    (fun _ hx => absurd hx (List.not_mem_nil _)) hl

theorem gnuSort_short (events : List GatheringEvent) (h : events.length ≤ 16) :
    gnuSort events = some (sortEvents events) := by
  unfold gnuSort
  split
  · rename_i hnil
    rw [hnil]; rfl
  · have hno : ¬ (events.length - 0 > 16) := by omega
    simp only [introsortLoop, hno, if_false, Option.map_some']

/-- C22, as stated, fails: `std::sort` is not a stable sort. One gatherer passes 17 items
that lie at the same point, so that the 17 events detected, of the items `0, ..., 16` in
this order, all have the time `1/2`. The GNU C++ library partitions a range of more than 16
elements around a median of three: the events come out in the order of the items
`8, 16, 15, ..., 9, 0, 7, ..., 1`, not in their detection order. -/
theorem FindGatherEvents_ties_not_in_detection_order :
    (detectedEvents heapProvider).map (fun e => (e.gatherer_id, e.item_id, e.time)) =
      (List.range 17).map (fun i => (0, i, 1 / 2)) ∧
    (FindGatherEventsGnu heapProvider).map (fun events => events.map (fun e => e.item_id)) =
      some [8, 16, 15, 14, 13, 12, 11, 10, 9, 0, 7, 6, 5, 4, 3, 2, 1] ∧
    (FindGatherEventsGnu heapProvider).map (fun events => decide (events.Pairwise
      (fun a b => a.time = b.time → detectedBefore a b))) = some false := by
  refine ⟨by decide!, by decide!, by decide!⟩

/-- C22, as amended: ties are broken stably when at most 16 events are detected. The sort
of the GNU C++ library is then the insertion sort alone, `FindGatherEvents` is what it
returns, and of any two events of equal time in the result the one that comes first was
detected first: it has the smaller gatherer index or, for the same gatherer, the smaller
item index. -/
theorem FindGatherEvents_ties_stable_up_to_16 (p : ItemGathererProvider)
    (h : (detectedEvents p).length ≤ 16) :
    FindGatherEventsGnu p = some (FindGatherEvents p) ∧
    (FindGatherEvents p).Pairwise (fun a b => a.time = b.time → detectedBefore a b) ∧
    (FindGatherEvents p).Perm (detectedEvents p) :=
  ⟨gnuSort_short _ h, sortEvents_ties detectedBefore _ (detectedEvents_pairwise p),
    sortEvents_perm _⟩

/-- Two gatherers cross over two items that lie at the same point: the four events have the
time `1/2` and come out in their detection order. -/
theorem FindGatherEvents_ties_stable_up_to_16_witness :
    (detectedEvents twinProvider).length ≤ 16 ∧
    (FindGatherEventsGnu twinProvider).map
      (fun events => events.map (fun e => (e.gatherer_id, e.item_id, e.time))) =
      some [(0, 0, 1 / 2), (0, 1, 1 / 2), (1, 0, 1 / 2), (1, 1, 1 / 2)] ∧
    FindGatherEventsGnu twinProvider = some (FindGatherEvents twinProvider) :=
  ⟨by decide!, by decide!,
   (FindGatherEvents_ties_stable_up_to_16 twinProvider (by decide!)).1⟩

end collision_detector

/-! ## Theorems: road geometry and the road index -/

namespace model

open geom

/-- C31: road geometry. For a road built with either constructor, whatever the order of
its endpoints: on each axis the tile range is `[min, max]` of the coordinates of start and
end (on the fixed axis both are the start coordinate, on the varying axis the range is the
inclusive span between the endpoints); the absolute rectangle is `p1 = (min_x - 0.4,
min_y - 0.4)`, `p2 = (max_x + 0.4, max_y + 0.4)`, with `p1 ≤ p2` componentwise; the road is
horizontal or vertical, a road of the horizontal constructor is horizontal and one of the
vertical constructor is vertical; and a road built from its end towards its start has the
same ranges and the same rectangle. -/
theorem Road_geometry :
    (∀ (start : PointInt) (end_x : ℤ),
      (Road.HORIZONTAL start end_x).GetRangeX = (min start.x end_x, max start.x end_x) ∧
      (Road.HORIZONTAL start end_x).GetRangeY = (start.y, start.y) ∧
      (Road.HORIZONTAL start end_x).IsHorizontal = true ∧
      (Road.HORIZONTAL ⟨end_x, start.y⟩ start.x).GetRangeX =
        (Road.HORIZONTAL start end_x).GetRangeX ∧
      (Road.HORIZONTAL ⟨end_x, start.y⟩ start.x).GetAbsDimentions =
        (Road.HORIZONTAL start end_x).GetAbsDimentions) ∧
    (∀ (start : PointInt) (end_y : ℤ),
      (Road.VERTICAL start end_y).GetRangeX = (start.x, start.x) ∧
      (Road.VERTICAL start end_y).GetRangeY = (min start.y end_y, max start.y end_y) ∧
      (Road.VERTICAL start end_y).IsVertical = true ∧
      (Road.VERTICAL ⟨start.x, end_y⟩ start.y).GetRangeY =
        (Road.VERTICAL start end_y).GetRangeY ∧
      (Road.VERTICAL ⟨start.x, end_y⟩ start.y).GetAbsDimentions =
        (Road.VERTICAL start end_y).GetAbsDimentions) ∧
    (∀ road : Road,
      road.GetRangeX = (min road.GetStart.x road.GetEnd.x, max road.GetStart.x road.GetEnd.x) ∧
      road.GetRangeY = (min road.GetStart.y road.GetEnd.y, max road.GetStart.y road.GetEnd.y) ∧
      road.GetRangeX.1 ≤ road.GetRangeX.2 ∧ road.GetRangeY.1 ≤ road.GetRangeY.2 ∧
      road.GetAbsDimentions.p1 =
        { x := (road.GetRangeX.1 : ℚ) - 2 / 5, y := (road.GetRangeY.1 : ℚ) - 2 / 5 } ∧
      road.GetAbsDimentions.p2 =
        { x := (road.GetRangeX.2 : ℚ) + 2 / 5, y := (road.GetRangeY.2 : ℚ) + 2 / 5 } ∧
      road.GetAbsDimentions.p1.x ≤ road.GetAbsDimentions.p2.x ∧
      road.GetAbsDimentions.p1.y ≤ road.GetAbsDimentions.p2.y ∧
      (road.IsHorizontal = true ∨ road.IsVertical = true) ∧
      (road.GetStart.x = road.GetEnd.x ∨ road.GetStart.y = road.GetEnd.y)) := by
  refine ⟨?_, ?_, ?_⟩
  · intro start end_x
    refine ⟨rfl, rfl, by simp [Road.IsHorizontal, Road.GetStart, Road.GetEnd], ?_, ?_⟩
    · simp [Road.GetRangeX, min_comm, max_comm]
    · simp [Road.GetAbsDimentions, Road.GetRangeX, Road.GetRangeY, min_comm, max_comm]
  · intro start end_y
    refine ⟨rfl, rfl, by simp [Road.IsVertical, Road.GetStart, Road.GetEnd], ?_, ?_⟩
    · simp [Road.GetRangeY, min_comm, max_comm]
    · simp [Road.GetAbsDimentions, Road.GetRangeX, Road.GetRangeY, min_comm, max_comm]
  · intro road
    obtain ⟨ox, oy⟩ := Road_rect_ordered road
    cases road with
    | HORIZONTAL start end_x =>
      refine ⟨by simp [Road.GetRangeX, Road.GetStart, Road.GetEnd],
        by simp [Road.GetRangeY, Road.GetStart, Road.GetEnd],
        by simp [Road.GetRangeX], by simp [Road.GetRangeY], rfl, rfl, ox, oy,
        Or.inl (by simp [Road.IsHorizontal, Road.GetStart, Road.GetEnd]),
        Or.inr (by simp [Road.GetStart, Road.GetEnd])⟩
    | VERTICAL start end_y =>
      refine ⟨by simp [Road.GetRangeX, Road.GetStart, Road.GetEnd],
        by simp [Road.GetRangeY, Road.GetStart, Road.GetEnd],
        by simp [Road.GetRangeX], by simp [Road.GetRangeY], rfl, rfl, ox, oy,
        Or.inr (by simp [Road.IsVertical, Road.GetStart, Road.GetEnd]),
        Or.inl (by simp [Road.GetStart, Road.GetEnd])⟩

end model

namespace model

open geom

theorem intRange_eq (lo hi : ℤ) :
    intRange lo hi = (List.range (hi + 1 - lo).toNat).map (fun k : ℕ => lo + (k : ℤ)) := by
  unfold intRange
  generalize List.range (hi + 1 - lo).toNat = l
  induction l with
  | nil => rfl
  | cons a rest ih =>
    simp only [List.map_cons]
    rw [← ih]
    rfl

theorem mem_intRange (lo hi x : ℤ) : x ∈ intRange lo hi ↔ lo ≤ x ∧ x ≤ hi := by
  rw [intRange_eq]
  simp only [List.mem_map, List.mem_range]
  constructor
  · rintro ⟨k, hk, rfl⟩
    omega
  · rintro ⟨h1, h2⟩
    refine ⟨(x - lo).toNat, ?_, ?_⟩
    · omega
    · omega

theorem nodup_intRange (lo hi : ℤ) : (intRange lo hi).Nodup := by
  rw [intRange_eq]
  have hinj : Function.Injective (fun k : ℕ => lo + (k : ℤ)) := by
    intro a b h
    simp only at h
    omega
  exact (List.nodup_map_iff hinj).2 (List.nodup_range _)

theorem count_intRange (lo hi x : ℤ) :
    (intRange lo hi).count x = if lo ≤ x ∧ x ≤ hi then 1 else 0 := by
  split
  · rename_i h
    exact List.count_eq_one_of_mem (nodup_intRange lo hi) ((mem_intRange lo hi x).2 h)
  · rename_i h
    exact List.count_eq_zero_of_not_mem (fun hc => h ((mem_intRange lo hi x).1 hc))

theorem find_indexTile (index : CoordsToRoad) (x y x' : ℤ) (road : Road) :
    (umap.find (indexTile index x y road) x').getD [] =
      (umap.find index x').getD [] ++ (if x' = x then [(y, road)] else []) := by
  induction index with
  | nil =>
    by_cases h : x = x'
    · simp [indexTile, umap.find, h]
    · have h' : ¬ x' = x := fun hc => h hc.symm
      simp [indexTile, umap.find, h, h']
  | cons kc rest ih =>
    obtain ⟨k, c⟩ := kc
    by_cases hk : k = x
    · by_cases hx : k = x'
      · have : x' = x := hx.symm.trans hk
        simp [indexTile, umap.find, hk, hx, this]
      · have : ¬ x' = x := fun hc => hx (hk.trans hc.symm)
        simp [indexTile, umap.find, hk, hx, this]
        rw [hk] at hx
        simp [umap.find, hx]
    · by_cases hx : k = x'
      · have : ¬ x' = x := fun hc => hk (hx.trans hc)
        simp [indexTile, umap.find, hk, hx, this]
      · simp only [indexTile, hk, if_false, umap.find, hx]
        exact ih

theorem roadsListed_eq (index : CoordsToRoad) (tile : PointInt) :
    roadsListed index tile =
      ((((umap.find index tile.x).getD []).filter (fun yr => decide (yr.1 = tile.y))).map
        Prod.snd) := by
  unfold roadsListed roadsAtTile
  cases umap.find index tile.x <;> rfl

theorem count_indexTile (index : CoordsToRoad) (x y : ℤ) (road : Road) (tile : PointInt)
    (r : Road) :
    (roadsListed (indexTile index x y road) tile).count r =
      (roadsListed index tile).count r +
        (if tile.x = x ∧ tile.y = y ∧ r = road then 1 else 0) := by
  rw [roadsListed_eq, roadsListed_eq, find_indexTile]
  by_cases hx : tile.x = x
  · by_cases hy : y = tile.y
    · subst hy
      by_cases hr : r = road
      · simp [hx, hr, List.filter_append, List.filter_cons]
      · have hr' : ¬ road = r := fun hc => hr hc.symm
        simp [hx, hr, List.filter_append, List.filter_cons, List.count_cons, hr']
    · have hy' : ¬ tile.y = y := fun hc => hy hc.symm
      simp [hx, hy, List.filter_append, List.filter_cons, hy']
  · simp [hx]

theorem count_fold_ys (road : Road) (x : ℤ) (ys : List ℤ) (index : CoordsToRoad)
    (tile : PointInt) (r : Road) :
    (roadsListed (ys.foldl (fun index y => indexTile index x y road) index) tile).count r =
      (roadsListed index tile).count r +
        (if tile.x = x ∧ r = road then ys.count tile.y else 0) := by
  induction ys generalizing index with
  | nil => simp
  | cons y rest ih =>
    rw [List.foldl_cons, ih, count_indexTile]
    by_cases hx : tile.x = x
    · by_cases hr : r = road
      · by_cases hy : tile.y = y
        · simp [hx, hr, hy]; omega
        · have hy' : ¬ y = tile.y := fun hc => hy hc.symm
          simp [hx, hr, hy, List.count_cons, hy']
      · simp [hx, hr]
    · simp [hx]

theorem count_fold_xs (road : Road) (xs ys : List ℤ) (index : CoordsToRoad)
    (tile : PointInt) (r : Road) :
    (roadsListed (xs.foldl (fun index x =>
        ys.foldl (fun index y => indexTile index x y road) index) index) tile).count r =
      (roadsListed index tile).count r +
        (if r = road then xs.count tile.x * ys.count tile.y else 0) := by
  induction xs generalizing index with
  | nil => simp
  | cons x rest ih =>
    rw [List.foldl_cons, ih, count_fold_ys]
    by_cases hr : r = road
    · by_cases hx : tile.x = x
      · simp [hx, hr, Nat.add_mul]; omega
      · have hx' : ¬ x = tile.x := fun hc => hx hc.symm
        simp [hx, hr, List.count_cons, hx']
    · simp [hr]

theorem count_fold_roads (roads : List Road) (index : CoordsToRoad) (tile : PointInt)
    (r : Road) :
    (roadsListed (roads.foldl (fun index road =>
      (intRange road.GetRangeX.1 road.GetRangeX.2).foldl (fun index x =>
        (intRange road.GetRangeY.1 road.GetRangeY.2).foldl (fun index y =>
          indexTile index x y road) index) index) index) tile).count r =
      (roadsListed index tile).count r + (if r.CoversTile tile then roads.count r else 0) := by
  induction roads generalizing index with
  | nil => simp
  | cons road rest ih =>
    rw [List.foldl_cons, ih, count_fold_xs, count_intRange, count_intRange]
    by_cases hr : r = road
    · subst hr
      by_cases hc : r.CoversTile tile
      · have h1 : r.GetRangeX.1 ≤ tile.x ∧ tile.x ≤ r.GetRangeX.2 := ⟨hc.1, hc.2.1⟩
        have h2 : r.GetRangeY.1 ≤ tile.y ∧ tile.y ≤ r.GetRangeY.2 := ⟨hc.2.2.1, hc.2.2.2⟩
        simp [hc, h1, h2]; omega
      · have h12 : ¬ ((r.GetRangeX.1 ≤ tile.x ∧ tile.x ≤ r.GetRangeX.2) ∧
            (r.GetRangeY.1 ≤ tile.y ∧ tile.y ≤ r.GetRangeY.2)) :=
          fun h => hc ⟨h.1.1, h.1.2, h.2.1, h.2.2⟩
        by_cases h1 : r.GetRangeX.1 ≤ tile.x ∧ tile.x ≤ r.GetRangeX.2
        · have h2 : ¬ (r.GetRangeY.1 ≤ tile.y ∧ tile.y ≤ r.GetRangeY.2) := fun h => h12 ⟨h1, h⟩
          simp [hc, h1, h2]
        · simp [hc, h1]
    · have hr' : ¬ road = r := fun hc => hr hc.symm
      simp [hr, List.count_cons, hr']

/-- The number of times a road is listed under a tile of the index built by
`PrepareRoads`: as often as the road occurs among the roads when it covers the tile, not at
all otherwise. -/
theorem count_PrepareRoads (roads : List Road) (tile : PointInt) (r : Road) :
    (roadsListed (PrepareRoads roads) tile).count r =
      if r.CoversTile tile then roads.count r else 0 := by
  unfold PrepareRoads
  rw [count_fold_roads]
  simp [roadsListed, roadsAtTile, umap.find]

theorem roadsAtTile_of_mem (index : CoordsToRoad) (tile : PointInt) (r : Road)
    (h : r ∈ roadsListed index tile) :
    ∃ roads, roadsAtTile index tile = some roads ∧ r ∈ roads := by
  unfold roadsListed at h
  cases hr : roadsAtTile index tile with
  | none => rw [hr] at h; simp at h
  | some roads => rw [hr] at h; exact ⟨roads, rfl, h⟩

/-- What the index lists for a session, tile by tile. -/
theorem road_index_of_session (s : GameSession) (tile : PointInt) :
    (∀ r ∈ s.map_.roads_,
      (r ∈ roadsListed s.coords_to_roads_ tile ↔ r.CoversTile tile) ∧
      (r.CoversTile tile →
        (∃ roads, roadsAtTile s.coords_to_roads_ tile = some roads ∧ r ∈ roads) ∧
        (roadsListed s.coords_to_roads_ tile).count r = s.map_.roads_.count r ∧
        (s.map_.roads_.Nodup → (roadsListed s.coords_to_roads_ tile).count r = 1))) ∧
    (∀ r ∈ roadsListed s.coords_to_roads_ tile, r ∈ s.map_.roads_ ∧ r.CoversTile tile) := by
  have hcount := fun r => count_PrepareRoads s.map_.roads_ tile r
  constructor
  · intro r hr
    have hpos : 0 < s.map_.roads_.count r := List.count_pos_iff.2 hr
    have hiff : r ∈ roadsListed s.coords_to_roads_ tile ↔ r.CoversTile tile := by
      rw [← List.count_pos_iff]
      unfold GameSession.coords_to_roads_
      rw [hcount r]
      by_cases hc : r.CoversTile tile
      · simp [hc, hpos]
      · simp [hc]
    refine ⟨hiff, fun hc => ⟨roadsAtTile_of_mem _ _ _ (hiff.2 hc), ?_, ?_⟩⟩
    · unfold GameSession.coords_to_roads_
      rw [hcount r, if_pos hc]
    · intro hn
      unfold GameSession.coords_to_roads_
      rw [hcount r, if_pos hc]
      exact List.count_eq_one_of_mem hn hr
  · intro r hr
    have hpos : 0 < (roadsListed s.coords_to_roads_ tile).count r := List.count_pos_iff.2 hr
    unfold GameSession.coords_to_roads_ at hpos
    rw [hcount r] at hpos
    by_cases hc : r.CoversTile tile
    · rw [if_pos hc] at hpos
      exact ⟨List.count_pos_iff.1 hpos, hc⟩
    · rw [if_neg hc] at hpos
      exact absurd hpos (lt_irrefl 0)

/-- C32: the road index is correct. In the index a session is constructed with, for every
integer tile and every road of the map, the road is listed under the tile if and only if
the tile lies in the x tile range and in the y tile range of the road; the lookup of such a
tile does not fail; a road is listed as often as it occurs among the roads of the map, so
exactly once when the roads of the map are distinct; and nothing but roads of the map is
listed. On `cornerMap` the tile `(2,0)` lists both roads, `(2,1)` the vertical road only,
`(0,1)` no road, and the column 4 is absent. -/
theorem road_index_correct :
    (∀ (s : GameSession) (tile : PointInt),
      (∀ r ∈ s.map_.roads_,
        (r ∈ roadsListed s.coords_to_roads_ tile ↔ r.CoversTile tile) ∧
        (r.CoversTile tile →
          (∃ roads, roadsAtTile s.coords_to_roads_ tile = some roads ∧ r ∈ roads) ∧
          (roadsListed s.coords_to_roads_ tile).count r = s.map_.roads_.count r ∧
          (s.map_.roads_.Nodup → (roadsListed s.coords_to_roads_ tile).count r = 1))) ∧
      (∀ r ∈ roadsListed s.coords_to_roads_ tile, r ∈ s.map_.roads_ ∧ r.CoversTile tile)) ∧
    roadsAtTile cornerSession.coords_to_roads_ ⟨2, 0⟩ =
      some [Road.HORIZONTAL ⟨0, 0⟩ 3, Road.VERTICAL ⟨2, 2⟩ (-1)] ∧
    roadsAtTile cornerSession.coords_to_roads_ ⟨2, 1⟩ = some [Road.VERTICAL ⟨2, 2⟩ (-1)] ∧
    roadsAtTile cornerSession.coords_to_roads_ ⟨2, -1⟩ = some [Road.VERTICAL ⟨2, 2⟩ (-1)] ∧
    roadsAtTile cornerSession.coords_to_roads_ ⟨0, 1⟩ = some [] ∧
    roadsAtTile cornerSession.coords_to_roads_ ⟨4, 0⟩ = none :=
  ⟨road_index_of_session, by decide!, by decide!, by decide!, by decide!, by decide!⟩

theorem RoundRoadCoord_between (lo hi : ℤ) (c : ℚ) (h1 : (lo : ℚ) - 2 / 5 ≤ c)
    (h2 : c ≤ (hi : ℚ) + 2 / 5) : lo ≤ RoundRoadCoord c ∧ RoundRoadCoord c ≤ hi := by
  have hfl : ((⌊c⌋ : ℤ) : ℚ) ≤ c := Int.floor_le c
  have hfl2 : c < ((⌊c⌋ : ℤ) : ℚ) + 1 := Int.lt_floor_add_one c
  have hce : c ≤ ((⌈c⌉ : ℤ) : ℚ) := Int.le_ceil c
  unfold RoundRoadCoord
  split
  · rename_i hlt
    constructor
    · by_contra hc
      have : ⌊c⌋ + 1 ≤ lo := by omega
      have : ((⌊c⌋ : ℤ) : ℚ) + 1 ≤ (lo : ℚ) := by exact_mod_cast this
      linarith
    · have : ((⌊c⌋ : ℤ) : ℚ) < (hi : ℚ) + 1 := by linarith
      have : ⌊c⌋ < hi + 1 := by exact_mod_cast this
      omega
  · rename_i hge
    constructor
    · have : (lo : ℚ) - 1 < ((⌈c⌉ : ℤ) : ℚ) := by linarith
      have : lo - 1 < ⌈c⌉ := by exact_mod_cast this
      omega
    · rw [Int.ceil_le]
      by_contra hc
      have hgt : (hi : ℚ) < c := not_le.1 hc
      have : hi ≤ ⌊c⌋ := Int.le_floor.2 (le_of_lt hgt)
      have : (hi : ℚ) ≤ ((⌊c⌋ : ℤ) : ℚ) := by exact_mod_cast this
      exact hge (by linarith)

/-- A point inside the absolute rectangle of a road is rounded to a tile of the road. -/
theorem RoundRoadCoords_covers (road : Road) (p : PointDouble)
    (h : road.GetAbsDimentions.Contains p) : road.CoversTile (RoundRoadCoords p) := by
  obtain ⟨x1, x2, y1, y2⟩ := h
  have hx := RoundRoadCoord_between road.GetRangeX.1 road.GetRangeX.2 p.x x1 x2
  have hy := RoundRoadCoord_between road.GetRangeY.1 road.GetRangeY.2 p.y y1 y2
  exact ⟨hx.1, hx.2, hy.1, hy.2⟩

theorem AddTick_coords (dog : Dog) (tick : ℕ) : (dog.AddTick tick).coords_ = dog.coords_ := by
  unfold Dog.AddTick
  split <;> rfl

/-- `Move` throws only in the lookup of the road index. -/
theorem Move_isSome_of_lookup (s : GameSession) (dog : Dog) (tick : ℕ) (roads : List Road)
    (h : roadsAtTile s.coords_to_roads_ (RoundRoadCoords dog.coords_) = some roads) :
    (s.Move dog tick).isSome = true := by
  unfold GameSession.Move
  simp only [AddTick_coords, h]
  split
  · rfl
  · split
    · split <;> rfl
    · split <;> rfl

/-- C33: rounding keeps a dog on the tiles of its road. `RoundRoadCoord(c)` is `floor(c)`
when `c - floor(c) < 0.5` and `ceil(c)` otherwise; for every road and every point inside the
absolute rectangle of the road the rounded point is a tile within the tile ranges of the
road; so for a road of the map of a session the lookup of the road index at that point
does not fail and the roads it returns contain the road, and `Move` of a dog that stands
inside the rectangle of a road of the map returns. -/
theorem rounding_keeps_dog_on_road :
    (∀ c : ℚ, RoundRoadCoord c = if c - (⌊c⌋ : ℚ) < 1 / 2 then ⌊c⌋ else ⌈c⌉) ∧
    (∀ (road : Road) (p : PointDouble), road.GetAbsDimentions.Contains p →
      road.CoversTile (RoundRoadCoords p)) ∧
    (∀ (s : GameSession) (road : Road) (p : PointDouble), road ∈ s.map_.roads_ →
      road.GetAbsDimentions.Contains p →
      ∃ roads, roadsAtTile s.coords_to_roads_ (RoundRoadCoords p) = some roads ∧
        road ∈ roads) ∧
    (∀ (s : GameSession) (dog : Dog) (tick : ℕ), s.map_.OnRoads dog.coords_ →
      (s.Move dog tick).isSome = true) ∧
    RoundRoadCoord (5 / 2) = 3 ∧ RoundRoadCoord (12 / 5) = 2 ∧ RoundRoadCoord (-2 / 5) = 0 ∧
    RoundRoadCoord (-1 / 2) = 0 ∧ RoundRoadCoord (-3 / 5) = -1 ∧ RoundRoadCoord 3 = 3 ∧
    roadsAtTile cornerSession.coords_to_roads_ (RoundRoadCoords ⟨17 / 5, -2 / 5⟩) =
      some [Road.HORIZONTAL ⟨0, 0⟩ 3] := by
  refine ⟨fun _ => rfl, RoundRoadCoords_covers, ?_, ?_, by decide!, by decide!, by decide!,
    by decide!, by decide!, by decide!, by decide!⟩
  · intro s road p hmem hin
    exact ((road_index_of_session s (RoundRoadCoords p)).1 road hmem).2
      (RoundRoadCoords_covers road p hin) |>.1
  · intro s dog tick hon
    obtain ⟨road, hmem, hin⟩ := hon
    obtain ⟨roads, hr, _⟩ := ((road_index_of_session s (RoundRoadCoords dog.coords_)).1 road
      hmem).2 (RoundRoadCoords_covers road dog.coords_ hin) |>.1
    exact Move_isSome_of_lookup s dog tick roads hr

end model

/-! ## Theorems: the squared distance and the shape of the gather events -/

namespace collision_detector

open geom

theorem sq_distance_eq (a b c : PointDouble) (h : a ≠ b) :
    (TryCollectPoint a b c).sq_distance *
        ((b.x - a.x) * (b.x - a.x) + (b.y - a.y) * (b.y - a.y)) =
      ((c.x - a.x) * (b.y - a.y) - (c.y - a.y) * (b.x - a.x)) ^ 2 ∧
    0 < (b.x - a.x) * (b.x - a.x) + (b.y - a.y) * (b.y - a.y) := by
  have hv : 0 < (b.x - a.x) * (b.x - a.x) + (b.y - a.y) * (b.y - a.y) := by
    by_contra hc
    have h1 := mul_self_nonneg (b.x - a.x)
    have h2 := mul_self_nonneg (b.y - a.y)
    have hx : (b.x - a.x) * (b.x - a.x) = 0 := by linarith
    have hy : (b.y - a.y) * (b.y - a.y) = 0 := by linarith
    have hx' : b.x = a.x := by
      have := mul_self_eq_zero.1 hx
      linarith
    have hy' : b.y = a.y := by
      have := mul_self_eq_zero.1 hy
      linarith
    apply h
    cases a; cases b
    simp only at hx' hy'
    rw [hx', hy']
  refine ⟨?_, hv⟩
  unfold TryCollectPoint
  simp only
  field_simp
  ring

/-- C36: the squared distance reported by the collision engine is never negative. For all
points `a ≠ b` and `c`, with `u = c - a` and `v = b - a`, the squared distance of
`TryCollectPoint(a, b, c)` is `|u|² - (u·v)²/|v|²` and, in exact arithmetic, it is the
square of the cross product of `u` and `v` over `|v|²`, so it is at least 0, and it is 0
exactly when `c` lies on the line through `a` and `b` (`c = a + t (b - a)` for some `t`). -/
theorem sq_distance_nonneg (a b c : PointDouble) (h : a ≠ b) :
      (TryCollectPoint a b c).sq_distance =
        ((c.x - a.x) * (c.x - a.x) + (c.y - a.y) * (c.y - a.y)) -
          ((c.x - a.x) * (b.x - a.x) + (c.y - a.y) * (b.y - a.y)) *
            ((c.x - a.x) * (b.x - a.x) + (c.y - a.y) * (b.y - a.y)) /
            ((b.x - a.x) * (b.x - a.x) + (b.y - a.y) * (b.y - a.y)) ∧
      (TryCollectPoint a b c).sq_distance =
        ((c.x - a.x) * (b.y - a.y) - (c.y - a.y) * (b.x - a.x)) ^ 2 /
          ((b.x - a.x) * (b.x - a.x) + (b.y - a.y) * (b.y - a.y)) ∧
      0 ≤ (TryCollectPoint a b c).sq_distance ∧
      ((TryCollectPoint a b c).sq_distance = 0 ↔
        ∃ t : ℚ, c.x = a.x + t * (b.x - a.x) ∧ c.y = a.y + t * (b.y - a.y)) := by
  obtain ⟨heq, hv⟩ := sq_distance_eq a b c h
  have hne : (b.x - a.x) * (b.x - a.x) + (b.y - a.y) * (b.y - a.y) ≠ 0 := ne_of_gt hv
  have hform : (TryCollectPoint a b c).sq_distance =
      ((c.x - a.x) * (b.y - a.y) - (c.y - a.y) * (b.x - a.x)) ^ 2 /
        ((b.x - a.x) * (b.x - a.x) + (b.y - a.y) * (b.y - a.y)) := by
    rw [eq_div_iff hne]
    exact heq
  refine ⟨rfl, hform, ?_, ?_⟩
  · rw [hform]
    exact div_nonneg (sq_nonneg _) (le_of_lt hv)
  · rw [hform, div_eq_zero_iff]
    constructor
    · intro h0
      rcases h0 with h0 | h0
      · have hcross : (c.x - a.x) * (b.y - a.y) - (c.y - a.y) * (b.x - a.x) = 0 :=
          pow_eq_zero_iff (by norm_num) |>.1 h0
        refine ⟨((c.x - a.x) * (b.x - a.x) + (c.y - a.y) * (b.y - a.y)) /
          ((b.x - a.x) * (b.x - a.x) + (b.y - a.y) * (b.y - a.y)), ?_, ?_⟩
        · field_simp
          linear_combination (b.y - a.y) * hcross
        · field_simp
          linear_combination (-(b.x - a.x)) * hcross
      · exact absurd h0 hne
    · rintro ⟨t, hx, hy⟩
      left
      rw [hx, hy]
      ring

/-- The segment `(0,0) -> (0,2)`: the point `(1/5, 1)` is at the squared distance `1/25`,
the point `(0, 5)` on the line at the squared distance 0. -/
theorem sq_distance_nonneg_witness :
    (⟨0, 0⟩ : PointDouble) ≠ ⟨0, 2⟩ ∧
    (TryCollectPoint ⟨0, 0⟩ ⟨0, 2⟩ ⟨1 / 5, 1⟩).sq_distance = 1 / 25 ∧
    (TryCollectPoint ⟨0, 0⟩ ⟨0, 2⟩ ⟨0, 5⟩).sq_distance = 0 ∧
    0 ≤ (TryCollectPoint ⟨0, 0⟩ ⟨0, 2⟩ ⟨1 / 5, 1⟩).sq_distance :=
  ⟨by decide!, by decide!, by decide!,
   (sq_distance_nonneg ⟨0, 0⟩ ⟨0, 2⟩ ⟨1 / 5, 1⟩ (by decide!)).2.2.1⟩

end collision_detector
namespace collision_detector

open geom

theorem collectItems_length (gatherer : Gatherer) (g i : ℕ) (items : List Item) :
    (collectItems gatherer g i items).length ≤ items.length := by
  induction items generalizing i with
  | nil => simp [collectItems]
  | cons item rest ih =>
    rw [collectItems_cons]
    split
    · simp only [List.length_cons]
      exact Nat.succ_le_succ (ih (i + 1))
    · exact Nat.le_succ_of_le (ih (i + 1))

theorem collectGatherers_length (items : List Item) (g : ℕ) (gs : List Gatherer) :
    (collectGatherers items g gs).length ≤ gs.length * items.length := by
  induction gs generalizing g with
  | nil => simp [collectGatherers]
  | cons gatherer rest ih =>
    unfold collectGatherers
    have h1 := ih (g + 1)
    have h2 := collectItems_length gatherer g 0 items
    simp only [List.length_cons, Nat.succ_mul]
    split
    · omega
    · rw [List.length_append]
      omega

theorem detectedBefore_ne (a b : GatheringEvent) (h : detectedBefore a b) :
    (a.gatherer_id, a.item_id) ≠ (b.gatherer_id, b.item_id) := by
  intro hc
  simp only [Prod.mk.injEq] at hc
  rcases h with h | ⟨_, h⟩
  · omega
  · omega

/-- The shape of the result of `FindGatherEvents`: the ids of every event are below the
counts of the provider, no two events have the same pair of ids, and there are at most
`GatherersCount() * ItemsCount()` events. -/
theorem FindGatherEvents_shape (p : ItemGathererProvider) :
    (∀ e ∈ FindGatherEvents p,
      e.gatherer_id < p.GatherersCount ∧ e.item_id < p.ItemsCount) ∧
    ((FindGatherEvents p).map (fun e => (e.gatherer_id, e.item_id))).Nodup ∧
    (FindGatherEvents p).length ≤ p.GatherersCount * p.ItemsCount := by
  refine ⟨?_, ?_, ?_⟩
  · intro e he
    obtain ⟨gatherer, item, hg, hi, _⟩ :=
      (mem_detectedEvents p e).1 ((mem_sortEvents e _).1 he)
    exact ⟨(List.getElem?_eq_some.1 hg).1, (List.getElem?_eq_some.1 hi).1⟩
  · have hd : ((detectedEvents p).map (fun e => (e.gatherer_id, e.item_id))).Nodup := by
      unfold List.Nodup
      rw [List.pairwise_map]
      exact (detectedEvents_pairwise p).imp (fun h => detectedBefore_ne _ _ h)
    exact ((sortEvents_perm (detectedEvents p)).map _).nodup_iff.2 hd
  · unfold FindGatherEvents
    rw [(sortEvents_perm _).length_eq]
    exact collectGatherers_length _ _ _

end collision_detector

namespace model

open geom collision_detector

/-- The side tables of `HandleCollisions` cover the ids of the provider: a gatherer per
dog, a type per item, and a loot id for every item of the type LOOT. -/
theorem collisionTables_cover (s : GameSession) (t : CollisionTables)
    (h : s.collisionTables = some t) :
    t.provider.gatherers_.length = s.dogs_.length ∧
    t.item_id_to_type.length = t.provider.items_.length ∧
    (∀ i, t.item_id_to_type[i]? = some ItemType.LOOT → i < t.item_id_to_loot_id.length) := by
  unfold GameSession.collisionTables at h
  split at h
  · cases h
  · rename_i loot hloot
    simp only [Option.some.injEq] at h
    subst h
    refine ⟨by simp, by simp, ?_⟩
    intro i hi
    simp only [List.length_map]
    by_contra hc
    have hge : loot.length ≤ i := not_lt.1 hc
    have hlen : (loot.map (fun _ => ItemType.LOOT)).length ≤ i := by simpa using hge
    simp only at hi
    rw [List.getElem?_append_right hlen] at hi
    obtain ⟨_, hget⟩ := List.getElem?_eq_some.1 hi
    have hmem : ItemType.LOOT ∈ s.map_.offices_.map (fun _ => ItemType.OFFICE) := by
      rw [← hget]
      exact List.getElem_mem _
    simp at hmem

theorem handleEvent_length (s s' : GameSession) (t : CollisionTables) (event : GatheringEvent)
    (h : s.handleEvent t event = some s') : s'.dogs_.length = s.dogs_.length := by
  have hk := (handleEvents_keeps (fun _ => ()) (fun _ _ => rfl) (fun _ => rfl) t [event] s s'
    (by simp [GameSession.handleEvents, h])).2.2.2
  simpa using congrArg List.length hk

/-- The loop of `HandleCollisions` over events whose ids are covered by the side tables
and the dogs never throws. -/
theorem handleEvents_isSome (t : CollisionTables) (events : List GatheringEvent)
    (s : GameSession)
    (hloot : ∀ i, t.item_id_to_type[i]? = some ItemType.LOOT → i < t.item_id_to_loot_id.length)
    (h : ∀ e ∈ events, e.gatherer_id < s.dogs_.length ∧ e.item_id < t.item_id_to_type.length) :
    (s.handleEvents t events).isSome = true := by
  induction events generalizing s with
  | nil => rfl
  | cons event rest ih =>
    obtain ⟨hg, hi⟩ := h event (List.mem_cons_self _ _)
    have hstep : ∃ s1, s.handleEvent t event = some s1 := by
      unfold GameSession.handleEvent
      rw [List.getElem?_eq_getElem hi, List.getElem?_eq_getElem hg]
      cases hty : t.item_id_to_type[event.item_id] with
      | LOOT =>
        have hl := hloot event.item_id (by rw [List.getElem?_eq_getElem hi, hty])
        rw [List.getElem?_eq_getElem hl]
        exact ⟨_, rfl⟩
      | OFFICE => exact ⟨_, rfl⟩
    obtain ⟨s1, hs1⟩ := hstep
    rw [GameSession.handleEvents, hs1]
    apply ih
    intro e he
    rw [handleEvent_length s s1 t event hs1]
    exact h e (List.mem_cons_of_mem _ he)

/-- C37: gather events are well-formed. Every event returned by `FindGatherEvents` has
`gatherer_id < GatherersCount()` and `item_id < ItemsCount()`; no two events of the result
have the same pair `(gatherer_id, item_id)`; the result has at most `GatherersCount() *
ItemsCount()` events; and in `HandleCollisions`, once the provider and the side tables are
built, every lookup by the ids of an event succeeds (the type of the item, the dog of the
gatherer, the loot id of an item of the type LOOT), so that the loop over the events
returns. In `crossingSession` after a tick of 1000 ms two gatherers pass one item: two
events, and the collisions are handled. -/
theorem gather_events_well_formed :
    (∀ (p : ItemGathererProvider),
      (∀ e ∈ FindGatherEvents p,
        e.gatherer_id < p.GatherersCount ∧ e.item_id < p.ItemsCount) ∧
      ((FindGatherEvents p).map (fun e => (e.gatherer_id, e.item_id))).Nodup ∧
      (FindGatherEvents p).length ≤ p.GatherersCount * p.ItemsCount) ∧
    (∀ (s : GameSession) (t : CollisionTables), s.collisionTables = some t →
      (∀ e ∈ FindGatherEvents t.provider,
        (∃ dog, s.dogs_[e.gatherer_id]? = some dog) ∧
        (∃ ty, t.item_id_to_type[e.item_id]? = some ty) ∧
        (t.item_id_to_type[e.item_id]? = some ItemType.LOOT →
          ∃ loot_id, t.item_id_to_loot_id[e.item_id]? = some loot_id)) ∧
      (s.handleEvents t (FindGatherEvents t.provider)).isSome = true ∧
      s.HandleCollisions.isSome = true) ∧
    ((crossingSession.moveAndRetire 1000).bind (fun r => r.1.collisionTables)).map
      (fun t => (FindGatherEvents t.provider).map (fun e => (e.gatherer_id, e.item_id))) =
      some [(0, 0), (1, 0)] ∧
    ((crossingSession.moveAndRetire 1000).bind (fun r => r.1.HandleCollisions)).isSome =
      true := by
  refine ⟨FindGatherEvents_shape, ?_, by decide!, by decide!⟩
  intro s t ht
  obtain ⟨hg, hty, hloot⟩ := collisionTables_cover s t ht
  have hids : ∀ e ∈ FindGatherEvents t.provider,
      e.gatherer_id < s.dogs_.length ∧ e.item_id < t.item_id_to_type.length := by
    intro e he
    obtain ⟨h1, h2⟩ := (FindGatherEvents_shape t.provider).1 e he
    unfold ItemGathererProvider.GatherersCount at h1
    unfold ItemGathererProvider.ItemsCount at h2
    exact ⟨by rw [← hg]; exact h1, by rw [hty]; exact h2⟩
  have hsome := handleEvents_isSome t (FindGatherEvents t.provider) s hloot hids
  refine ⟨?_, hsome, ?_⟩
  · intro e he
    obtain ⟨h1, h2⟩ := hids e he
    refine ⟨⟨_, List.getElem?_eq_getElem h1⟩, ⟨_, List.getElem?_eq_getElem h2⟩, ?_⟩
    intro hl
    exact ⟨_, List.getElem?_eq_getElem (hloot _ hl)⟩
  · unfold GameSession.HandleCollisions
    rw [ht]
    exact hsome

end model

/-! ## Theorems: AddDog -/

namespace model

open geom

theorem find?_append_fresh (dogs : List Dog) (dog : Dog)
    (h : ∀ d ∈ dogs, d.id_ ≠ dog.id_) :
    (dogs ++ [dog]).find? (fun d => decide (d.id_ = dog.id_)) = some dog := by
  induction dogs with
  | nil => simp
  | cons d rest ih =>
    have hd : d.id_ ≠ dog.id_ := h d (List.mem_cons_self _ _)
    simp only [List.cons_append, List.find?_cons, hd, decide_False]
    exact ih (fun x hx => h x (List.mem_cons_of_mem _ hx))

/-- C39, as stated, fails: `AddDog` is not atomic on failure. "Dog already exists" is raised
if and only if the id of the dog is in the id index, and then the id index is as before;
with a fresh id the dog is appended at the end of the list, its id to the index, and
`GetDogById` returns it. But the dog is put into the list before the index is tried: after
the failure the list of dogs (`GetDogs`) is one dog longer than before the call. In
`crossingSession` (dogs 0 "Rex" and 1 "Tuzik") adding a dog "Twin" with the id 0 fails and
leaves the three dogs "Rex", "Tuzik", "Twin" in the list, while `GetDogById(0)` is still
"Rex". -/
theorem AddDog_keeps_the_dog_on_failure :
    (∀ (s : GameSession) (dog : Dog),
      ((s.AddDog dog).2 = false ↔ dog.id_ ∈ s.dog_id_to_dog_)) ∧
    (∀ (s : GameSession) (dog : Dog), dog.id_ ∈ s.dog_id_to_dog_ →
      (s.AddDog dog).1.dog_id_to_dog_ = s.dog_id_to_dog_ ∧
      (s.AddDog dog).1.dogs_ = s.dogs_ ++ [dog] ∧
      (s.AddDog dog).1.dogs_.length = s.dogs_.length + 1 ∧
      (s.AddDog dog).1.dogs_ ≠ s.dogs_) ∧
    (∀ (s : GameSession) (dog : Dog), dog.id_ ∉ s.dog_id_to_dog_ →
      (s.AddDog dog).2 = true ∧
      (s.AddDog dog).1.dogs_ = s.dogs_ ++ [dog] ∧
      (s.AddDog dog).1.dog_id_to_dog_ = s.dog_id_to_dog_ ++ [dog.id_] ∧
      ((∀ d ∈ s.dogs_, d.id_ ∈ s.dog_id_to_dog_) →
        (s.AddDog dog).1.GetDogById dog.id_ = some dog)) ∧
    (crossingSession.AddDog (marketDog 0 "Twin" 5 Direction.EAST)).2 = false ∧
    crossingSession.dogs_.map (fun d => d.name_) = ["Rex", "Tuzik"] ∧
    (crossingSession.AddDog (marketDog 0 "Twin" 5 Direction.EAST)).1.dogs_.map
      (fun d => d.name_) = ["Rex", "Tuzik", "Twin"] ∧
    ((crossingSession.AddDog (marketDog 0 "Twin" 5 Direction.EAST)).1.GetDogById 0).map
      (fun d => d.name_) = some "Rex" := by
  refine ⟨?_, ?_, ?_, by decide!, by decide!, by decide!, by decide!⟩
  · intro s dog
    unfold GameSession.AddDog
    by_cases h : dog.id_ ∈ s.dog_id_to_dog_ <;> simp [h]
  · intro s dog h
    have hres : s.AddDog dog = ({ s with dogs_ := s.dogs_ ++ [dog] }, false) := by
      unfold GameSession.AddDog
      rw [if_pos h]
    rw [hres]
    refine ⟨rfl, rfl, by simp, ?_⟩
    intro hc
    have := congrArg List.length hc
    simp at this
  · intro s dog h
    have hres : s.AddDog dog =
        ({ s with dogs_ := s.dogs_ ++ [dog],
                  dog_id_to_dog_ := s.dog_id_to_dog_ ++ [dog.id_] }, true) := by
      unfold GameSession.AddDog
      rw [if_neg h]
    rw [hres]
    refine ⟨rfl, rfl, rfl, ?_⟩
    intro hall
    unfold GameSession.GetDogById
    simp only [List.mem_append, List.mem_singleton, or_true, if_true]
    exact find?_append_fresh s.dogs_ dog (fun d hd hc => h (hc ▸ hall d hd))

end model
/-! ## Theorems: the routing of the game endpoints -/

namespace http_handler

theorem HandleGameRequest_eq_none_iff (version : String) (req_tokens : List String) :
    HandleGameRequest version req_tokens = none ↔
      version = ApiTokens.V1 ∧ req_tokens = [ApiTokens.PLAYER] := by
  unfold HandleGameRequest
  by_cases hv : version = ApiTokens.V1
  · simp only [hv, ne_eq, not_true_eq_false, if_false, true_and]
    cases req_tokens with
    | nil => simp
    | cons api_token rest =>
      simp only [List.isEmpty_cons, Bool.false_eq_true, if_false, frontPop]
      by_cases h1 : api_token = ApiTokens.JOIN ∧ rest.isEmpty = true
      · have hp : api_token ≠ ApiTokens.PLAYER := by
          rw [h1.1]; decide
        rw [if_pos h1]
        exact ⟨fun h => (by cases h), fun h => absurd (List.cons.inj h).1 hp⟩
      · by_cases h2 : api_token = ApiTokens.PLAYERS ∧ rest.isEmpty = true
        · have hp : api_token ≠ ApiTokens.PLAYER := by
            rw [h2.1]; decide
          rw [if_neg h1, if_pos h2]
          exact ⟨fun h => (by cases h), fun h => absurd (List.cons.inj h).1 hp⟩
        · by_cases h3 : api_token = ApiTokens.STATE ∧ rest.isEmpty = true
          · have hp : api_token ≠ ApiTokens.PLAYER := by
              rw [h3.1]; decide
            rw [if_neg h1, if_neg h2, if_pos h3]
            exact ⟨fun h => (by cases h), fun h => absurd (List.cons.inj h).1 hp⟩
          · rw [if_neg h1, if_neg h2, if_neg h3]
            by_cases h4 : api_token = ApiTokens.PLAYER
            · rw [if_pos h4]
              cases rest with
              | nil =>
                rw [h4]
                exact ⟨fun _ => rfl, fun _ => rfl⟩
              | cons next rest2 =>
                simp only [frontPop]
                constructor
                · intro h
                  split at h <;> cases h
                · intro h
                  cases (List.cons.inj h).2
            · rw [if_neg h4]
              exact ⟨fun h => (by cases h), fun h => absurd (List.cons.inj h).1 h4⟩
  · simp [hv]

/-- C40, as stated, fails: the routing of the game endpoints is not total. For the path
`/api/v1/game/player` the token queue holds `player` alone when `HandleGameRequest` is
entered; the branch of `ApiTokens::PLAYER` calls `front()` and `pop()` on the queue it has
just emptied, without the test of `empty()` that guards every other `front()`. This is the
only token sequence for which an empty queue is read: for every other one, and for every
version, `HandleGameRequest` passes the request to a handler or returns `BadRequest`. -/
theorem HandleGameRequest_reads_empty_queue_after_player :
    SplitIntoTokens "/api/v1/game/player" '/' = ["api", "v1", "game", "player"] ∧
    HandleGameRequest "v1" ["player"] = none ∧
    (∀ (version : String) (req_tokens : List String),
      HandleGameRequest version req_tokens = none ↔
        version = ApiTokens.V1 ∧ req_tokens = [ApiTokens.PLAYER]) ∧
    (∀ (version : String) (req_tokens : List String), req_tokens ≠ [ApiTokens.PLAYER] →
      (HandleGameRequest version req_tokens).isSome = true) ∧
    HandleGameRequest "v1" [] = some GameEndpoint.BadRequest ∧
    HandleGameRequest "v2" ["player"] = some GameEndpoint.BadRequest ∧
    HandleGameRequest "v1" ["join"] = some GameEndpoint.PlayerJoin ∧
    HandleGameRequest "v1" ["players"] = some GameEndpoint.Players ∧
    HandleGameRequest "v1" ["state"] = some GameEndpoint.GameState ∧
    HandleGameRequest "v1" ["player", "action"] = some GameEndpoint.PlayerAction ∧
    HandleGameRequest "v1" ["player", "action", "x"] = some GameEndpoint.BadRequest ∧
    HandleGameRequest "v1" ["tick"] = some GameEndpoint.Tick ∧
    HandleGameRequest "v1" ["records?start=0"] =
      some (GameEndpoint.Records "records?start=0") ∧
    SplitIntoTokens "//api/v1//game/player/action/" '/' =
      ["api", "v1", "game", "player", "action"] := by
  refine ⟨by decide!, by decide!, HandleGameRequest_eq_none_iff, ?_, by decide!, by decide!,
    by decide!, by decide!, by decide!, by decide!, by decide!, by decide!, by decide!,
    by decide!⟩
  intro version req_tokens hne
  rcases Option.eq_none_or_eq_some (HandleGameRequest version req_tokens) with h | ⟨r, h⟩
  · exact absurd ((HandleGameRequest_eq_none_iff version req_tokens).1 h).2 hne
  · rw [h]; rfl

end http_handler

/-! ## Theorems: the steps of a tick, case by case -/

namespace model

open geom collision_detector

/-- What `HandleLootColletc` does: nothing, or the object stored under the id goes from
the two loot maps into the bag of the dog at position `g`, which had room for it. -/
theorem HandleLootColletc_cases (s : GameSession) (g id : ℕ) :
    s.HandleLootColletc g id = s ∨
    ∃ dog obj, s.dogs_[g]? = some dog ∧ dog.bagpack_.length < s.map_.bag_capacity_ ∧
      umap.find s.loot_obj_id_to_obj_ id = some obj ∧
      s.HandleLootColletc g id =
        { s with loot_obj_id_to_obj_ := umap.erase s.loot_obj_id_to_obj_ id,
                 loot_obj_id_to_coords_ := umap.erase s.loot_obj_id_to_coords_ id,
                 dogs_ := s.dogs_.set g (dog.AddLootObjectToBagpack obj) } := by
  rcases Option.eq_none_or_eq_some (s.dogs_[g]?) with hg | ⟨dog, hg⟩
  · left
    unfold GameSession.HandleLootColletc
    simp only [hg]
  · by_cases hcap : s.map_.bag_capacity_ ≤ dog.bagpack_.length
    · left
      exact (HandleLootColletc_spec s g id dog hg).2.2 (Or.inl hcap)
    · rcases Option.eq_none_or_eq_some (umap.find s.loot_obj_id_to_obj_ id) with ho | ⟨obj, ho⟩
      · left
        exact (HandleLootColletc_spec s g id dog hg).2.2 (Or.inr ho)
      · right
        refine ⟨dog, obj, hg, not_le.1 hcap, ho, ?_⟩
        unfold GameSession.HandleLootColletc
        simp only [hg, Dog.LootCountInBagpack, Map.GetDogBagCapacity, ge_iff_le, hcap, if_false,
          GameSession.ExtractLootObject, ho]

/-- What `HandleLootDrop` does: nothing, or the dog at position `g` drops its bag. -/
theorem HandleLootDrop_cases (s : GameSession) (g : ℕ) :
    s.HandleLootDrop g = s ∨
    ∃ dog, s.dogs_[g]? = some dog ∧
      s.HandleLootDrop g = { s with dogs_ := s.dogs_.set g dog.DropBagpackContent } := by
  rcases Option.eq_none_or_eq_some (s.dogs_[g]?) with hg | ⟨dog, hg⟩
  · left
    unfold GameSession.HandleLootDrop
    simp only [hg]
  · right
    refine ⟨dog, hg, ?_⟩
    unfold GameSession.HandleLootDrop
    simp only [hg]

theorem handleEvent_cases (s s' : GameSession) (t : CollisionTables) (event : GatheringEvent)
    (h : s.handleEvent t event = some s') :
    (∃ g id, s' = s.HandleLootColletc g id) ∨ (∃ g, s' = s.HandleLootDrop g) := by
  unfold GameSession.handleEvent at h
  split at h
  · cases h
  · split at h
    · cases h; exact Or.inl ⟨_, _, rfl⟩
    · cases h
  · split at h
    · cases h; exact Or.inr ⟨_, rfl⟩
    · cases h

/-- A property of sessions that a pickup and a drop preserve holds after the loop of
`HandleCollisions` over the events. -/
theorem handleEvents_induction (P : GameSession → Prop)
    (hcollect : ∀ (s : GameSession) (g id : ℕ) (dog : Dog) (obj : LootObject), P s →
      s.dogs_[g]? = some dog → dog.bagpack_.length < s.map_.bag_capacity_ →
      umap.find s.loot_obj_id_to_obj_ id = some obj →
      P { s with loot_obj_id_to_obj_ := umap.erase s.loot_obj_id_to_obj_ id,
                 loot_obj_id_to_coords_ := umap.erase s.loot_obj_id_to_coords_ id,
                 dogs_ := s.dogs_.set g (dog.AddLootObjectToBagpack obj) })
    (hdrop : ∀ (s : GameSession) (g : ℕ) (dog : Dog), P s → s.dogs_[g]? = some dog →
      P { s with dogs_ := s.dogs_.set g dog.DropBagpackContent })
    (t : CollisionTables) (events : List GatheringEvent) (s s' : GameSession)
    (h : s.handleEvents t events = some s') (hP : P s) : P s' := by
  induction events generalizing s with
  | nil =>
    simp only [GameSession.handleEvents, Option.some.injEq] at h
    rw [← h]; exact hP
  | cons event rest ih =>
    unfold GameSession.handleEvents at h
    cases he : s.handleEvent t event with
    | none => simp [he] at h
    | some s1 =>
      simp only [he] at h
      refine ih s1 h ?_
      rcases handleEvent_cases s s1 t event he with ⟨g, id, e⟩ | ⟨g, e⟩
      · rcases HandleLootColletc_cases s g id with e1 | ⟨dog, obj, hg, hcap, ho, e1⟩
        · rw [e, e1]; exact hP
        · rw [e, e1]; exact hcollect s g id dog obj hP hg hcap ho
      · rcases HandleLootDrop_cases s g with e1 | ⟨dog, hg, e1⟩
        · rw [e, e1]; exact hP
        · rw [e, e1]; exact hdrop s g dog hP hg

theorem HandleCollisions_induction (P : GameSession → Prop)
    (hcollect : ∀ (s : GameSession) (g id : ℕ) (dog : Dog) (obj : LootObject), P s →
      s.dogs_[g]? = some dog → dog.bagpack_.length < s.map_.bag_capacity_ →
      umap.find s.loot_obj_id_to_obj_ id = some obj →
      P { s with loot_obj_id_to_obj_ := umap.erase s.loot_obj_id_to_obj_ id,
                 loot_obj_id_to_coords_ := umap.erase s.loot_obj_id_to_coords_ id,
                 dogs_ := s.dogs_.set g (dog.AddLootObjectToBagpack obj) })
    (hdrop : ∀ (s : GameSession) (g : ℕ) (dog : Dog), P s → s.dogs_[g]? = some dog →
      P { s with dogs_ := s.dogs_.set g dog.DropBagpackContent })
    (s s' : GameSession) (h : s.HandleCollisions = some s') (hP : P s) : P s' := by
  unfold GameSession.HandleCollisions at h
  cases ht : s.collisionTables with
  | none => simp [ht] at h
  | some t =>
    simp only [ht] at h
    exact handleEvents_induction P hcollect hdrop t _ s s' h hP

/-- What a returning `SpawnLootObject` does: the counter gives the id, which is not on the
map, the object is appended under it and its point assigned. -/
theorem SpawnLootObject_cases (s s' : GameSession) (d : SpawnDraw)
    (h : s.SpawnLootObject d = some s') :
    ∃ worth pt, s.map_.GetLootWorth d.type = some worth ∧
      s.objects_spawned_ ∉ s.loot_obj_id_to_obj_.map Prod.fst ∧
      s' = { s with
        objects_spawned_ := s.objects_spawned_ + 1,
        loot_obj_id_to_obj_ := s.loot_obj_id_to_obj_ ++
          [(s.objects_spawned_, ⟨s.objects_spawned_, d.type, worth⟩)],
        loot_obj_id_to_coords_ :=
          umap.assign s.loot_obj_id_to_coords_ s.objects_spawned_ pt } := by
  unfold GameSession.SpawnLootObject at h
  simp only at h
  rcases Option.eq_none_or_eq_some (s.map_.GetLootWorth d.type) with hw | ⟨worth, hw⟩
  · simp [hw] at h
  · simp only [hw] at h
    by_cases hin : s.objects_spawned_ ∈ s.loot_obj_id_to_obj_.map Prod.fst
    · have hc : umap.contains s.loot_obj_id_to_obj_ s.objects_spawned_ = true := by
        by_contra hc
        exact (umap.contains_eq_false_iff _ _).1 (by simpa using hc) hin
      simp [umap.emplace, hc] at h
    · rw [umap.emplace_of_not_mem _ _ _ hin] at h
      simp only at h
      split at h
      · cases h
      · rename_i pt hpt
        cases h
        exact ⟨worth, pt, hw, hin, rfl⟩

/-- A property of sessions that each spawned object preserves, and that does not read the
state of the loot generator, holds after `SpawnLoot`. -/
theorem SpawnLoot_induction (P : GameSession → Prop)
    (hgen : ∀ (s : GameSession) (gen : loot_gen.LootGenerator), P s →
      P { s with loot_generator_ := gen })
    (hspawn : ∀ (s : GameSession) (type worth : ℕ) (pt : PointDouble), P s →
      s.map_.GetLootWorth type = some worth →
      s.objects_spawned_ ∉ s.loot_obj_id_to_obj_.map Prod.fst →
      P { s with
        objects_spawned_ := s.objects_spawned_ + 1,
        loot_obj_id_to_obj_ := s.loot_obj_id_to_obj_ ++
          [(s.objects_spawned_, ⟨s.objects_spawned_, type, worth⟩)],
        loot_obj_id_to_coords_ :=
          umap.assign s.loot_obj_id_to_coords_ s.objects_spawned_ pt })
    (s s' : GameSession) (tick : ℕ) (draw : ℕ → ℚ) (spawn : ℕ → SpawnDraw)
    (h : s.SpawnLoot tick draw spawn = some s') (hP : P s) : P s' := by
  have hloop : ∀ (n k : ℕ) (s0 : GameSession),
      GameSession.spawnObjects spawn n k s0 = some s' → P s0 → P s' := by
    intro n
    induction n with
    | zero =>
      intro k s0 h0 hP0
      simp only [GameSession.spawnObjects, Option.some.injEq] at h0
      rw [← h0]; exact hP0
    | succ n ih =>
      intro k s0 h0 hP0
      unfold GameSession.spawnObjects at h0
      cases hs : s0.SpawnLootObject (spawn k) with
      | none => simp [hs] at h0
      | some s1 =>
        simp only [hs] at h0
        obtain ⟨worth, pt, hw, hin, e⟩ := SpawnLootObject_cases s0 s1 _ hs
        refine ih (k + 1) s1 h0 ?_
        rw [e]
        exact hspawn s0 _ worth pt hP0 hw hin
  unfold GameSession.SpawnLoot at h
  split at h
  · cases h
  · rename_i n gen hg
    exact hloop n 0 _ h (hgen s gen hP)

theorem retireLoop_index_subset (b : Bool) (m : String) (ids index : List ℕ) (dogs : List Dog)
    (index' : List ℕ) (dogs' : List Dog) (calls : List (ℕ × String))
    (h : retireLoop b m ids index dogs = some (index', dogs', calls)) :
    ∀ i ∈ index', i ∈ index := by
  induction ids generalizing index dogs index' dogs' calls with
  | nil =>
    simp only [retireLoop, Option.some.injEq, Prod.mk.injEq] at h
    rw [← h.1]
    exact fun _ hi => hi
  | cons id rest ih =>
    unfold retireLoop at h
    split at h
    · cases h
    · split at h
      · cases h
      · split at h
        · cases h
        · rename_i i2 d2 c2 heq
          simp only [Option.some.injEq, Prod.mk.injEq] at h
          rw [← h.1]
          intro i hi
          exact List.mem_of_mem_erase (ih _ _ _ _ _ heq i hi)

/-- The motion and retirement phases leave the loot and the two id counters as they are;
the dogs that remain are moved dogs of the session and their ids stay in the index. -/
theorem moveAndRetire_frame (s s1 : GameSession) (tick : ℕ) (calls : List (ℕ × String))
    (h : s.moveAndRetire tick = some (s1, calls)) :
    s1.dogs_join_ = s.dogs_join_ ∧ s1.objects_spawned_ = s.objects_spawned_ ∧
    s1.loot_obj_id_to_obj_ = s.loot_obj_id_to_obj_ ∧
    s1.loot_obj_id_to_coords_ = s.loot_obj_id_to_coords_ ∧ s1.map_ = s.map_ ∧
    (∀ i ∈ s1.dog_id_to_dog_, i ∈ s.dog_id_to_dog_) ∧
    ∃ moved, List.Forall₂ (fun d d' => s.Move d tick = some d') s.dogs_ moved ∧
      s1.dogs_.Sublist moved := by
  unfold GameSession.moveAndRetire at h
  cases hm : s.moveDogs tick s.dogs_ with
  | none => simp [hm] at h
  | some pr =>
    obtain ⟨moved, retire⟩ := pr
    simp only [hm] at h
    unfold GameSession.RetireDogs at h
    simp only at h
    split at h
    · cases h
    · rename_i index dogs' calls' heq
      simp only [Option.some.injEq, Prod.mk.injEq] at h
      obtain ⟨h1, _⟩ := h
      subst h1
      exact ⟨rfl, rfl, rfl, rfl, rfl, retireLoop_index_subset _ _ _ _ _ _ _ _ heq, moved,
        (moveDogs_spec s tick _ _ _ hm).1, retireLoop_sublist _ _ _ _ _ _ _ _ heq⟩

end model

/-! ## Theorems: the allocation of dog ids -/

namespace model

open geom collision_detector

/-- A tick leaves the allocator of dog ids as it is and brings no new dog id into the
session. -/
theorem OnTick_dog_ids (s s' : GameSession) (tick : ℕ) (draw : ℕ → ℚ) (spawn : ℕ → SpawnDraw)
    (calls : List (ℕ × String)) (h : s.OnTick tick draw spawn = some (s', calls)) :
    s'.dogs_join_ = s.dogs_join_ ∧ (∀ i ∈ s'.dog_id_to_dog_, i ∈ s.dog_id_to_dog_) ∧
    (∀ d' ∈ s'.dogs_, ∃ d ∈ s.dogs_, d'.id_ = d.id_) := by
  obtain ⟨s1, s2, h1, h2, h3⟩ := OnTick_cases s s' tick draw spawn calls h
  obtain ⟨j1, _, _, _, _, i1, moved, hf, hsub⟩ := moveAndRetire_frame s s1 tick calls h1
  obtain ⟨_, _, i2, f2⟩ := HandleCollisions_keeps (fun d => d.id_) (fun _ _ => rfl)
    (fun _ => rfl) s1 s2 h2
  have j2 : s2.dogs_join_ = s1.dogs_join_ :=
    HandleCollisions_induction (fun x => x.dogs_join_ = s1.dogs_join_)
      (fun _ _ _ _ _ hP _ _ _ => hP) (fun _ _ _ hP _ => hP) s1 s2 h2 rfl
  have j3 : s'.dogs_join_ = s2.dogs_join_ :=
    SpawnLoot_induction (fun x => x.dogs_join_ = s2.dogs_join_)
      (fun _ _ hP => hP) (fun _ _ _ _ hP _ _ => hP) s2 s' tick draw spawn h3 rfl
  obtain ⟨d3, _, _, i3⟩ := SpawnLoot_frame s2 s' tick draw spawn h3
  refine ⟨j3.trans (j2.trans j1), ?_, ?_⟩
  · intro i hi
    rw [i3, i2] at hi
    exact i1 i hi
  · intro d' hd'
    rw [d3] at hd'
    have hmem : d'.id_ ∈ s2.dogs_.map (fun d => d.id_) := List.mem_map.2 ⟨d', hd', rfl⟩
    rw [f2] at hmem
    obtain ⟨d1, hd1, e1⟩ := List.mem_map.1 hmem
    obtain ⟨d, hd, hmove⟩ := forall₂_mem_right _ _ _ hf d1 (hsub.subset hd1)
    exact ⟨d, hd, e1.symm.trans (Move_keeps_id s d d1 tick hmove)⟩

theorem OnTick_below (s s' : GameSession) (tick : ℕ) (draw : ℕ → ℚ) (spawn : ℕ → SpawnDraw)
    (calls : List (ℕ × String)) (h : s.OnTick tick draw spawn = some (s', calls))
    (hbelow : s.DogIdsBelowCounter) : s'.DogIdsBelowCounter := by
  obtain ⟨j, hi, hd⟩ := OnTick_dog_ids s s' tick draw spawn calls h
  constructor
  · intro i hi'
    rw [j]
    exact hbelow.1 i (hi i hi')
  · intro d' hd'
    obtain ⟨d, hd0, e⟩ := hd d' hd'
    rw [j, e]
    exact hbelow.2 d hd0

/-- The ids given by a sequence of joins and ticks: consecutive from the value of the
allocator on. -/
theorem runSession_ids (calls : List SessionCall) (s s' : GameSession) (ids : List ℕ)
    (h : runSession s calls = some (s', ids)) :
    ids = List.range' s.dogs_join_ ids.length ∧
    s'.dogs_join_ = s.dogs_join_ + ids.length ∧
    (s.DogIdsBelowCounter → s'.DogIdsBelowCounter) := by
  induction calls generalizing s ids with
  | nil =>
    simp only [runSession, Option.some.injEq, Prod.mk.injEq] at h
    rw [← h.1, ← h.2]
    exact ⟨rfl, rfl, fun hb => hb⟩
  | cons call rest ih =>
    cases call with
    | join name d =>
      rw [runSession] at h
      rcases Option.eq_none_or_eq_some (s.NewDog name d) with hn | ⟨⟨s1, id⟩, hn⟩
      · simp [hn] at h
      · simp only [hn] at h
        rcases Option.eq_none_or_eq_some (runSession s1 rest) with hr | ⟨⟨s2, ids2⟩, hr⟩
        · simp [hr] at h
        · simp only [hr, Option.some.injEq, Prod.mk.injEq] at h
          obtain ⟨hs2, hids⟩ := h
          subst hs2
          subst hids
          obtain ⟨hid, _, hj, _⟩ := NewDog_some s s1 name d id hn
          obtain ⟨e1, e2, e3⟩ := ih s1 ids2 hr
          refine ⟨?_, ?_, fun hb => e3 (NewDog_below s s1 name d id hn hb)⟩
          · rw [List.length_cons, List.range'_succ, hid, ← hj]
            exact congrArg _ e1
          · rw [e2, hj, List.length_cons]; omega
    | tick dt draw spawn =>
      rw [runSession] at h
      rcases Option.eq_none_or_eq_some (s.OnTick dt draw spawn) with ht | ⟨⟨s1, calls1⟩, ht⟩
      · simp [ht] at h
      · simp only [ht] at h
        obtain ⟨e1, e2, e3⟩ := ih s1 ids h
        obtain ⟨j, _, _⟩ := OnTick_dog_ids s s1 dt draw spawn calls1 ht
        rw [j] at e1 e2
        exact ⟨e1, e2, fun hb => e3 (OnTick_below s s1 dt draw spawn calls1 ht hb)⟩

/-- C34: dog ids are allocated monotonically and never reused. `NewDog` gives the new dog
the value `dogs_join_` had before the call and raises `dogs_join_` by one; the dog is
appended with that id and the name, and with spawn randomisation off it stands at the start
point of the first road of the map; `NewDog` returns when the map has a road and every dog
id of the session is below `dogs_join_`. Over any sequence of joins and ticks on a session
the ids of the successive joins are `k, k+1, ...` from the value `k` of the allocator at
the start, so they are strictly increasing; every dog id in the session stays below the
allocator; so an id that a dog of the session has, or had before it was retired, is below
every id given later. In the session `lootSession0` with a retirement time of 1000 ms: a
dog joins with id 0, a tick of 5000 ms retires it, the next dog gets id 1. -/
theorem dog_ids_never_reused :
    (∀ (s s' : GameSession) (name : String) (d : SpawnDraw) (id : ℕ),
      s.NewDog name d = some (s', id) →
      id = s.dogs_join_ ∧ s'.dogs_join_ = s.dogs_join_ + 1 ∧
      ∃ dog, s'.dogs_ = s.dogs_ ++ [dog] ∧ dog.id_ = id ∧ dog.name_ = name ∧
        (s.random_spawn_ = false → ∃ road, s.map_.roads_.head? = some road ∧
          dog.coords_ = { x := (road.GetStart.x : ℚ), y := (road.GetStart.y : ℚ) })) ∧
    (∀ (s : GameSession) (name : String) (d : SpawnDraw), s.map_.roads_ ≠ [] →
      s.DogIdsBelowCounter → ∃ s', s.NewDog name d = some (s', s.dogs_join_)) ∧
    (∀ (s s' : GameSession) (calls : List SessionCall) (ids : List ℕ),
      runSession s calls = some (s', ids) →
      ids = List.range' s.dogs_join_ ids.length ∧
      ids.Pairwise (fun a b => a < b) ∧
      s'.dogs_join_ = s.dogs_join_ + ids.length ∧
      (∀ id ∈ ids, s.dogs_join_ ≤ id ∧ id < s'.dogs_join_) ∧
      (s.DogIdsBelowCounter →
        s'.DogIdsBelowCounter ∧ ∀ id ∈ ids, ∀ dog ∈ s.dogs_, dog.id_ < id)) ∧
    (runSession (lootSession0 1000 true)
      [SessionCall.join "a" (originSpawn 0), SessionCall.tick 5000 quietDraw originSpawn,
       SessionCall.join "b" (originSpawn 0)]).map
      (fun r => (r.2, r.1.dogs_.map (fun dog => (dog.id_, dog.name_, dog.coords_)))) =
      some ([0, 1], [(1, "b", ⟨0, 0⟩)]) := by
  refine ⟨?_, NewDog_isSome, ?_, by decide!⟩
  · intro s s' name d id h
    obtain ⟨hid, _, hj, hidx, hfresh, _⟩ := NewDog_some s s' name d id h
    refine ⟨hid, hj, ?_⟩
    unfold GameSession.NewDog at h
    simp only at h
    split at h
    · cases h
    · rename_i pt hpt
      have hadd : GameSession.AddDog { s with dogs_join_ := s.dogs_join_ + 1 }
          (Dog.mk_ s.dogs_join_ name pt Direction.NORTH { x := 0, y := 0 }) =
          ({ s with dogs_join_ := s.dogs_join_ + 1,
                    dogs_ := s.dogs_ ++
                      [Dog.mk_ s.dogs_join_ name pt Direction.NORTH { x := 0, y := 0 }],
                    dog_id_to_dog_ := s.dog_id_to_dog_ ++ [s.dogs_join_] }, true) := by
        unfold GameSession.AddDog
        simp [Dog.mk_, hfresh]
      rw [hadd] at h
      simp only [Option.some.injEq, Prod.mk.injEq] at h
      obtain ⟨e1, e2⟩ := h
      subst e1
      refine ⟨_, rfl, by rw [← e2]; rfl, rfl, ?_⟩
      · intro hrs
        unfold GameSession.GetDogSpawnPoint at hpt
        simp only [hrs, Bool.false_eq_true, if_false] at hpt
        cases hr : s.map_.roads_ with
        | nil => simp [hr] at hpt
        | cons road rest =>
          simp only [hr, Option.some.injEq] at hpt
          exact ⟨road, rfl, by rw [← hpt]; rfl⟩
  · intro s s' calls ids h
    obtain ⟨e1, e2, e3⟩ := runSession_ids calls s s' ids h
    have hmem : ∀ id ∈ ids, s.dogs_join_ ≤ id ∧ id < s'.dogs_join_ := by
      intro id hid
      rw [e1] at hid
      have := List.mem_range'_1.1 hid
      rw [e2]
      exact this
    refine ⟨e1, ?_, e2, hmem, ?_⟩
    · rw [e1]
      exact List.pairwise_lt_range' _ _
    · intro hb
      refine ⟨e3 hb, ?_⟩
      intro id hid dog hdog
      exact lt_of_lt_of_le (hb.2 dog hdog) (hmem id hid).1

end model

/-! ## Theorems: lazy session creation -/

namespace model

open geom

theorem GetGameSessionByMapId_stored (g : Game) (id : String) (s0 : GameSession)
    (h : umap.find g.map_id_to_session_ id = some s0) :
    g.GetGameSessionByMapId id = some (g, some s0) := by
  unfold Game.GetGameSessionByMapId
  simp only [h]

/-- The first call of `GetGameSessionByMapId` for a map that has no session yet. -/
theorem GetGameSessionByMapId_first (g : Game) (id : String) (map : Map)
    (hmap : g.FindMap id = some map) (hnone : umap.find g.map_id_to_session_ id = none) :
    ∃ g' session, g.GetGameSessionByMapId id = some (g', some session) ∧
      session = GameSession.new map g.last_session_index_ g.random_spawn_
        g.loot_generator_period_ g.loot_generator_probability_ g.dog_retirement_time_
        g.do_on_retire_ 0 0 ∧
      g'.last_session_index_ = g.last_session_index_ + 1 ∧
      g'.map_id_to_session_ = g.map_id_to_session_ ++ [(id, session)] ∧
      umap.find g'.map_id_to_session_ id = some session := by
  unfold Game.FindMap at hmap
  rcases Option.eq_none_or_eq_some (umap.find g.map_id_to_index_ id) with hi | ⟨index, hi⟩
  · simp [hi] at hmap
  · simp only [hi] at hmap
    have hnot : id ∉ g.map_id_to_session_.map Prod.fst := (umap.find_eq_none_iff _ _).1 hnone
    have hcall : g.GetGameSessionByMapId id = some
        ({ g with
            last_session_index_ := g.last_session_index_ + 1,
            map_id_to_session_ := g.map_id_to_session_ ++
              [(id, GameSession.new map g.last_session_index_ g.random_spawn_
                g.loot_generator_period_ g.loot_generator_probability_
                g.dog_retirement_time_ g.do_on_retire_ 0 0)] },
         some (GameSession.new map g.last_session_index_ g.random_spawn_
            g.loot_generator_period_ g.loot_generator_probability_ g.dog_retirement_time_
            g.do_on_retire_ 0 0)) := by
      unfold Game.GetGameSessionByMapId
      simp only [hnone, hi, hmap, umap.emplace_of_not_mem _ _ _ hnot]
    refine ⟨_, _, hcall, rfl, rfl, rfl, ?_⟩
    simp only
    rw [umap.find_append_of_left_none _ _ _ hnone]
    simp [umap.find]

/-- C35: lazy session creation is idempotent. On a game whose map index points into its
maps, `GetGameSessionByMapId(id)` returns, and it returns no session if and only if no
map with that id was added (the id is not in the map index, which `AddMap` alone writes),
the game being unchanged then. The first call for a known map creates the session of the
map, without dogs or loot, under the next session id, which it consumes; every later call
for the map returns the session stored under the id, with its session id, dogs and loot,
and leaves the game, `last_session_index_` included, as it is. In `twoMapGame` the first
call for "market" creates session 0, the second returns it again, and the next session
id is still 1. -/
theorem lazy_session_creation_idempotent :
    (∀ (g : Game) (id : String), g.WellFormed →
      ∃ g' r, g.GetGameSessionByMapId id = some (g', r) ∧
        (r = none ↔ umap.find g.map_id_to_index_ id = none) ∧
        (r = none ↔ g.FindMap id = none) ∧ (r = none → g' = g)) ∧
    (∀ (g g' : Game) (map : Map), g.AddMap map = some g' →
      umap.find g.map_id_to_index_ map.id_ = none ∧
      umap.find g'.map_id_to_index_ map.id_ = some g.maps_.length ∧
      g'.maps_ = g.maps_ ++ [map] ∧ g'.FindMap map.id_ = some map) ∧
    (∀ (g : Game) (id : String) (map : Map), g.FindMap id = some map →
      umap.find g.map_id_to_session_ id = none →
      ∃ g' session, g.GetGameSessionByMapId id = some (g', some session) ∧
        session.map_ = map ∧ session.id_ = g.last_session_index_ ∧
        session.dogs_ = [] ∧ session.loot_obj_id_to_obj_ = [] ∧
        session.loot_obj_id_to_coords_ = [] ∧
        g'.last_session_index_ = g.last_session_index_ + 1 ∧
        umap.find g'.map_id_to_session_ id = some session ∧
        g'.GetGameSessionByMapId id = some (g', some session)) ∧
    (∀ (g : Game) (id : String) (session : GameSession),
      umap.find g.map_id_to_session_ id = some session →
      g.GetGameSessionByMapId id = some (g, some session)) ∧
    (twoMapGame.GetGameSessionByMapId "market").map
      (fun r => (r.1.last_session_index_, r.1.sessionIds, r.2.map (fun s => s.id_))) =
      some (1, [("market", 0)], some 0) ∧
    ((twoMapGame.GetGameSessionByMapId "market").bind
      (fun r => r.1.GetGameSessionByMapId "market")) =
      twoMapGame.GetGameSessionByMapId "market" ∧
    twoMapGame.GetGameSessionByMapId "nowhere" = some (twoMapGame, none) := by
  refine ⟨?_, ?_, ?_, GetGameSessionByMapId_stored, by decide!, by decide!, by decide!⟩
  · intro g id hwf
    rcases GetGameSessionByMapId_spec g hwf id with ⟨hf, hg⟩ | ⟨g', session, hg, _, hf, _⟩
    · have hidx := FindMap_eq_none g hwf id hf
      exact ⟨g, none, hg, ⟨fun _ => hidx, fun _ => rfl⟩, ⟨fun _ => hf, fun _ => rfl⟩,
        fun _ => rfl⟩
    · refine ⟨g', some session, hg, ⟨fun h => (by cases h), fun h => ?_⟩,
        ⟨fun h => (by cases h), fun h => ?_⟩, fun h => (by cases h)⟩
      · unfold Game.FindMap at hf
        rw [h] at hf
        cases hf
      · rw [h] at hf
        cases hf
  · intro g g' map h
    unfold Game.AddMap at h
    split at h
    · cases h
    · rename_i index hemp
      obtain ⟨hidx, hnot⟩ := umap.emplace_true _ _ _ _ hemp
      cases h
      have hnone : umap.find g.map_id_to_index_ map.id_ = none :=
        (umap.find_eq_none_iff _ _).2 hnot
      have hfind : umap.find index map.id_ = some g.maps_.length := by
        rw [hidx, umap.find_append_of_left_none _ _ _ hnone]
        simp [umap.find]
      refine ⟨hnone, hfind, rfl, ?_⟩
      unfold Game.FindMap
      simp only [hfind]
      simp
  · intro g id map hmap hnone
    obtain ⟨g', session, hg, hs, hl, _, hf⟩ := GetGameSessionByMapId_first g id map hmap hnone
    refine ⟨g', session, hg, by rw [hs]; rfl, by rw [hs]; rfl, by rw [hs]; rfl,
      by rw [hs]; rfl, by rw [hs]; rfl, hl, hf, GetGameSessionByMapId_stored g' id session hf⟩

end model

/-! ## Theorems: the loot bookkeeping -/

namespace model

open geom collision_detector

theorem bagIds_sublist (l l' : List Dog) (h : l'.Sublist l) : (bagIds l').Sublist (bagIds l) := by
  induction h with
  | slnil => exact List.Sublist.refl _
  | cons a _ ih => exact ih.trans (List.sublist_append_right _ _)
  | cons₂ a _ ih => exact List.Sublist.append (List.Sublist.refl _) ih

theorem bagIds_of_forall₂ (l l' : List Dog)
    (h : List.Forall₂ (fun d d' => d'.bagpack_ = d.bagpack_) l l') : bagIds l' = bagIds l := by
  induction h with
  | nil => rfl
  | cons hab _ ih => simp only [bagIds, hab, ih]

theorem bagIds_set_perm (l : List Dog) (g : ℕ) (dog dog' : Dog) (x : ℕ)
    (hg : l[g]? = some dog)
    (h : (dog'.bagpack_.map (fun obj => obj.id_)).Perm
      (x :: dog.bagpack_.map (fun obj => obj.id_))) :
    (bagIds (l.set g dog')).Perm (x :: bagIds l) := by
  induction l generalizing g with
  | nil => simp at hg
  | cons a rest ih =>
    cases g with
    | zero =>
      simp only [List.getElem?_cons_zero, Option.some.injEq] at hg
      subst hg
      simp only [List.set_cons_zero, bagIds]
      exact (List.Perm.append_right _ h)
    | succ g =>
      simp only [List.getElem?_cons_succ] at hg
      simp only [List.set_cons_succ, bagIds]
      exact (List.Perm.append_left _ (ih g hg)).trans List.perm_middle

theorem bagIds_set_sublist (l : List Dog) (g : ℕ) (dog dog' : Dog) (hg : l[g]? = some dog)
    (h : dog'.bagpack_ = []) : (bagIds (l.set g dog')).Sublist (bagIds l) := by
  induction l generalizing g with
  | nil => simp at hg
  | cons a rest ih =>
    cases g with
    | zero =>
      simp only [List.set_cons_zero, bagIds, h, List.map_nil, List.nil_append]
      exact List.sublist_append_right _ _
    | succ g =>
      simp only [List.getElem?_cons_succ] at hg
      simp only [List.set_cons_succ, bagIds]
      exact List.Sublist.append (List.Sublist.refl _) (ih g hg)

/-- The two loot maps have the same keys, said key by key. -/
theorem LootBookkeeping_keys (s : GameSession) (h : s.LootBookkeeping) (id : ℕ) :
    (umap.find s.loot_obj_id_to_obj_ id).isSome = (umap.find s.loot_obj_id_to_coords_ id).isSome := by
  obtain ⟨h1, h2, _⟩ := h
  rcases Option.eq_none_or_eq_some (umap.find s.loot_obj_id_to_obj_ id) with ho | ⟨obj, ho⟩
  · rcases Option.eq_none_or_eq_some (umap.find s.loot_obj_id_to_coords_ id) with hc | ⟨pt, hc⟩
    · rw [ho, hc]; rfl
    · have := h2 _ (umap.find_some_mem _ _ _ hc)
      rw [ho] at this
      cases this
  · have := h1 _ (umap.find_some_mem _ _ _ ho)
    rw [ho, Option.isSome_some]
    exact this.symm

/-- The bookkeeping from its parts, with the keys compared key by key. -/
theorem LootBookkeeping_of_keys (s : GameSession)
    (hk : ∀ id, (umap.find s.loot_obj_id_to_obj_ id).isSome =
      (umap.find s.loot_obj_id_to_coords_ id).isSome)
    (hid : ∀ p ∈ s.loot_obj_id_to_obj_, p.2.id_ = p.1) (hn : s.lootIds.Nodup)
    (hb : ∀ id ∈ s.lootIds, id < s.objects_spawned_) : s.LootBookkeeping := by
  refine ⟨?_, ?_, hid, hn, hb⟩
  · intro p hp
    rw [← hk, umap.find_isSome_iff]
    exact List.mem_map_of_mem Prod.fst hp
  · intro p hp
    rw [hk, umap.find_isSome_iff]
    exact List.mem_map_of_mem Prod.fst hp

theorem keys_erase (m : List (ℕ × LootObject)) (id : ℕ) (hn : (m.map Prod.fst).Nodup) :
    (umap.erase m id).map Prod.fst = (m.map Prod.fst).erase id := by
  rw [List.Nodup.erase_eq_filter hn]
  unfold umap.erase
  induction m with
  | nil => rfl
  | cons kv rest ih =>
    simp only [List.map_cons, List.nodup_cons] at hn
    by_cases h : kv.1 = id
    · simpa [List.filter_cons, h] using ih hn.2
    · simpa [List.filter_cons, h] using ih hn.2

/-- A pickup keeps the bookkeeping: the id goes from the map into a bag. -/
theorem LootBookkeeping_collect (s : GameSession) (g id : ℕ) (dog : Dog) (obj : LootObject)
    (h : s.LootBookkeeping) (hg : s.dogs_[g]? = some dog)
    (ho : umap.find s.loot_obj_id_to_obj_ id = some obj) :
    GameSession.LootBookkeeping
      { s with loot_obj_id_to_obj_ := umap.erase s.loot_obj_id_to_obj_ id,
               loot_obj_id_to_coords_ := umap.erase s.loot_obj_id_to_coords_ id,
               dogs_ := s.dogs_.set g (dog.AddLootObjectToBagpack obj) } := by
  have hkeys := LootBookkeeping_keys s h
  obtain ⟨_, _, hid, hn, hb⟩ := h
  have hmem : (id, obj) ∈ s.loot_obj_id_to_obj_ := umap.find_some_mem _ _ _ ho
  have hobj : obj.id_ = id := hid _ hmem
  have hkn : (s.loot_obj_id_to_obj_.map Prod.fst).Nodup := (List.nodup_append.1 hn).1
  have hperm : (GameSession.lootIds
      { s with loot_obj_id_to_obj_ := umap.erase s.loot_obj_id_to_obj_ id,
               loot_obj_id_to_coords_ := umap.erase s.loot_obj_id_to_coords_ id,
               dogs_ := s.dogs_.set g (dog.AddLootObjectToBagpack obj) }).Perm s.lootIds := by
    unfold GameSession.lootIds
    simp only
    rw [keys_erase _ _ hkn]
    have hb1 : (bagIds (s.dogs_.set g (dog.AddLootObjectToBagpack obj))).Perm
        (id :: bagIds s.dogs_) := by
      apply bagIds_set_perm _ _ dog _ _ hg
      simp only [Dog.AddLootObjectToBagpack, List.map_append, List.map_cons, List.map_nil, hobj]
      exact List.perm_append_singleton _ _
    have hk1 : (s.loot_obj_id_to_obj_.map Prod.fst).Perm
        (id :: (s.loot_obj_id_to_obj_.map Prod.fst).erase id) :=
      List.perm_cons_erase (List.mem_map_of_mem Prod.fst hmem)
    exact ((List.Perm.append_left _ hb1).trans List.perm_middle).trans
      (List.Perm.append_right _ hk1.symm)
  apply LootBookkeeping_of_keys
  · intro k
    simp only
    by_cases hk : k = id
    · rw [hk, umap.find_erase_self, umap.find_erase_self]; rfl
    · rw [umap.find_erase_ne _ _ _ hk, umap.find_erase_ne _ _ _ hk]
      exact hkeys k
  · intro p hp
    exact hid p (List.mem_of_mem_filter hp)
  · exact hperm.nodup_iff.2 hn
  · intro k hk
    exact hb k (hperm.mem_iff.1 hk)

/-- A drop keeps the bookkeeping: the ids of a bag leave the session. -/
theorem LootBookkeeping_drop (s : GameSession) (g : ℕ) (dog : Dog)
    (h : s.LootBookkeeping) (hg : s.dogs_[g]? = some dog) :
    GameSession.LootBookkeeping { s with dogs_ := s.dogs_.set g dog.DropBagpackContent } := by
  obtain ⟨h1, h2, hid, hn, hb⟩ := h
  have hsub : (GameSession.lootIds
      { s with dogs_ := s.dogs_.set g dog.DropBagpackContent }).Sublist s.lootIds := by
    unfold GameSession.lootIds
    exact List.Sublist.append (List.Sublist.refl _) (bagIds_set_sublist _ _ dog _ hg rfl)
  exact ⟨h1, h2, hid, hn.sublist hsub, fun k hk => hb k (hsub.subset hk)⟩

/-- A spawned object keeps the bookkeeping: its id is the counter, above every id. -/
theorem LootBookkeeping_spawn (s : GameSession) (type worth : ℕ) (pt : PointDouble)
    (h : s.LootBookkeeping) :
    GameSession.LootBookkeeping
      { s with
        objects_spawned_ := s.objects_spawned_ + 1,
        loot_obj_id_to_obj_ := s.loot_obj_id_to_obj_ ++
          [(s.objects_spawned_, ⟨s.objects_spawned_, type, worth⟩)],
        loot_obj_id_to_coords_ :=
          umap.assign s.loot_obj_id_to_coords_ s.objects_spawned_ pt } := by
  have hkeys := LootBookkeeping_keys s h
  obtain ⟨_, _, hid, hn, hb⟩ := h
  have hfresh : s.objects_spawned_ ∉ s.lootIds := fun hc => lt_irrefl _ (hb _ hc)
  have hnone : umap.find s.loot_obj_id_to_obj_ s.objects_spawned_ = none := by
    rw [umap.find_eq_none_iff]
    intro hc
    exact hfresh (List.mem_append_left _ hc)
  have hperm : (GameSession.lootIds
      { s with
        objects_spawned_ := s.objects_spawned_ + 1,
        loot_obj_id_to_obj_ := s.loot_obj_id_to_obj_ ++
          [(s.objects_spawned_, ⟨s.objects_spawned_, type, worth⟩)],
        loot_obj_id_to_coords_ :=
          umap.assign s.loot_obj_id_to_coords_ s.objects_spawned_ pt }).Perm
      (s.objects_spawned_ :: s.lootIds) := by
    unfold GameSession.lootIds
    simp only [List.map_append, List.map_cons, List.map_nil, List.append_assoc,
      List.singleton_append]
    exact List.perm_middle
  apply LootBookkeeping_of_keys
  · intro k
    simp only
    rw [umap.find_assign]
    by_cases hk : s.objects_spawned_ = k
    · rw [if_pos hk, ← hk, umap.find_append_of_left_none _ _ _ hnone]
      simp [umap.find]
    · rw [if_neg hk, umap.find_append_of_none]
      · exact hkeys k
      · simp [umap.find, hk]
  · intro p hp
    simp only [List.mem_append, List.mem_singleton] at hp
    rcases hp with hp | hp
    · exact hid p hp
    · rw [hp]
  · exact hperm.nodup_iff.2 (List.nodup_cons.2 ⟨hfresh, hn⟩)
  · intro k hk
    rcases List.mem_cons.1 (hperm.mem_iff.1 hk) with hk | hk
    · simp only; omega
    · have := hb k hk
      simp only; omega

/-- The bookkeeping is kept by a tick. -/
theorem OnTick_LootBookkeeping (s s' : GameSession) (tick : ℕ) (draw : ℕ → ℚ)
    (spawn : ℕ → SpawnDraw) (calls : List (ℕ × String))
    (h : s.OnTick tick draw spawn = some (s', calls)) (hinv : s.LootBookkeeping) :
    s'.LootBookkeeping := by
  obtain ⟨s1, s2, h1, h2, h3⟩ := OnTick_cases s s' tick draw spawn calls h
  obtain ⟨_, c1, o1, k1, _, _, moved, hf, hsub⟩ := moveAndRetire_frame s s1 tick calls h1
  have hinv1 : s1.LootBookkeeping := by
    obtain ⟨a1, a2, hid, hn, hb⟩ := hinv
    have hbags : bagIds moved = bagIds s.dogs_ :=
      bagIds_of_forall₂ _ _ (hf.imp (fun d d' hm => (Move_cargo s d d' tick hm).2.1))
    have hsl : s1.lootIds.Sublist s.lootIds := by
      unfold GameSession.lootIds
      rw [o1, ← hbags]
      exact List.Sublist.append (List.Sublist.refl _) (bagIds_sublist _ _ hsub)
    refine ⟨?_, ?_, ?_, hn.sublist hsl, ?_⟩
    · rw [o1, k1]; exact a1
    · rw [o1, k1]; exact a2
    · rw [o1]; exact hid
    · intro k hk
      rw [c1]
      exact hb k (hsl.subset hk)
  have hinv2 : s2.LootBookkeeping :=
    HandleCollisions_induction GameSession.LootBookkeeping
      (fun x g id dog obj hP hg _ ho => LootBookkeeping_collect x g id dog obj hP hg ho)
      (fun x g dog hP hg => LootBookkeeping_drop x g dog hP hg) s1 s2 h2 hinv1
  exact SpawnLoot_induction GameSession.LootBookkeeping
    (fun x gen hP => hP)
    (fun x type worth pt hP _ _ => LootBookkeeping_spawn x type worth pt hP)
    s2 s' tick draw spawn h3 hinv2

/-- C38: the loot bookkeeping invariant. If the id->object map and the id->coords map of a
session have the same keys, every stored object has its key as id, and the loot ids on the
map and in the bags of the dogs are pairwise distinct and below `objects_spawned_`, then
the same holds after `OnTick`, through the retirements, pickups, drops and spawns of the
tick. `AddLootObject` with an id that is already on the map raises its error, which it
does before it writes to either map, and only then; with a new id the object and its
coordinates are added under the id. In `fullBagSession` the invariant holds; a tick of
1000 ms, in which the dog picks up the object 1, keeps it. -/
theorem loot_bookkeeping_invariant :
    (∀ (s s' : GameSession) (tick : ℕ) (draw : ℕ → ℚ) (spawn : ℕ → SpawnDraw)
        (calls : List (ℕ × String)),
      s.LootBookkeeping → s.OnTick tick draw spawn = some (s', calls) → s'.LootBookkeeping) ∧
    (∀ (s : GameSession) (obj : LootObject) (coords : PointDouble),
      (s.AddLootObject obj coords = none ↔
        umap.contains s.loot_obj_id_to_obj_ obj.id_ = true) ∧
      (∀ s', s.AddLootObject obj coords = some s' →
        s'.loot_obj_id_to_obj_ = s.loot_obj_id_to_obj_ ++ [(obj.id_, obj)] ∧
        umap.find s'.loot_obj_id_to_coords_ obj.id_ =
          (umap.find s.loot_obj_id_to_coords_ obj.id_).orElse (fun _ => some coords) ∧
        s'.dogs_ = s.dogs_ ∧ s'.objects_spawned_ = s.objects_spawned_)) ∧
    fullBagSession.LootBookkeeping ∧
    (fullBagSession.OnTick 1000 quietDraw originSpawn).map
      (fun r => (decide r.1.LootBookkeeping, r.1.lootIds, r.1.objects_spawned_)) =
      some (true, [0, 1], 2) ∧
    fullBagSession.AddLootObject { id_ := 1, type_ := 0, worth_ := 10 } ⟨3, 0⟩ = none := by
  refine ⟨fun s s' tick draw spawn calls hinv h =>
    OnTick_LootBookkeeping s s' tick draw spawn calls h hinv, ?_, by decide!, by decide!,
    by decide!⟩
  intro s obj coords
  unfold GameSession.AddLootObject
  cases hc : umap.contains s.loot_obj_id_to_obj_ obj.id_ with
  | true => simp
  | false =>
    have hnot : obj.id_ ∉ s.loot_obj_id_to_obj_.map Prod.fst :=
      (umap.contains_eq_false_iff _ _).1 hc
    simp only [Bool.false_eq_true, if_false, iff_false, not_false_eq_true, true_and,
      Option.some.injEq]
    refine ⟨by simp, ?_⟩
    intro s' hs'
    subst hs'
    refine ⟨by simp only [umap.emplace_of_not_mem _ _ _ hnot], ?_, rfl, rfl⟩
    simp only [umap.emplace]
    cases hcc : umap.contains s.loot_obj_id_to_coords_ obj.id_ with
    | true =>
      simp only [if_true]
      unfold umap.contains at hcc
      obtain ⟨v, hv⟩ := Option.isSome_iff_exists.1 hcc
      rw [hv]; rfl
    | false =>
      simp only [Bool.false_eq_true, if_false]
      have hn : umap.find s.loot_obj_id_to_coords_ obj.id_ = none := by
        unfold umap.contains at hcc
        cases hf : umap.find s.loot_obj_id_to_coords_ obj.id_ with
        | none => rfl
        | some v => rw [hf] at hcc; cases hcc
      rw [umap.find_append_of_left_none _ _ _ hn, hn]
      simp [umap.find]

end model

/-! ## Theorems: the arithmetic of the program -/

namespace model

open geom

theorem foldl_addSize (bag : List LootObject) (score : ℕ) :
    bag.foldl (fun lhs rhs => machine.addSize lhs rhs.GetWorth) score % 2 ^ 64 =
      (score + (bag.map LootObject.GetWorth).sum) % 2 ^ 64 := by
  induction bag generalizing score with
  | nil => simp
  | cons obj rest ih =>
    simp only [List.foldl_cons, List.map_cons, List.sum_cons]
    rw [ih, machine.addSize, Nat.mod_add_mod, Nat.add_assoc]

theorem foldl_addSize_lt (bag : List LootObject) (score : ℕ) (h : score < 2 ^ 64) :
    bag.foldl (fun lhs rhs => machine.addSize lhs rhs.GetWorth) score < 2 ^ 64 := by
  induction bag generalizing score with
  | nil => exact h
  | cons obj rest ih =>
    simp only [List.foldl_cons]
    exact ih _ (Nat.mod_lt _ (by norm_num))

theorem machine_AddTick_of_stopped (dog : Dog) (tick : ℕ) (h : dog.IsStoped = true) :
    machine.AddTick dog tick =
      { dog with time_in_game_ := (dog.time_in_game_ + tick) % 2 ^ 64,
                 holding_time_ := (dog.holding_time_ + tick) % 2 ^ 64 } := by
  simp [machine.AddTick, machine.addSize, h]

theorem machine_AddTick_of_moving (dog : Dog) (tick : ℕ) (h : dog.IsStoped = false) :
    machine.AddTick dog tick =
      { dog with time_in_game_ := (dog.time_in_game_ + tick) % 2 ^ 64 } := by
  simp [machine.AddTick, machine.addSize, h]

theorem machine_AddTick_coords (dog : Dog) (tick : ℕ) :
    (machine.AddTick dog tick).coords_ = dog.coords_ := by
  unfold machine.AddTick
  split <;> rfl

/-- The three ways `Move` returns in the arithmetic of the program: the dog is stopped and
only its clocks advance, or it is moved to a point, or it is stopped at the end of a road
and moved to a point. -/
theorem machine_Move_cases (s : GameSession) (dog dog' : Dog) (tick : ℕ)
    (h : machine.Move s dog tick = some dog') :
    ((machine.AddTick dog tick).IsStoped = true ∧ dog' = machine.AddTick dog tick) ∨
    ((machine.AddTick dog tick).IsStoped = false ∧
      ∃ p : PointDouble, dog' = (machine.AddTick dog tick).SetCoorginates p ∨
        dog' = (machine.AddTick dog tick).Stop.SetCoorginates p) := by
  unfold machine.Move at h
  simp only at h
  cases hst : (machine.AddTick dog tick).IsStoped with
  | true =>
    simp only [hst, if_true, Option.some.injEq] at h
    exact Or.inl ⟨rfl, h.symm⟩
  | false =>
    simp only [hst, Bool.false_eq_true, if_false] at h
    cases hr : roadsAtTile s.coords_to_roads_
        (machine.RoundRoadCoords (machine.AddTick dog tick).coords_) with
    | none => simp [hr] at h
    | some roads =>
      simp only [hr] at h
      rcases ite_some_eq_cases _ _ _ _ h with e | e
      · exact Or.inr ⟨rfl, _, Or.inr e⟩
      · exact Or.inr ⟨rfl, _, Or.inl e⟩

/-- In the arithmetic of the program `Move` throws only in the lookup of the road index. -/
theorem machine_Move_isSome_of_lookup (s : GameSession) (dog : Dog) (tick : ℕ)
    (roads : List Road)
    (h : roadsAtTile s.coords_to_roads_ (machine.RoundRoadCoords dog.coords_) = some roads) :
    (machine.Move s dog tick).isSome = true := by
  unfold machine.Move
  simp only [machine_AddTick_coords, h]
  split
  · rfl
  · split
    · split <;> rfl
    · split <;> rfl

theorem machine_bestDist_spec (frm : PointDouble) (dir : Direction) (roads : List Road)
    (best : ℚ) :
    (machine.bestDist frm dir roads best = best ∨
      ∃ road ∈ roads,
        machine.bestDist frm dir roads best = machine.PossibleMoveDist frm road dir) ∧
    |best| ≤ |machine.bestDist frm dir roads best| ∧
    ∀ road ∈ roads,
      |machine.PossibleMoveDist frm road dir| ≤ |machine.bestDist frm dir roads best| := by
  induction roads generalizing best with
  | nil => simp [machine.bestDist]
  | cons road rest ih =>
    by_cases h : |machine.PossibleMoveDist frm road dir| > |best|
    · have e : machine.bestDist frm dir (road :: rest) best =
          machine.bestDist frm dir rest (machine.PossibleMoveDist frm road dir) := by
        simp [machine.bestDist, h]
      rw [e]
      obtain ⟨h1, h2, h3⟩ := ih (machine.PossibleMoveDist frm road dir)
      refine ⟨Or.inr ?_, le_trans (le_of_lt h) h2, ?_⟩
      · rcases h1 with h1 | ⟨r, hr, h1⟩
        · exact ⟨road, List.mem_cons_self _ _, h1⟩
        · exact ⟨r, List.mem_cons_of_mem _ hr, h1⟩
      · intro r hr
        rcases List.mem_cons.1 hr with rfl | hr
        · exact h2
        · exact h3 r hr
    · have e : machine.bestDist frm dir (road :: rest) best =
          machine.bestDist frm dir rest best := by
        simp [machine.bestDist, h]
      rw [e]
      obtain ⟨h1, h2, h3⟩ := ih best
      refine ⟨?_, h2, ?_⟩
      · rcases h1 with h1 | ⟨r, hr, h1⟩
        · exact Or.inl h1
        · exact Or.inr ⟨r, List.mem_cons_of_mem _ hr, h1⟩
      · intro r hr
        rcases List.mem_cons.1 hr with rfl | hr
        · exact le_trans (not_lt.1 h) h2
        · exact h3 r hr

theorem machine_bestDist_zero_attained (frm : PointDouble) (dir : Direction)
    (roads : List Road) (hne : roads ≠ []) :
    (∃ road ∈ roads,
      machine.bestDist frm dir roads 0 = machine.PossibleMoveDist frm road dir) ∧
    ∀ road ∈ roads,
      |machine.PossibleMoveDist frm road dir| ≤ |machine.bestDist frm dir roads 0| := by
  obtain ⟨h1, _, h3⟩ := machine_bestDist_spec frm dir roads 0
  refine ⟨?_, h3⟩
  rcases h1 with h1 | h1
  · cases roads with
    | nil => exact absurd rfl hne
    | cons road rest =>
      refine ⟨road, List.mem_cons_self _ _, ?_⟩
      have := h3 road (List.mem_cons_self _ _)
      rw [h1, abs_zero] at this
      have hz : machine.PossibleMoveDist frm road dir = 0 :=
        abs_eq_zero.1 (le_antisymm this (abs_nonneg _))
      rw [h1, hz]
  · exact h1

/-- The postcondition of `Move` for a moving dog in the arithmetic of the program, with `d`
and `dp` the doubles the code computes: `d` is an allowed distance of largest absolute
value among the roads indexed at the rounded tile, `dp` the computed displacement. If
`|d| ≤ |dp|` on the axis of motion, the dog ends at the rounded sum of its coordinate and
`d` on that axis, with velocity `(0,0)` and holding time 0; otherwise it ends at the
rounded sum of `coords` and `dp` with its velocity unchanged. In both cases `prev_coords`
becomes the old `coords`. -/
theorem machine_Move_postcondition (s : GameSession) (dog : Dog) (tick : ℕ)
    (roads : List Road) (hmoving : dog.IsStoped = false)
    (hroads : roadsAtTile s.coords_to_roads_ (machine.RoundRoadCoords dog.coords_)
      = some roads)
    (hne : roads ≠ []) :
    ∃ (d : ℚ) (dog' : Dog),
      machine.Move s dog tick = some dog' ∧
      (∃ road ∈ roads, d = machine.PossibleMoveDist dog.coords_ road dog.direction_) ∧
      (∀ road ∈ roads, |machine.PossibleMoveDist dog.coords_ road dog.direction_| ≤ |d|) ∧
      dog'.prev_coords_ = dog.coords_ ∧
      (|d| ≤ |alongAxis dog.direction_ (machine.displacement dog tick)| →
        alongAxis dog.direction_ dog'.coords_ =
          machine.fl (alongAxis dog.direction_ dog.coords_ + d) ∧
        acrossAxis dog.direction_ dog'.coords_ =
          machine.fl (acrossAxis dog.direction_ dog.coords_
            + acrossAxis dog.direction_ (machine.displacement dog tick)) ∧
        dog'.speed_ = { x := 0, y := 0 } ∧ dog'.holding_time_ = 0) ∧
      (¬ |d| ≤ |alongAxis dog.direction_ (machine.displacement dog tick)| →
        dog'.coords_ = machine.add dog.coords_ (machine.displacement dog tick) ∧
        dog'.speed_ = dog.speed_) := by
  obtain ⟨hatt, hmax⟩ :=
    machine_bestDist_zero_attained dog.coords_ dog.direction_ roads hne
  refine ⟨machine.bestDist dog.coords_ dog.direction_ roads 0, ?_⟩
  have hA := machine_AddTick_of_moving dog tick hmoving
  have hmoving2 : (machine.AddTick dog tick).IsStoped = false := by rw [hA]; exact hmoving
  have hc : (machine.AddTick dog tick).coords_ = dog.coords_ := by rw [hA]
  have hd : (machine.AddTick dog tick).direction_ = dog.direction_ := by rw [hA]
  have hs : (machine.AddTick dog tick).speed_ = dog.speed_ := by rw [hA]
  unfold machine.Move
  simp only [hmoving2, hc, hd, hs, hroads, Bool.false_eq_true, if_false]
  by_cases hwe : dog.direction_ = Direction.WEST ∨ dog.direction_ = Direction.EAST
  · have hns : ¬ (dog.direction_ = Direction.NORTH ∨ dog.direction_ = Direction.SOUTH) := by
      rcases hwe with h | h <;> simp [h]
    by_cases hb : |machine.bestDist dog.coords_ dog.direction_ roads 0|
        ≤ |machine.fl (machine.fl (dog.speed_.x * machine.fl (tick : ℚ))
            / machine.fl (TIME_FACTOR : ℚ))|
    · simp only [hwe, hns, hb, if_true, if_false, decide_True]
      refine ⟨_, rfl, hatt, hmax, ?_⟩
      simp [alongAxis, acrossAxis, machine.displacement, hwe, hb, Dog.SetCoorginates,
        Dog.Stop, machine.add, hc]
    · simp only [hwe, hb, if_true, if_false, decide_False, Bool.false_eq_true]
      refine ⟨_, rfl, hatt, hmax, ?_⟩
      simp [alongAxis, machine.displacement, hwe, hb, Dog.SetCoorginates, hc, hs]
  · have hns : dog.direction_ = Direction.NORTH ∨ dog.direction_ = Direction.SOUTH := by
      cases hd2 : dog.direction_ <;> simp [hd2] at hwe ⊢
    by_cases hb : |machine.bestDist dog.coords_ dog.direction_ roads 0|
        ≤ |machine.fl (machine.fl (dog.speed_.y * machine.fl (tick : ℚ))
            / machine.fl (TIME_FACTOR : ℚ))|
    · simp only [hwe, hns, hb, if_true, if_false, decide_True]
      refine ⟨_, rfl, hatt, hmax, ?_⟩
      simp [alongAxis, acrossAxis, machine.displacement, hwe, hb, Dog.SetCoorginates,
        Dog.Stop, machine.add, hc]
    · simp only [hwe, hb, if_true, if_false, decide_False, Bool.false_eq_true]
      refine ⟨_, rfl, hatt, hmax, ?_⟩
      simp [alongAxis, machine.displacement, hwe, hb, Dog.SetCoorginates, hc, hs]

theorem highBit_spec (fuel n : ℕ) (h1 : 1 ≤ n) (h2 : n ≤ fuel) :
    2 ^ machine.highBit fuel n ≤ n ∧ n < 2 ^ (machine.highBit fuel n + 1) := by
  induction fuel generalizing n with
  | zero => omega
  | succ fuel ih =>
    unfold machine.highBit
    by_cases h : n < 2
    · rw [if_pos h]
      constructor
      · simpa using h1
      · simpa using h
    · rw [if_neg h]
      obtain ⟨ha, hb⟩ := ih (n / 2) (by omega) (by omega)
      rw [pow_succ, pow_succ]
      rw [pow_succ] at hb
      constructor <;> omega

theorem pow2_eq (e : ℤ) : machine.pow2 e = (2 : ℚ) ^ e := by
  unfold machine.pow2
  by_cases h : 0 ≤ e
  · rw [if_pos h]
    obtain ⟨n, rfl⟩ := Int.eq_ofNat_of_zero_le h
    simp
  · rw [if_neg h]
    push_neg at h
    obtain ⟨n, hn⟩ := Int.exists_eq_neg_ofNat (le_of_lt h)
    subst hn
    simp

theorem pow2_pos (e : ℤ) : 0 < machine.pow2 e := by
  rw [pow2_eq]; positivity

/-- The binary exponent brackets the value: `2 ^ e ≤ |q| < 2 ^ (e + 1)` for `q ≠ 0`. -/
theorem exponent_spec (q : ℚ) (hq : q ≠ 0) :
    machine.pow2 (machine.exponent q) ≤ |q| ∧ |q| < machine.pow2 (machine.exponent q + 1) := by
  have hn : 1 ≤ q.num.natAbs := Nat.one_le_iff_ne_zero.2 (by simpa using hq)
  have hd : 1 ≤ q.den := q.den_pos
  obtain ⟨a1, a2⟩ := highBit_spec q.num.natAbs q.num.natAbs hn le_rfl
  obtain ⟨b1, b2⟩ := highBit_spec q.den q.den hd le_rfl
  have habs : |q| = (q.num.natAbs : ℚ) / (q.den : ℚ) := by
    conv_lhs => rw [← Rat.num_div_den q]
    rw [abs_div, Nat.abs_cast, Nat.cast_natAbs, Int.cast_abs]
  set a := machine.highBit q.num.natAbs q.num.natAbs with ha
  set b := machine.highBit q.den q.den with hb
  have hdpos : (0 : ℚ) < (q.den : ℚ) := by exact_mod_cast hd
  have A1 : ((2 : ℚ) ^ a) ≤ (q.num.natAbs : ℚ) := by exact_mod_cast a1
  have A2 : (q.num.natAbs : ℚ) < (2 : ℚ) ^ (a + 1) := by exact_mod_cast a2
  have B1 : ((2 : ℚ) ^ b) ≤ (q.den : ℚ) := by exact_mod_cast b1
  have B2 : (q.den : ℚ) < (2 : ℚ) ^ (b + 1) := by exact_mod_cast b2
  have two : (2 : ℚ) ≠ 0 := by norm_num
  have lo : (2 : ℚ) ^ ((a : ℤ) - (b : ℤ) - 1) < |q| := by
    rw [habs, lt_div_iff₀ hdpos]
    have e1 : (2 : ℚ) ^ ((a : ℤ) - (b : ℤ) - 1) * (2 : ℚ) ^ (b + 1) = (2 : ℚ) ^ a := by
      rw [← zpow_natCast (2 : ℚ) (b + 1), ← zpow_add₀ two, ← zpow_natCast (2 : ℚ) a]
      congr 1
      push_cast
      ring
    calc (2 : ℚ) ^ ((a : ℤ) - (b : ℤ) - 1) * (q.den : ℚ)
        < (2 : ℚ) ^ ((a : ℤ) - (b : ℤ) - 1) * (2 : ℚ) ^ (b + 1) :=
          mul_lt_mul_of_pos_left B2 (by positivity)
      _ = (2 : ℚ) ^ a := e1
      _ ≤ _ := A1
  have hi : |q| < (2 : ℚ) ^ ((a : ℤ) - (b : ℤ) + 1) := by
    rw [habs, div_lt_iff₀ hdpos]
    have e1 : (2 : ℚ) ^ ((a : ℤ) - (b : ℤ) + 1) * (2 : ℚ) ^ b = (2 : ℚ) ^ (a + 1) := by
      rw [← zpow_natCast (2 : ℚ) b, ← zpow_add₀ two, ← zpow_natCast (2 : ℚ) (a + 1)]
      congr 1
      push_cast
      ring
    calc (q.num.natAbs : ℚ) < (2 : ℚ) ^ (a + 1) := A2
      _ = (2 : ℚ) ^ ((a : ℤ) - (b : ℤ) + 1) * (2 : ℚ) ^ b := e1.symm
      _ ≤ (2 : ℚ) ^ ((a : ℤ) - (b : ℤ) + 1) * (q.den : ℚ) :=
          mul_le_mul_of_nonneg_left B1 (by positivity)
  unfold machine.exponent
  simp only [← ha, ← hb]
  by_cases hc : machine.pow2 ((a : ℤ) - (b : ℤ)) ≤ |q|
  · rw [if_pos hc]
    exact ⟨hc, by rw [pow2_eq]; exact hi⟩
  · rw [if_neg hc]
    refine ⟨by rw [pow2_eq]; exact le_of_lt lo, ?_⟩
    rw [sub_add_cancel]
    exact not_le.1 hc

theorem roundTiesToEven_near (q : ℚ) : |(machine.roundTiesToEven q : ℚ) - q| ≤ 1 / 2 := by
  unfold machine.roundTiesToEven
  have h1 := Int.floor_le q
  have h2 := Int.lt_floor_add_one q
  simp only
  split_ifs with c1 c2 c3
  · rw [abs_le]; constructor <;> linarith
  · rw [abs_le]; push_cast; constructor <;> linarith
  · rw [abs_le]; constructor <;> linarith
  · rw [abs_le]; push_cast; constructor <;> linarith

/-- The rounding `fl` returns a point of the binary64 grid of the binade of `q` (a multiple
of the unit in the last place, of at most 53 bits) that lies within half a unit of `q`. -/
theorem fl_near (q : ℚ) (hq : q ≠ 0) :
    ∃ m : ℤ, machine.fl q = (m : ℚ) * machine.pow2 (max (machine.exponent q) (-1022) - 52) ∧
      |machine.fl q - q| ≤ machine.pow2 (max (machine.exponent q) (-1022) - 52) / 2 ∧
      |(m : ℚ)| ≤ 2 ^ 53 := by
  have hu := pow2_pos (max (machine.exponent q) (-1022) - 52)
  set u := machine.pow2 (max (machine.exponent q) (-1022) - 52) with hu'
  have hfl : machine.fl q = (machine.roundTiesToEven (q / u) : ℚ) * u := by
    unfold machine.fl
    rw [if_neg hq]
  have hnear := roundTiesToEven_near (q / u)
  refine ⟨machine.roundTiesToEven (q / u), hfl, ?_, ?_⟩
  · rw [hfl]
    have : (machine.roundTiesToEven (q / u) : ℚ) * u - q =
        ((machine.roundTiesToEven (q / u) : ℚ) - q / u) * u := by
      field_simp
    rw [this, abs_mul, abs_of_pos hu]
    calc |((machine.roundTiesToEven (q / u) : ℚ) - q / u)| * u ≤ (1 / 2) * u :=
          mul_le_mul_of_nonneg_right hnear (le_of_lt hu)
      _ = u / 2 := by ring
  · obtain ⟨_, hlt⟩ := exponent_spec q hq
    have hmono : machine.pow2 (machine.exponent q + 1) ≤ 2 ^ 53 * u := by
      have e1 : (2 : ℚ) ^ 53 * u = (2 : ℚ) ^ (max (machine.exponent q) (-1022) + 1) := by
        rw [hu', pow2_eq, ← zpow_natCast (2 : ℚ) 53,
          ← zpow_add₀ (by norm_num : (2 : ℚ) ≠ 0)]
        congr 1
        push_cast
        ring
      rw [e1, pow2_eq]
      have hle := le_max_left (machine.exponent q) (-1022)
      exact zpow_le_zpow_right₀ (by norm_num) (by omega)
    have hx : |q / u| < 2 ^ 53 := by
      rw [abs_div, abs_of_pos hu, div_lt_iff₀ hu]
      exact lt_of_lt_of_le hlt hmono
    have hm : |(machine.roundTiesToEven (q / u) : ℚ)| < 2 ^ 53 + 1 / 2 := by
      have := abs_sub_abs_le_abs_sub (machine.roundTiesToEven (q / u) : ℚ) (q / u)
      linarith
    have hz : |machine.roundTiesToEven (q / u)| < 2 ^ 53 + 1 := by
      have : ((|machine.roundTiesToEven (q / u)| : ℤ) : ℚ) < ((2 ^ 53 + 1 : ℤ) : ℚ) := by
        push_cast
        linarith
      exact_mod_cast this
    have : ((|machine.roundTiesToEven (q / u)| : ℤ) : ℚ) ≤ ((2 ^ 53 : ℤ) : ℚ) := by
      exact_mod_cast Int.lt_add_one_iff.1 hz
    simpa using this

/-- The rounding `fl` at values of the binary64 format: the literals `0.4`, `0.9` and `0.1`,
the sum `0.1 + 0.2`, an integer above `2 ^ 53` that lies half way between two doubles (ties
go to the even one), the largest `size_t` as a `double`, and a subnormal value. -/
theorem fl_reference_values :
    machine.fl (2 / 5) = 0x1999999999999a / 2 ^ 54 ∧
    machine.fl (9 / 10) = 0x1ccccccccccccd / 2 ^ 53 ∧
    machine.fl (1 / 10) = 0x1999999999999a / 2 ^ 56 ∧
    machine.fl (machine.fl (1 / 10) + machine.fl (2 / 10)) = 0x13333333333334 / 2 ^ 54 ∧
    machine.fl (2 ^ 53 + 1) = 2 ^ 53 ∧ machine.fl (2 ^ 53 + 3) = 2 ^ 53 + 4 ∧
    machine.fl (2 ^ 64 - 1) = 2 ^ 64 ∧
    machine.fl (3 / 2 ^ 1075) = 2 / 2 ^ 1074 ∧
    machine.fl (19 / 2) = 19 / 2 ∧ machine.fl (-(2 / 5)) = -(0x1999999999999a / 2 ^ 54) := by
  refine ⟨by decide!, by decide!, by decide!, by decide!, by decide!, by decide!, by decide!,
    by decide!, by decide!, by decide!⟩

/-- C26 as stated fails in the arithmetic of the program: the score is a `size_t` and the
sum wraps around. A dog with the score `2 ^ 64 - 6` and a bag with one object of worth 10
ends the drop with the score 4, not with `2 ^ 64 + 4`: the score has gone down. Likewise a
dog with the score 0 and a bag with objects of worth `2 ^ 64 - 6` (the `size_t` of a
configured value of -6) and 10 ends with the score 4, not with the sum of the worths. -/
theorem DropBagpackContent_score_wraps_around :
    machine.DropBagpackContent
        { marketDog 0 "Rex" 1 Direction.EAST with
          score_ := 2 ^ 64 - 6, bagpack_ := [{ id_ := 0, type_ := 0, worth_ := 10 }] } =
      { marketDog 0 "Rex" 1 Direction.EAST with score_ := 4, bagpack_ := [] } ∧
    (4 : ℕ) ≠ (2 ^ 64 - 6) + ([({ id_ := 0, type_ := 0, worth_ := 10 } : LootObject)].map
      LootObject.GetWorth).sum ∧
    (4 : ℕ) < 2 ^ 64 - 6 ∧
    machine.DropBagpackContent
        { marketDog 0 "Rex" 1 Direction.EAST with
          bagpack_ := [{ id_ := 0, type_ := 0, worth_ := 2 ^ 64 - 6 },
                       { id_ := 1, type_ := 1, worth_ := 10 }] } =
      { marketDog 0 "Rex" 1 Direction.EAST with score_ := 4, bagpack_ := [] } ∧
    (marketDog 0 "Rex" 1 Direction.EAST).score_ = 0 ∧
    (4 : ℕ) ≠ 0 + ([({ id_ := 0, type_ := 0, worth_ := 2 ^ 64 - 6 } : LootObject),
      { id_ := 1, type_ := 1, worth_ := 10 }].map LootObject.GetWorth).sum := by
  refine ⟨by decide!, by decide!, by decide!, by decide!, by decide!, by decide!⟩

/-- C26, in the arithmetic of the program: the office drop. For every dog whose score is a
`size_t` value (below `2 ^ 64`) `Dog::DropBagpackContent` adds the sum of `GetWorth()` over
the objects of the bag to the score modulo `2 ^ 64`, which is exactly the sum when score
and worths together stay below `2 ^ 64`, and leaves the bag empty; id, name, position,
previous position, velocity, direction, holding time and time in game are unchanged, and
on an empty bag the dog is unchanged. `HandleLootDrop` applies it to the one dog of the
gatherer and leaves the loot on the map, the map and the other dogs as they are. The dog
of `officeSession` (score 5, bag worth 10 + 20) ends with score 35 and an empty bag. -/
theorem DropBagpackContent_adds_worth_modulo_size :
    (∀ dog : Dog, dog.score_ < 2 ^ 64 →
      (machine.DropBagpackContent dog).score_ =
        (dog.score_ + (dog.bagpack_.map LootObject.GetWorth).sum) % 2 ^ 64) ∧
    (∀ dog : Dog, dog.score_ + (dog.bagpack_.map LootObject.GetWorth).sum < 2 ^ 64 →
      (machine.DropBagpackContent dog).score_ =
        dog.score_ + (dog.bagpack_.map LootObject.GetWorth).sum) ∧
    (∀ dog : Dog,
      (machine.DropBagpackContent dog).bagpack_ = [] ∧
      (machine.DropBagpackContent dog).coords_ = dog.coords_ ∧
      (machine.DropBagpackContent dog).prev_coords_ = dog.prev_coords_ ∧
      (machine.DropBagpackContent dog).speed_ = dog.speed_ ∧
      (machine.DropBagpackContent dog).direction_ = dog.direction_ ∧
      (machine.DropBagpackContent dog).id_ = dog.id_ ∧
      (machine.DropBagpackContent dog).name_ = dog.name_ ∧
      (machine.DropBagpackContent dog).holding_time_ = dog.holding_time_ ∧
      (machine.DropBagpackContent dog).time_in_game_ = dog.time_in_game_ ∧
      (dog.bagpack_ = [] → machine.DropBagpackContent dog = dog)) ∧
    (∀ (s : GameSession) (g : ℕ),
      (machine.HandleLootDrop s g).loot_obj_id_to_obj_ = s.loot_obj_id_to_obj_ ∧
      (machine.HandleLootDrop s g).loot_obj_id_to_coords_ = s.loot_obj_id_to_coords_ ∧
      (machine.HandleLootDrop s g).map_ = s.map_ ∧
      (machine.HandleLootDrop s g).dogs_[g]? = (s.dogs_[g]?).map machine.DropBagpackContent ∧
      (∀ g', g' ≠ g → (machine.HandleLootDrop s g).dogs_[g']? = s.dogs_[g']?)) ∧
    (machine.HandleLootDrop officeSession 0).dogs_.map
      (fun dog => (dog.score_, dog.bagpack_)) = [(35, [])] := by
  have hmod : ∀ dog : Dog, dog.score_ < 2 ^ 64 →
      (machine.DropBagpackContent dog).score_ =
        (dog.score_ + (dog.bagpack_.map LootObject.GetWorth).sum) % 2 ^ 64 := by
    intro dog h
    rw [← foldl_addSize]
    exact (Nat.mod_eq_of_lt (foldl_addSize_lt _ _ h)).symm
  refine ⟨hmod, ?_, ?_, ?_, by decide!⟩
  · intro dog h
    rw [hmod dog (lt_of_le_of_lt (Nat.le_add_right _ _) h), Nat.mod_eq_of_lt h]
  · intro dog
    refine ⟨rfl, rfl, rfl, rfl, rfl, rfl, rfl, rfl, rfl, ?_⟩
    intro h
    cases dog
    simp only at h
    simp [machine.DropBagpackContent, h]
  · intro s g
    rcases Option.eq_none_or_eq_some (s.dogs_[g]?) with hg | ⟨dog, hg⟩
    · have hres : machine.HandleLootDrop s g = s := by
        unfold machine.HandleLootDrop
        simp only [hg]
      rw [hres, hg]
      exact ⟨rfl, rfl, rfl, rfl, fun _ _ => rfl⟩
    · have hres : machine.HandleLootDrop s g =
          { s with dogs_ := s.dogs_.set g (machine.DropBagpackContent dog) } := by
        unfold machine.HandleLootDrop
        simp only [hg]
      rw [hres, hg]
      refine ⟨rfl, rfl, rfl, ?_, ?_⟩
      · have hlt := (List.getElem?_eq_some.1 hg).1
        simp [List.getElem?_set, hlt]
      · intro g' hne
        simp [List.getElem?_set, Ne.symm hne]

/-- C28 as stated fails in the arithmetic of the program: the clocks of a dog are `size_t`
values and the sums wrap around. For a stopped dog with both clocks at 100, a tick of
`2 ^ 64 - 1` (the `size_t` of a duration of -1 ms) leaves both clocks at 99. For a stopped
dog with both clocks at `2 ^ 64 - 1` (a dog that joined and lived through that tick) a
tick of 2 ms leaves both clocks at 1. -/
theorem Move_clocks_wrap_around :
    ({ restingDog with time_in_game_ := 100, holding_time_ := 100 } : Dog).IsStoped = true ∧
    machine.Move clampSession
        { restingDog with time_in_game_ := 100, holding_time_ := 100 } (2 ^ 64 - 1) =
      some { restingDog with time_in_game_ := 99, holding_time_ := 99 } ∧
    (99 : ℕ) ≠ 100 + (2 ^ 64 - 1) ∧
    machine.Move clampSession
        { restingDog with time_in_game_ := 0, holding_time_ := 0 } (2 ^ 64 - 1) =
      some { restingDog with time_in_game_ := 2 ^ 64 - 1, holding_time_ := 2 ^ 64 - 1 } ∧
    machine.Move clampSession
        { restingDog with time_in_game_ := 2 ^ 64 - 1, holding_time_ := 2 ^ 64 - 1 } 2 =
      some { restingDog with time_in_game_ := 1, holding_time_ := 1 } ∧
    (1 : ℕ) ≠ (2 ^ 64 - 1) + 2 := by
  refine ⟨by decide!, by decide!, by decide!, by decide!, by decide!, by decide!⟩

/-- C28, in the arithmetic of the program: a stopped dog skips motion. For a dog with zero
velocity `Move` returns the dog with the tick added to its time in game and to its holding
time, both modulo `2 ^ 64` (the clocks are `size_t` values), and nothing else changed (the
previous coordinates stay what they were); for a dog with a non-zero velocity `Move`
returns whenever the lookup of the road index does not throw, and then the tick is added
to the time in game modulo `2 ^ 64` and nothing is added to the holding time, which stays
as it was or is reset to 0 by the stop at the end of a road. -/
theorem Move_of_stopped_dog_modulo_size :
    (∀ (s : GameSession) (dog : Dog) (tick : ℕ), dog.IsStoped = true →
      ∃ dog', machine.Move s dog tick = some dog' ∧
        dog'.time_in_game_ = (dog.time_in_game_ + tick) % 2 ^ 64 ∧
        dog'.holding_time_ = (dog.holding_time_ + tick) % 2 ^ 64 ∧
        dog'.coords_ = dog.coords_ ∧ dog'.prev_coords_ = dog.prev_coords_ ∧
        dog'.speed_ = dog.speed_ ∧ dog'.direction_ = dog.direction_ ∧
        dog'.bagpack_ = dog.bagpack_ ∧ dog'.score_ = dog.score_ ∧
        dog'.id_ = dog.id_ ∧ dog'.name_ = dog.name_) ∧
    (∀ (s : GameSession) (dog : Dog) (tick : ℕ), dog.IsStoped = true →
      dog.time_in_game_ + tick < 2 ^ 64 → dog.holding_time_ + tick < 2 ^ 64 →
      machine.Move s dog tick =
        some { dog with time_in_game_ := dog.time_in_game_ + tick,
                        holding_time_ := dog.holding_time_ + tick }) ∧
    (∀ (s : GameSession) (dog : Dog) (tick : ℕ) (roads : List Road),
      roadsAtTile s.coords_to_roads_ (machine.RoundRoadCoords dog.coords_) = some roads →
      (machine.Move s dog tick).isSome = true) ∧
    (∀ (s : GameSession) (dog dog' : Dog) (tick : ℕ), dog.IsStoped = false →
      machine.Move s dog tick = some dog' →
        dog'.time_in_game_ = (dog.time_in_game_ + tick) % 2 ^ 64 ∧
        (dog'.holding_time_ = dog.holding_time_ ∨
          (dog'.IsStoped = true ∧ dog'.holding_time_ = 0))) ∧
    machine.Move clampSession restingDog 250 =
      some { restingDog with time_in_game_ := 750, holding_time_ := 750 } ∧
    (machine.Move clampSession (restingDog.MovePlayer Direction.EAST 3) 250).map
      (fun dog => (dog.coords_, dog.time_in_game_, dog.holding_time_)) =
      some (⟨3/4, 0⟩, 750, 500) := by
  have hstop : ∀ (s : GameSession) (dog : Dog) (tick : ℕ), dog.IsStoped = true →
      machine.Move s dog tick =
        some { dog with time_in_game_ := (dog.time_in_game_ + tick) % 2 ^ 64,
                        holding_time_ := (dog.holding_time_ + tick) % 2 ^ 64 } := by
    intro s dog tick h
    have h1 := machine_AddTick_of_stopped dog tick h
    have h2 : (machine.AddTick dog tick).IsStoped = true := by
      rw [h1]; exact h
    unfold machine.Move
    simp only [h2, if_true]
    rw [h1]
  refine ⟨?_, ?_, machine_Move_isSome_of_lookup, ?_, by decide!, by decide!⟩
  · intro s dog tick h
    exact ⟨_, hstop s dog tick h, rfl, rfl, rfl, rfl, rfl, rfl, rfl, rfl, rfl, rfl⟩
  · intro s dog tick h h1 h2
    rw [hstop s dog tick h, Nat.mod_eq_of_lt h1, Nat.mod_eq_of_lt h2]
  · intro s dog dog' tick h hm
    have h1 := machine_AddTick_of_moving dog tick h
    have h2 : (machine.AddTick dog tick).IsStoped = false := by
      rw [h1]; exact h
    rcases machine_Move_cases s dog dog' tick hm with ⟨h3, _⟩ | ⟨_, p, e | e⟩
    · rw [h2] at h3; cases h3
    · subst e
      exact ⟨by rw [h1]; rfl, Or.inl (by rw [h1]; rfl)⟩
    · subst e
      exact ⟨by rw [h1]; rfl, Or.inr ⟨rfl, rfl⟩⟩

end model

namespace app

open model

/-- C12 as stated fails on a map without roads: the map exists, yet the call does not
return a token. `NewDog` takes the spawn point on a road of the map: with a fixed spawn
point it reads `GetRoads().front()` of an empty vector, with a random one `GetRoads().at(0)`
throws. So it is on every well-formed application for a map without roads, and so on the
application `bareApp`, whose one map "bare" has none, for either kind of spawn point. -/
theorem JoinPlayer_does_not_return_without_roads :
    (∀ (a : Application) (map_id name : String) (d : SpawnDraw) (tokens : List String)
        (map : Map),
      a.WellFormed → a.game_.FindMap map_id = some map → map.roads_ = [] →
      UseCaseJoinPlayer a map_id name d tokens = none) ∧
    (bareApp false).WellFormed ∧ (bareApp true).WellFormed ∧
    (bareApp false).game_.FindMap "bare" = some bareMap ∧
    (bareApp true).game_.FindMap "bare" = some bareMap ∧
    UseCaseJoinPlayer (bareApp false) "bare" "Rex" (originSpawn 0)
      ["ffffffff0123456701234567aaaaaaaa"] = none ∧
    UseCaseJoinPlayer (bareApp true) "bare" "Rex" (originSpawn 0)
      ["ffffffff0123456701234567aaaaaaaa"] = none := by
  refine ⟨?_, by decide!, by decide!, by decide!, by decide!, by decide!, by decide!⟩
  intro a map_id name d tokens map hwf hfm hroads
  rcases GetGameSessionByMapId_spec a.game_ hwf.1 map_id with
    ⟨hnone, _⟩ | ⟨g', session, hres, _, hfm', _⟩
  · rw [hnone] at hfm; cases hfm
  · have hmapeq : session.map_ = map := by
      rw [hfm] at hfm'
      simpa using hfm'.symm
    have hnd : session.NewDog name d = none := by
      unfold GameSession.NewDog GameSession.GetDogSpawnPoint
        GameSession.GetRandomPointOnRandomRoad
      simp [hmapeq, hroads]
    unfold UseCaseJoinPlayer
    rw [hres]
    simp only [hnd]

end app
